import Mathlib

/-! # CLRX: GCN assembler front end and container codecs

A shallow embedding of `amdasm/GCNAssembler.cpp`, `amdbin/ElfBinaries.cpp`, the
reader of `amdbin/GalliumBinaries.cpp` and the MsgPack integers of
`amdbin/ROCmMetadataMP.cpp`.

* C `char` and `cxbyte` values are natural numbers below 256; a source line is a
  list of them.  A cursor (`const char*`) into the line is an index; `end` is the
  index `lineSize`.  Reading outside the buffer is undefined behaviour.
* Machine integers are natural numbers, reduced modulo `2^w` wherever the
  source narrows them.
* `printError` calls are collected, in order, in the result of each parser.
-/

namespace CLRX

/-! ## Results of possibly failing, possibly diverging code -/

/-- The outcome of running a piece of the program. -/
inductive Res (α : Type) where
  /-- normal return -/
  | ret (a : α)
  /-- a `ParseException` (or `Exception`) left the code, with its message -/
  | throw (msg : String)
  /-- undefined behaviour: a read outside the buffer -/
  | undefined
  /-- the fuel ran out before the code returned -/
  | timeout
deriving Repr, DecidableEq

namespace Res

/-- Sequencing: everything but a normal return is propagated. -/
def andThen {α β : Type} (x : Res α) (f : α → Res β) : Res β :=
  match x with
  | ret a => f a
  | throw m => throw m
  | undefined => undefined
  | timeout => timeout

instance : Monad Res where
  pure := ret
  bind := andThen

end Res

/-! ## Character helpers -/

/-- The bytes of a string literal. -/
def bytes (s : String) : List Nat := s.toList.map Char.toNat

/-- Modelled from the spec: `isDigit` of `CLRX/utils/Utilities.h` (not among the
sources), the decimal digits `0`..`9` of the numeric literals of section 4.2. -/
def isDigit (c : Nat) : Bool := 48 ≤ c && c ≤ 57

/-- Modelled from the spec: `isXDigit` of `CLRX/utils/Utilities.h` (not among the
sources), the digits of the hexadecimal literals of section 4.2. -/
def isXDigit (c : Nat) : Bool :=
  isDigit c || (97 ≤ c && c ≤ 102) || (65 ≤ c && c ≤ 70)

/-- Modelled from the spec: `isSpace` of `CLRX/utils/Utilities.h` (not among the
sources), the blank characters the tokenizer of section 2 skips. -/
def isSpace (c : Nat) : Bool := c == 32 || (9 ≤ c && c ≤ 13)

/-- Modelled from the spec: `toLower` of `CLRX/utils/Utilities.h` (not among the
sources); register names of section 4.3 are matched case-insensitively. -/
def toLower (c : Nat) : Nat := if 65 ≤ c ∧ c ≤ 90 then c + 32 else c

/-! ## The assembler state the operand parsers use -/

/-- The part of `Assembler` that the GCN parsers read: the buffer that holds the
current line and the size of the line (`end = line + lineSize`). -/
structure Assembler where
  line : List Nat
  lineSize : Nat
deriving Repr, DecidableEq

/-- A recorded `asmr.printError(place, message)` call. -/
structure AsmError where
  place : Nat
  message : String
deriving Repr, DecidableEq

/-- The mutable state of a parser call: the cursor `linePtr` (a reference
parameter in the source) and the errors printed so far. -/
structure PState where
  linePtr : Nat
  errors : List AsmError
deriving Repr, DecidableEq

/-- Dereference of a cursor, `*p`; outside the buffer it is undefined. -/
def Assembler.deref (asmr : Assembler) (p : Nat) : Res Nat :=
  match asmr.line.get? p with
  | some c => .ret c
  | none => .undefined

/-- The loop `while (p != end && pred(*p)) p++`; the first argument bounds the
bytes left in the buffer. -/
def scanWhile (asmr : Assembler) (pred : Nat → Bool) : Nat → Nat → Res Nat
  | 0, p => if p = asmr.lineSize then .ret p else .undefined
  | n+1, p =>
    if p = asmr.lineSize then .ret p
    else match asmr.line.get? p with
      | none => .undefined
      | some c => if pred c then scanWhile asmr pred n (p+1) else .ret p

/-- A parser action: runs from a state to an outcome and the state reached
(the state at the point of a `throw` is what a `catch` handler sees). -/
def P (α : Type) : Type := PState → Res α × PState

namespace P

/-- Normal return. -/
def result {α : Type} (a : α) : P α := fun s => (.ret a, s)

/-- Sequencing: everything but a normal return is propagated. -/
def andThen {α β : Type} (x : P α) (f : α → P β) : P β := fun s =>
  match x s with
  | (.ret a, s1) => f a s1
  | (.throw m, s1) => (.throw m, s1)
  | (.undefined, s1) => (.undefined, s1)
  | (.timeout, s1) => (.timeout, s1)

instance : Monad P where
  pure := P.result
  bind := P.andThen

/-- The statement `throw ParseException(msg)`. -/
def raise {α : Type} (msg : String) : P α := fun s => (.throw msg, s)

/-- Undefined behaviour. -/
def undefined {α : Type} : P α := fun s => (.undefined, s)

/-- Out of fuel. -/
def timeout {α : Type} : P α := fun s => (.timeout, s)

/-- The construct `try { x } catch (const ParseException& ex) { handler ex.what() }`. -/
def tryCatch {α : Type} (x : P α) (handler : String → P α) : P α := fun s =>
  match x s with
  | (.throw m, s1) => handler m s1
  | r => r

/-- The current value of `linePtr`. -/
def getLinePtr : P Nat := fun s => (.ret s.linePtr, s)

/-- Assignment to `linePtr`. -/
def setLinePtr (p : Nat) : P Unit := fun s => (.ret (), { s with linePtr := p })

/-- The call `asmr.printError(place, msg)`. -/
def printError (place : Nat) (msg : String) : P Unit := fun s =>
  (.ret (), { s with errors := s.errors ++ [⟨place, msg⟩] })

/-- Dereference of a cursor, `*p`; outside the buffer it is undefined. -/
def readAt (asmr : Assembler) (p : Nat) : P Nat := fun s =>
  match asmr.line.get? p with
  | some c => (.ret c, s)
  | none => (.undefined, s)

end P

/-- Modelled from the spec: `skipSpacesToEnd(linePtr, end)` of `AsmInternals.h`
(not among the sources): `while (linePtr != end && isSpace(*linePtr)) linePtr++`. -/
def skipSpacesToEnd (asmr : Assembler) : P Unit := fun s =>
  match scanWhile asmr isSpace (asmr.line.length - s.linePtr) s.linePtr with
  | .ret p => (.ret (), { s with linePtr := p })
  | .throw m => (.throw m, s)
  | .undefined => (.undefined, s)
  | .timeout => (.timeout, s)

/-! ## `cstrtobyte` -/

/-- The `while` loop of `cstrtobyte`.  The cursor `str` is never advanced by the
source, so it is a fixed argument; `value` is the `uint16_t` accumulator. -/
def cstrtobyteLoop (asmr : Assembler) (str : Nat) : Nat → Nat → Res Nat
  | 0, _ => .timeout
  | fuel+1, value =>
    if str ≠ asmr.lineSize then
      match asmr.line.get? str with
      | none => .undefined
      | some c =>
        if isDigit c then
          let value1 := (value * 10 + c - 48) % 65536
          if value1 ≥ 256 then .throw "Number is too big"
          else cstrtobyteLoop asmr str fuel value1
        else .ret (value % 256)
    else .ret (value % 256)

/-- `static cxbyte cstrtobyte(const char*& str, const char* end)`, called on the
cursor `linePtr`; `fuel` bounds the iterations of its loop. -/
def cstrtobyte (fuel : Nat) (asmr : Assembler) : P Nat := fun s =>
  if s.linePtr = asmr.lineSize then (.throw "Missing number", s)
  else match asmr.line.get? s.linePtr with
    | none => (.undefined, s)
    | some c =>
      if !isDigit c then (.throw "Missing number", s)
      else (cstrtobyteLoop asmr s.linePtr fuel 0, s)

/-! ## Register ranges -/

/-- `RegPair`: a half-open range of register codes; `(0, 0)` is "no register". -/
abbrev RegPair := Nat × Nat

open P in
/-- `GCNAsmUtils::parseVRegRange(asmr, linePtr, required)`. -/
def parseVRegRange (fuel : Nat) (asmr : Assembler) (required : Bool) : P RegPair := do
  skipSpacesToEnd asmr
  let vgprRangePlace ← getLinePtr
  let isRequired : P RegPair := do
    if required then printError vgprRangePlace "VRegister range is required"
    pure (0, 0)
  if vgprRangePlace = asmr.lineSize then isRequired
  else do
    let c ← readAt asmr vgprRangePlace
    if toLower c ≠ 118 then isRequired
    else do
      setLinePtr (vgprRangePlace + 1)
      if vgprRangePlace + 1 = asmr.lineSize then isRequired
      else
        tryCatch (do
          let c0 ← readAt asmr vgprRangePlace
          if isDigit c0 then do
            -- if single register
            let value ← cstrtobyte fuel asmr
            if value ≥ 256 then
              printError vgprRangePlace "VRegister number of out range (0-255)"
            pure (256 + value, 256 + value + 1)
          else do
            let c1 ← readAt asmr (← getLinePtr)
            if c1 = 91 then do
              -- many registers
              setLinePtr ((← getLinePtr) + 1)
              skipSpacesToEnd asmr
              let value1 ← cstrtobyte fuel asmr
              skipSpacesToEnd asmr
              let p1 ← getLinePtr
              let unterminated : P RegPair := do
                printError vgprRangePlace "Unterminated VRegister range"
                pure (0, 0)
              if p1 = asmr.lineSize then unterminated
              else do
                let c2 ← readAt asmr p1
                if c2 ≠ 58 then unterminated
                else do
                  setLinePtr (p1 + 1)
                  skipSpacesToEnd asmr
                  let value2 ← cstrtobyte fuel asmr
                  if value2 ≤ value1 ∨ value2 ≥ 256 ∨ value1 ≥ 256 then do
                    printError vgprRangePlace "Illegal VRegister range"
                    pure (0, 0)
                  else do
                    skipSpacesToEnd asmr
                    let p2 ← getLinePtr
                    if p2 = asmr.lineSize then unterminated
                    else do
                      let c3 ← readAt asmr p2
                      if c3 ≠ 93 then unterminated
                      else pure (256 + value1, 256 + value2 + 1)
            else pure (0, 0))
          (fun what => do
            printError (← getLinePtr) what
            pure (0, 0))

/-! ## Helpers and constants declared outside the sources -/

/-- Modelled from the spec: `ARCH_RX3X0` of `GCNInternals.h` (not among the
sources), the architecture bit of the "newer archs" of section 4.3. -/
def ARCH_RX3X0 : Nat := 4

/-- Modelled from the spec: `ARCH_GCN_1_1_2` of `GCNInternals.h` (not among the
sources), the "supporting archs" of `flat_scratch` in section 4.3. -/
def ARCH_GCN_1_1_2 : Nat := 6

/-- What `getNameArg(asmr, maxOutStrSize, outStr, linePtr, objName, required,
skipCommaAtError)` hands back: its boolean result and the bytes of the buffer
`outStr` after the call (the name, a NUL, then whatever the buffer held). -/
structure NameArg where
  ok : Bool
  outStr : List Nat
deriving Repr, DecidableEq

/-- What `AsmExpression::parse` followed by the queries `parseOperand` makes
hands back: `none` for a null pointer, else the expression's `isEmpty()`,
`getSymOccursNum()` and the outcome of `evaluate` (value and section id). -/
structure AsmExpression where
  isEmpty : Bool
  symOccursNum : Nat
  evaluate : Option (Nat × Nat)
deriving Repr, DecidableEq

/-- The functions the GCN parsers call that are declared in `AsmInternals.h` and
`CLRX/utils/Utilities.h`, neither among the sources.  Each is a parser action on
the cursor and the error list. -/
structure AsmHelpers where
  /-- `getNameArg(asmr, maxOutStrSize, outStr, linePtr, "register name", required, false)` -/
  getNameArg : Assembler → Nat → Bool → P NameArg
  /-- `cstrtohCStyle(linePtr, end, linePtr)`: the half-precision bit pattern -/
  cstrtohCStyle : Assembler → P Nat
  /-- `cstrtovCStyle<float>(linePtr, end, linePtr)`: the single-precision bit pattern -/
  cstrtovCStyle : Assembler → P Nat
  /-- `AsmExpression::parse(asmr, linePtr)` -/
  parseExpr : Assembler → P (Option AsmExpression)
  /-- `getAbsoluteValueArg(asmr, value, linePtr, true)`: `none` when it returns false -/
  getAbsoluteValueArg : Assembler → P (Option Nat)

/-- `regName[i]` in a `char regName[20]` buffer. -/
def charAt (regName : List Nat) (i : Nat) : Nat := regName.getD i 0

/-- Modelled from the spec: `toLowerString` of `CLRX/utils/Utilities.h` (not
among the sources): lower-cases the C string in the buffer, up to its NUL. -/
def toLowerString : List Nat → List Nat
  | [] => []
  | c :: cs => if c = 0 then c :: cs else toLower c :: toLowerString cs

/-- The comparison `::memcmp(regName, s, n) == 0`. -/
def memcmpEq (regName : List Nat) (s : List Nat) (n : Nat) : Bool :=
  (List.range n).all fun i => charAt regName i == charAt s i

open P in
/-- The tail of `GCNAsmUtils::parseSRegRange` from `if (++linePtr == end)` on
(inside the `try` block). -/
def parseSRegRangeTail (fuel : Nat) (asmr : Assembler) (arch : Nat) (required : Bool)
    (sgprRangePlace : Nat) : P RegPair := do
  setLinePtr ((← getLinePtr) + 1)
  if (← getLinePtr) = asmr.lineSize then do
    if required then printError sgprRangePlace "SRegister range is required"
    pure (0, 0)
  else do
    let c ← readAt asmr (← getLinePtr)
    if isDigit c then do
      -- if single register
      let value ← cstrtobyte fuel asmr
      pure (value, value + 1)
    else if c = 91 then do
      -- many registers
      setLinePtr ((← getLinePtr) + 1)
      skipSpacesToEnd asmr
      let value1 ← cstrtobyte fuel asmr
      skipSpacesToEnd asmr
      let p1 ← getLinePtr
      let unterminated : P RegPair := do
        printError sgprRangePlace "Unterminated SRegister range"
        pure (0, 0)
      if p1 = asmr.lineSize then unterminated
      else do
        let c2 ← readAt asmr p1
        if c2 ≠ 58 then unterminated
        else do
          setLinePtr (p1 + 1)
          skipSpacesToEnd asmr
          let value2 ← cstrtobyte fuel asmr
          let maxSGPRsNum := if arch &&& ARCH_RX3X0 ≠ 0 then 102 else 104
          if value2 ≤ value1 ∨ value1 ≥ maxSGPRsNum ∨ value2 ≥ maxSGPRsNum then do
            printError sgprRangePlace "Illegal SRegister range"
            pure (0, 0)
          else do
            skipSpacesToEnd asmr
            let p2 ← getLinePtr
            if p2 = asmr.lineSize then unterminated
            else do
              let c3 ← readAt asmr p2
              if c3 ≠ 93 then unterminated
              else if (value2 - value1 = 1 ∧ value1 &&& 1 ≠ 0) ∨
                  (value2 - value1 > 1 ∧ value1 &&& 3 ≠ 0) then do
                printError sgprRangePlace "Unaligned SRegister range"
                pure (0, 0)
              else pure (value1, (value2 % 65536) + 1)
    else pure (0, 0)

open P in
/-- The handling of 64-bit register names in `parseSRegRange`
(`if (loHiRegSuffix != 0) ... else ...`); `none` means that control goes on to
`if (++linePtr == end)`. -/
def parseSRegRangeLoHi (regName : List Nat) (loHiRegSuffix loHiReg : Nat) (required : Bool)
    (sgprRangePlace : Nat) : P (Option RegPair) :=
  if loHiRegSuffix ≠ 0 then
    if charAt regName loHiRegSuffix = 95 then
      if charAt regName (loHiRegSuffix+1) = 108 ∧ charAt regName (loHiRegSuffix+2) = 111 ∧
          charAt regName (loHiRegSuffix+3) = 0 then
        pure (some (loHiReg, loHiReg + 1))
      else if charAt regName (loHiRegSuffix+1) = 104 ∧ charAt regName (loHiRegSuffix+2) = 105 ∧
          charAt regName (loHiRegSuffix+3) = 0 then
        pure (some (loHiReg + 1, loHiReg + 2))
      else pure none
    else if charAt regName loHiRegSuffix = 0 then
      pure (some (loHiReg, loHiReg + 2))
    else pure none
  else do
    if required then printError sgprRangePlace "SRegister range is required"
    pure (some (0, 0))

open P in
/-- The branch `if (toLower(*linePtr) != 's') { ... }` of `parseSRegRange`;
`none` means that control goes on to `if (++linePtr == end)`. -/
def parseSRegRangeNamed (H : AsmHelpers) (fuel : Nat) (asmr : Assembler) (arch : Nat)
    (required : Bool) (sgprRangePlace : Nat) : P (Option RegPair) := do
  let r ← H.getNameArg asmr 20 required
  if !r.ok then pure (some (0, 0))
  else do
    let regName := toLowerString r.outStr
    let ch := charAt regName
    if ch 0 = 118 ∧ ch 1 = 99 ∧ ch 2 = 99 then
      -- vcc
      parseSRegRangeLoHi regName 3 106 required sgprRangePlace
    else if ch 0 = 101 ∧ ch 1 = 120 ∧ ch 2 = 101 ∧ ch 3 = 99 then
      -- exec
      parseSRegRangeLoHi regName 4 126 required sgprRangePlace
    else if ch 0 = 116 then
      -- tma, tba, ttmpX
      if ch 1 = 98 ∧ ch 2 = 97 then
        parseSRegRangeLoHi regName 3 108 required sgprRangePlace
      else if ch 1 = 109 ∧ ch 2 = 97 then
        parseSRegRangeLoHi regName 3 110 required sgprRangePlace
      else if ch 1 = 116 ∧ ch 2 = 109 ∧ ch 3 = 112 then do
        let value ← cstrtobyte fuel asmr
        if value > 11 then do
          printError sgprRangePlace "TTMP register number out of range"
          pure (some (0, 0))
        else parseSRegRangeLoHi regName 0 0 required sgprRangePlace
      else parseSRegRangeLoHi regName 0 0 required sgprRangePlace
    else if ch 0 = 109 ∨ ch 1 = 48 ∨ ch 2 = 0 then
      pure (some (124, 125))
    else if arch &&& ARCH_GCN_1_1_2 ≠ 0 then
      if memcmpEq regName (bytes "flat_scratch") 12 then
        parseSRegRangeLoHi regName 12 (if arch &&& ARCH_RX3X0 ≠ 0 then 102 else 104)
          required sgprRangePlace
      else if arch &&& ARCH_RX3X0 ≠ 0 ∧ memcmpEq regName (bytes "xnack_mask") 10 then
        parseSRegRangeLoHi regName 10 104 required sgprRangePlace
      else parseSRegRangeLoHi regName 0 0 required sgprRangePlace
    else parseSRegRangeLoHi regName 0 0 required sgprRangePlace

open P in
/-- `GCNAsmUtils::parseSRegRange(asmr, linePtr, arch, required)`. -/
def parseSRegRange (H : AsmHelpers) (fuel : Nat) (asmr : Assembler) (arch : Nat)
    (required : Bool) : P RegPair := do
  skipSpacesToEnd asmr
  let sgprRangePlace ← getLinePtr
  if sgprRangePlace = asmr.lineSize then do
    if required then printError sgprRangePlace "SRegister range is required"
    pure (0, 0)
  else
    tryCatch (do
      let c ← readAt asmr sgprRangePlace
      if toLower c ≠ 115 then do
        match ← parseSRegRangeNamed H fuel asmr arch required sgprRangePlace with
        | some pair => pure pair
        | none => parseSRegRangeTail fuel asmr arch required sgprRangePlace
      else parseSRegRangeTail fuel asmr arch required sgprRangePlace)
      (fun what => do
        printError (← getLinePtr) what
        pure (0, 0))

/-! ## `isOnlyFloat` -/

/-- The exponent part shared by both branches of `isOnlyFloat`: entered at the
exponent letter, `str++`, an optional sign, then digits; true when at least one
digit follows. -/
def isOnlyFloatExp (asmr : Assembler) (str : Nat) : Res Bool := do
  let str1 := str + 1
  let str2 ← (if str1 ≠ asmr.lineSize then do
      let c ← asmr.deref str1
      pure (if c = 45 ∨ c = 43 then str1 + 1 else str1)
    else pure str1 : Res Nat)
  let expPlace := str2
  let str3 ← scanWhile asmr isDigit (asmr.line.length - str2) str2
  pure (decide (str3 ≠ expPlace))

/-- One branch of `isOnlyFloat`, entered with `str` at `beforeComma`: `digit` is
`isXDigit` and `expLo`, `expUp` are `p`, `P` in the hexadecimal branch, `isDigit`
and `e`, `E` in the decimal one. -/
def isOnlyFloatBranch (asmr : Assembler) (digit : Nat → Bool) (expLo expUp : Nat)
    (beforeComma : Nat) : Res Bool := do
  let point ← scanWhile asmr digit (asmr.line.length - beforeComma) beforeComma
  let noPoint ← (if point = asmr.lineSize then pure true
    else do
      let c ← asmr.deref point
      pure (decide (c ≠ 46)) : Res Bool)
  if noPoint then
    if beforeComma ≠ point ∧ point ≠ asmr.lineSize then do
      let c ← asmr.deref point
      if c = expLo ∨ c = expUp then do
        if ← isOnlyFloatExp asmr point then pure true else pure false
      else pure false
    else pure false
  else do
    let afterComma ← scanWhile asmr digit (asmr.line.length - (point + 1)) (point + 1)
    pure (decide (point ≠ beforeComma ∨ afterComma ≠ point + 1))

/-- `static bool isOnlyFloat(const char* str, const char* end)` with
`end = line + lineSize`. -/
def isOnlyFloat (asmr : Assembler) (str : Nat) : Res Bool := do
  if str = asmr.lineSize then pure false
  else do
    let c ← asmr.deref str
    let str1 := if c = 45 ∨ c = 43 then str + 1 else str
    let isHex ← (if str1 + 2 ≥ asmr.lineSize then do
        let c0 ← asmr.deref str1
        if c0 = 48 then do
          let c1 ← asmr.deref (str1 + 1)
          pure (decide (c1 = 88 ∨ c1 = 120))
        else pure false
      else pure false : Res Bool)
    if isHex then isOnlyFloatBranch asmr isXDigit 112 80 (str1 + 2)
    else isOnlyFloatBranch asmr isDigit 101 69 str1

/-! ## `parseOperand` -/

/-- Modelled from the spec: `INSTROP_SREGS` of `GCNInternals.h` (not among the
sources), the operand category `SREGS` of section 4.3. -/
def INSTROP_SREGS : Nat := 1

/-- Modelled from the spec: `INSTROP_SSOURCE` of `GCNInternals.h` (not among the
sources), the operand category `SSOURCE` of section 4.3. -/
def INSTROP_SSOURCE : Nat := 2

/-- Modelled from the spec: `INSTROP_VREGS` of `GCNInternals.h` (not among the
sources), the operand category `VREGS` of section 4.3. -/
def INSTROP_VREGS : Nat := 4

/-- Modelled from the spec: `INSTROP_ONLYINLINECONSTS` of `GCNInternals.h` (not
among the sources), the flag `ONLY_INLINE_CONSTS` of section 4.3. -/
def INSTROP_ONLYINLINECONSTS : Nat := 0x80

/-- Modelled from the spec: `INSTROP_TYPE_MASK` of `GCNInternals.h` (not among
the sources), the bits of the type hint `F16 | F32 | INT` of section 4.3. -/
def INSTROP_TYPE_MASK : Nat := 0x3000

/-- Modelled from the spec: `INSTROP_F16` of `GCNInternals.h` (not among the
sources), the type hint `F16` of section 4.3. -/
def INSTROP_F16 : Nat := 0x2000

/-- Modelled from the spec: `ASMSECT_ABS` of `CLRX/amdasm/Commons.h` (not among
the sources), the section id of an absolute value (section 4.2). -/
def ASMSECT_ABS : Nat := 4294967295

/-- `GCNOperand`: the register pair (or operand code in `pair.1`) and the 32-bit
literal `value`, zero when the initializer list leaves it out. -/
structure GCNOperand where
  pair : RegPair
  value : Nat
deriving Repr, DecidableEq

/-- What `parseOperand` leaves behind besides the cursor and the errors: the
operand, the expression moved into `outTargetExpr` (reset at entry) and the
`printWarningForRange(32, value, ...)` call it made, if any. -/
structure OperandOut where
  operand : GCNOperand
  outTargetExpr : Option AsmExpression
  rangeWarning : Option Nat
deriving Repr, DecidableEq

/-- An operand without target expression and without warning. -/
def OperandOut.plain (pair : RegPair) : OperandOut := ⟨⟨pair, 0⟩, none, none⟩

/-- Conversion of a pair of integers into `RegPair`, whose halves are `uint16_t`. -/
def toRegPair (a b : Nat) : RegPair := (a % 65536, b % 65536)

/-- Lines 573-581 of `parseOperand`: a value that is no inline constant becomes
a literal, unless only inline constants are admitted. -/
def parseOperandLiteral (instrOpMask : Nat) (regNamePlace : Nat) (value : Nat) :
    P OperandOut :=
  if instrOpMask &&& INSTROP_ONLYINLINECONSTS ≠ 0 then do
    P.printError regNamePlace "Literal constant is illegal in this place"
    pure (OperandOut.plain (0, 0))
  else
    -- not in range
    pure ⟨⟨toRegPair 255 0, value % 4294967296⟩, none, some value⟩

/-- Lines 567-581 of `parseOperand`: the operand for the 64-bit `value` that
`getAbsoluteValueArg` stored. -/
def parseOperandInteger (instrOpMask : Nat) (regNamePlace : Nat) (value : Nat) :
    P OperandOut :=
  if value ≤ 64 then pure (OperandOut.plain (toRegPair (128 + value) 0))
  else if value < 9223372036854775808 ∨ value ≥ 18446744073709551616 - 16 then
    -- `int64_t(value) >= -16`; the difference is taken in `uint64_t`
    pure (OperandOut.plain (toRegPair ((192 + 18446744073709551616 - value) %
      18446744073709551616) 0))
  else parseOperandLiteral instrOpMask regNamePlace value

/-- The `switch (value)` over the single-precision bit patterns; `none` when
control leaves the `switch` without returning. -/
def floatInlineCode (arch : Nat) (value : Nat) : Option Nat :=
  if value = 0x0 then some 128
  else if value = 0x3f000000 then some 240
  else if value = 0xbf000000 then some 241
  else if value = 0x3f800000 then some 242
  else if value = 0xbf800000 then some 243
  else if value = 0x40000000 then some 244
  else if value = 0xc0000000 then some 245
  else if value = 0x40800000 then some 246
  else if value = 0xc0800000 then some 247
  else if value = 0x3e22f983 then (if arch &&& ARCH_RX3X0 ≠ 0 then some 248 else none)
  else none

/-- The `switch (value)` over the half-precision bit patterns; `none` when
control leaves the `switch` without returning. -/
def halfInlineCode (arch : Nat) (value : Nat) : Option Nat :=
  if value = 0x0 then some 128
  else if value = 0x3800 then some 240
  else if value = 0xb800 then some 241
  else if value = 0x3c00 then some 242
  else if value = 0xbc00 then some 243
  else if value = 0x4000 then some 244
  else if value = 0xc000 then some 245
  else if value = 0x4400 then some 246
  else if value = 0xc400 then some 247
  else if value = 0x3118 then (if arch &&& ARCH_RX3X0 ≠ 0 then some 248 else none)
  else none

open P in
/-- Lines 458-530 and 573-581 of `parseOperand`: the operand text is exclusively
a floating-point literal. -/
def parseOperandFloat (H : AsmHelpers) (asmr : Assembler) (arch instrOpMask : Nat)
    (regNamePlace : Nat) : P OperandOut := do
  let r ← tryCatch (do
      if instrOpMask &&& INSTROP_TYPE_MASK = INSTROP_F16 then do
        let value := (← H.cstrtohCStyle asmr) % 18446744073709551616
        pure (halfInlineCode arch value, value, true)
      else do
        let value := (← H.cstrtovCStyle asmr) % 4294967296
        pure (floatInlineCode arch value, value, true))
    (fun what => do
      printError regNamePlace what
      pure (none, 0, false))
  match r with
  | (_, _, false) => pure (OperandOut.plain (0, 0))
  | (some code, _, true) => pure (OperandOut.plain (toRegPair code 0))
  | (none, value, true) => parseOperandLiteral instrOpMask regNamePlace value

open P in
/-- Lines 532-581 of `parseOperand`: the operand text is an expression. -/
def parseOperandExpr (H : AsmHelpers) (asmr : Assembler) (instrOpMask : Nat)
    (regNamePlace : Nat) : P OperandOut := do
  let exprPlace ← getLinePtr
  match ← H.parseExpr asmr with
  | none => pure (OperandOut.plain (0, 0))
  | some expr =>
    if expr.isEmpty then do
      printError exprPlace "Expected expression"
      pure (OperandOut.plain (0, 0))
    else
      let rest : P OperandOut := do
        match ← H.getAbsoluteValueArg asmr with
        | none => pure (OperandOut.plain (0, 0))
        | some value =>
          parseOperandInteger instrOpMask regNamePlace (value % 18446744073709551616)
      if expr.symOccursNum = 0 then
        -- resolved now
        match expr.evaluate with
        | none => pure (OperandOut.plain (0, 0))
        | some (_, sectionId) =>
          if sectionId ≠ ASMSECT_ABS then do
            printError exprPlace "Expression must be absolute!"
            pure (OperandOut.plain (0, 0))
          else rest
      else if instrOpMask &&& INSTROP_ONLYINLINECONSTS ≠ 0 then do
        printError regNamePlace "Literal constant is illegal in this place"
        pure (OperandOut.plain (0, 0))
      else pure ⟨⟨toRegPair 255 0, 0⟩, some expr, none⟩

open P in
/-- Lines 438-451 of `parseOperand`: the symbolic condition codes; `none` means
that the text is to be treated as an expression. -/
def parseOperandCondCode (H : AsmHelpers) (asmr : Assembler) : P (Option OperandOut) := do
  let regNamePlace ← getLinePtr
  let r ← H.getNameArg asmr 20 false
  if r.ok then do
    let regName := toLowerString r.outStr
    if memcmpEq regName (bytes "vccz") 5 then
      pure (some (OperandOut.plain (toRegPair 251 252)))
    else if memcmpEq regName (bytes "execz") 6 then
      pure (some (OperandOut.plain (toRegPair 252 253)))
    else if memcmpEq regName (bytes "scc") 4 then
      pure (some (OperandOut.plain (toRegPair 253 254)))
    else do
      -- check expression, back to before regName
      setLinePtr regNamePlace
      pure none
  else pure none

open P in
/-- Lines 453-455 of `parseOperand`: an optional `@`, then blanks. -/
def parseOperandSkipAt (asmr : Assembler) : P Unit := do
  let p ← getLinePtr
  if p ≠ asmr.lineSize then do
    let c ← readAt asmr p
    if c = 64 then setLinePtr (p + 1)
  skipSpacesToEnd asmr

open P in
/-- Lines 437-582 of `parseOperand`: the positions of a scalar source that are
no register range. -/
def parseOperandSSource (H : AsmHelpers) (asmr : Assembler) (arch instrOpMask : Nat) :
    P OperandOut := do
  let regNamePlace ← getLinePtr
  match ← parseOperandCondCode H asmr with
  | some out => pure out
  | none =>
    -- treat argument as expression
    parseOperandSkipAt asmr
    let p1 ← getLinePtr
    let onlyFloat ← (fun s => (isOnlyFloat asmr p1, s) : P Bool)
    if onlyFloat then parseOperandFloat H asmr arch instrOpMask regNamePlace
    else parseOperandExpr H asmr instrOpMask regNamePlace

open P in
/-- Lines 419-434 of `parseOperand`: the register ranges the mask admits are
tried in turn; `(0, 0)` when none was found. -/
def parseOperandRegs (H : AsmHelpers) (fuel : Nat) (asmr : Assembler) (arch instrOpMask : Nat) :
    P RegPair := do
  let sregs ← (if instrOpMask &&& INSTROP_SREGS ≠ 0 then
      parseSRegRange H fuel asmr arch false else pure (0, 0) : P RegPair)
  if sregs.1 ≠ 0 ∨ sregs.2 ≠ 0 then pure sregs
  else if instrOpMask &&& INSTROP_VREGS ≠ 0 then parseVRegRange fuel asmr false
  else pure (0, 0)

open P in
/-- `GCNAsmUtils::parseOperand(asmr, linePtr, outTargetExpr, arch, instrOpMask)`. -/
def parseOperand (H : AsmHelpers) (fuel : Nat) (asmr : Assembler) (arch instrOpMask : Nat) :
    P OperandOut :=
  if instrOpMask = INSTROP_SREGS then do
    let pair ← parseSRegRange H fuel asmr arch true
    pure (OperandOut.plain pair)
  else if instrOpMask = INSTROP_VREGS then do
    let pair ← parseVRegRange fuel asmr true
    pure (OperandOut.plain pair)
  else do
    -- otherwise
    let pair ← parseOperandRegs H fuel asmr arch instrOpMask
    if pair.1 ≠ 0 ∨ pair.2 ≠ 0 then pure (OperandOut.plain pair)
    else if instrOpMask &&& INSTROP_SSOURCE ≠ 0 then
      parseOperandSSource H asmr arch instrOpMask
    else
      -- check otherwise
      pure (OperandOut.plain (0, 0))

/-! ## The instruction table -/

/-- Modelled from the spec: the encoding families `GCNENC_*` of `GCNInternals.h`
(not among the sources), the closed enumeration `EncKind` of section 3 with
`GCNENC_NONE` for "no alternate"; the values follow the order of the cases of the
`switch` in `GCNAssembler::assemble`. -/
def GCNENC_NONE : Nat := 0

/-- Modelled from the spec: see `GCNENC_NONE`. -/
def GCNENC_SOPC : Nat := 1

/-- Modelled from the spec: see `GCNENC_NONE`. -/
def GCNENC_SOPP : Nat := 2

/-- Modelled from the spec: see `GCNENC_NONE`. -/
def GCNENC_SOP1 : Nat := 3

/-- Modelled from the spec: see `GCNENC_NONE`. -/
def GCNENC_SOP2 : Nat := 4

/-- Modelled from the spec: see `GCNENC_NONE`. -/
def GCNENC_SOPK : Nat := 5

/-- Modelled from the spec: see `GCNENC_NONE`. -/
def GCNENC_SMRD : Nat := 6

/-- Modelled from the spec: see `GCNENC_NONE`. -/
def GCNENC_VOPC : Nat := 7

/-- Modelled from the spec: see `GCNENC_NONE`. -/
def GCNENC_VOP1 : Nat := 8

/-- Modelled from the spec: see `GCNENC_NONE`. -/
def GCNENC_VOP2 : Nat := 9

/-- Modelled from the spec: see `GCNENC_NONE`. -/
def GCNENC_VOP3A : Nat := 10

/-- Modelled from the spec: see `GCNENC_NONE`. -/
def GCNENC_VOP3B : Nat := 11

/-- Modelled from the spec: see `GCNENC_NONE`. -/
def GCNENC_VINTRP : Nat := 12

/-- Modelled from the spec: see `GCNENC_NONE`. -/
def GCNENC_DS : Nat := 13

/-- Modelled from the spec: see `GCNENC_NONE`. -/
def GCNENC_MUBUF : Nat := 14

/-- Modelled from the spec: see `GCNENC_NONE`. -/
def GCNENC_MTBUF : Nat := 15

/-- Modelled from the spec: see `GCNENC_NONE`. -/
def GCNENC_MIMG : Nat := 16

/-- Modelled from the spec: see `GCNENC_NONE`. -/
def GCNENC_EXP : Nat := 17

/-- Modelled from the spec: see `GCNENC_NONE`. -/
def GCNENC_FLAT : Nat := 18

/-- The constant `UINT16_MAX`. -/
def UINT16_MAX : Nat := 65535

/-- Modelled from the spec: `GCNInstruction` of `GCNInternals.h` (not among the
sources), a row of the static table `gcnInstrsTable`: mnemonic, encoding family,
mode, opcode and architecture mask (section 3). -/
structure GCNInstruction where
  mnemonic : List Nat
  encoding : Nat
  mode : Nat
  code : Nat
  archMask : Nat
deriving Repr, DecidableEq

/-- Modelled from the spec: `GCNAsmInstruction` of `GCNInternals.h` (not among the
sources), the instruction descriptor of section 3 with its two opcode slots, in
the order of the initializer in `initializeGCNAssembler`. -/
structure GCNAsmInstruction where
  mnemonic : List Nat
  encoding1 : Nat
  encoding2 : Nat
  mode : Nat
  code1 : Nat
  code2 : Nat
  archMask : Nat
deriving Repr, DecidableEq

/-- The C library `strcmp` on NUL-free byte strings: the sign of the
lexicographic comparison of the bytes. -/
def strcmp (a b : List Nat) : Int :=
  if a < b then -1 else if a = b then 0 else 1

/-- The first loop of `initializeGCNAssembler`: every row of `gcnInstrsTable`
becomes a row with an empty second slot. -/
def initialRow (insn : GCNInstruction) : GCNAsmInstruction :=
  ⟨insn.mnemonic, insn.encoding, GCNENC_NONE, insn.mode, insn.code, UINT16_MAX, insn.archMask⟩

/-- The comparison passed to `std::sort` in `initializeGCNAssembler`. -/
def instrLess (instr1 instr2 : GCNAsmInstruction) : Bool :=
  let r := strcmp instr1.mnemonic instr2.mnemonic
  decide (r < 0) || (decide (r = 0) && decide (instr1.encoding1 < instr2.encoding1)) ||
    (decide (r = 0) && decide (instr1.encoding1 = instr2.encoding1) &&
      decide (instr1.archMask < instr2.archMask))

/-- The loop `while (strcmp(table[k].mnemonic, insn.mnemonic)==0 &&
(table[k].archMask & insn.archMask)!=insn.archMask) k--` over the rows written
so far; `k--` at zero wraps to `UINT_MAX`, and the read there is outside the
table. -/
def fusionScan (table : List GCNAsmInstruction) (insn : GCNAsmInstruction) : Nat → Res Nat
  | 0 =>
    match table[0]? with
    | none => .undefined
    | some row =>
      if strcmp row.mnemonic insn.mnemonic = 0 ∧ row.archMask &&& insn.archMask ≠ insn.archMask
      then .undefined else .ret 0
  | k+1 =>
    match table[k+1]? with
    | none => .undefined
    | some row =>
      if strcmp row.mnemonic insn.mnemonic = 0 ∧ row.archMask &&& insn.archMask ≠ insn.archMask
      then fusionScan table insn k else .ret (k+1)

/-- One iteration of the joining loop of `initializeGCNAssembler`: `table` holds
the rows `gcnInstrSortedTable[0..j)` written so far and `insn` is
`gcnInstrSortedTable[i]`. -/
def fusionStep (table : List GCNAsmInstruction) (insn : GCNAsmInstruction) :
    Res (List GCNAsmInstruction) :=
  if insn.encoding1 = GCNENC_VOP3A ∨ insn.encoding1 = GCNENC_VOP3B then
    -- check duplicates
    match table.length with
    | 0 => .undefined
    | j+1 =>
      match fusionScan table insn j with
      | .ret k =>
        match table[k]? with
        | none => .undefined
        | some row =>
          if strcmp row.mnemonic insn.mnemonic = 0 ∧
              row.archMask &&& insn.archMask = insn.archMask then
            -- we found duplicate, we apply
            if row.code2 = UINT16_MAX then
              -- if second slot for opcode is not filled
              .ret (table.set k { row with code2 := insn.code1, encoding2 := insn.encoding1,
                                           archMask := row.archMask &&& insn.archMask })
            else
              -- if filled we create new entry
              .ret (table ++ [{ row with archMask := row.archMask &&& insn.archMask,
                                         encoding2 := insn.encoding1, code2 := insn.code1 }])
          else
            -- not found
            .ret (table ++ [insn])
      | .throw m => .throw m
      | .undefined => .undefined
      | .timeout => .timeout
  else
    -- normal instruction
    .ret (table ++ [insn])

/-- The joining loop of `initializeGCNAssembler` over the sorted rows not yet
visited. -/
def fusionPass (table : List GCNAsmInstruction) : List GCNAsmInstruction →
    Res (List GCNAsmInstruction)
  | [] => .ret table
  | insn :: rest =>
    match fusionStep table insn with
    | .ret table1 => fusionPass table1 rest
    | r => r

/-- `initializeGCNAssembler`: the value of `gcnInstrSortedTable` it leaves, for
the static table `gcnInstrsTable` (declared in `GCNInternals.h`, not among the
sources).  `std::sort` is an insertion sort here; rows that the comparison does
not tell apart may stand in another order after the real one. -/
def initializeGCNAssembler (gcnInstrsTable : List GCNInstruction) :
    Res (List GCNAsmInstruction) :=
  fusionPass [] ((gcnInstrsTable.map initialRow).insertionSort (fun a b => ¬ instrLess b a))

/-! ## `GCNAssembler::assemble` -/

/-- The loop of `std::lower_bound` over `table` with the comparison of mnemonics
by `strcmp`; `fuel` bounds its iterations. -/
def lowerBound (table : List GCNAsmInstruction) (mnemonic : List Nat) : Nat → Nat → Nat → Nat
  | 0, first, _ => first
  | fuel+1, first, count =>
    if count = 0 then first
    else
      let step := count / 2
      let it := first + step
      match table[it]? with
      | none => first
      | some row =>
        if strcmp row.mnemonic mnemonic < 0 then
          lowerBound table mnemonic fuel (it + 1) (count - (step + 1))
        else lowerBound table mnemonic fuel first step

/-- Modelled from the spec: `binaryFind` of `CLRX/utils/Utilities.h` (not among
the sources), the "binary search by mnemonic" of section 4.1: the lower bound of
the mnemonic, or `end` when the row there has another mnemonic. -/
def binaryFind (table : List GCNAsmInstruction) (mnemonic : List Nat) : Nat :=
  let it := lowerBound table mnemonic table.length 0 table.length
  match table[it]? with
  | none => table.length
  | some row => if strcmp mnemonic row.mnemonic < 0 then table.length else it

/-- The loop `for (++it; it != end && strcmp(it->mnemonic, mnemonic)==0 &&
(it->archMask & curArchMask)==0; ++it)` of `assemble`, entered after `++it`. -/
def assembleSkip (table : List GCNAsmInstruction) (curArchMask : Nat) (mnemonic : List Nat) :
    Nat → Nat → Nat
  | 0, it => it
  | fuel+1, it =>
    match table[it]? with
    | none => it
    | some row =>
      if strcmp row.mnemonic mnemonic = 0 ∧ row.archMask &&& curArchMask = 0 then
        assembleSkip table curArchMask mnemonic fuel (it + 1)
      else it

/-- Lines 673-689 of `GCNAssembler::assemble`: the row the mnemonic is assembled
with, or `none` when "Unrecognized instruction" is printed. -/
def assembleFind (table : List GCNAsmInstruction) (curArchMask : Nat) (mnemonic : List Nat) :
    Option Nat :=
  let it := binaryFind table mnemonic
  -- find matched entry
  let it1 := match table[it]? with
    | none => it
    | some row =>
      if row.archMask &&& curArchMask = 0 then
        -- if not match current arch mask
        assembleSkip table curArchMask mnemonic (table.length - (it + 1)) (it + 1)
      else it
  match table[it1]? with
  | none => none
  | some row => if strcmp row.mnemonic mnemonic ≠ 0 then none else some it1

/-- What an encoder leaves: the section output and the errors it printed. -/
structure AsmOutput where
  output : List Nat
  errors : List AsmError
deriving Repr, DecidableEq

/-- `GCNAsmUtils::parseSOP2Encoding`: the body is empty. -/
def parseSOP2Encoding (_asmr : Assembler) (_insn : GCNAsmInstruction) (_linePtr : Nat)
    (output : List Nat) : AsmOutput := ⟨output, []⟩

/-- `GCNAsmUtils::parseSOP1Encoding`: the body is empty. -/
def parseSOP1Encoding (_asmr : Assembler) (_insn : GCNAsmInstruction) (_linePtr : Nat)
    (output : List Nat) : AsmOutput := ⟨output, []⟩

/-- `GCNAsmUtils::parseSOPKEncoding`: the body is empty. -/
def parseSOPKEncoding (_asmr : Assembler) (_insn : GCNAsmInstruction) (_linePtr : Nat)
    (output : List Nat) : AsmOutput := ⟨output, []⟩

/-- `GCNAsmUtils::parseSOPCEncoding`: the body is empty. -/
def parseSOPCEncoding (_asmr : Assembler) (_insn : GCNAsmInstruction) (_linePtr : Nat)
    (output : List Nat) : AsmOutput := ⟨output, []⟩

/-- `GCNAsmUtils::parseSOPPEncoding`: the body is empty. -/
def parseSOPPEncoding (_asmr : Assembler) (_insn : GCNAsmInstruction) (_linePtr : Nat)
    (output : List Nat) : AsmOutput := ⟨output, []⟩

/-- `GCNAsmUtils::parseSMRDEncoding`: the body is empty. -/
def parseSMRDEncoding (_asmr : Assembler) (_insn : GCNAsmInstruction) (_linePtr : Nat)
    (output : List Nat) : AsmOutput := ⟨output, []⟩

/-- `GCNAsmUtils::parseVOP2Encoding`: the body is empty. -/
def parseVOP2Encoding (_asmr : Assembler) (_insn : GCNAsmInstruction) (_linePtr : Nat)
    (output : List Nat) : AsmOutput := ⟨output, []⟩

/-- `GCNAsmUtils::parseVOP1Encoding`: the body is empty. -/
def parseVOP1Encoding (_asmr : Assembler) (_insn : GCNAsmInstruction) (_linePtr : Nat)
    (output : List Nat) : AsmOutput := ⟨output, []⟩

/-- `GCNAsmUtils::parseVOPCEncoding`: the body is empty. -/
def parseVOPCEncoding (_asmr : Assembler) (_insn : GCNAsmInstruction) (_linePtr : Nat)
    (output : List Nat) : AsmOutput := ⟨output, []⟩

/-- `GCNAsmUtils::parseVOP3Encoding`: the body is empty. -/
def parseVOP3Encoding (_asmr : Assembler) (_insn : GCNAsmInstruction) (_linePtr : Nat)
    (output : List Nat) : AsmOutput := ⟨output, []⟩

/-- `GCNAsmUtils::parseVINTRPEncoding`: the body is empty. -/
def parseVINTRPEncoding (_asmr : Assembler) (_insn : GCNAsmInstruction) (_linePtr : Nat)
    (output : List Nat) : AsmOutput := ⟨output, []⟩

/-- `GCNAsmUtils::parseDSEncoding`: the body is empty. -/
def parseDSEncoding (_asmr : Assembler) (_insn : GCNAsmInstruction) (_linePtr : Nat)
    (output : List Nat) : AsmOutput := ⟨output, []⟩

/-- `GCNAsmUtils::parseMXBUFEncoding`: the body is empty. -/
def parseMXBUFEncoding (_asmr : Assembler) (_insn : GCNAsmInstruction) (_linePtr : Nat)
    (output : List Nat) : AsmOutput := ⟨output, []⟩

/-- `GCNAsmUtils::parseMIMGEncoding`: the body is empty. -/
def parseMIMGEncoding (_asmr : Assembler) (_insn : GCNAsmInstruction) (_linePtr : Nat)
    (output : List Nat) : AsmOutput := ⟨output, []⟩

/-- `GCNAsmUtils::parseEXPEncoding`: the body is empty. -/
def parseEXPEncoding (_asmr : Assembler) (_insn : GCNAsmInstruction) (_linePtr : Nat)
    (output : List Nat) : AsmOutput := ⟨output, []⟩

/-- `GCNAsmUtils::parseFLATEncoding`: the body is empty. -/
def parseFLATEncoding (_asmr : Assembler) (_insn : GCNAsmInstruction) (_linePtr : Nat)
    (output : List Nat) : AsmOutput := ⟨output, []⟩

/-- The `switch (it->encoding1)` of `GCNAssembler::assemble`. -/
def assembleEncode (asmr : Assembler) (insn : GCNAsmInstruction) (linePtr : Nat)
    (output : List Nat) : AsmOutput :=
  if insn.encoding1 = GCNENC_SOPC then parseSOPCEncoding asmr insn linePtr output
  else if insn.encoding1 = GCNENC_SOPP then parseSOPPEncoding asmr insn linePtr output
  else if insn.encoding1 = GCNENC_SOP1 then parseSOP1Encoding asmr insn linePtr output
  else if insn.encoding1 = GCNENC_SOP2 then parseSOP2Encoding asmr insn linePtr output
  else if insn.encoding1 = GCNENC_SOPK then parseSOPKEncoding asmr insn linePtr output
  else if insn.encoding1 = GCNENC_SMRD then parseSMRDEncoding asmr insn linePtr output
  else if insn.encoding1 = GCNENC_VOPC then parseVOPCEncoding asmr insn linePtr output
  else if insn.encoding1 = GCNENC_VOP1 then parseVOP1Encoding asmr insn linePtr output
  else if insn.encoding1 = GCNENC_VOP2 then parseVOP2Encoding asmr insn linePtr output
  else if insn.encoding1 = GCNENC_VOP3A ∨ insn.encoding1 = GCNENC_VOP3B then
    parseVOP3Encoding asmr insn linePtr output
  else if insn.encoding1 = GCNENC_VINTRP then parseVINTRPEncoding asmr insn linePtr output
  else if insn.encoding1 = GCNENC_DS then parseDSEncoding asmr insn linePtr output
  else if insn.encoding1 = GCNENC_MUBUF ∨ insn.encoding1 = GCNENC_MTBUF then
    parseMXBUFEncoding asmr insn linePtr output
  else if insn.encoding1 = GCNENC_MIMG then parseMIMGEncoding asmr insn linePtr output
  else if insn.encoding1 = GCNENC_EXP then parseEXPEncoding asmr insn linePtr output
  else if insn.encoding1 = GCNENC_FLAT then parseFLATEncoding asmr insn linePtr output
  else ⟨output, []⟩

/-- `GCNAssembler::assemble(mnemonic, mnemPlace, linePtr, lineEnd, output)` over
the table `gcnInstrSortedTable` and the architecture mask `curArchMask` of the
assembler. -/
def assemble (gcnInstrSortedTable : List GCNAsmInstruction) (curArchMask : Nat)
    (asmr : Assembler) (mnemonic : List Nat) (mnemPlace linePtr : Nat) (output : List Nat) :
    AsmOutput :=
  match assembleFind gcnInstrSortedTable curArchMask mnemonic with
  | none =>
    -- unrecognized mnemonic
    ⟨output, [⟨mnemPlace, "Unrecognized instruction"⟩]⟩
  | some it =>
    match gcnInstrSortedTable[it]? with
    | none => ⟨output, []⟩
    | some insn => assembleEncode asmr insn linePtr output

/-! ## Helpers with fixed answers and the tables of the claims -/

/-- Helpers that answer with given values and leave the cursor and the error
list alone: they stand for the functions of `AsmInternals.h` when the parsers
are run on a concrete line. -/
def fixedHelpers (name : NameArg) (half single : Nat) (expr : Option AsmExpression)
    (absValue : Option Nat) : AsmHelpers where
  getNameArg := fun _ _ _ => pure name
  cstrtohCStyle := fun _ => pure half
  cstrtovCStyle := fun _ => pure single
  parseExpr := fun _ => pure expr
  getAbsoluteValueArg := fun _ => pure absValue

/-- The table of claim C6 in the words of the spec (section 4.3, item 4): the bit
patterns of `0`, `±0.5`, `±1.0`, `±2.0`, `±4.0` with the codes 128 and 240-247,
in single precision. -/
def claimedFloatTable : List (Nat × Nat) :=
  [(0x00000000, 128), (0x3f000000, 240), (0xbf000000, 241), (0x3f800000, 242),
   (0xbf800000, 243), (0x40000000, 244), (0xc0000000, 245), (0x40800000, 246),
   (0xc0800000, 247)]

/-- The table of claim C6 in half precision. -/
def claimedHalfTable : List (Nat × Nat) :=
  [(0x0000, 128), (0x3800, 240), (0xb800, 241), (0x3c00, 242), (0xbc00, 243),
   (0x4000, 244), (0xc000, 245), (0x4400, 246), (0xc400, 247)]

/-- The inline-constant code claim C6 gives to a bit pattern: the entry of the
table, and 248 for `1/(2*pi)` when the architecture mask has `ARCH_RX3X0`;
`none` for every other bit pattern. -/
def claimedInlineCode (half : Bool) (arch : Nat) (bitPattern : Nat) : Option Nat :=
  match (if half then claimedHalfTable else claimedFloatTable).lookup bitPattern with
  | some code => some code
  | none =>
    if bitPattern = (if half then 0x3118 else 0x3e22f983) ∧ arch &&& ARCH_RX3X0 ≠ 0
    then some 248 else none

/-- The table is in the order `std::sort` leaves as far as the mnemonics go: a
row never stands before a row with a smaller mnemonic. -/
def SortedByMnemonic (table : List GCNAsmInstruction) : Prop :=
  ∀ (i j : Nat) (ri rj : GCNAsmInstruction), i < j → table[i]? = some ri →
    table[j]? = some rj → ri.mnemonic ≤ rj.mnemonic

/-- The row is for the mnemonic and valid on the current architecture:
`strcmp(row.mnemonic, mnemonic) == 0` and `(row.archMask & curArchMask) != 0`
(for the single bit `curArchMask = 1 << arch`: the mask contains the bit). -/
def RowMatches (curArchMask : Nat) (mnemonic : List Nat) (row : GCNAsmInstruction) : Prop :=
  row.mnemonic = mnemonic ∧ row.archMask &&& curArchMask ≠ 0

/-! ## ELF: layouts and byte access -/

/-- Modelled from the spec: `Elf32Types` / `Elf64Types` of
`CLRX/amdbin/ElfBinaries.h` (not among the sources): the class byte, the width of
`Types::Word` in bytes and the sizes of the structures of `<elf.h>` (section 6:
"standard layout"). -/
structure ElfTypes where
  ELFCLASS : Nat
  wordSize : Nat
  ehdrSize : Nat
  phdrSize : Nat
  shdrSize : Nat
  symSize : Nat
  bitName : String
deriving Repr, DecidableEq

/-- The 32-bit class: `ELFCLASS32`, `Elf32_Ehdr`, `Elf32_Phdr`, `Elf32_Shdr`, `Elf32_Sym`. -/
def Elf32Types : ElfTypes := ⟨1, 4, 52, 32, 40, 16, "32"⟩

/-- The 64-bit class: `ELFCLASS64`, `Elf64_Ehdr`, `Elf64_Phdr`, `Elf64_Shdr`, `Elf64_Sym`. -/
def Elf64Types : ElfTypes := ⟨2, 8, 64, 56, 64, 24, "64"⟩

/-- The value `elfMagicValue`. -/
def elfMagicValue : Nat := 0x464c457f

/-- The constant `UINT_MAX`. -/
def UINT_MAX : Nat := 4294967295

/-- The section types of `<elf.h>` the code names. -/
def SHT_SYMTAB : Nat := 2

/-- See `SHT_SYMTAB`. -/
def SHT_STRTAB : Nat := 3

/-- See `SHT_SYMTAB`. -/
def SHT_NOBITS : Nat := 8

/-- See `SHT_SYMTAB`. -/
def SHT_DYNSYM : Nat := 11

/-- The section index `SHN_UNDEF` of `<elf.h>`. -/
def SHN_UNDEF : Nat := 0

/-- Modelled from the spec: the creation flags of `CLRX/amdbin/ElfBinaries.h`
(not among the sources) that ask the reader for its name maps. -/
def ELF_CREATE_SECTIONMAP : Nat := 1

/-- Modelled from the spec: see `ELF_CREATE_SECTIONMAP`. -/
def ELF_CREATE_SYMBOLMAP : Nat := 2

/-- Modelled from the spec: see `ELF_CREATE_SECTIONMAP`. -/
def ELF_CREATE_DYNSYMMAP : Nat := 4

/-- `SLEV(field, value)` for a field of `n` bytes: the value is narrowed to the
field and stored little-endian. -/
def storeLE : Nat → Nat → List Nat
  | 0, _ => []
  | n+1, v => (v % 256) :: storeLE n (v / 256)

/-- The little-endian value of a list of bytes. -/
def valueLE : List Nat → Nat
  | [] => 0
  | b :: bs => b + 256 * valueLE bs

/-- `ULEV` of a field of `n` bytes at offset `off` of the buffer; a field that
does not lie inside the buffer is a read outside it. -/
def loadLE (buf : List Nat) (off n : Nat) : Res Nat :=
  if off + n ≤ buf.length then .ret (valueLE ((buf.drop off).take n)) else .undefined

/-- The C string at offset `off` of the buffer, without its NUL; `fuel` bounds
the bytes looked at, and a string that runs out of the buffer is a read outside
it. -/
def cstringAt (buf : List Nat) : Nat → Nat → Res (List Nat)
  | 0, _ => .undefined
  | fuel+1, off =>
    match buf[off]? with
    | none => .undefined
    | some c =>
      if c = 0 then .ret []
      else match cstringAt buf fuel (off + 1) with
        | .ret s => .ret (c :: s)
        | r => r

/-- Modelled from the spec: `usumGt(a, b, c)` of `CLRX/utils/Utilities.h` (not
among the sources), for operands `a` and `b` of an unsigned type of `bits` bits:
whether `a + b` exceeds `c`, a sum that wraps around in that type counting as
exceeding ("offset plus size do not exceed file length", section 4.7). -/
def usumGt (bits a b c : Nat) : Bool := decide (a + b > c ∨ a + b ≥ 2 ^ bits)

/-- The statement `throw Exception(msg)`. -/
def Res.raise {α : Type} (msg : String) : Res α := .throw msg

/-- A loop `for (i = 0; i < n; i++) body(i)` whose body may throw. -/
def forRange (n : Nat) (body : Nat → Res Unit) : Res Unit :=
  (List.range n).foldl (fun acc i => acc.andThen fun _ => body i) (.ret ())

/-- A loop `for (i = 0; i < n; i++) state = body(i, state)` whose body may throw. -/
def foldRange {σ : Type} (n : Nat) (init : σ) (body : Nat → σ → Res σ) : Res σ :=
  (List.range n).foldl (fun acc i => acc.andThen fun st => body i st) (.ret init)

/-! ## ELF reader: `ElfBinaryTemplate` -/

/-- The loop `for (k = size-1; k>0 && table[k]!=0; k--)` of
`unfinishedRegionOfStringTable`, entered at `k`. -/
def unfinishedRegionLoop (table : List Nat) : Nat → Res Nat
  | 0 => .ret 0
  | k+1 =>
    match table[k+1]? with
    | none => .undefined
    | some c => if c ≠ 0 then unfinishedRegionLoop table k else .ret (k+1)

/-- `unfinishedRegionOfStringTable(table, size)`; `table` is the memory from the
pointer on. -/
def unfinishedRegionOfStringTable (table : List Nat) (size : Nat) : Res Nat :=
  if size = 0 then .ret 0
  else
    match unfinishedRegionLoop table (size - 1) with
    | .ret k =>
      match table[k]? with
      | none => .undefined
      | some c => .ret (if c = 0 then k + 1 else k)
    | r => r

/-- The fields of the ELF header, read by `ULEV` from the start of the buffer
(the offsets are those of `Elf32_Ehdr` and `Elf64_Ehdr`). -/
structure Ehdr where
  e_type : Nat
  e_machine : Nat
  e_version : Nat
  e_entry : Nat
  e_phoff : Nat
  e_shoff : Nat
  e_flags : Nat
  e_ehsize : Nat
  e_phentsize : Nat
  e_phnum : Nat
  e_shentsize : Nat
  e_shnum : Nat
  e_shstrndx : Nat
deriving Repr, DecidableEq

/-- The header of the binary. -/
def readEhdr (T : ElfTypes) (buf : List Nat) : Res Ehdr := do
  let W := T.wordSize
  let e_type ← loadLE buf 16 2
  let e_machine ← loadLE buf 18 2
  let e_version ← loadLE buf 20 4
  let e_entry ← loadLE buf 24 W
  let e_phoff ← loadLE buf (24 + W) W
  let e_shoff ← loadLE buf (24 + 2*W) W
  let e_flags ← loadLE buf (24 + 3*W) 4
  let e_ehsize ← loadLE buf (28 + 3*W) 2
  let e_phentsize ← loadLE buf (30 + 3*W) 2
  let e_phnum ← loadLE buf (32 + 3*W) 2
  let e_shentsize ← loadLE buf (34 + 3*W) 2
  let e_shnum ← loadLE buf (36 + 3*W) 2
  let e_shstrndx ← loadLE buf (38 + 3*W) 2
  pure ⟨e_type, e_machine, e_version, e_entry, e_phoff, e_shoff, e_flags, e_ehsize,
    e_phentsize, e_phnum, e_shentsize, e_shnum, e_shstrndx⟩

/-- A section header (`Elf32_Shdr`, `Elf64_Shdr`). -/
structure Shdr where
  sh_name : Nat
  sh_type : Nat
  sh_flags : Nat
  sh_addr : Nat
  sh_offset : Nat
  sh_size : Nat
  sh_link : Nat
  sh_info : Nat
  sh_addralign : Nat
  sh_entsize : Nat
deriving Repr, DecidableEq

/-- The section header at offset `off` of the buffer. -/
def readShdr (T : ElfTypes) (buf : List Nat) (off : Nat) : Res Shdr := do
  let W := T.wordSize
  let sh_name ← loadLE buf off 4
  let sh_type ← loadLE buf (off + 4) 4
  let sh_flags ← loadLE buf (off + 8) W
  let sh_addr ← loadLE buf (off + 8 + W) W
  let sh_offset ← loadLE buf (off + 8 + 2*W) W
  let sh_size ← loadLE buf (off + 8 + 3*W) W
  let sh_link ← loadLE buf (off + 8 + 4*W) 4
  let sh_info ← loadLE buf (off + 12 + 4*W) 4
  let sh_addralign ← loadLE buf (off + 16 + 4*W) W
  let sh_entsize ← loadLE buf (off + 16 + 5*W) W
  pure ⟨sh_name, sh_type, sh_flags, sh_addr, sh_offset, sh_size, sh_link, sh_info,
    sh_addralign, sh_entsize⟩

/-- A symbol (`Elf32_Sym`, `Elf64_Sym`). -/
structure Sym where
  st_name : Nat
  st_value : Nat
  st_size : Nat
  st_info : Nat
  st_other : Nat
  st_shndx : Nat
deriving Repr, DecidableEq

/-- The symbol at offset `off` of the buffer. -/
def readSym (T : ElfTypes) (buf : List Nat) (off : Nat) : Res Sym := do
  if T.wordSize = 4 then
    let st_name ← loadLE buf off 4
    let st_value ← loadLE buf (off + 4) 4
    let st_size ← loadLE buf (off + 8) 4
    let st_info ← loadLE buf (off + 12) 1
    let st_other ← loadLE buf (off + 13) 1
    let st_shndx ← loadLE buf (off + 14) 2
    pure ⟨st_name, st_value, st_size, st_info, st_other, st_shndx⟩
  else
    let st_name ← loadLE buf off 4
    let st_info ← loadLE buf (off + 4) 1
    let st_other ← loadLE buf (off + 5) 1
    let st_shndx ← loadLE buf (off + 6) 2
    let st_value ← loadLE buf (off + 8) 8
    let st_size ← loadLE buf (off + 16) 8
    pure ⟨st_name, st_value, st_size, st_info, st_other, st_shndx⟩

/-- The fields `p_offset` and `p_filesz` of the program header at offset `off`. -/
def readPhdrOffsetFilesz (T : ElfTypes) (buf : List Nat) (off : Nat) : Res (Nat × Nat) := do
  if T.wordSize = 4 then
    let p_offset ← loadLE buf (off + 4) 4
    let p_filesz ← loadLE buf (off + 16) 4
    pure (p_offset, p_filesz)
  else
    let p_offset ← loadLE buf (off + 8) 8
    let p_filesz ← loadLE buf (off + 32) 8
    pure (p_offset, p_filesz)

/-- What the constructor of `ElfBinaryTemplate` leaves in the object; a pointer
into the binary is its offset, `none` for `nullptr`. -/
structure ElfBinary where
  creationFlags : Nat
  binaryCode : List Nat
  sectionStringTable : Option Nat
  symbolStringTable : Option Nat
  symbolTable : Option Nat
  dynSymStringTable : Option Nat
  dynSymTable : Option Nat
  symbolsNum : Nat
  dynSymbolsNum : Nat
  symbolEntSize : Nat
  dynSymEntSize : Nat
  sectionIndexMap : List (List Nat × Nat)
  symbolIndexMap : List (List Nat × Nat)
  dynSymIndexMap : List (List Nat × Nat)
deriving Repr, DecidableEq

/-- Modelled from the spec: `getSectionHeader(index)` of
`CLRX/amdbin/ElfBinaries.h` (not among the sources): the section header at
`e_shoff + e_shentsize * index`. -/
def getSectionHeader (T : ElfTypes) (buf : List Nat) (index : Nat) : Res Shdr := do
  let ehdr ← readEhdr T buf
  readShdr T buf (ehdr.e_shoff + ehdr.e_shentsize * index)

/-- Modelled from the spec: `mapSort` with `CStringLess` of
`CLRX/utils/Utilities.h` (not among the sources): the map sorted by name. -/
def mapSort (m : List (List Nat × Nat)) : List (List Nat × Nat) :=
  m.insertionSort (fun a b => a.1 ≤ b.1)

/-- The loop over the program headers in the constructor. -/
def checkProgramHeaders (T : ElfTypes) (buf : List Nat) (ehdr : Ehdr) : Res Unit :=
  forRange ehdr.e_phnum fun i => do
    let (p_offset, p_filesz) ←
      readPhdrOffsetFilesz T buf (ehdr.e_phoff + ehdr.e_phentsize * i)
    if p_offset > buf.length then Res.raise "Segment offset out of range!"
    else if usumGt (8 * T.wordSize) p_offset p_filesz buf.length then
      Res.raise "Segment offset+size out of range!"
    else pure ()

/-- What the loop over the section headers collects: the section map and the
indices of the last `SYMTAB` and `DYNSYM` headers. -/
structure SectionScan where
  sectionIndexMap : List (List Nat × Nat)
  symTableHdr : Option Nat
  dynSymTableHdr : Option Nat
deriving Repr, DecidableEq

/-- The loop over the section headers in the constructor. -/
def checkSectionHeaders (T : ElfTypes) (buf : List Nat) (creationFlags : Nat) (ehdr : Ehdr)
    (shstrShdr : Shdr) (unfinishedShstrPos : Nat) : Res SectionScan :=
  foldRange ehdr.e_shnum ⟨[], none, none⟩ fun i st => do
    let shdr ← getSectionHeader T buf i
    if shdr.sh_offset > buf.length then Res.raise "Section offset out of range!"
    else if shdr.sh_type ≠ SHT_NOBITS ∧
        usumGt (8 * T.wordSize) shdr.sh_offset shdr.sh_size buf.length then
      Res.raise "Section offset+size out of range!"
    else if shdr.sh_link ≥ ehdr.e_shnum then Res.raise "Section link out of range!"
    else if shdr.sh_name ≥ shstrShdr.sh_size then
      Res.raise "Section name index out of range!"
    else if shdr.sh_name ≥ unfinishedShstrPos then Res.raise "Unfinished section name!"
    else do
      let map ← (if creationFlags &&& ELF_CREATE_SECTIONMAP ≠ 0 then do
          let shname ← cstringAt buf buf.length (shstrShdr.sh_offset + shdr.sh_name)
          pure (st.sectionIndexMap ++ [(shname, i)])
        else pure st.sectionIndexMap : Res (List (List Nat × Nat)))
      pure ⟨map, if shdr.sh_type = SHT_SYMTAB then some i else st.symTableHdr,
        if shdr.sh_type = SHT_DYNSYM then some i else st.dynSymTableHdr⟩

/-- What the indexing of a symbol table leaves: entry size, table and string
table pointers, number of symbols, name map. -/
structure SymbolIndex where
  entSize : Nat
  table : Option Nat
  stringTable : Option Nat
  symbolsNum : Nat
  indexMap : List (List Nat × Nat)
deriving Repr, DecidableEq

/-- The block `if (symTableHdr != nullptr) { ... }` of the constructor, and with
the other messages and flag the block for `dynSymTableHdr`. -/
def indexSymbols (T : ElfTypes) (buf : List Nat) (wantMap : Bool) (symTableHdr : Shdr)
    (msgEntSize msgNoStrings msgRange msgUnfinished : String) : Res SymbolIndex := do
  if symTableHdr.sh_entsize < T.symSize then Res.raise msgEntSize
  else if symTableHdr.sh_link = SHN_UNDEF then Res.raise msgNoStrings
  else do
    let symstrShdr ← getSectionHeader T buf symTableHdr.sh_link
    let unfinishedSymstrPos ←
      unfinishedRegionOfStringTable (buf.drop symstrShdr.sh_offset) symstrShdr.sh_size
    let symbolsNum := symTableHdr.sh_size / symTableHdr.sh_entsize
    let map ← foldRange symbolsNum ([] : List (List Nat × Nat)) fun i m => do
      -- verify symbol names
      let sym ← readSym T buf (symTableHdr.sh_offset + i * symTableHdr.sh_entsize)
      if sym.st_name ≥ symstrShdr.sh_size then Res.raise msgRange
      else if sym.st_name ≥ unfinishedSymstrPos then Res.raise msgUnfinished
      else if wantMap then do
        let symname ← cstringAt buf buf.length (symstrShdr.sh_offset + sym.st_name)
        pure (m ++ [(symname, i)])
      else pure m
    pure ⟨symTableHdr.sh_entsize, some symTableHdr.sh_offset, some symstrShdr.sh_offset,
      symbolsNum, if wantMap then mapSort map else map⟩

/-- `ElfBinaryTemplate<Types>::ElfBinaryTemplate(binaryCodeSize, binaryCode,
creationFlags)`, the buffer being the `binaryCodeSize` bytes at `binaryCode`. -/
def ElfBinaryTemplate (T : ElfTypes) (binaryCode : List Nat) (creationFlags : Nat) :
    Res ElfBinary := do
  let empty : ElfBinary :=
    ⟨creationFlags, binaryCode, none, none, none, none, none, 0, 0, 0, 0, [], [], []⟩
  if binaryCode.length < T.ehdrSize then Res.raise "Binary is too small!!!"
  else do
    let magic ← loadLE binaryCode 0 4
    if magic ≠ elfMagicValue then Res.raise "This is not ELF binary"
    else do
      let eiClass ← loadLE binaryCode 4 1
      if eiClass ≠ T.ELFCLASS then Res.raise ("This is not " ++ T.bitName ++ "bit ELF binary")
      else do
        let eiData ← loadLE binaryCode 5 1
        if eiData ≠ 1 then
          Res.raise "Other than little-endian binaries are not supported!"
        else do
          let ehdr ← readEhdr T binaryCode
          if ehdr.e_phoff = 0 ∧ ehdr.e_phnum ≠ 0 then
            Res.raise "Elf invalid phoff and phnum combination"
          else do
            if ehdr.e_phoff ≠ 0 then
              -- reading and checking program headers
              if ehdr.e_phoff > binaryCode.length then
                Res.raise "ProgramHeaders offset out of range!"
              else if usumGt (8 * T.wordSize) ehdr.e_phoff
                  ((ehdr.e_phentsize * ehdr.e_phnum) % 256 ^ T.wordSize) binaryCode.length then
                Res.raise "ProgramHeaders offset+size out of range!"
              else checkProgramHeaders T binaryCode ehdr
            if ehdr.e_shoff = 0 ∧ ehdr.e_shnum ≠ 0 then
              Res.raise "Elf invalid shoff and shnum combination"
            else if ehdr.e_shoff ≠ 0 ∧ ehdr.e_shstrndx ≠ SHN_UNDEF then
              -- indexing of sections
              if ehdr.e_shoff > binaryCode.length then
                Res.raise "SectionHeaders offset out of range!"
              else if usumGt (8 * T.wordSize) ehdr.e_shoff
                  ((ehdr.e_shentsize * ehdr.e_shnum) % 256 ^ T.wordSize) binaryCode.length then
                Res.raise "SectionHeaders offset+size out of range!"
              else if ehdr.e_shstrndx ≥ ehdr.e_shnum then Res.raise "Shstrndx out of range!"
              else do
                let shstrShdr ← getSectionHeader T binaryCode ehdr.e_shstrndx
                let unfinishedShstrPos ← unfinishedRegionOfStringTable
                  (binaryCode.drop shstrShdr.sh_offset) shstrShdr.sh_size
                let scan ← checkSectionHeaders T binaryCode creationFlags ehdr shstrShdr
                  unfinishedShstrPos
                let sectionIndexMap :=
                  if creationFlags &&& ELF_CREATE_SECTIONMAP ≠ 0 then mapSort scan.sectionIndexMap
                  else scan.sectionIndexMap
                let syms ← (match scan.symTableHdr with
                  | none => pure ⟨0, none, none, 0, []⟩
                  | some i => do
                    -- indexing symbols
                    let symTableHdr ← getSectionHeader T binaryCode i
                    indexSymbols T binaryCode (creationFlags &&& ELF_CREATE_SYMBOLMAP ≠ 0)
                      symTableHdr "SymTable entry size is too small!"
                      "Symbol table doesnt have string table"
                      "Symbol name index out of range!" "Unfinished symbol name!"
                  : Res SymbolIndex)
                let dynSyms ← (match scan.dynSymTableHdr with
                  | none => pure ⟨0, none, none, 0, []⟩
                  | some i => do
                    -- indexing dynamic symbols
                    let dynSymTableHdr ← getSectionHeader T binaryCode i
                    indexSymbols T binaryCode (creationFlags &&& ELF_CREATE_DYNSYMMAP ≠ 0)
                      dynSymTableHdr "DynSymTable entry size is too small!"
                      "DynSymbol table doesnt have string table"
                      "DynSymbol name index out of range!" "Unfinished dynsymbol name!"
                  : Res SymbolIndex)
                pure { empty with
                  sectionStringTable := some shstrShdr.sh_offset
                  symbolStringTable := syms.stringTable
                  symbolTable := syms.table
                  dynSymStringTable := dynSyms.stringTable
                  dynSymTable := dynSyms.table
                  symbolsNum := syms.symbolsNum
                  dynSymbolsNum := dynSyms.symbolsNum
                  symbolEntSize := syms.entSize
                  dynSymEntSize := dynSyms.entSize
                  sectionIndexMap := sectionIndexMap
                  symbolIndexMap := syms.indexMap
                  dynSymIndexMap := dynSyms.indexMap }
            else pure empty

/-! ## ELF writer: `ElfBinaryGenTemplate` -/

/-- Modelled from the spec: `ElfRegionType` of `CLRX/amdbin/ElfBinaries.h` (not
among the sources), the kinds of region of section 4.7. -/
inductive ElfRegionType where
  | PHDR_TABLE
  | SHDR_TABLE
  | SECTION
  | USER
deriving Repr, DecidableEq

/-- Modelled from the spec: the section part of `ElfRegionTemplate` of
`CLRX/amdbin/ElfBinaries.h` (not among the sources), with the fields
`generate` reads. -/
structure ElfSection where
  name : List Nat
  type : Nat
  flags : Nat
  link : Nat
  info : Nat
  addrBase : Nat
  entSize : Nat
deriving Repr, DecidableEq

/-- Modelled from the spec: `ElfRegionTemplate` of `CLRX/amdbin/ElfBinaries.h`
(not among the sources); `sect` is its member `section`.  `data` is `none` for a
null pointer; otherwise it is
the memory at the pointer when `dataFromPointer` is set, and the bytes the
content generator `dataGen` writes when it is not. -/
structure ElfRegion where
  type : ElfRegionType
  dataFromPointer : Bool
  size : Nat
  align : Nat
  data : Option (List Nat)
  sect : ElfSection
deriving Repr, DecidableEq

/-- Modelled from the spec: `ElfHeaderTemplate` of `CLRX/amdbin/ElfBinaries.h`
(not among the sources), the header fields of the writer description. -/
structure ElfHeader where
  paddrBase : Nat
  vaddrBase : Nat
  type : Nat
  machine : Nat
  version : Nat
  entryRegion : Nat
  entry : Nat
  flags : Nat
  osABI : Nat
  abiVersion : Nat
deriving Repr, DecidableEq

/-- Modelled from the spec: `ElfProgramHeaderTemplate` of
`CLRX/amdbin/ElfBinaries.h` (not among the sources). -/
structure ElfProgramHeader where
  type : Nat
  flags : Nat
  regionStart : Nat
  regionsNum : Nat
  haveMemSize : Bool
  paddrBase : Nat
  vaddrBase : Nat
  memSize : Nat
deriving Repr, DecidableEq

/-- Modelled from the spec: `ElfSymbolTemplate` of `CLRX/amdbin/ElfBinaries.h`
(not among the sources). -/
structure ElfSymbol where
  name : List Nat
  sectionIndex : Nat
  info : Nat
  other : Nat
  valueIsAddr : Bool
  value : Nat
  size : Nat
deriving Repr, DecidableEq

/-- The members of `ElfBinaryGenTemplate`: the description (header, regions,
program headers, symbols) and what `computeSize` works out. -/
structure ElfBinaryGen where
  header : ElfHeader
  regions : List ElfRegion
  progHeaders : List ElfProgramHeader
  symbols : List ElfSymbol
  dynSymbols : List ElfSymbol
  sizeComputed : Bool
  shStrTab : Nat
  strTab : Nat
  dynStr : Nat
  shdrTabRegion : Nat
  phdrTabRegion : Nat
  size : Nat
  sectionsNum : Nat
  regionOffsets : List Nat
  sectionRegions : List Nat
deriving Repr, DecidableEq

/-- The constructor of `ElfBinaryGenTemplate` followed by `addRegion`,
`addProgramHeader`, `addSymbol` and `addDynSymbol` calls for the lists. -/
def ElfBinaryGen.create (header : ElfHeader) (regions : List ElfRegion)
    (progHeaders : List ElfProgramHeader) (symbols dynSymbols : List ElfSymbol) :
    ElfBinaryGen :=
  ⟨header, regions, progHeaders, symbols, dynSymbols, false, 0, 0, 0, 0, 0, 0, 0, [], []⟩

/-- The sum of `strlen(name)+1` over the names. -/
def namesSize (names : List (List Nat)) : Nat :=
  (names.map fun n => n.length + 1).sum

/-- The names of the regions that are sections, in region order. -/
def sectionNames (regions : List ElfRegion) : List (List Nat) :=
  (regions.filter fun r => r.type = ElfRegionType.SECTION).map fun r => r.sect.name

/-- The running state of the loop over the regions in `computeSize`. -/
structure ComputeState where
  regions : List ElfRegion
  regionOffsets : List Nat
  sectionRegions : List Nat
  size : Nat
  shStrTab : Nat
  strTab : Nat
  dynStr : Nat
  shdrTabRegion : Nat
  phdrTabRegion : Nat
deriving Repr, DecidableEq

/-- The loop over the program headers in `computeSize` that checks the region
ranges. -/
def checkRegionRanges (regionsSize : Nat) : List ElfProgramHeader → Res Unit
  | [] => .ret ()
  | progHdr :: rest =>
    if progHdr.regionStart ≥ regionsSize then Res.raise "Region start out of range"
    else if progHdr.regionStart + progHdr.regionsNum > regionsSize then
      Res.raise "Region end out of range"
    else checkRegionRanges regionsSize rest

/-- The body of the loop over the regions in `computeSize`, for region `i`;
`allRegions` is the list as it stands when the body runs (the regions before
`i` already adjusted). -/
def computeRegion (T : ElfTypes) (gen : ElfBinaryGen) (sectionsNum : Nat) (i : Nat)
    (st : ComputeState) : Res ComputeState :=
  match st.regions[i]? with
  | none => .undefined
  | some region0 =>
    -- fix alignment
    let align :=
      if region0.align = 0 then
        if region0.type = ElfRegionType.PHDR_TABLE ∨ region0.type = ElfRegionType.SHDR_TABLE
        then T.wordSize else 1
      else region0.align
    let size0 := st.size
    let size1 :=
      if align ≠ 0 ∧ size0 &&& (align - 1) ≠ 0 then
        (size0 + (align - (size0 &&& (align - 1)))) % 2 ^ 64
      else size0
    let offset := size1 % 256 ^ T.wordSize
    let offsets := st.regionOffsets ++ [offset]
    let word (n : Nat) : Nat := n % 256 ^ T.wordSize
    let finish (region : ElfRegion) (size : Nat) (st1 : ComputeState) : ComputeState :=
      { st1 with regions := st.regions.set i region, regionOffsets := offsets, size := size }
    match region0.type with
    | .PHDR_TABLE =>
      let size2 := (size1 + gen.progHeaders.length * T.phdrSize) % 2 ^ 64
      let region := { region0 with align := align, size := word (size2 + 2 ^ 64 - offset) }
      match checkRegionRanges st.regions.length gen.progHeaders with
      | .throw m => .throw m
      | .undefined => .undefined
      | .timeout => .timeout
      | .ret _ => .ret (finish region size2 { st with phdrTabRegion := i })
    | .SHDR_TABLE =>
      let size2 := (size1 + sectionsNum * T.shdrSize) % 2 ^ 64
      let region := { region0 with align := align, size := word (size2 + 2 ^ 64 - offset) }
      .ret (finish region size2 { st with shdrTabRegion := i })
    | .USER =>
      let size2 := (size1 + region0.size) % 2 ^ 64
      .ret (finish { region0 with align := align } size2 st)
    | .SECTION =>
      -- if section
      if region0.sect.link ≥ sectionsNum then Res.raise "Section link out of range"
      else
        let sized : ElfRegion × Nat :=
          if region0.sect.type ≠ SHT_NOBITS ∧ region0.size ≠ 0 then
            ({ region0 with align := align }, (size1 + region0.size) % 2 ^ 64)
          else
            -- otherwise get default size for symtab, dynsym, strtab, dynstr
            let size2 :=
              if region0.sect.type = SHT_SYMTAB then
                (size1 + (gen.symbols.length + 1) * T.symSize) % 2 ^ 64
              else if region0.sect.type = SHT_DYNSYM then
                (size1 + (gen.dynSymbols.length + 1) * T.symSize) % 2 ^ 64
              else if region0.sect.type = SHT_STRTAB then
                if region0.sect.name = bytes ".strtab" then
                  (size1 + 1 + namesSize (gen.symbols.map fun s => s.name)) % 2 ^ 64
                else if region0.sect.name = bytes ".dynstr" then
                  (size1 + 1 + namesSize (gen.dynSymbols.map fun s => s.name)) % 2 ^ 64
                else if region0.sect.name = bytes ".shstrtab" then
                  (size1 + 1 + namesSize (sectionNames st.regions)) % 2 ^ 64
                else size1
              else size1
            ({ region0 with align := align, size := word (size2 + 2 ^ 64 - offset) }, size2)
        let sectionCount := st.sectionRegions.length
        let st1 :=
          if region0.sect.name = bytes ".strtab" then { st with strTab := sectionCount }
          else if region0.sect.name = bytes ".dynstr" then { st with dynStr := sectionCount }
          else if region0.sect.name = bytes ".shstrtab" then
            { st with shStrTab := sectionCount }
          else st
        .ret (finish sized.1 sized.2 { st1 with sectionRegions := st.sectionRegions ++ [i] })

/-- `ElfBinaryGenTemplate<Types>::computeSize()`. -/
def computeSize (T : ElfTypes) (gen : ElfBinaryGen) : Res ElfBinaryGen :=
  if gen.sizeComputed then .ret gen
  else
    -- verify data
    if gen.header.entryRegion ≠ UINT_MAX ∧ gen.header.entryRegion ≥ gen.regions.length then
      Res.raise "Header entry region out of range"
    else
      let sectionsNum :=
        1 + (gen.regions.filter fun r => r.type = ElfRegionType.SECTION).length
      if gen.symbols.any fun sym => decide (sym.sectionIndex ≥ sectionsNum) then
        Res.raise "Symbol section index out of range"
      else if gen.dynSymbols.any fun sym => decide (sym.sectionIndex ≥ sectionsNum) then
        Res.raise "DynSymbol section index out of range"
      else
        match foldRange gen.regions.length
            (⟨gen.regions, [], [UINT_MAX], T.ehdrSize, gen.shStrTab, gen.strTab, gen.dynStr,
              gen.shdrTabRegion, gen.phdrTabRegion⟩ : ComputeState)
            (computeRegion T gen sectionsNum) with
        | .ret st =>
          .ret { gen with
            regions := st.regions
            regionOffsets := st.regionOffsets
            sectionRegions := st.sectionRegions
            size := st.size
            sectionsNum := sectionsNum
            shStrTab := st.shStrTab
            strTab := st.strTab
            dynStr := st.dynStr
            shdrTabRegion := st.shdrTabRegion
            phdrTabRegion := st.phdrTabRegion
            sizeComputed := true }
        | .throw m => .throw m
        | .undefined => .undefined
        | .timeout => .timeout

/-- `ElfBinaryGenTemplate<Types>::countSize()`. -/
def countSize (T : ElfTypes) (gen : ElfBinaryGen) : Res (Nat × ElfBinaryGen) :=
  match computeSize T gen with
  | .ret gen1 => .ret (gen1.size, gen1)
  | .throw m => .throw m
  | .undefined => .undefined
  | .timeout => .timeout

/-- `fob.fill(n, 0)`. -/
def zeroFill (n : Nat) : List Nat := List.replicate n 0

/-- An element of one of the arrays of the generator; an index outside the array
is a read outside it. -/
def arrayAt {α : Type} (xs : List α) (i : Nat) : Res α :=
  match xs[i]? with
  | some x => .ret x
  | none => .undefined

/-- The statement `assert(cond)`: a failed assertion ends the run. -/
def assertThat (cond : Bool) : Res Unit :=
  if cond then .ret () else Res.raise "Assertion failed"

/-- The block of `generate` that writes the ELF header. -/
def generateEhdr (T : ElfTypes) (gen : ElfBinaryGen) : Res (List Nat) := do
  let W := T.wordSize
  let header := gen.header
  let ident : List Nat :=
    [0x7f, 69, 76, 70, T.ELFCLASS, 1, 1, header.osABI % 256, header.abiVersion % 256,
      0, 0, 0, 0, 0, 0, 0]
  let entry ← (if header.entryRegion ≠ UINT_MAX then do
      -- if have entry
      let offset ← arrayAt gen.regionOffsets header.entryRegion
      let region ← arrayAt gen.regions header.entryRegion
      if region.type = ElfRegionType.SECTION ∧ region.sect.addrBase ≠ 0 then
        pure (offset + header.entry + region.sect.addrBase)
      else pure (offset + header.entry + header.vaddrBase)
    else pure 0 : Res Nat)
  let phoff ← (if gen.progHeaders ≠ [] then arrayAt gen.regionOffsets gen.phdrTabRegion
    else pure 0 : Res Nat)
  let phentsize := if gen.progHeaders ≠ [] then T.phdrSize else 0
  let shoff ← arrayAt gen.regionOffsets gen.shdrTabRegion
  pure (ident ++ storeLE 2 header.type ++ storeLE 2 header.machine ++
    storeLE 4 header.version ++ storeLE W entry ++ storeLE W phoff ++ storeLE W shoff ++
    storeLE 4 header.flags ++ storeLE 2 T.ehdrSize ++ storeLE 2 phentsize ++
    storeLE 2 gen.progHeaders.length ++ storeLE 2 T.shdrSize ++ storeLE 2 gen.sectionsNum ++
    storeLE 2 gen.shStrTab)

/-- The bytes of one program header of the program headers table. -/
def generatePhdr (T : ElfTypes) (gen : ElfBinaryGen) (progHeader : ElfProgramHeader) :
    Res (List Nat) := do
  let W := T.wordSize
  let startOffset ← arrayAt gen.regionOffsets progHeader.regionStart
  let startRegion ← arrayAt gen.regions progHeader.regionStart
  let paddr :=
    if progHeader.paddrBase ≠ 0 then progHeader.paddrBase + startOffset
    else if gen.header.paddrBase ≠ 0 then gen.header.paddrBase + startOffset
    else 0
  let vaddr :=
    if progHeader.vaddrBase ≠ 0 then progHeader.vaddrBase + startOffset
    else if gen.header.vaddrBase ≠ 0 then gen.header.vaddrBase + startOffset
    else 0
  -- `regionStart + regionsNum - 1` wraps to `UINT_MAX` when both are 0: an index
  -- outside `regionOffsets`
  if progHeader.regionStart + progHeader.regionsNum = 0 then .undefined
  else do
    let last := progHeader.regionStart + progHeader.regionsNum - 1
    let lastOffset ← arrayAt gen.regionOffsets last
    let lastRegion ← arrayAt gen.regions last
    let phSize := (lastOffset + lastRegion.size + 256 ^ W - startOffset) % 256 ^ W
    let memsz :=
      if progHeader.haveMemSize then
        if progHeader.memSize ≠ 0 then progHeader.memSize else phSize
      else 0
    if W = 4 then
      pure (storeLE 4 progHeader.type ++ storeLE 4 startOffset ++ storeLE 4 vaddr ++
        storeLE 4 paddr ++ storeLE 4 phSize ++ storeLE 4 memsz ++ storeLE 4 progHeader.flags ++
        storeLE 4 startRegion.align)
    else
      pure (storeLE 4 progHeader.type ++ storeLE 4 progHeader.flags ++ storeLE 8 startOffset ++
        storeLE 8 vaddr ++ storeLE 8 paddr ++ storeLE 8 phSize ++ storeLE 8 memsz ++
        storeLE 8 startRegion.align)

/-- The loop over the program headers in `generate`. -/
def generatePhdrs (T : ElfTypes) (gen : ElfBinaryGen) : List ElfProgramHeader → Res (List Nat)
  | [] => .ret []
  | progHeader :: rest => do
    let first ← generatePhdr T gen progHeader
    let others ← generatePhdrs T gen rest
    pure (first ++ others)

/-- The loop over the regions that writes the section headers: `j` is the index
of the region, `nameOffset` the running offset into `.shstrtab`. -/
def generateShdrs (T : ElfTypes) (gen : ElfBinaryGen) :
    List ElfRegion → Nat → Nat → Res (List Nat)
  | [], _, _ => .ret []
  | region2 :: rest, j, nameOffset =>
    if region2.type = ElfRegionType.SECTION then do
      let W := T.wordSize
      let offset ← arrayAt gen.regionOffsets j
      let addr :=
        if region2.sect.addrBase ≠ 0 then region2.sect.addrBase + offset
        else if gen.header.vaddrBase ≠ 0 then gen.header.vaddrBase + offset
        else 0
      let link :=
        if region2.sect.link = 0 then
          if region2.sect.name = bytes ".symtab" then gen.strTab
          else if region2.sect.name = bytes ".dynsym" then gen.dynStr
          else region2.sect.link
        else region2.sect.link
      let entsize :=
        if region2.sect.type = SHT_SYMTAB ∨ region2.sect.type = SHT_DYNSYM then T.symSize
        else region2.sect.entSize
      let shdr := storeLE 4 nameOffset ++ storeLE 4 region2.sect.type ++
        storeLE W region2.sect.flags ++ storeLE W addr ++ storeLE W offset ++
        storeLE W region2.size ++ storeLE 4 link ++ storeLE 4 region2.sect.info ++
        storeLE W region2.align ++ storeLE W entsize
      let others ← generateShdrs T gen rest (j + 1)
        ((nameOffset + region2.sect.name.length + 1) % 4294967296)
      pure (shdr ++ others)
    else generateShdrs T gen rest (j + 1) nameOffset

/-- The loop over the symbols that writes a symbol table; `nameOffset` is the
running offset into the string table. -/
def generateSyms (T : ElfTypes) (gen : ElfBinaryGen) : List ElfSymbol → Nat → Res (List Nat)
  | [], _ => .ret []
  | inSym :: rest, nameOffset => do
    let value ← (if !inSym.valueIsAddr then pure inSym.value
      else do
        let regionIdx ← arrayAt gen.sectionRegions inSym.sectionIndex
        if inSym.sectionIndex ≠ 0 then do
          let region ← arrayAt gen.regions regionIdx
          let offset ← arrayAt gen.regionOffsets regionIdx
          if region.sect.addrBase ≠ 0 then pure (inSym.value + offset + region.sect.addrBase)
          else pure (inSym.value + offset + gen.header.vaddrBase)
        else do
          let offset ← arrayAt gen.regionOffsets regionIdx
          pure (inSym.value + offset + gen.header.vaddrBase) : Res Nat)
    let sym :=
      if T.wordSize = 4 then
        storeLE 4 nameOffset ++ storeLE 4 value ++ storeLE 4 inSym.size ++
          storeLE 1 inSym.info ++ storeLE 1 inSym.other ++ storeLE 2 inSym.sectionIndex
      else
        storeLE 4 nameOffset ++ storeLE 1 inSym.info ++ storeLE 1 inSym.other ++
          storeLE 2 inSym.sectionIndex ++ storeLE 8 value ++ storeLE 8 inSym.size
    let others ← generateSyms T gen rest ((nameOffset + inSym.name.length + 1) % 4294967296)
    pure (sym ++ others)

/-- `fob.write(strlen(name)+1, name)` for each name: the names with their NULs. -/
def writeNames (names : List (List Nat)) : List Nat :=
  (names.map fun n => n ++ [0]).flatten

/-- `fob.writeArray(region.size, region.data)` when the content comes from a
pointer, the call of the content generator when it does not. -/
def generateData (region : ElfRegion) : Res (List Nat) :=
  if region.dataFromPointer then
    match region.data with
    | none => if region.size = 0 then .ret [] else .undefined
    | some d => if region.size ≤ d.length then .ret (d.take region.size) else .undefined
  else
    match region.data with
    | none => .undefined
    | some d => .ret d

/-- The content `generate` writes for one region. -/
def generateRegion (T : ElfTypes) (gen : ElfBinaryGen) (region : ElfRegion) : Res (List Nat) :=
  match region.type with
  | .PHDR_TABLE =>
    -- write program headers
    generatePhdrs T gen gen.progHeaders
  | .SHDR_TABLE => do
    -- write section headers table
    let shdrs ← generateShdrs T gen gen.regions 0 1
    pure (zeroFill T.shdrSize ++ shdrs)
  | .USER => generateData region
  | .SECTION =>
    if region.data = none then
      if region.sect.type = SHT_SYMTAB ∨ region.sect.type = SHT_DYNSYM then do
        let symbolsList := if region.sect.type = SHT_SYMTAB then gen.symbols else gen.dynSymbols
        let syms ← generateSyms T gen symbolsList 1
        pure (zeroFill T.symSize ++ syms)
      else if region.sect.type = SHT_STRTAB then
        if region.sect.name = bytes ".strtab" then
          .ret (0 :: writeNames (gen.symbols.map fun s => s.name))
        else if region.sect.name = bytes ".dynstr" then
          .ret (0 :: writeNames (gen.dynSymbols.map fun s => s.name))
        else if region.sect.name = bytes ".shstrtab" then
          .ret (0 :: writeNames (sectionNames gen.regions))
        else .ret []
      else .ret []
    else if region.sect.type ≠ SHT_NOBITS then generateData region
    else .ret []

/-- The loop over the regions in `generate`: `out` is what has been written
since `startOffset`, `i` the index of the region. -/
def generateRegions (T : ElfTypes) (gen : ElfBinaryGen) :
    List ElfRegion → Nat → List Nat → Res (List Nat)
  | [], _, out => .ret out
  | region :: rest, i, out => do
    -- fix alignment
    let curOffset := out.length
    let toFill :=
      if region.align ≠ 0 ∧ curOffset &&& (region.align - 1) ≠ 0 then
        region.align - (curOffset &&& (region.align - 1))
      else 0
    let out1 := out ++ zeroFill toFill
    let offset ← arrayAt gen.regionOffsets i
    assertThat (decide (offset = out1.length))
    -- write content
    let content ← generateRegion T gen region
    generateRegions T gen rest (i + 1) (out1 ++ content)

/-- `ElfBinaryGenTemplate<Types>::generate(fob)`: the bytes written to `fob` from
`startOffset` on, and the generator after the call. -/
def generate (T : ElfTypes) (gen0 : ElfBinaryGen) : Res (List Nat × ElfBinaryGen) := do
  let gen ← computeSize T gen0
  -- write elf header
  let ehdr ← generateEhdr T gen
  -- write regions
  let out ← generateRegions T gen gen.regions 0 ehdr
  assertThat (decide (gen.size = out.length))
  pure (out, gen)

/-! ## What the reader reports -/

/-- Modelled from the spec: `getSectionHeadersNum()` of
`CLRX/amdbin/ElfBinaries.h` (not among the sources): `e_shnum`. -/
def getSectionHeadersNum (T : ElfTypes) (bin : ElfBinary) : Res Nat := do
  let ehdr ← readEhdr T bin.binaryCode
  pure ehdr.e_shnum

/-- Modelled from the spec: `getSectionName(index)` of
`CLRX/amdbin/ElfBinaries.h` (not among the sources): the C string at `sh_name`
in the section string table. -/
def getSectionName (T : ElfTypes) (bin : ElfBinary) (index : Nat) : Res (List Nat) := do
  let shdr ← getSectionHeader T bin.binaryCode index
  match bin.sectionStringTable with
  | none => .undefined
  | some table => cstringAt bin.binaryCode bin.binaryCode.length (table + shdr.sh_name)

/-- Modelled from the spec: `getSectionContent(index)` of
`CLRX/amdbin/ElfBinaries.h` (not among the sources): the `sh_size` bytes at
`sh_offset`. -/
def getSectionContent (T : ElfTypes) (bin : ElfBinary) (index : Nat) : Res (List Nat) := do
  let shdr ← getSectionHeader T bin.binaryCode index
  if shdr.sh_offset + shdr.sh_size ≤ bin.binaryCode.length then
    pure ((bin.binaryCode.drop shdr.sh_offset).take shdr.sh_size)
  else .undefined

/-- Modelled from the spec: `getSymbol(index)` of `CLRX/amdbin/ElfBinaries.h`
(not among the sources): the symbol at `symbolTable + index * symbolEntSize`. -/
def getSymbol (T : ElfTypes) (bin : ElfBinary) (index : Nat) : Res Sym :=
  match bin.symbolTable with
  | none => .undefined
  | some table => readSym T bin.binaryCode (table + index * bin.symbolEntSize)

/-- Modelled from the spec: `getSymbolName(index)` of
`CLRX/amdbin/ElfBinaries.h` (not among the sources): the C string at `st_name`
in the symbol string table. -/
def getSymbolName (T : ElfTypes) (bin : ElfBinary) (index : Nat) : Res (List Nat) := do
  let sym ← getSymbol T bin index
  match bin.symbolStringTable with
  | none => .undefined
  | some table => cstringAt bin.binaryCode bin.binaryCode.length (table + sym.st_name)

/-! ## A writer description with a `NOBITS` section -/

/-- A 32-bit description: the sections `.text` (four bytes from memory), `.bss`
(`NOBITS`, size 16), the automatically generated `.shstrtab`, `.strtab` and
`.symtab`, then the section headers table; one symbol `a` in `.text`. -/
def nobitsDescription : ElfBinaryGen :=
  ElfBinaryGen.create ⟨0, 0, 1, 0xe0, 1, UINT_MAX, 0, 0, 0, 0⟩
    [⟨.SECTION, true, 4, 1, some [1, 2, 3, 4], ⟨bytes ".text", 1, 6, 0, 0, 0, 0⟩⟩,
     ⟨.SECTION, true, 16, 1, some [], ⟨bytes ".bss", SHT_NOBITS, 3, 0, 0, 0, 0⟩⟩,
     ⟨.SECTION, true, 0, 1, none, ⟨bytes ".shstrtab", SHT_STRTAB, 0, 0, 0, 0, 0⟩⟩,
     ⟨.SECTION, true, 0, 1, none, ⟨bytes ".strtab", SHT_STRTAB, 0, 0, 0, 0, 0⟩⟩,
     ⟨.SECTION, true, 0, 1, none, ⟨bytes ".symtab", SHT_SYMTAB, 0, 0, 0, 0, 0⟩⟩,
     ⟨.SHDR_TABLE, true, 0, 0, none, ⟨[], 0, 0, 0, 0, 0, 0⟩⟩]
    [] [⟨bytes "a", 1, 0, 0, false, 2, 4⟩] []

/-- What the reader of class `T` reports for section `index` of the bytes that
`generate` emits for a description: name, type, size and content. -/
def roundTripSection (T : ElfTypes) (gen : ElfBinaryGen) (index : Nat) :
    Res (List Nat × Nat × Nat × List Nat) := do
  let (binaryCode, _) ← generate T gen
  let bin ← ElfBinaryTemplate T binaryCode 0
  let shdr ← getSectionHeader T bin.binaryCode index
  let name ← getSectionName T bin index
  let content ← (if shdr.sh_type = SHT_NOBITS then pure [] else getSectionContent T bin index
    : Res (List Nat))
  pure (name, shdr.sh_type, shdr.sh_size, content)

/-! ## Predicates of the statements about the ELF reader -/

/-- The header that a scan of the first `n` section headers leaves for the
section type `ty`: the last of them that has this type. -/
def LastOfType (T : ElfTypes) (buf : List Nat) (ty n : Nat) : Option Nat → Prop
  | none => ∀ i, i < n → ∀ shdr, getSectionHeader T buf i = .ret shdr → shdr.sh_type ≠ ty
  | some i => i < n ∧ (∃ shdr, getSectionHeader T buf i = .ret shdr ∧ shdr.sh_type = ty) ∧
      ∀ k, i < k → k < n → ∀ shdr, getSectionHeader T buf k = .ret shdr → shdr.sh_type ≠ ty

/-! ## Binaries for the statements about the ELF reader -/

/-- A buffer that holds only a 32-bit ELF header, with `e_shoff = 1000`,
`e_shentsize = 40`, `e_shnum = 1` and `e_shstrndx = SHN_UNDEF`. -/
def headerOnlyBinary : List Nat :=
  [0x7f, 69, 76, 70, 1, 1, 1] ++ zeroFill 9 ++ storeLE 2 1 ++ storeLE 2 0 ++ storeLE 4 1 ++
    storeLE 4 0 ++ storeLE 4 0 ++ storeLE 4 1000 ++ storeLE 4 0 ++ storeLE 2 52 ++
    storeLE 2 0 ++ storeLE 2 0 ++ storeLE 2 40 ++ storeLE 2 1 ++ storeLE 2 SHN_UNDEF

/-- The bytes `generate` emits for a description, and no bytes when it does not
return. -/
def generatedBytes (T : ElfTypes) (gen : ElfBinaryGen) : List Nat :=
  match generate T gen with
  | .ret (out, _) => out
  | _ => []

/-- Modelled from the spec: `getDynSymbol(index)` of `CLRX/amdbin/ElfBinaries.h`
(not among the sources): the symbol at `dynSymTable + index * dynSymEntSize`. -/
def getDynSymbol (T : ElfTypes) (bin : ElfBinary) (index : Nat) : Res Sym :=
  match bin.dynSymTable with
  | none => .undefined
  | some table => readSym T bin.binaryCode (table + index * bin.dynSymEntSize)

/-- A 32-bit description whose `.symtab` names section 1, the `PROGBITS` section
`.text` of four zero bytes, as its string table. -/
def symtabLinkedToText : ElfBinaryGen :=
  ElfBinaryGen.create ⟨0, 0, 1, 0xe0, 1, UINT_MAX, 0, 0, 0, 0⟩
    [⟨.SECTION, true, 4, 1, some [0, 0, 0, 0], ⟨bytes ".text", 1, 6, 0, 0, 0, 0⟩⟩,
     ⟨.SECTION, true, 0, 1, none, ⟨bytes ".shstrtab", SHT_STRTAB, 0, 0, 0, 0, 0⟩⟩,
     ⟨.SECTION, true, 0, 1, none, ⟨bytes ".strtab", SHT_STRTAB, 0, 0, 0, 0, 0⟩⟩,
     ⟨.SECTION, true, 0, 1, none, ⟨bytes ".symtab", SHT_SYMTAB, 0, 1, 0, 0, 0⟩⟩,
     ⟨.SHDR_TABLE, true, 0, 0, none, ⟨[], 0, 0, 0, 0, 0, 0⟩⟩]
    [] [⟨bytes "a", 1, 0, 0, false, 2, 4⟩] []

/-- For a buffer the reader of class `T` accepts: the number of symbols it has
indexed, and for the section `index` its type, its `sh_link` and the type of the
section that `sh_link` names. -/
def linkedSectionType (T : ElfTypes) (buf : List Nat) (index : Nat) :
    Res (Nat × Nat × Nat × Nat) := do
  let bin ← ElfBinaryTemplate T buf 0
  let shdr ← getSectionHeader T bin.binaryCode index
  let linked ← getSectionHeader T bin.binaryCode shdr.sh_link
  pure (bin.symbolsNum, shdr.sh_type, shdr.sh_link, linked.sh_type)

/-! ## The layout of the ELF writer without wrap-around -/

/-- The alignment `computeSize` gives a region: an alignment of 0 is replaced by
the word size for the two header tables and by 1 for the other regions. -/
def fixedAlign (T : ElfTypes) (region : ElfRegion) : Nat :=
  if region.align = 0 then
    if region.type = ElfRegionType.PHDR_TABLE ∨ region.type = ElfRegionType.SHDR_TABLE
    then T.wordSize else 1
  else region.align

/-- The offset that the alignment padding of `computeSize` and of `generate`
reaches from `size`, in unbounded arithmetic. -/
def alignedOffset (size align : Nat) : Nat :=
  if align ≠ 0 ∧ size &&& (align - 1) ≠ 0 then size + (align - (size &&& (align - 1)))
  else size

/-- The number of bytes `computeSize` counts for the content of a region of the
description `gen`, in unbounded arithmetic. -/
def contentSize (T : ElfTypes) (gen : ElfBinaryGen) (region : ElfRegion) : Nat :=
  match region.type with
  | .PHDR_TABLE => gen.progHeaders.length * T.phdrSize
  | .SHDR_TABLE => (1 + (sectionNames gen.regions).length) * T.shdrSize
  | .USER => region.size
  | .SECTION =>
    if region.sect.type ≠ SHT_NOBITS ∧ region.size ≠ 0 then region.size
    else if region.sect.type = SHT_SYMTAB then (gen.symbols.length + 1) * T.symSize
    else if region.sect.type = SHT_DYNSYM then (gen.dynSymbols.length + 1) * T.symSize
    else if region.sect.type = SHT_STRTAB then
      if region.sect.name = bytes ".strtab" then
        1 + namesSize (gen.symbols.map fun s => s.name)
      else if region.sect.name = bytes ".dynstr" then
        1 + namesSize (gen.dynSymbols.map fun s => s.name)
      else if region.sect.name = bytes ".shstrtab" then 1 + namesSize (sectionNames gen.regions)
      else 0
    else 0

/-- The region as `computeSize` leaves it when nothing wraps around: with its
alignment fixed and the counted size. -/
def adjustedRegion (T : ElfTypes) (gen : ElfBinaryGen) (region : ElfRegion) : ElfRegion :=
  { region with align := fixedAlign T region, size := contentSize T gen region }

/-- The end of the last of the regions `rs` laid out from `size` on, in
unbounded arithmetic: each region starts at the aligned offset after the end of
the region before it. -/
def plainSize (T : ElfTypes) (gen : ElfBinaryGen) : List ElfRegion → Nat → Nat
  | [], size => size
  | region :: rest, size =>
    plainSize T gen rest (alignedOffset size (fixedAlign T region) + contentSize T gen region)

/-- The offsets of the regions `rs` laid out from `size` on, in unbounded
arithmetic. -/
def plainOffsets (T : ElfTypes) (gen : ElfBinaryGen) : List ElfRegion → Nat → List Nat
  | [], _ => []
  | region :: rest, size =>
    alignedOffset size (fixedAlign T region) ::
      plainOffsets T gen rest (alignedOffset size (fixedAlign T region) + contentSize T gen region)

/-! ## Writer descriptions for the statements about the ELF writer -/

/-- A 32-bit description of three regions supplied from memory: no bytes aligned
to `2^31`, one byte, and again no bytes aligned to `2^31`. -/
def wrappingDescription : ElfBinaryGen :=
  ElfBinaryGen.create ⟨0, 0, 1, 0xe0, 1, UINT_MAX, 0, 0, 0, 0⟩
    [⟨.USER, true, 0, 2147483648, some [], ⟨[], 0, 0, 0, 0, 0, 0⟩⟩,
     ⟨.USER, true, 1, 1, some [0], ⟨[], 0, 0, 0, 0, 0, 0⟩⟩,
     ⟨.USER, true, 0, 2147483648, some [], ⟨[], 0, 0, 0, 0, 0, 0⟩⟩]
    [] [] []

/-- The offsets `computeSize` assigns to the regions of a description. -/
def assignedOffsets (T : ElfTypes) (gen : ElfBinaryGen) : Res (List Nat) :=
  (computeSize T gen).andThen fun gen1 => .ret gen1.regionOffsets

/-- The generator as `computeSize` leaves it, and the description itself when
`computeSize` does not return. -/
def computedLayout (T : ElfTypes) (gen : ElfBinaryGen) : ElfBinaryGen :=
  match computeSize T gen with
  | .ret gen1 => gen1
  | _ => gen

/-- Whether a run returned normally. -/
def Res.isRet {α : Type} : Res α → Bool
  | .ret _ => true
  | _ => false

/-- A 32-bit description with a program headers table and one program header
that covers no region: `regionStart = 0`, `regionsNum = 0`. -/
def emptyRangeDescription : ElfBinaryGen :=
  ElfBinaryGen.create ⟨0, 0, 1, 0xe0, 1, UINT_MAX, 0, 0, 0, 0⟩
    [⟨.PHDR_TABLE, true, 0, 0, none, ⟨[], 0, 0, 0, 0, 0, 0⟩⟩,
     ⟨.SHDR_TABLE, true, 0, 0, none, ⟨[], 0, 0, 0, 0, 0, 0⟩⟩]
    [⟨1, 0, 0, 0, false, 0, 0, 0⟩] [] []

/-- A 32-bit description with an automatically generated `.symtab` and one
symbol of section 0 whose value is an address. -/
def undefinedSectionSymbol : ElfBinaryGen :=
  ElfBinaryGen.create ⟨0, 0, 1, 0xe0, 1, UINT_MAX, 0, 0, 0, 0⟩
    [⟨.SECTION, true, 0, 1, none, ⟨bytes ".shstrtab", SHT_STRTAB, 0, 0, 0, 0, 0⟩⟩,
     ⟨.SECTION, true, 0, 1, none, ⟨bytes ".strtab", SHT_STRTAB, 0, 0, 0, 0, 0⟩⟩,
     ⟨.SECTION, true, 0, 1, none, ⟨bytes ".symtab", SHT_SYMTAB, 0, 0, 0, 0, 0⟩⟩,
     ⟨.SHDR_TABLE, true, 0, 0, none, ⟨[], 0, 0, 0, 0, 0, 0⟩⟩]
    [] [⟨bytes "a", 0, 0, 0, true, 0, 0⟩] []

/-- A 32-bit description without any region. -/
def noRegionDescription : ElfBinaryGen :=
  ElfBinaryGen.create ⟨0, 0, 1, 0xe0, 1, UINT_MAX, 0, 0, 0, 0⟩ [] [] [] []

/-- The content of a region of the description `gen` is supplied from memory or
generated automatically: a user region and a section with data hold in memory
the bytes `computeSize` counts for them, and a section without data is declared
with size 0 or is a `NOBITS` section. -/
def ContentSupplied (T : ElfTypes) (gen : ElfBinaryGen) (region : ElfRegion) : Prop :=
  match region.type with
  | .PHDR_TABLE => True
  | .SHDR_TABLE => True
  | .USER =>
    region.dataFromPointer = true ∧
      match region.data with
      | none => region.size = 0
      | some d => region.size ≤ d.length
  | .SECTION =>
    match region.data with
    | none => region.size = 0 ∨ region.sect.type = SHT_NOBITS
    | some d => region.sect.type = SHT_NOBITS ∨
        (region.dataFromPointer = true ∧ contentSize T gen region ≤ d.length)


/-- A 32-bit description whose only region is an automatically generated
`.symtab` declared with the size 8; there is no symbol. -/
def declaredSymtabSize : ElfBinaryGen :=
  ElfBinaryGen.create ⟨0, 0, 1, 0xe0, 1, UINT_MAX, 0, 0, 0, 0⟩
    [⟨.SECTION, true, 8, 1, none, ⟨bytes ".symtab", SHT_SYMTAB, 0, 0, 0, 0, 0⟩⟩]
    [] [] []


/-! ## Gallium container reader: `GalliumElfBinary` and `GalliumBinary` -/

/-- What the sources use of `CLRX/amdbin/GalliumBinaries.h` and of
`CLRX/utils/Utilities.h` (not among the sources): `GalliumArgType::MAX_VALUE`,
`GalliumArgSemantic::MAX_VALUE`, `GalliumSectionType::MAX_VALUE`,
`GalliumSectionType::TEXT`, `GALLIUM_INNER_SHIFT`, the creation flags that
`hasKernelMap()` and `hasProgInfoMap()` test, and `binaryMapFind` with
`CStringLess`, which gives the value of an entry of the sorted map. -/
structure GalliumHeader where
  argTypeMax : Nat
  argSemanticMax : Nat
  sectionTypeMax : Nat
  sectionTypeText : Nat
  innerShift : Nat
  kernelMapFlag : Nat
  progInfoMapFlag : Nat
  binaryMapFind : List (List Nat × Nat) → List Nat → Option Nat

/-- The constant `UINT32_MAX`. -/
def UINT32_MAX : Nat := 4294967295

/-- A block `try { x } catch(const Exception& ex) { }` around an assignment: a
thrown exception leaves the value `dflt` that the variable had. -/
def Res.catchDefault {α : Type} (x : Res α) (dflt : α) : Res α :=
  match x with
  | .throw _ => .ret dflt
  | r => r

/-- The `n` bytes at offset `off` of the buffer; bytes outside the buffer are a
read outside it. -/
def bytesAt (buf : List Nat) (off n : Nat) : Res (List Nat) :=
  if off + n ≤ buf.length then .ret ((buf.drop off).take n) else .undefined

/-- The call `map.insert(std::make_pair(key, value))` of a `std::map`: a key that
is present keeps its value. -/
def mapInsert (m : List (List Nat × Nat)) (key : List Nat) (value : Nat) :
    List (List Nat × Nat) :=
  if m.any (fun e => e.1 = key) then m else m ++ [(key, value)]

/-- The loop of `getSectionIndex` over the sections from `shnum - k` on. -/
def getSectionIndexLoop (T : ElfTypes) (bin : ElfBinary) (name : String) (shnum : Nat) :
    Nat → Res Nat
  | 0 => Res.raise ("Can't find Elf" ++ T.bitName ++ " Section")
  | k+1 => do
    let sectionName ← getSectionName T bin (shnum - (k + 1))
    if strcmp sectionName (bytes name) = 0 then pure ((shnum - (k + 1)) % 65536)
    else getSectionIndexLoop T bin name shnum k

/-- `ElfBinaryTemplate<Types>::getSectionIndex(name)`; `hasSectionMap()` tests
the creation flag `ELF_CREATE_SECTIONMAP`. -/
def getSectionIndex (G : GalliumHeader) (T : ElfTypes) (bin : ElfBinary) (name : String) :
    Res Nat :=
  if bin.creationFlags &&& ELF_CREATE_SECTIONMAP ≠ 0 then
    match G.binaryMapFind bin.sectionIndexMap (bytes name) with
    | none => Res.raise ("Can't find Elf" ++ T.bitName ++ " Section")
    | some index => pure (index % 65536)
  else do
    let shnum ← getSectionHeadersNum T bin
    getSectionIndexLoop T bin name shnum shnum

/-- Modelled from the spec: `getSymbolsNum()` of `CLRX/amdbin/ElfBinaries.h`
(not among the sources): the number of symbols the constructor has counted. -/
def getSymbolsNum (bin : ElfBinary) : Nat := bin.symbolsNum

/-- What the constructor of `GalliumElfBinary` leaves in the object. -/
structure GalliumElfBinaryObject where
  elf : ElfBinary
  progInfosNum : Nat
  progInfoEntries : Option Nat
  disasmSize : Nat
  disasmOffset : Nat
  progInfoEntryMap : List (List Nat × Nat)
deriving Repr, DecidableEq

/-- The body of the loop over the symbols in the constructor of
`GalliumElfBinary`; the state is `progInfosNum` and `progInfoEntryMap`. -/
def countProgInfo (elf : ElfBinary) (wantMap : Bool) (textIndex textSize : Nat) (i : Nat)
    (st : Nat × List (List Nat × Nat)) : Res (Nat × List (List Nat × Nat)) := do
  let sym ← getSymbol Elf32Types elf i
  let symName ← getSymbolName Elf32Types elf i
  if symName ≠ [] ∧ strcmp symName (bytes "EndOfTextLabel") ≠ 0 ∧ sym.st_shndx = textIndex then
    if sym.st_value ≥ textSize then Res.raise "kernel symbol offset out of range"
    else pure (st.1 + 1, if wantMap then mapInsert st.2 symName (3 * st.1) else st.2)
  else pure st

/-- `GalliumElfBinary::GalliumElfBinary(binaryCodeSize, binaryCode,
creationFlags)`. -/
def GalliumElfBinary (G : GalliumHeader) (binaryCode : List Nat) (creationFlags : Nat) :
    Res GalliumElfBinaryObject := do
  let elf ← ElfBinaryTemplate Elf32Types binaryCode creationFlags
  let amdGpuConfigIndex ←
    (getSectionIndex G Elf32Types elf ".AMDGPU.config").catchDefault SHN_UNDEF
  let amdGpuDisasmIndex ←
    (getSectionIndex G Elf32Types elf ".AMDGPU.disasm").catchDefault SHN_UNDEF
  let disasm ← (if amdGpuDisasmIndex ≠ SHN_UNDEF then do
      let shdr ← getSectionHeader Elf32Types binaryCode amdGpuDisasmIndex
      pure (shdr.sh_offset, shdr.sh_size)
    else pure (0, 0) : Res (Nat × Nat))
  let text ← Res.catchDefault (do
      let textIndex ← getSectionIndex G Elf32Types elf ".text"
      let shdr ← getSectionHeader Elf32Types binaryCode textIndex
      pure (textIndex, shdr.sh_size)) (SHN_UNDEF, 0)
  if amdGpuConfigIndex = SHN_UNDEF ∨ text.1 = SHN_UNDEF then
    pure ⟨elf, 0, none, disasm.2, disasm.1, []⟩
  else do
    -- create amdGPU config systems
    let shdr ← getSectionHeader Elf32Types binaryCode amdGpuConfigIndex
    if shdr.sh_size % 24 ≠ 0 then Res.raise "Wrong size of .AMDGPU.config section!"
    else do
      -- check symbols
      let infos ← foldRange (getSymbolsNum elf) (0, [])
        (countProgInfo elf (creationFlags &&& G.progInfoMapFlag ≠ 0) text.1 text.2)
      if (infos.1 * 24) % 2 ^ 32 ≠ shdr.sh_size then
        Res.raise "Number of symbol kernels doesn't match progInfos number!"
      else pure ⟨elf, infos.1, some shdr.sh_offset, disasm.2, disasm.1, infos.2⟩

/-- Modelled from the spec: `GalliumArgInfo` of `CLRX/amdbin/GalliumBinaries.h`
(not among the sources), the six fields of an argument record of section 4.7. -/
structure GalliumArgInfo where
  type : Nat
  size : Nat
  targetSize : Nat
  targetAlign : Nat
  signExtended : Bool
  semantic : Nat
deriving Repr, DecidableEq

/-- Modelled from the spec: `GalliumKernel` of `CLRX/amdbin/GalliumBinaries.h`
(not among the sources), with the members the constructor sets. -/
structure GalliumKernel where
  kernelName : List Nat
  sectionId : Nat
  offset : Nat
  argInfos : List GalliumArgInfo
deriving Repr, DecidableEq

/-- Modelled from the spec: `GalliumSection` of `CLRX/amdbin/GalliumBinaries.h`
(not among the sources), with the members the constructor sets. -/
structure GalliumSection where
  sectionId : Nat
  type : Nat
  offset : Nat
  size : Nat
deriving Repr, DecidableEq

/-- What the constructor of `GalliumBinary` leaves in the object. -/
structure GalliumBinaryObject where
  creationFlags : Nat
  binaryCode : List Nat
  kernels : List GalliumKernel
  sections : List GalliumSection
  kernelIndexMap : List (List Nat × Nat)
  elfBinary : GalliumElfBinaryObject
deriving Repr, DecidableEq

/-- The loop over the `argsNum` argument records of a kernel, read from
`data32` on. -/
def parseArgInfos (G : GalliumHeader) (binaryCode : List Nat) : Nat → Nat →
    Res (List GalliumArgInfo)
  | 0, _ => pure []
  | n+1, data32 => do
    let type ← loadLE binaryCode data32 4
    if type > G.argTypeMax then Res.raise "Wrong type of kernel argument"
    else do
      let size ← loadLE binaryCode (data32 + 4) 4
      let targetSize ← loadLE binaryCode (data32 + 8) 4
      let targetAlign ← loadLE binaryCode (data32 + 12) 4
      let signExtended ← loadLE binaryCode (data32 + 16) 4
      let semType ← loadLE binaryCode (data32 + 20) 4
      if type > G.argSemanticMax then Res.raise "Wrong semantic of kernel argument"
      else do
        let rest ← parseArgInfos G binaryCode n (data32 + 24)
        pure (⟨type, size, targetSize, targetAlign, signExtended ≠ 0, semType⟩ :: rest)

/-- The state of the loop over the kernels: the pointers `data32` and `data` as
offsets into the binary, the kernels parsed so far and the map of their names. -/
structure KernelScan where
  data32 : Nat
  data : Nat
  kernels : List GalliumKernel
  kernelIndexMap : List (List Nat × Nat)
deriving Repr, DecidableEq

/-- The body of the loop over the kernels in the constructor of `GalliumBinary`,
for the kernel `i`. -/
def parseKernel (G : GalliumHeader) (binaryCode : List Nat) (creationFlags : Nat) (i : Nat)
    (st : KernelScan) : Res KernelScan := do
  if usumGt 32 (st.data % 2 ^ 32) 4 binaryCode.length then
    Res.raise "GalliumBinary is too small!!!"
  else do
    let symNameLen ← loadLE binaryCode st.data 4
    if usumGt 32 ((st.data + 4) % 2 ^ 32) symNameLen binaryCode.length then
      Res.raise "Kernel name length is too long!"
    else do
      let kernelName ← bytesAt binaryCode (st.data + 4) symNameLen
      let kernelIndexMap :=
        if creationFlags &&& G.kernelMapFlag ≠ 0 then mapInsert st.kernelIndexMap kernelName i
        else st.kernelIndexMap
      -- check kernel name order (sorted order is required by Mesa3D radeon driver)
      let unsorted ← (if i ≠ 0 then do
          let previous ← arrayAt st.kernels (i - 1)
          pure (decide (kernelName ≤ previous.kernelName))
        else pure false : Res Bool)
      if unsorted then Res.raise "Unsorted kernel table!"
      else
        let data := st.data + 4 + symNameLen
        if usumGt 32 (data % 2 ^ 32) 12 binaryCode.length then
          Res.raise "GalliumBinary is too small!!!"
        else do
          let sectionId ← loadLE binaryCode data 4
          let offset ← loadLE binaryCode (data + 4) 4
          let argsNum ← loadLE binaryCode (data + 8) 4
          if UINT32_MAX / 24 < argsNum then
            Res.raise "Number of arguments number is too high!"
          else if usumGt 32 ((data + 12) % 2 ^ 32) ((24 * argsNum) % 2 ^ 32)
              binaryCode.length then
            Res.raise "GalliumBinary is too small!!!"
          else do
            let argInfos ← parseArgInfos G binaryCode argsNum (data + 12)
            pure ⟨data + 12 + 24 * argsNum, data + 12 + 24 * argsNum,
              st.kernels ++ [⟨kernelName, sectionId, offset, argInfos⟩], kernelIndexMap⟩

/-- The state of the loop over the sections: the pointers `data32` and `data` as
offsets into the binary, the sections parsed so far, and `elfSectionId` with
`elfBinary`, which are assigned together; `none` is the `elfBinary` that the
default constructor leaves, for which `!elfBinary` holds. -/
structure SectionsScan where
  data32 : Nat
  data : Nat
  sections : List GalliumSection
  elfBinary : Option (Nat × GalliumElfBinaryObject)
deriving Repr, DecidableEq

/-- The body of the loop over the sections in the constructor of
`GalliumBinary`. -/
def parseSection (G : GalliumHeader) (binaryCode : List Nat) (creationFlags : Nat) (_i : Nat)
    (st : SectionsScan) : Res SectionsScan := do
  if usumGt 32 (st.data % 2 ^ 32) 20 binaryCode.length then
    Res.raise "GalliumBinary is too small!!!"
  else do
    let sectionId ← loadLE binaryCode st.data32 4
    let secType ← loadLE binaryCode (st.data32 + 4) 4
    if secType > G.sectionTypeMax then Res.raise "Wrong type of section"
    else do
      let size ← loadLE binaryCode (st.data32 + 8) 4
      let sizeOfData ← loadLE binaryCode (st.data32 + 12) 4
      let sizeFromHeader ← loadLE binaryCode (st.data32 + 16) 4 -- from LLVM binary
      if size ≠ (sizeOfData + 2 ^ 32 - 4) % 2 ^ 32 ∨ size ≠ sizeFromHeader then
        Res.raise "Section size fields doesn't match itself!"
      else
        let data := st.data32 + 20
        if usumGt 32 (data % 2 ^ 32) size binaryCode.length then
          Res.raise "Section size is too big!!!"
        else do
          let elfBinary ← (match st.elfBinary with
            | none =>
              if secType = G.sectionTypeText then do
                let content ← bytesAt binaryCode data size
                let elf ← GalliumElfBinary G content (creationFlags >>> G.innerShift)
                pure (some (sectionId, elf))
              else pure none
            | some found => pure (some found)
            : Res (Option (Nat × GalliumElfBinaryObject)))
          pure ⟨data + size, data + size, st.sections ++ [⟨sectionId, secType, data, size⟩],
            elfBinary⟩

/-- The loop `for (const GalliumKernel& kernel: kernels)` that compares the
section of every kernel with `elfSectionId`. -/
def checkKernelSections (elfSectionId : Nat) : List GalliumKernel → Res Unit
  | [] => pure ()
  | kernel :: rest =>
    if kernel.sectionId ≠ elfSectionId then Res.raise "Kernel not in text section!"
    else checkKernelSections elfSectionId rest

/-- The inner loop `for (; symIndex < symsNum; symIndex++)` for one kernel: the
value of `symIndex` when the loop is left.  `fuel` bounds the iterations. -/
def findKernelSymbol (elf : ElfBinary) (textIndex symsNum : Nat) (kernel : GalliumKernel) :
    Nat → Nat → Res Nat
  | 0, symIndex => if symIndex < symsNum then .timeout else pure symIndex
  | fuel+1, symIndex =>
    if symIndex < symsNum then do
      let sym ← getSymbol Elf32Types elf symIndex
      let symName ← getSymbolName Elf32Types elf symIndex
      if symName ≠ [] ∧ strcmp symName (bytes "EndOfTextLabel") ≠ 0 ∧
          sym.st_shndx = textIndex then
        if kernel.kernelName ≠ symName then Res.raise "Kernel symbols out of order!"
        else if sym.st_value ≠ kernel.offset then
          Res.raise "Kernel symbol value and Kernel offset doesn't match"
        else pure symIndex
      else findKernelSymbol elf textIndex symsNum kernel fuel (symIndex + 1)
    else pure symIndex

/-- The loop over the kernels that verifies the kernel offsets, from `symIndex`
on. -/
def verifyKernels (elf : ElfBinary) (textIndex symsNum : Nat) :
    List GalliumKernel → Nat → Res Unit
  | [], _ => pure ()
  | kernel :: rest, symIndex => do
    let found ← findKernelSymbol elf textIndex symsNum kernel (symsNum - symIndex) symIndex
    if found ≥ symsNum then
      Res.raise "Number of kernels in ElfBinary and MainBinary doesn't match"
    else verifyKernels elf textIndex symsNum rest (found + 1)

/-- `GalliumBinary::GalliumBinary(binaryCodeSize, binaryCode, creationFlags)`. -/
def GalliumBinary (G : GalliumHeader) (binaryCode : List Nat) (creationFlags : Nat) :
    Res GalliumBinaryObject := do
  if binaryCode.length < 4 then Res.raise "GalliumBinary is too small!!!"
  else do
    let kernelsNum ← loadLE binaryCode 0 4
    if binaryCode.length < kernelsNum * 16 then Res.raise "Kernels number is too big!"
    else do
      -- parse kernels symbol info and their arguments
      let ks ← foldRange kernelsNum ⟨0, 4, [], []⟩ (parseKernel G binaryCode creationFlags)
      if usumGt 32 (ks.data % 2 ^ 32) 4 binaryCode.length then
        Res.raise "GalliumBinary is too small!!!"
      else do
        let sectionsNum ← loadLE binaryCode ks.data32 4
        if (binaryCode.length + 2 ^ 64 - ks.data) % 2 ^ 64 < sectionsNum * 20 then
          Res.raise "Sections number is too big!"
        else do
          -- parse sections and their content
          let ss ← foldRange sectionsNum ⟨ks.data32 + 4, ks.data + 4, [], none⟩
            (parseSection G binaryCode creationFlags)
          match ss.elfBinary with
          | none => Res.raise "Gallium Elf binary not found!"
          | some (elfSectionId, elfBinary) => do
            checkKernelSections elfSectionId ks.kernels
            -- verify kernel offsets
            let symsNum := getSymbolsNum elfBinary.elf
            let textIndex ← getSectionIndex G Elf32Types elfBinary.elf ".text"
            verifyKernels elfBinary.elf textIndex symsNum ks.kernels 0
            pure ⟨creationFlags, binaryCode, ks.kernels, ss.sections, ks.kernelIndexMap,
              elfBinary⟩

/-! ## Gallium containers for the statements about the reader -/

/-- Modelled from the spec: values for `GalliumHeader`.  The section type `TEXT`
is 0, the type that `GalliumBinGenerator::generate` writes for the section with
the ELF; no creation flag is set in the statements that use these values, and
`binaryMapFind` gives the value of the first entry with the name. -/
def galliumHeader : GalliumHeader :=
  ⟨8, 2, 4, 0, 16, 16, 16, fun m name => (m.find? fun e => e.1 = name).map fun e => e.2⟩

/-- The bytes of a section record of the container: id, type, the three size
fields and the content. -/
def sectionRecord (sectionId type : Nat) (content : List Nat) : List Nat :=
  storeLE 4 sectionId ++ storeLE 4 type ++ storeLE 4 content.length ++
    storeLE 4 (content.length + 4) ++ storeLE 4 content.length ++ content

/-- The bytes of the record of a kernel without arguments. -/
def kernelRecord (name : List Nat) (sectionId offset : Nat) : List Nat :=
  storeLE 4 name.length ++ name ++ storeLE 4 sectionId ++ storeLE 4 offset ++ storeLE 4 0

/-- A container with the kernel `a` at offset 2 of section 0, and the section 0
of type `TEXT` with the ELF that `generate` writes for `nobitsDescription`, whose
symbol `a` has the value 2 in `.text`. -/
def oneKernelContainer : List Nat :=
  storeLE 4 1 ++ kernelRecord (bytes "a") 0 2 ++ storeLE 4 1 ++
    sectionRecord 0 0 (generatedBytes Elf32Types nobitsDescription)

/-- The container `oneKernelContainer` with a second section of type `TEXT`,
with the id 1 and no content. -/
def twoTextContainer : List Nat :=
  storeLE 4 1 ++ kernelRecord (bytes "a") 0 2 ++ storeLE 4 2 ++
    sectionRecord 0 0 (generatedBytes Elf32Types nobitsDescription) ++ sectionRecord 1 0 []

/-- A container with no kernel and one section of type `TEXT` with the ELF that
`generate` writes for `nobitsDescription`. -/
def zeroKernelContainer : List Nat :=
  storeLE 4 0 ++ storeLE 4 1 ++
    sectionRecord 0 0 (generatedBytes Elf32Types nobitsDescription)

/-- The object the constructor of `GalliumBinary` returns for a container, and
an empty object when it does not return. -/
def acceptedContainer (G : GalliumHeader) (binaryCode : List Nat) (creationFlags : Nat) :
    GalliumBinaryObject :=
  match GalliumBinary G binaryCode creationFlags with
  | .ret bin => bin
  | _ => ⟨0, [], [], [], [], ⟨⟨0, [], none, none, none, none, none, 0, 0, 0, 0, [], [], []⟩,
      0, none, 0, 0, []⟩⟩

/-- The symbols of the inner ELF that lie in the section `textIndex`, among the
first `n` symbols in the order of the symbol table, without the unnamed symbols
and `EndOfTextLabel`: their names and values. -/
def textSymbols (elf : ElfBinary) (textIndex : Nat) : Nat → Res (List (List Nat × Nat))
  | 0 => pure []
  | n+1 => do
    let before ← textSymbols elf textIndex n
    let sym ← getSymbol Elf32Types elf n
    let symName ← getSymbolName Elf32Types elf n
    if symName ≠ [] ∧ symName ≠ bytes "EndOfTextLabel" ∧ sym.st_shndx = textIndex then
      pure (before ++ [(symName, sym.st_value)])
    else pure before


/-- What the loop over the sections has found: nothing as long as no section has
the type `TEXT`, and otherwise the id of the first section of that type and the
`GalliumElfBinary` made of its content. -/
def FirstText (G : GalliumHeader) (buf : List Nat) (flags : Nat)
    (sections : List GalliumSection) : Option (Nat × GalliumElfBinaryObject) → Prop
  | none => ∀ s ∈ sections, s.type ≠ G.sectionTypeText
  | some found => ∃ (j : Nat) (s : GalliumSection), sections[j]? = some s ∧
      s.type = G.sectionTypeText ∧
      (∀ (k : Nat) (s1 : GalliumSection), k < j → sections[k]? = some s1 →
        s1.type ≠ G.sectionTypeText) ∧
      s.sectionId = found.1 ∧ ∃ content, bytesAt buf s.offset s.size = .ret content ∧
        GalliumElfBinary G content (flags >>> G.innerShift) = .ret found.2


/-! ## ROCm metadata: MsgPack integers -/

/-- The constants `MSGPACK_WS_UNSIGNED`, `MSGPACK_WS_SIGNED` and
`MSGPACK_WS_BOTH` of `CLRX/amdbin/ROCmBinaries.h` (not among the sources). -/
structure MsgPackSigness where
  MSGPACK_WS_UNSIGNED : Nat
  MSGPACK_WS_SIGNED : Nat
  MSGPACK_WS_BOTH : Nat

/-- The loops `for (cxint i = 8*(n-1); i >= 0; i-=8) v |= uintN_t(*dataPtr++)<<i`
of `parseMsgPackInteger` over `n` bytes. -/
def parseMsgPackBytes (data : List Nat) : Nat → Nat → Nat → Res Nat
  | 0, _, v => pure v
  | n+1, dataPtr, v => do
    let byte ← arrayAt data dataPtr
    parseMsgPackBytes data n (dataPtr + 1) (v ||| (byte <<< (8 * n)))

/-- `parseMsgPackInteger(dataPtr, dataEnd, signess)` on the bytes `data`, with
`dataEnd` at their end: the value, and `dataPtr` after the call. -/
def parseMsgPackInteger (W : MsgPackSigness) (data : List Nat) (dataPtr : Nat)
    (signess : Nat) : Res (Nat × Nat) :=
  if dataPtr ≥ data.length then Res.raise "MsgPack: Can't parse integer value"
  else do
    let first ← arrayAt data dataPtr
    if first < 0x80 then pure (first, dataPtr + 1)
    else if first ≥ 0xe0 then
      let v := (2 ^ 64 - 32) + (first &&& 0x1f)
      if signess = W.MSGPACK_WS_UNSIGNED ∧ v ≥ 2 ^ 63 then
        Res.raise "MsgPack: Negative value for unsigned integer"
      else pure (v, dataPtr + 1)
    else do
      let code := first
      let dataPtr := dataPtr + 1
      let parsed ← (
        if code = 0xcc ∨ code = 0xd0 then
          if dataPtr ≥ data.length then Res.raise "MsgPack: Can't parse integer value"
          else do
            let byte ← arrayAt data dataPtr
            if code = 0xcc then pure (byte, dataPtr + 1)
            else pure (if byte ≥ 128 then byte + (2 ^ 64 - 256) else byte, dataPtr + 1)
        else if code = 0xcd ∨ code = 0xd1 then
          if dataPtr + 1 ≥ data.length then Res.raise "MsgPack: Can't parse integer value"
          else do
            let high ← arrayAt data dataPtr
            let low ← arrayAt data (dataPtr + 1)
            let v := (high <<< 8) ||| low
            if code = 0xd1 ∧ v &&& 2 ^ 15 ≠ 0 then
              pure (v ||| ((0xffffffffffff <<< 16) % 2 ^ 64), dataPtr + 2)
            else pure (v, dataPtr + 2)
        else if code = 0xce ∨ code = 0xd2 then
          if dataPtr + 3 ≥ data.length then Res.raise "MsgPack: Can't parse integer value"
          else do
            let v ← parseMsgPackBytes data 4 dataPtr 0
            if code = 0xd2 ∧ v &&& 2 ^ 31 ≠ 0 then
              pure (v ||| ((0xffffffff <<< 32) % 2 ^ 64), dataPtr + 4)
            else pure (v, dataPtr + 4)
        else if code = 0xcf ∨ code = 0xd3 then
          if dataPtr + 7 ≥ data.length then Res.raise "MsgPack: Can't parse integer value"
          else do
            let v ← parseMsgPackBytes data 8 dataPtr 0
            pure (v, dataPtr + 8)
        else Res.raise "MsgPack: Can't parse integer value"
        : Res (Nat × Nat))
      if signess = W.MSGPACK_WS_UNSIGNED ∧ code ≥ 0xd0 ∧ parsed.1 ≥ 2 ^ 63 then
        Res.raise "MsgPack: Negative value for unsigned integer"
      else if signess = W.MSGPACK_WS_SIGNED ∧ code < 0xd0 ∧ parsed.1 ≥ 2 ^ 63 then
        Res.raise "MsgPack: Positive value out of range for signed integer"
      else pure parsed

/-- The loops `for (cxuint i=n; i >= 0; i--, v2>>=8) d[i] = v2&0xff` of
`msgPackWriteUInt`: `i` is unsigned, so that `i--` wraps around at 0; a store
outside the array `d` is a write outside it.  `fuel` bounds the iterations. -/
def msgPackWriteUIntLoop : Nat → Nat → Nat → List Nat → Res (List Nat)
  | 0, _, _, _ => .timeout
  | fuel+1, i, v2, d =>
    if i ≥ 0 then
      if i < d.length then
        msgPackWriteUIntLoop fuel ((i + 2 ^ 32 - 1) % 2 ^ 32) (v2 >>> 8) (d.set i (v2 &&& 0xff))
      else .undefined
    else .ret d

/-- `msgPackWriteUInt(v, output)`: the vector `output` after the call; `fuel`
bounds the iterations of its loops.  The elements of the arrays `d` that are not
assigned before the loops are 0 here. -/
def msgPackWriteUInt (fuel : Nat) (v : Nat) (output : List Nat) : Res (List Nat) :=
  if v < 128 then .ret (output ++ [v % 256])
  else if v < 256 then .ret (output ++ [0xcc, v % 256])
  else if v < 0x10000 then .ret (output ++ [0xcd, (v >>> 8) % 256, (v &&& 0xff) % 256])
  else if v < 0x100000000 then do
    let d ← msgPackWriteUIntLoop fuel 5 v [0xce, 0, 0, 0, 0]
    pure (output ++ d)
  else do
    let d ← msgPackWriteUIntLoop fuel 9 v [0xcf, 0, 0, 0, 0, 0, 0, 0, 0]
    pure (output ++ d)


/-! ## ROCm metadata: the other MsgPack values -/

/-- `parseMsgPackNil(dataPtr, dataEnd)`: `dataPtr` after the call. -/
def parseMsgPackNil (data : List Nat) (dataPtr : Nat) : Res Nat :=
  if dataPtr ≥ data.length then Res.raise "MsgPack: Can't parse nil value"
  else do
    let first ← arrayAt data dataPtr
    if first ≠ 0xc0 then Res.raise "MsgPack: Can't parse nil value"
    else pure (dataPtr + 1)

/-- `parseMsgPackBool(dataPtr, dataEnd)`: the value, and `dataPtr` after the
call. -/
def parseMsgPackBool (data : List Nat) (dataPtr : Nat) : Res (Bool × Nat) :=
  if dataPtr ≥ data.length then Res.raise "MsgPack: Can't parse bool value"
  else do
    let first ← arrayAt data dataPtr
    if first &&& 0xfe ≠ 0xc2 then Res.raise "MsgPack: Can't parse bool value"
    else pure (decide (first = 0xc3), dataPtr + 1)

/-- `parseMsgPackFloat(dataPtr, dataEnd)`: the bits of the value (`v.v` of the
union), and `dataPtr` after the call. -/
def parseMsgPackFloat (data : List Nat) (dataPtr : Nat) : Res (Nat × Nat) :=
  if dataPtr ≥ data.length then Res.raise "MsgPack: Can't parse float value"
  else do
    let code ← arrayAt data dataPtr
    let dataPtr := dataPtr + 1
    if code = 0xca then
      if dataPtr + 3 ≥ data.length then Res.raise "MsgPack: Can't parse float value"
      else do
        let v ← parseMsgPackBytes data 4 dataPtr 0
        pure (v, dataPtr + 4)
    else if code = 0xcb then
      if dataPtr + 7 ≥ data.length then Res.raise "MsgPack: Can't parse float value"
      else do
        let v ← parseMsgPackBytes data 8 dataPtr 0
        pure (v, dataPtr + 8)
    else Res.raise "MsgPack: Can't parse float value"

/-- `parseMsgPackString(dataPtr, dataEnd)`: the bytes of the string, and
`dataPtr` after the call. -/
def parseMsgPackString (data : List Nat) (dataPtr : Nat) : Res (List Nat × Nat) :=
  if dataPtr ≥ data.length then Res.raise "MsgPack: Can't parse string"
  else do
    let first ← arrayAt data dataPtr
    let sized ← (
      if first &&& 0xe0 = 0xa0 then pure (first &&& 0x1f, dataPtr + 1)
      else
        let code := first
        let dataPtr := dataPtr + 1
        if code = 0xd9 then
          if dataPtr ≥ data.length then Res.raise "MsgPack: Can't parse string size"
          else do
            let size ← arrayAt data dataPtr
            pure (size, dataPtr + 1)
        else if code = 0xda then
          if dataPtr + 1 ≥ data.length then Res.raise "MsgPack: Can't parse string size"
          else do
            let high ← arrayAt data dataPtr
            let low ← arrayAt data (dataPtr + 1)
            pure ((high <<< 8) ||| low, dataPtr + 2)
        else if code = 0xdb then
          if dataPtr + 3 ≥ data.length then Res.raise "MsgPack: Can't parse string size"
          else do
            let size ← parseMsgPackBytes data 4 dataPtr 0
            pure (size, dataPtr + 4)
        else Res.raise "MsgPack: Can't parse string"
      : Res (Nat × Nat))
    if sized.2 + sized.1 > data.length then Res.raise "MsgPack: Can't parse string"
    else pure ((data.drop sized.2).take sized.1, sized.2 + sized.1)

/-- `parseMsgPackData(dataPtr, dataEnd)`: the bytes of the array, and `dataPtr`
after the call. -/
def parseMsgPackData (data : List Nat) (dataPtr : Nat) : Res (List Nat × Nat) :=
  if dataPtr ≥ data.length then Res.raise "MsgPack: Can't parse byte-array"
  else do
    let code ← arrayAt data dataPtr
    let dataPtr := dataPtr + 1
    let sized ← (
      if code = 0xc4 then
        if dataPtr ≥ data.length then Res.raise "MsgPack: Can't parse byte-array size"
        else do
          let size ← arrayAt data dataPtr
          pure (size, dataPtr + 1)
      else if code = 0xc5 then
        if dataPtr + 1 ≥ data.length then Res.raise "MsgPack: Can't parse byte-array size"
        else do
          let high ← arrayAt data dataPtr
          let low ← arrayAt data (dataPtr + 1)
          pure ((high <<< 8) ||| low, dataPtr + 2)
      else if code = 0xc6 then
        if dataPtr + 3 ≥ data.length then Res.raise "MsgPack: Can't parse byte-array size"
        else do
          let size ← parseMsgPackBytes data 4 dataPtr 0
          pure (size, dataPtr + 4)
      else Res.raise "MsgPack: Can't parse byte-array"
      : Res (Nat × Nat))
    if sized.2 + sized.1 > data.length then Res.raise "MsgPack: Can't parse byte-array"
    else pure ((data.drop sized.2).take sized.1, sized.2 + sized.1)

/-- The loop `for (cxint i = 24; i >= 0; i-=8) size |= (*dataPtr++)<<i` of
`skipMsgPackObject` over `n` bytes: the byte is promoted to `int` before the
shift, and a byte from `0x80` on shifted by 24 bits does not fit into `int`. -/
def skipMsgPackCount (data : List Nat) : Nat → Nat → Nat → Res Nat
  | 0, _, size => pure size
  | n+1, dataPtr, size => do
    let byte ← arrayAt data dataPtr
    if byte <<< (8 * n) ≥ 2 ^ 31 then .undefined
    else skipMsgPackCount data n (dataPtr + 1) (size ||| (byte <<< (8 * n)))

/-- `skipMsgPackObject(dataPtr, dataEnd)`: `dataPtr` after the call.  `fuel`
bounds the depth of the calls of the function inside itself. -/
def skipMsgPackObject : Nat → List Nat → Nat → Res Nat
  | 0, _, _ => .timeout
  | fuel+1, data, dataPtr =>
    if dataPtr ≥ data.length then Res.raise "MsgPack: Can't skip object"
    else do
      let first ← arrayAt data dataPtr
      if first = 0xc0 ∨ first = 0xc2 ∨ first = 0xc3 ∨ first < 0x80 ∨ first ≥ 0xe0 then
        pure (dataPtr + 1)
      else if first = 0xcc ∨ first = 0xd0 then
        if dataPtr + 1 ≥ data.length then Res.raise "MsgPack: Can't skip object"
        else pure (dataPtr + 2)
      else if first = 0xcd ∨ first = 0xd1 then
        if dataPtr + 2 ≥ data.length then Res.raise "MsgPack: Can't skip object"
        else pure (dataPtr + 3)
      else if first = 0xce ∨ first = 0xd2 ∨ first = 0xca then
        if dataPtr + 4 ≥ data.length then Res.raise "MsgPack: Can't skip object"
        else pure (dataPtr + 5)
      else if first = 0xcf ∨ first = 0xd3 ∨ first = 0xcb then
        if dataPtr + 8 ≥ data.length then Res.raise "MsgPack: Can't skip object"
        else pure (dataPtr + 9)
      else if first &&& 0xe0 = 0xa0 then
        let size := first &&& 0x1f
        if dataPtr + size ≥ data.length then Res.raise "MsgPack: Can't skip object"
        else pure (dataPtr + (size + 1))
      else if first = 0xc4 ∨ first = 0xd9 then
        let dataPtr := dataPtr + 1
        if dataPtr ≥ data.length then Res.raise "MsgPack: Can't skip object"
        else do
          let size ← arrayAt data dataPtr
          if dataPtr + 1 + size > data.length then Res.raise "MsgPack: Can't skip object"
          else pure (dataPtr + 1 + size)
      else if first = 0xc5 ∨ first = 0xda then
        let dataPtr := dataPtr + 1
        if dataPtr + 1 ≥ data.length then Res.raise "MsgPack: Can't skip object"
        else do
          let high ← arrayAt data dataPtr
          let low ← arrayAt data (dataPtr + 1)
          let size := (high <<< 8) ||| low
          if dataPtr + 2 + size > data.length then Res.raise "MsgPack: Can't skip object"
          else pure (dataPtr + 2 + size)
      else if first = 0xc6 ∨ first = 0xdb then
        let dataPtr := dataPtr + 1
        if dataPtr + 1 ≥ data.length then Res.raise "MsgPack: Can't skip object"
        else do
          let size ← parseMsgPackBytes data 4 dataPtr 0
          if dataPtr + 4 + size > data.length then Res.raise "MsgPack: Can't skip object"
          else pure (dataPtr + 4 + size)
      else if first &&& 0xf0 = 0x90 ∨ first &&& 0xf0 = 0x80 then
        let isMap := decide (first < 0x90)
        let size := first &&& 15
        let size := if isMap then size <<< 1 else size
        foldRange size (dataPtr + 1) fun _ dataPtr => skipMsgPackObject fuel data dataPtr
      else if first = 0xdc ∨ first = 0xde then
        let isMap := decide (first = 0xde)
        let dataPtr := dataPtr + 1
        if dataPtr ≥ data.length then Res.raise "MsgPack: Can't skip object"
        else do
          let high ← arrayAt data dataPtr
          let low ← arrayAt data (dataPtr + 1)
          let size := (high <<< 8) ||| low
          let size := if isMap then size <<< 1 else size
          foldRange size (dataPtr + 2) fun _ dataPtr => skipMsgPackObject fuel data dataPtr
      else if first = 0xdd ∨ first = 0xdf then
        let isMap := decide (first = 0xdf)
        let dataPtr := dataPtr + 1
        if dataPtr ≥ data.length then Res.raise "MsgPack: Can't skip object"
        else do
          let size ← skipMsgPackCount data 4 dataPtr 0
          let size := if isMap then size <<< 1 else size
          foldRange size (dataPtr + 4) fun _ dataPtr => skipMsgPackObject fuel data dataPtr
      else pure dataPtr

/-- The call `strlen(str)` of the C library for the memory `str`: the number of
bytes before the first NUL. -/
def strlen (str : List Nat) : Nat := (str.takeWhile fun c => c ≠ 0).length

/-- `msgPackWriteString(str, output)` for the memory `str`: the vector `output`
after the call. -/
def msgPackWriteString (str : List Nat) (output : List Nat) : List Nat :=
  let len := strlen str
  let header :=
    if len < 32 then [(0xa0 + len) % 256]
    else if len < 256 then [0xd9, len % 256]
    else if len < 0x10000 then [0xda, (len >>> 8) % 256, (len &&& 0xff) % 256]
    else [0xdb, (len >>> 24) % 256, ((len >>> 16) &&& 0xff) % 256,
      ((len >>> 8) &&& 0xff) % 256, (len &&& 0xff) % 256]
  output ++ header ++ str.take len

/-! ## Well-formed MsgPack objects -/

/-- The four bytes of a 32-bit count, the most significant one first. -/
def bigEndian32 (n : Nat) : List Nat :=
  [n / 16777216 % 256, n / 65536 % 256, n / 256 % 256, n % 256]

/-- The encodings of the well-formed MsgPack objects of the recognized type
codes of section 4.8: nil, bool and fixint; the integers and floats with 1, 2, 4
or 8 bytes after the code; fixstr, str8/16/32 and bin8/16/32; fixarray,
array16/32, fixmap and map16/32 of well-formed objects.  `bound` limits the
number of elements of an array32 and of entries of a map32, which is below
`2^32` in every encoding. -/
inductive MsgPackObject (bound : Nat) : List Nat → Prop
  | single (b : Nat)
      (h : b = 0xc0 ∨ b = 0xc2 ∨ b = 0xc3 ∨ b < 0x80 ∨ (0xe0 ≤ b ∧ b < 0x100)) :
      MsgPackObject bound [b]
  | number (code : Nat) (payload : List Nat)
      (h : ((code = 0xcc ∨ code = 0xd0) ∧ payload.length = 1) ∨
        ((code = 0xcd ∨ code = 0xd1) ∧ payload.length = 2) ∨
        ((code = 0xce ∨ code = 0xd2 ∨ code = 0xca) ∧ payload.length = 4) ∨
        ((code = 0xcf ∨ code = 0xd3 ∨ code = 0xcb) ∧ payload.length = 8)) :
      MsgPackObject bound (code :: payload)
  | fixstr (s : List Nat) (h : s.length < 32) : MsgPackObject bound ((0xa0 + s.length) :: s)
  | bytes8 (code : Nat) (s : List Nat) (hcode : code = 0xc4 ∨ code = 0xd9)
      (h : s.length < 0x100) : MsgPackObject bound (code :: s.length :: s)
  | bytes16 (code : Nat) (s : List Nat) (hcode : code = 0xc5 ∨ code = 0xda)
      (h : s.length < 0x10000) :
      MsgPackObject bound (code :: s.length / 256 :: s.length % 256 :: s)
  | bytes32 (code : Nat) (s : List Nat) (hcode : code = 0xc6 ∨ code = 0xdb)
      (h : s.length < 0x100000000) :
      MsgPackObject bound (code :: (bigEndian32 s.length ++ s))
  | fixarray (elems : List (List Nat)) (h : elems.length < 16)
      (helems : ∀ e ∈ elems, MsgPackObject bound e) :
      MsgPackObject bound ((0x90 + elems.length) :: elems.flatten)
  | array16 (elems : List (List Nat)) (h : elems.length < 0x10000)
      (helems : ∀ e ∈ elems, MsgPackObject bound e) :
      MsgPackObject bound
        (0xdc :: elems.length / 256 :: elems.length % 256 :: elems.flatten)
  | array32 (elems : List (List Nat)) (h : elems.length < bound)
      (helems : ∀ e ∈ elems, MsgPackObject bound e) :
      MsgPackObject bound (0xdd :: (bigEndian32 elems.length ++ elems.flatten))
  | fixmap (n : Nat) (elems : List (List Nat)) (h : n < 16) (hn : elems.length = 2 * n)
      (helems : ∀ e ∈ elems, MsgPackObject bound e) :
      MsgPackObject bound ((0x80 + n) :: elems.flatten)
  | map16 (n : Nat) (elems : List (List Nat)) (h : n < 0x10000) (hn : elems.length = 2 * n)
      (helems : ∀ e ∈ elems, MsgPackObject bound e) :
      MsgPackObject bound (0xde :: n / 256 :: n % 256 :: elems.flatten)
  | map32 (n : Nat) (elems : List (List Nat)) (h : n < bound) (hn : elems.length = 2 * n)
      (helems : ∀ e ∈ elems, MsgPackObject bound e) :
      MsgPackObject bound (0xdf :: (bigEndian32 n ++ elems.flatten))

/-- An array32 of `2^31` nil objects. -/
def nilArray32 : List Nat := 0xdd :: (bigEndian32 2147483648 ++ List.replicate 2147483648 0xc0)


/-! ## MsgPack integers: the encodings of the format -/

/-- Modelled from the spec: the number of bytes that follow the first byte
`first` of a MsgPack integer: none after a positive fixint (below `0x80`) and a
negative fixint (`0xe0` to `0xff`), 1, 2, 4 and 8 after the tags of uint8 to
uint64 (`0xcc` to `0xcf`) and of int8 to int64 (`0xd0` to `0xd3`). -/
def integerPayloadLength (first : Nat) : Option Nat :=
  if first < 0x80 ∨ (0xe0 ≤ first ∧ first < 0x100) then some 0
  else if first = 0xcc ∨ first = 0xd0 then some 1
  else if first = 0xcd ∨ first = 0xd1 then some 2
  else if first = 0xce ∨ first = 0xd2 then some 4
  else if first = 0xcf ∨ first = 0xd3 then some 8
  else none

/-- Modelled from the spec: `enc` is a complete MsgPack integer encoding: bytes,
the first of which is a fixint or one of the eight tags, followed by exactly
the bytes of the payload. -/
def IsIntegerEncoding (enc : List Nat) : Prop :=
  (∀ b ∈ enc, b < 256) ∧ enc.head?.bind integerPayloadLength = some (enc.length - 1)

instance (enc : List Nat) : Decidable (IsIntegerEncoding enc) := by
  unfold IsIntegerEncoding; infer_instance

/-- Modelled from the spec: the number with the bytes `payload`, the most
significant one first. -/
def bigEndian : List Nat → Nat
  | [] => 0
  | b :: rest => b * 256 ^ rest.length + bigEndian rest

/-- Modelled from the spec: the encoding `enc` has one of the tags of uint8 to
uint64. -/
def hasUnsignedTag (enc : List Nat) : Prop :=
  ∃ first ∈ enc.head?, 0xcc ≤ first ∧ first ≤ 0xcf

instance (enc : List Nat) : Decidable (hasUnsignedTag enc) := by
  unfold hasUnsignedTag; infer_instance

/-- Modelled from the spec: the integer stored in the encoding `enc`: the
payload, most significant byte first, in the width and the signedness of the
tag (two's complement for int8 to int64); a positive fixint is its byte, a
negative fixint its byte as a signed byte. -/
def storedInteger : List Nat → Int
  | [] => 0
  | first :: payload =>
    if first < 0x80 then first
    else if 0xe0 ≤ first then (first : Int) - 256
    else if 0xd0 ≤ first ∧ first ≤ 0xd3 ∧ 2 ^ (8 * payload.length - 1) ≤ bigEndian payload then
      (bigEndian payload : Int) - 2 ^ (8 * payload.length)
    else bigEndian payload


/-! ## ROCm metadata: the MsgPack array and map parsers -/

/-- The member `count` of a `MsgPackArrayParser`.  The member `dataPtr` is a
reference to the cursor of the caller, which the functions below take and give
back, and `dataEnd` is the end of `data`. -/
structure MsgPackArrayParserObject where
  count : Nat
  deriving DecidableEq, Repr

/-- The members `count` and `keyLeft` of a `MsgPackMapParser`.  The member
`dataPtr` is a reference to the cursor of the caller, which the functions below
take and give back, and `dataEnd` is the end of `data`. -/
structure MsgPackMapParserObject where
  count : Nat
  keyLeft : Bool
  deriving DecidableEq, Repr

/-- The constructor `MsgPackArrayParser(dataPtr, dataEnd)`: the parser, and
`dataPtr` after the header of the array. -/
def MsgPackArrayParser (data : List Nat) (dataPtr : Nat) : Res (MsgPackArrayParserObject × Nat) :=
  if dataPtr = data.length then Res.raise "MsgPack: Can't parse array of elements"
  else do
    let first ← arrayAt data dataPtr
    if first &&& 0xf0 = 0x90 then pure (⟨first &&& 15⟩, dataPtr + 1)
    else
      let code := first
      let dataPtr := dataPtr + 1
      if code = 0xdc then
        if dataPtr + 1 ≥ data.length then Res.raise "MsgPack: Can't parse array size"
        else do
          let high ← arrayAt data dataPtr
          let low ← arrayAt data (dataPtr + 1)
          pure (⟨(high <<< 8) ||| low⟩, dataPtr + 2)
      else if code = 0xdd then
        if dataPtr + 3 ≥ data.length then Res.raise "MsgPack: Can't parse array size"
        else do
          let count ← parseMsgPackBytes data 4 dataPtr 0
          pure (⟨count⟩, dataPtr + 4)
      else Res.raise "MsgPack: Can't parse array of elements"

/-- The constructor `MsgPackMapParser(dataPtr, dataEnd)`: the parser, and
`dataPtr` after the header of the map. -/
def MsgPackMapParser (data : List Nat) (dataPtr : Nat) : Res (MsgPackMapParserObject × Nat) :=
  if dataPtr = data.length then Res.raise "MsgPack: Can't parse map"
  else do
    let first ← arrayAt data dataPtr
    if first &&& 0xf0 = 0x80 then pure (⟨first &&& 15, true⟩, dataPtr + 1)
    else
      let code := first
      let dataPtr := dataPtr + 1
      if code = 0xde then
        if dataPtr + 1 ≥ data.length then Res.raise "MsgPack: Can't parse map size"
        else do
          let high ← arrayAt data dataPtr
          let low ← arrayAt data (dataPtr + 1)
          pure (⟨(high <<< 8) ||| low, true⟩, dataPtr + 2)
      else if code = 0xdf then
        if dataPtr + 3 ≥ data.length then Res.raise "MsgPack: Can't parse map size"
        else do
          let count ← parseMsgPackBytes data 4 dataPtr 0
          pure (⟨count, true⟩, dataPtr + 4)
      else Res.raise "MsgPack: Can't parse map"

/-- `MsgPackMapParser::handleErrors(key)`. -/
def MsgPackMapParser.handleErrors (self : MsgPackMapParserObject) (key : Bool) : Res Unit :=
  if self.count = 0 then Res.raise "MsgPack: No left element to parse"
  else if key = true ∧ self.keyLeft = false then Res.raise "MsgPack: Key already parsed"
  else if key = false ∧ self.keyLeft = true then Res.raise "MsgPack: This is not a value"
  else pure ()

/-- `MsgPackMapParser::parseKeyNil()`: `dataPtr` and the parser after the
call. -/
def MsgPackMapParser.parseKeyNil (data : List Nat) (dataPtr : Nat)
    (self : MsgPackMapParserObject) : Res (Nat × MsgPackMapParserObject) := do
  MsgPackMapParser.handleErrors self true
  let dataPtr ← parseMsgPackNil data dataPtr
  pure (dataPtr, { self with keyLeft := false })

/-- `MsgPackMapParser::parseKeyBool()`: the value, `dataPtr` and the parser
after the call. -/
def MsgPackMapParser.parseKeyBool (data : List Nat) (dataPtr : Nat)
    (self : MsgPackMapParserObject) : Res (Bool × Nat × MsgPackMapParserObject) := do
  MsgPackMapParser.handleErrors self true
  let v ← parseMsgPackBool data dataPtr
  pure (v.1, v.2, { self with keyLeft := false })

/-- `MsgPackMapParser::parseKeyInteger(signess)`. -/
def MsgPackMapParser.parseKeyInteger (W : MsgPackSigness) (data : List Nat) (dataPtr : Nat)
    (self : MsgPackMapParserObject) (signess : Nat) :
    Res (Nat × Nat × MsgPackMapParserObject) := do
  MsgPackMapParser.handleErrors self true
  let v ← parseMsgPackInteger W data dataPtr signess
  pure (v.1, v.2, { self with keyLeft := false })

/-- `MsgPackMapParser::parseKeyString()`. -/
def MsgPackMapParser.parseKeyString (data : List Nat) (dataPtr : Nat)
    (self : MsgPackMapParserObject) : Res (List Nat × Nat × MsgPackMapParserObject) := do
  MsgPackMapParser.handleErrors self true
  let v ← parseMsgPackString data dataPtr
  pure (v.1, v.2, { self with keyLeft := false })

/-- `MsgPackMapParser::parseKeyData()`. -/
def MsgPackMapParser.parseKeyData (data : List Nat) (dataPtr : Nat)
    (self : MsgPackMapParserObject) : Res (List Nat × Nat × MsgPackMapParserObject) := do
  MsgPackMapParser.handleErrors self true
  let v ← parseMsgPackData data dataPtr
  pure (v.1, v.2, { self with keyLeft := false })

/-- `MsgPackMapParser::parseKeyArray()`: the parser of the array, `dataPtr` and
the parser of the map after the call. -/
def MsgPackMapParser.parseKeyArray (data : List Nat) (dataPtr : Nat)
    (self : MsgPackMapParserObject) :
    Res (MsgPackArrayParserObject × Nat × MsgPackMapParserObject) := do
  MsgPackMapParser.handleErrors self true
  let v ← MsgPackArrayParser data dataPtr
  pure (v.1, v.2, { self with keyLeft := false })

/-- `MsgPackMapParser::parseKeyMap()`: the parser of the inner map, `dataPtr`
and the parser of the map after the call. -/
def MsgPackMapParser.parseKeyMap (data : List Nat) (dataPtr : Nat)
    (self : MsgPackMapParserObject) :
    Res (MsgPackMapParserObject × Nat × MsgPackMapParserObject) := do
  MsgPackMapParser.handleErrors self true
  let v ← MsgPackMapParser data dataPtr
  pure (v.1, v.2, { self with keyLeft := false })

/-- `MsgPackMapParser::parseValueNil()`. -/
def MsgPackMapParser.parseValueNil (data : List Nat) (dataPtr : Nat)
    (self : MsgPackMapParserObject) : Res (Nat × MsgPackMapParserObject) := do
  MsgPackMapParser.handleErrors self false
  let dataPtr ← parseMsgPackNil data dataPtr
  pure (dataPtr, { count := self.count - 1, keyLeft := true })

/-- `MsgPackMapParser::parseValueBool()`. -/
def MsgPackMapParser.parseValueBool (data : List Nat) (dataPtr : Nat)
    (self : MsgPackMapParserObject) : Res (Bool × Nat × MsgPackMapParserObject) := do
  MsgPackMapParser.handleErrors self false
  let v ← parseMsgPackBool data dataPtr
  pure (v.1, v.2, { count := self.count - 1, keyLeft := true })

/-- `MsgPackMapParser::parseValueInteger(signess)`. -/
def MsgPackMapParser.parseValueInteger (W : MsgPackSigness) (data : List Nat) (dataPtr : Nat)
    (self : MsgPackMapParserObject) (signess : Nat) :
    Res (Nat × Nat × MsgPackMapParserObject) := do
  MsgPackMapParser.handleErrors self false
  let v ← parseMsgPackInteger W data dataPtr signess
  pure (v.1, v.2, { count := self.count - 1, keyLeft := true })

/-- `MsgPackMapParser::parseValueString()`. -/
def MsgPackMapParser.parseValueString (data : List Nat) (dataPtr : Nat)
    (self : MsgPackMapParserObject) : Res (List Nat × Nat × MsgPackMapParserObject) := do
  MsgPackMapParser.handleErrors self false
  let v ← parseMsgPackString data dataPtr
  pure (v.1, v.2, { count := self.count - 1, keyLeft := true })

/-- `MsgPackMapParser::parseValueData()`. -/
def MsgPackMapParser.parseValueData (data : List Nat) (dataPtr : Nat)
    (self : MsgPackMapParserObject) : Res (List Nat × Nat × MsgPackMapParserObject) := do
  MsgPackMapParser.handleErrors self false
  let v ← parseMsgPackData data dataPtr
  pure (v.1, v.2, { count := self.count - 1, keyLeft := true })

/-- `MsgPackMapParser::parseValueArray()`. -/
def MsgPackMapParser.parseValueArray (data : List Nat) (dataPtr : Nat)
    (self : MsgPackMapParserObject) :
    Res (MsgPackArrayParserObject × Nat × MsgPackMapParserObject) := do
  MsgPackMapParser.handleErrors self false
  let v ← MsgPackArrayParser data dataPtr
  pure (v.1, v.2, { count := self.count - 1, keyLeft := true })

/-- `MsgPackMapParser::parseValueMap()`. -/
def MsgPackMapParser.parseValueMap (data : List Nat) (dataPtr : Nat)
    (self : MsgPackMapParserObject) :
    Res (MsgPackMapParserObject × Nat × MsgPackMapParserObject) := do
  MsgPackMapParser.handleErrors self false
  let v ← MsgPackMapParser data dataPtr
  pure (v.1, v.2, { count := self.count - 1, keyLeft := true })

/-- `MsgPackMapParser::skipValue()`; `fuel` bounds the depth of the calls of
`skipMsgPackObject` inside itself. -/
def MsgPackMapParser.skipValue (fuel : Nat) (data : List Nat) (dataPtr : Nat)
    (self : MsgPackMapParserObject) : Res (Nat × MsgPackMapParserObject) := do
  MsgPackMapParser.handleErrors self false
  let dataPtr ← skipMsgPackObject fuel data dataPtr
  pure (dataPtr, { count := self.count - 1, keyLeft := true })

/-- The calls of a `MsgPackMapParser` that parse a key or a value. -/
inductive MsgPackMapCall where
  | parseKeyNil | parseKeyBool | parseKeyInteger (signess : Nat) | parseKeyString
  | parseKeyData | parseKeyArray | parseKeyMap
  | parseValueNil | parseValueBool | parseValueInteger (signess : Nat) | parseValueString
  | parseValueData | parseValueArray | parseValueMap | skipValue
  deriving DecidableEq, Repr

/-- The call is one of the `parseKey*`. -/
def MsgPackMapCall.isKey : MsgPackMapCall → Bool
  | .parseKeyNil | .parseKeyBool | .parseKeyInteger _ | .parseKeyString
  | .parseKeyData | .parseKeyArray | .parseKeyMap => true
  | _ => false

/-- One call of a `MsgPackMapParser`, the returned value left out: `dataPtr` and
the parser after the call. -/
def MsgPackMapParser.call (W : MsgPackSigness) (fuel : Nat) (data : List Nat)
    (c : MsgPackMapCall) (dataPtr : Nat) (self : MsgPackMapParserObject) :
    Res (Nat × MsgPackMapParserObject) :=
  match c with
  | .parseKeyNil => MsgPackMapParser.parseKeyNil data dataPtr self
  | .parseKeyBool => do let r ← MsgPackMapParser.parseKeyBool data dataPtr self; pure r.2
  | .parseKeyInteger signess => do
    let r ← MsgPackMapParser.parseKeyInteger W data dataPtr self signess; pure r.2
  | .parseKeyString => do let r ← MsgPackMapParser.parseKeyString data dataPtr self; pure r.2
  | .parseKeyData => do let r ← MsgPackMapParser.parseKeyData data dataPtr self; pure r.2
  | .parseKeyArray => do let r ← MsgPackMapParser.parseKeyArray data dataPtr self; pure r.2
  | .parseKeyMap => do let r ← MsgPackMapParser.parseKeyMap data dataPtr self; pure r.2
  | .parseValueNil => MsgPackMapParser.parseValueNil data dataPtr self
  | .parseValueBool => do let r ← MsgPackMapParser.parseValueBool data dataPtr self; pure r.2
  | .parseValueInteger signess => do
    let r ← MsgPackMapParser.parseValueInteger W data dataPtr self signess; pure r.2
  | .parseValueString => do
    let r ← MsgPackMapParser.parseValueString data dataPtr self; pure r.2
  | .parseValueData => do let r ← MsgPackMapParser.parseValueData data dataPtr self; pure r.2
  | .parseValueArray => do let r ← MsgPackMapParser.parseValueArray data dataPtr self; pure r.2
  | .parseValueMap => do let r ← MsgPackMapParser.parseValueMap data dataPtr self; pure r.2
  | .skipValue => MsgPackMapParser.skipValue fuel data dataPtr self

/-- A sequence of calls of a `MsgPackMapParser`, one after the other. -/
def MsgPackMapParser.calls (W : MsgPackSigness) (fuel : Nat) (data : List Nat) :
    List MsgPackMapCall → Nat → MsgPackMapParserObject → Res (Nat × MsgPackMapParserObject)
  | [], dataPtr, self => pure (dataPtr, self)
  | c :: rest, dataPtr, self => do
    let r ← MsgPackMapParser.call W fuel data c dataPtr self
    MsgPackMapParser.calls W fuel data rest r.1 r.2


/-! ## The ROCm test of the assembler: kernel descriptors in the golden code -/

/-- The bytes under `Code:` of the golden dump of `asmTestCases1Tbl` in
`tests/amdasm/AsmROCmFormat.cpp`, two lines
here for each line of the dump. -/
def goldenCode : List Nat :=
  [0x01, 0x00, 0x00, 0x00, 0x00, 0x00, 0x00, 0x00, 0x01, 0x00, 0x08, 0x00, 0x00, 0x00, 0x00, 0x00,
   0x00, 0x01, 0x00, 0x00, 0x00, 0x00, 0x00, 0x00, 0x00, 0x00, 0x00, 0x00, 0x00, 0x00, 0x00, 0x00,
   0x00, 0x00, 0x00, 0x00, 0x00, 0x00, 0x00, 0x00, 0x00, 0x00, 0x00, 0x00, 0x00, 0x00, 0x00, 0x00,
   0x00, 0x00, 0x3c, 0x00, 0xff, 0x01, 0x00, 0x0a, 0x00, 0x00, 0x06, 0x00, 0x6f, 0x00, 0x00, 0x00,
   0x16, 0x00, 0x00, 0x00, 0x64, 0x00, 0x00, 0x00, 0x00, 0x00, 0x00, 0x00, 0x00, 0x00, 0x00, 0x00,
   0xfc, 0x0c, 0x00, 0x00, 0x08, 0x00, 0x01, 0x00, 0x07, 0x00, 0x0b, 0x00, 0x09, 0x00, 0x04, 0x00,
   0x81, 0x00, 0xba, 0xe3, 0x05, 0x04, 0x07, 0x06, 0xac, 0x4d, 0x03, 0x00, 0x00, 0x00, 0x00, 0x00,
   0x00, 0x00, 0x00, 0x00, 0x00, 0x00, 0x00, 0x00, 0x3a, 0x8b, 0xc9, 0x4d, 0x00, 0x00, 0x00, 0x00,
   0x01, 0x00, 0x00, 0x00, 0x02, 0x00, 0x00, 0x00, 0x03, 0x00, 0x00, 0x00, 0x00, 0x00, 0x00, 0x00,
   0x00, 0x00, 0x00, 0x00, 0x00, 0x00, 0x00, 0x00, 0x00, 0x00, 0x00, 0x00, 0x00, 0x00, 0x00, 0x00,
   0x00, 0x00, 0x00, 0x00, 0x00, 0x00, 0x00, 0x00, 0x00, 0x00, 0x00, 0x00, 0x00, 0x00, 0x00, 0x00,
   0x00, 0x00, 0x00, 0x00, 0x00, 0x00, 0x00, 0x00, 0x00, 0x00, 0x00, 0x00, 0x00, 0x00, 0x00, 0x00,
   0x00, 0x00, 0x00, 0x00, 0x00, 0x00, 0x00, 0x00, 0x00, 0x00, 0x00, 0x00, 0x00, 0x00, 0x00, 0x00,
   0x00, 0x00, 0x00, 0x00, 0x00, 0x00, 0x00, 0x00, 0x00, 0x00, 0x00, 0x00, 0x00, 0x00, 0x00, 0x00,
   0x00, 0x00, 0x00, 0x00, 0x00, 0x00, 0x00, 0x00, 0x00, 0x00, 0x00, 0x00, 0x00, 0x00, 0x00, 0x00,
   0x00, 0x00, 0x00, 0x00, 0x00, 0x00, 0x00, 0x00, 0x00, 0x00, 0x00, 0x00, 0x00, 0x00, 0x00, 0x00,
   0x80, 0x00, 0x87, 0xbe, 0x00, 0x00, 0x81, 0xbf, 0x00, 0x00, 0x80, 0xbf, 0x00, 0x00, 0x80, 0xbf,
   0x00, 0x00, 0x80, 0xbf, 0x00, 0x00, 0x80, 0xbf, 0x00, 0x00, 0x80, 0xbf, 0x00, 0x00, 0x80, 0xbf,
   0x00, 0x00, 0x80, 0xbf, 0x00, 0x00, 0x80, 0xbf, 0x00, 0x00, 0x80, 0xbf, 0x00, 0x00, 0x80, 0xbf,
   0x00, 0x00, 0x80, 0xbf, 0x00, 0x00, 0x80, 0xbf, 0x00, 0x00, 0x80, 0xbf, 0x00, 0x00, 0x80, 0xbf,
   0x00, 0x00, 0x80, 0xbf, 0x00, 0x00, 0x80, 0xbf, 0x00, 0x00, 0x80, 0xbf, 0x00, 0x00, 0x80, 0xbf,
   0x00, 0x00, 0x80, 0xbf, 0x00, 0x00, 0x80, 0xbf, 0x00, 0x00, 0x80, 0xbf, 0x00, 0x00, 0x80, 0xbf,
   0x00, 0x00, 0x80, 0xbf, 0x00, 0x00, 0x80, 0xbf, 0x00, 0x00, 0x80, 0xbf, 0x00, 0x00, 0x80, 0xbf,
   0x00, 0x00, 0x80, 0xbf, 0x00, 0x00, 0x80, 0xbf, 0x00, 0x00, 0x80, 0xbf, 0x00, 0x00, 0x80, 0xbf,
   0x00, 0x00, 0x80, 0xbf, 0x00, 0x00, 0x80, 0xbf, 0x00, 0x00, 0x80, 0xbf, 0x00, 0x00, 0x80, 0xbf,
   0x00, 0x00, 0x80, 0xbf, 0x00, 0x00, 0x80, 0xbf, 0x00, 0x00, 0x80, 0xbf, 0x00, 0x00, 0x80, 0xbf,
   0x00, 0x00, 0x80, 0xbf, 0x00, 0x00, 0x80, 0xbf, 0x00, 0x00, 0x80, 0xbf, 0x00, 0x00, 0x80, 0xbf,
   0x00, 0x00, 0x80, 0xbf, 0x00, 0x00, 0x80, 0xbf, 0x00, 0x00, 0x80, 0xbf, 0x00, 0x00, 0x80, 0xbf,
   0x00, 0x00, 0x80, 0xbf, 0x00, 0x00, 0x80, 0xbf, 0x00, 0x00, 0x80, 0xbf, 0x00, 0x00, 0x80, 0xbf,
   0x00, 0x00, 0x80, 0xbf, 0x00, 0x00, 0x80, 0xbf, 0x00, 0x00, 0x80, 0xbf, 0x00, 0x00, 0x80, 0xbf,
   0x00, 0x00, 0x80, 0xbf, 0x00, 0x00, 0x80, 0xbf, 0x00, 0x00, 0x80, 0xbf, 0x00, 0x00, 0x80, 0xbf,
   0x00, 0x00, 0x80, 0xbf, 0x00, 0x00, 0x80, 0xbf, 0x00, 0x00, 0x80, 0xbf, 0x00, 0x00, 0x80, 0xbf,
   0x01, 0x00, 0x00, 0x00, 0x00, 0x00, 0x00, 0x00, 0x01, 0x00, 0x08, 0x00, 0x00, 0x00, 0x00, 0x00,
   0x00, 0x01, 0x00, 0x00, 0x00, 0x00, 0x00, 0x00, 0x00, 0x00, 0x00, 0x00, 0x00, 0x00, 0x00, 0x00,
   0x00, 0x00, 0x00, 0x00, 0x00, 0x00, 0x00, 0x00, 0x00, 0x00, 0x00, 0x00, 0x00, 0x00, 0x00, 0x00,
   0x00, 0x00, 0x0c, 0x00, 0xfe, 0x01, 0x00, 0x00, 0x08, 0x00, 0x00, 0x00, 0x00, 0x00, 0x00, 0x00,
   0x00, 0x00, 0x00, 0x00, 0x00, 0x00, 0x00, 0x00, 0x00, 0x00, 0x00, 0x00, 0x00, 0x00, 0x00, 0x00,
   0x00, 0x00, 0x00, 0x00, 0x02, 0x00, 0x01, 0x00, 0x00, 0x00, 0x00, 0x00, 0x00, 0x00, 0x00, 0x00,
   0x00, 0x00, 0x00, 0x00, 0x04, 0x04, 0x04, 0x06, 0x34, 0x22, 0x11, 0x01, 0x00, 0x00, 0x00, 0x00,
   0x00, 0x00, 0x00, 0x00, 0x00, 0x00, 0x00, 0x00, 0x00, 0x00, 0x00, 0x00, 0x00, 0x00, 0x00, 0x00,
   0xde, 0xde, 0xde, 0xde, 0xde, 0xde, 0xde, 0xde, 0xde, 0xde, 0xde, 0xde, 0xde, 0xde, 0xde, 0xde,
   0xde, 0xde, 0xde, 0xde, 0xde, 0xde, 0xde, 0xde, 0xde, 0xde, 0xde, 0xde, 0xde, 0xde, 0xde, 0xde,
   0xde, 0xde, 0xde, 0xde, 0xde, 0xde, 0xde, 0xde, 0xde, 0xde, 0xde, 0xde, 0xde, 0xde, 0xde, 0xde,
   0xde, 0xde, 0xde, 0xde, 0xde, 0xde, 0xde, 0xde, 0xde, 0xde, 0xde, 0xde, 0xde, 0xde, 0xde, 0xde,
   0xde, 0xde, 0xde, 0xde, 0xde, 0xde, 0xde, 0xde, 0xde, 0xde, 0xde, 0xde, 0xde, 0xde, 0xde, 0xde,
   0xde, 0xde, 0xde, 0xde, 0xde, 0xde, 0xde, 0xde, 0xde, 0xde, 0xde, 0xde, 0xde, 0xde, 0xde, 0xde,
   0xde, 0xde, 0xde, 0xde, 0xde, 0xde, 0xde, 0xde, 0xde, 0xde, 0xde, 0xde, 0xde, 0xde, 0xde, 0xde,
   0xde, 0xde, 0xde, 0xde, 0xde, 0xde, 0xde, 0xde, 0xde, 0xde, 0xde, 0xde, 0xcc, 0x66, 0xdd, 0xaa,
   0x00, 0x00, 0x81, 0xbf]

/-- The values under `Config:` of the symbol `kxx1` in the golden dump of
`asmTestCases1Tbl`, each with its label, in the order of the dump; the numbers
of a line with several of them one after the other. -/
def goldenConfigKxx1 : List (String × List Nat) :=
  [("amdCodeVersion", [1, 1]),
   ("amdMachine", [1, 8, 0, 0]),
   ("kernelCodeEntryOffset", [256]),
   ("kernelCodePrefetchOffset", [0]),
   ("kernelCodePrefetchSize", [0]),
   ("maxScrachBackingMemorySize", [0]),
   ("computePgmRsrc1", [0x3c0000]),
   ("computePgmRsrc2", [0xa0001ff]),
   ("enableSpgrRegisterFlags", [0x0]),
   ("enableFeatureFlags", [0x6]),
   ("workitemPrivateSegmentSize", [111]),
   ("workgroupGroupSegmentSize", [22]),
   ("gdsSegmentSize", [100]),
   ("kernargSegmentSize", [0]),
   ("workgroupFbarrierCount", [3324]),
   ("wavefrontSgprCount", [8]),
   ("workitemVgprCount", [1]),
   ("reservedVgprFirst", [7]),
   ("reservedVgprCount", [11]),
   ("reservedSgprFirst", [9]),
   ("reservedSgprCount", [4]),
   ("debugWavefrontPrivateSegmentOffsetSgpr", [129]),
   ("debugPrivateSegmentBufferSgpr", [58298]),
   ("kernargSegmentAlignment", [5]),
   ("groupSegmentAlignment", [4]),
   ("privateSegmentAlignment", [7]),
   ("wavefrontSize", [6]),
   ("callConvention", [0x34dac]),
   ("runtimeLoaderKernelSymbol", [0x4dc98b3a]),
   ("ControlDirective",
    [0x01, 0x00, 0x00, 0x00, 0x02, 0x00, 0x00, 0x00, 0x03, 0x00, 0x00, 0x00, 0x00, 0x00, 0x00, 0x00,
     0x00, 0x00, 0x00, 0x00, 0x00, 0x00, 0x00, 0x00, 0x00, 0x00, 0x00, 0x00, 0x00, 0x00, 0x00, 0x00,
     0x00, 0x00, 0x00, 0x00, 0x00, 0x00, 0x00, 0x00, 0x00, 0x00, 0x00, 0x00, 0x00, 0x00, 0x00, 0x00,
     0x00, 0x00, 0x00, 0x00, 0x00, 0x00, 0x00, 0x00, 0x00, 0x00, 0x00, 0x00, 0x00, 0x00, 0x00, 0x00,
     0x00, 0x00, 0x00, 0x00, 0x00, 0x00, 0x00, 0x00, 0x00, 0x00, 0x00, 0x00, 0x00, 0x00, 0x00, 0x00,
     0x00, 0x00, 0x00, 0x00, 0x00, 0x00, 0x00, 0x00, 0x00, 0x00, 0x00, 0x00, 0x00, 0x00, 0x00, 0x00,
     0x00, 0x00, 0x00, 0x00, 0x00, 0x00, 0x00, 0x00, 0x00, 0x00, 0x00, 0x00, 0x00, 0x00, 0x00, 0x00,
     0x00, 0x00, 0x00, 0x00, 0x00, 0x00, 0x00, 0x00, 0x00, 0x00, 0x00, 0x00, 0x00, 0x00, 0x00, 0x00])]

/-- The values under `Config:` of the symbol `kxx2` in the golden dump of
`asmTestCases1Tbl`, each with its label, in the order of the dump; the numbers
of a line with several of them one after the other. -/
def goldenConfigKxx2 : List (String × List Nat) :=
  [("amdCodeVersion", [1, 1]),
   ("amdMachine", [1, 8, 0, 0]),
   ("kernelCodeEntryOffset", [256]),
   ("kernelCodePrefetchOffset", [0]),
   ("kernelCodePrefetchSize", [0]),
   ("maxScrachBackingMemorySize", [0]),
   ("computePgmRsrc1", [0xc0000]),
   ("computePgmRsrc2", [0x1fe]),
   ("enableSpgrRegisterFlags", [0x8]),
   ("enableFeatureFlags", [0x0]),
   ("workitemPrivateSegmentSize", [0]),
   ("workgroupGroupSegmentSize", [0]),
   ("gdsSegmentSize", [0]),
   ("kernargSegmentSize", [0]),
   ("workgroupFbarrierCount", [0]),
   ("wavefrontSgprCount", [2]),
   ("workitemVgprCount", [1]),
   ("reservedVgprFirst", [0]),
   ("reservedVgprCount", [0]),
   ("reservedSgprFirst", [0]),
   ("reservedSgprCount", [0]),
   ("debugWavefrontPrivateSegmentOffsetSgpr", [0]),
   ("debugPrivateSegmentBufferSgpr", [0]),
   ("kernargSegmentAlignment", [4]),
   ("groupSegmentAlignment", [4]),
   ("privateSegmentAlignment", [4]),
   ("wavefrontSize", [6]),
   ("callConvention", [0x1112234]),
   ("runtimeLoaderKernelSymbol", [0x0]),
   ("ControlDirective",
    [0xde, 0xde, 0xde, 0xde, 0xde, 0xde, 0xde, 0xde, 0xde, 0xde, 0xde, 0xde, 0xde, 0xde, 0xde, 0xde,
     0xde, 0xde, 0xde, 0xde, 0xde, 0xde, 0xde, 0xde, 0xde, 0xde, 0xde, 0xde, 0xde, 0xde, 0xde, 0xde,
     0xde, 0xde, 0xde, 0xde, 0xde, 0xde, 0xde, 0xde, 0xde, 0xde, 0xde, 0xde, 0xde, 0xde, 0xde, 0xde,
     0xde, 0xde, 0xde, 0xde, 0xde, 0xde, 0xde, 0xde, 0xde, 0xde, 0xde, 0xde, 0xde, 0xde, 0xde, 0xde,
     0xde, 0xde, 0xde, 0xde, 0xde, 0xde, 0xde, 0xde, 0xde, 0xde, 0xde, 0xde, 0xde, 0xde, 0xde, 0xde,
     0xde, 0xde, 0xde, 0xde, 0xde, 0xde, 0xde, 0xde, 0xde, 0xde, 0xde, 0xde, 0xde, 0xde, 0xde, 0xde,
     0xde, 0xde, 0xde, 0xde, 0xde, 0xde, 0xde, 0xde, 0xde, 0xde, 0xde, 0xde, 0xde, 0xde, 0xde, 0xde,
     0xde, 0xde, 0xde, 0xde, 0xde, 0xde, 0xde, 0xde, 0xde, 0xde, 0xde, 0xde, 0xcc, 0x66, 0xdd, 0xaa])]

/-- Modelled from the spec: the fields of `ROCmKernelConfig`, the kernel
descriptor of 256 bytes (the declaration in `CLRX/amdbin/ROCmBinaries.h` is not
among the sources), under the names that `printROCmOutput` uses. -/
structure ROCmKernelConfig where
  amdCodeVersionMajor : Nat
  amdCodeVersionMinor : Nat
  amdMachineKind : Nat
  amdMachineMajor : Nat
  amdMachineMinor : Nat
  amdMachineStepping : Nat
  kernelCodeEntryOffset : Nat
  kernelCodePrefetchOffset : Nat
  kernelCodePrefetchSize : Nat
  maxScrachBackingMemorySize : Nat
  computePgmRsrc1 : Nat
  computePgmRsrc2 : Nat
  enableSpgrRegisterFlags : Nat
  enableFeatureFlags : Nat
  workitemPrivateSegmentSize : Nat
  workgroupGroupSegmentSize : Nat
  gdsSegmentSize : Nat
  kernargSegmentSize : Nat
  workgroupFbarrierCount : Nat
  wavefrontSgprCount : Nat
  workitemVgprCount : Nat
  reservedVgprFirst : Nat
  reservedVgprCount : Nat
  reservedSgprFirst : Nat
  reservedSgprCount : Nat
  debugWavefrontPrivateSegmentOffsetSgpr : Nat
  debugPrivateSegmentBufferSgpr : Nat
  kernargSegmentAlignment : Nat
  groupSegmentAlignment : Nat
  privateSegmentAlignment : Nat
  wavefrontSize : Nat
  callConvention : Nat
  runtimeLoaderKernelSymbol : Nat
  controlDirective : List Nat
  deriving DecidableEq, Repr

/-- Modelled from the spec: the descriptor at `offset` of the code, each field
read by `ULEV` at the offset and in the width that the spec lists
(`codeVersionMajor:u32 @0` to `runtimeLoaderKernelSymbol:u64 @120`, and the 128
bytes of `controlDirective` at 128). -/
def ROCmKernelConfig.read (code : List Nat) (offset : Nat) : Res ROCmKernelConfig := do
  let amdCodeVersionMajor ← loadLE code (offset + 0) 4
  let amdCodeVersionMinor ← loadLE code (offset + 4) 4
  let amdMachineKind ← loadLE code (offset + 8) 2
  let amdMachineMajor ← loadLE code (offset + 10) 2
  let amdMachineMinor ← loadLE code (offset + 12) 2
  let amdMachineStepping ← loadLE code (offset + 14) 2
  let kernelCodeEntryOffset ← loadLE code (offset + 16) 8
  let kernelCodePrefetchOffset ← loadLE code (offset + 24) 8
  let kernelCodePrefetchSize ← loadLE code (offset + 32) 8
  let maxScrachBackingMemorySize ← loadLE code (offset + 40) 8
  let computePgmRsrc1 ← loadLE code (offset + 48) 4
  let computePgmRsrc2 ← loadLE code (offset + 52) 4
  let enableSpgrRegisterFlags ← loadLE code (offset + 56) 2
  let enableFeatureFlags ← loadLE code (offset + 58) 2
  let workitemPrivateSegmentSize ← loadLE code (offset + 60) 4
  let workgroupGroupSegmentSize ← loadLE code (offset + 64) 4
  let gdsSegmentSize ← loadLE code (offset + 68) 4
  let kernargSegmentSize ← loadLE code (offset + 72) 8
  let workgroupFbarrierCount ← loadLE code (offset + 80) 4
  let wavefrontSgprCount ← loadLE code (offset + 84) 2
  let workitemVgprCount ← loadLE code (offset + 86) 2
  let reservedVgprFirst ← loadLE code (offset + 88) 2
  let reservedVgprCount ← loadLE code (offset + 90) 2
  let reservedSgprFirst ← loadLE code (offset + 92) 2
  let reservedSgprCount ← loadLE code (offset + 94) 2
  let debugWavefrontPrivateSegmentOffsetSgpr ← loadLE code (offset + 96) 2
  let debugPrivateSegmentBufferSgpr ← loadLE code (offset + 98) 2
  let kernargSegmentAlignment ← loadLE code (offset + 100) 1
  let groupSegmentAlignment ← loadLE code (offset + 101) 1
  let privateSegmentAlignment ← loadLE code (offset + 102) 1
  let wavefrontSize ← loadLE code (offset + 103) 1
  let callConvention ← loadLE code (offset + 104) 4
  let runtimeLoaderKernelSymbol ← loadLE code (offset + 120) 8
  let controlDirective ← bytesAt code (offset + 128) 128
  pure ⟨amdCodeVersionMajor, amdCodeVersionMinor, amdMachineKind, amdMachineMajor,
    amdMachineMinor, amdMachineStepping, kernelCodeEntryOffset, kernelCodePrefetchOffset,
    kernelCodePrefetchSize, maxScrachBackingMemorySize, computePgmRsrc1, computePgmRsrc2,
    enableSpgrRegisterFlags, enableFeatureFlags, workitemPrivateSegmentSize,
    workgroupGroupSegmentSize, gdsSegmentSize, kernargSegmentSize, workgroupFbarrierCount,
    wavefrontSgprCount, workitemVgprCount, reservedVgprFirst, reservedVgprCount,
    reservedSgprFirst, reservedSgprCount, debugWavefrontPrivateSegmentOffsetSgpr,
    debugPrivateSegmentBufferSgpr, kernargSegmentAlignment, groupSegmentAlignment,
    privateSegmentAlignment, wavefrontSize, callConvention, runtimeLoaderKernelSymbol,
    controlDirective⟩

/-- The part of `printROCmOutput` for a symbol of a kernel at `offset` of the
code: nothing when the descriptor does not fit into the code, and otherwise the
numbers printed under `Config:`, each line with its label, in the order of the
source (the line `amdCodeVersion` prints `amdCodeVersionMajor` twice); whether a
number is printed in decimal or in hexadecimal is left out. -/
def printROCmOutputConfig (code : List Nat) (offset : Nat) :
    Res (Option (List (String × List Nat))) :=
  if offset + 256 > code.length then pure none
  else do
    let config ← ROCmKernelConfig.read code offset
    pure (some [
      ("amdCodeVersion", [config.amdCodeVersionMajor, config.amdCodeVersionMajor]),
      ("amdMachine", [config.amdMachineKind, config.amdMachineMajor,
        config.amdMachineMinor, config.amdMachineStepping]),
      ("kernelCodeEntryOffset", [config.kernelCodeEntryOffset]),
      ("kernelCodePrefetchOffset", [config.kernelCodePrefetchOffset]),
      ("kernelCodePrefetchSize", [config.kernelCodePrefetchSize]),
      ("maxScrachBackingMemorySize", [config.maxScrachBackingMemorySize]),
      ("computePgmRsrc1", [config.computePgmRsrc1]),
      ("computePgmRsrc2", [config.computePgmRsrc2]),
      ("enableSpgrRegisterFlags", [config.enableSpgrRegisterFlags]),
      ("enableFeatureFlags", [config.enableFeatureFlags]),
      ("workitemPrivateSegmentSize", [config.workitemPrivateSegmentSize]),
      ("workgroupGroupSegmentSize", [config.workgroupGroupSegmentSize]),
      ("gdsSegmentSize", [config.gdsSegmentSize]),
      ("kernargSegmentSize", [config.kernargSegmentSize]),
      ("workgroupFbarrierCount", [config.workgroupFbarrierCount]),
      ("wavefrontSgprCount", [config.wavefrontSgprCount]),
      ("workitemVgprCount", [config.workitemVgprCount]),
      ("reservedVgprFirst", [config.reservedVgprFirst]),
      ("reservedVgprCount", [config.reservedVgprCount]),
      ("reservedSgprFirst", [config.reservedSgprFirst]),
      ("reservedSgprCount", [config.reservedSgprCount]),
      ("debugWavefrontPrivateSegmentOffsetSgpr",
        [config.debugWavefrontPrivateSegmentOffsetSgpr]),
      ("debugPrivateSegmentBufferSgpr", [config.debugPrivateSegmentBufferSgpr]),
      ("kernargSegmentAlignment", [config.kernargSegmentAlignment]),
      ("groupSegmentAlignment", [config.groupSegmentAlignment]),
      ("privateSegmentAlignment", [config.privateSegmentAlignment]),
      ("wavefrontSize", [config.wavefrontSize]),
      ("callConvention", [config.callConvention]),
      ("runtimeLoaderKernelSymbol", [config.runtimeLoaderKernelSymbol]),
      ("ControlDirective", config.controlDirective)])


/-! ## DTree: the container of `CLRX/utils/DTree.h`

The model is the instance of the template for keys that are natural numbers
(`K = T`, `Comp = std::less<K>`, `KeyOfVal = Identity<K>`, as in `DTreeSet`).  A
pointer to a `Node0` is the list of the indices that lead to it from the root:
empty for the root `Node0`, and otherwise the index in the root `Node1`, then
in each `Node1` below, the last one in the array of `Node0`. -/

/-- The value `NODE0` of the node type. -/
def NODE0 : Nat := 0
/-- The value `NODE1` of the node type: a `Node1` that holds `Node0`s. -/
def NODE1 : Nat := 1
/-- The value `NODE2` of the node type: a `Node1` that holds `Node1`s. -/
def NODE2 : Nat := 2

/-- The constant `maxNode1Size`. -/
def maxNode1Size : Nat := 8
/-- The constant `maxNode0Capacity`. -/
def maxNode0Capacity : Nat := 64
/-- The constant `minFreePlacesShift`. -/
def minFreePlacesShift : Nat := 3
/-- The constant `freePlacesShift`. -/
def freePlacesShift : Nat := 1
/-- The constant `maxNode0Size`. -/
def maxNode0Size : Nat :=
  ((maxNode0Capacity * 1000 / ((1 <<< minFreePlacesShift) + 1)) * (1 <<< minFreePlacesShift)) / 1000
/-- The constant `minNode0Size`. -/
def minNode0Size : Nat := maxNode0Size / 3

/-- The members of a `Node0`: `array` holds `capacity` elements, and a bit 1 of
`bitMask` marks a free place of it. -/
structure Node0 where
  index : Nat
  size : Nat
  capacity : Nat
  firstPos : Nat
  bitMask : Nat
  array : List Nat
  deriving DecidableEq, Repr

/-- The members of a `Node1`; of the union of `array` and `array1` the one for
the `type` is used, the other one is empty here. -/
inductive Node1 where
  | mk (type index size capacity totalSize first : Nat) (array : List Node0)
      (array1 : List Node1)

/-- The member `type` of a `Node1`. -/
def Node1.type : Node1 → Nat
  | .mk type _ _ _ _ _ _ _ => type
/-- The member `index` of a `Node1`. -/
def Node1.index : Node1 → Nat
  | .mk _ index _ _ _ _ _ _ => index
/-- The member `size` of a `Node1`. -/
def Node1.size : Node1 → Nat
  | .mk _ _ size _ _ _ _ _ => size
/-- The member `capacity` of a `Node1`. -/
def Node1.capacity : Node1 → Nat
  | .mk _ _ _ capacity _ _ _ _ => capacity
/-- The member `totalSize` of a `Node1`. -/
def Node1.totalSize : Node1 → Nat
  | .mk _ _ _ _ totalSize _ _ _ => totalSize
/-- The member `first` of a `Node1`. -/
def Node1.first : Node1 → Nat
  | .mk _ _ _ _ _ first _ _ => first
/-- The member `array` of a `Node1`. -/
def Node1.array : Node1 → List Node0
  | .mk _ _ _ _ _ _ array _ => array
/-- The member `array1` of a `Node1`. -/
def Node1.array1 : Node1 → List Node1
  | .mk _ _ _ _ _ _ _ array1 => array1

/-- The union of the root `Node0` and the root `Node1` of a `DTree`. -/
inductive DTreeRoot where
  | n0 (node : Node0)
  | n1 (node : Node1)

/-- The members of a `DTree`: the root, and the pointers `first` and `last` to
the first and the last `Node0`. -/
structure DTree where
  root : DTreeRoot
  first : List Nat
  last : List Nat

/-- The members of an `IterBase`: the pointer `n0` and the index in the array of
that node. -/
structure IterBase where
  n0 : List Nat
  index : Nat
  deriving DecidableEq, Repr

/-- The `Node0` at the end of a path that starts in a `Node1`. -/
def Node1.node0At : Node1 → List Nat → Res Node0
  | _, [] => .undefined
  | n, [j] => if n.type = NODE1 then arrayAt n.array j else .undefined
  | n, j :: k :: rest =>
    if n.type = NODE2 then do
      let c ← arrayAt n.array1 j
      c.node0At (k :: rest)
    else .undefined

/-- The `Node1` at the end of a path that starts in a `Node1`. -/
def Node1.node1At : Node1 → List Nat → Res Node1
  | n, [] => pure n
  | n, j :: rest =>
    if n.type = NODE2 then do
      let c ← arrayAt n.array1 j
      c.node1At rest
    else .undefined

/-- The `Node0` that a pointer of the tree points to. -/
def DTree.node0At (t : DTree) (path : List Nat) : Res Node0 :=
  match t.root with
  | .n0 node => if path = [] then pure node else .undefined
  | .n1 node => node.node0At path

/-- The algorithm `std::lower_bound(array + first, array + first + len, k)` with
`std::less` (as in libstdc++): the index of the first element that is not less
than `k`. -/
def stdLowerBound (array : List Nat) (k : Nat) : Nat → Nat → Nat → Res Nat
  | 0, first, len => if len = 0 then pure first else .timeout
  | fuel+1, first, len =>
    if len > 0 then do
      let half := len >>> 1
      let middle := first + half
      let v ← arrayAt array middle
      if v < k then stdLowerBound array k fuel (middle + 1) (len - half - 1)
      else stdLowerBound array k fuel first half
    else pure first

/-- The algorithm `std::upper_bound(array + first, array + first + len, k)` with
`std::less` (as in libstdc++): the index of the first element that is greater
than `k`. -/
def stdUpperBound (array : List Nat) (k : Nat) : Nat → Nat → Nat → Res Nat
  | 0, first, len => if len = 0 then pure first else .timeout
  | fuel+1, first, len =>
    if len > 0 then do
      let half := len >>> 1
      let middle := first + half
      let v ← arrayAt array middle
      if k < v then stdUpperBound array k fuel first half
      else stdUpperBound array k fuel (middle + 1) (len - half - 1)
    else pure first

/-- The loop `for (; (bitMask & (1ULL<<index)) != 0; index++);` of
`Node0::lower_bound` and `Node0::upper_bound`; a shift by 64 bits or more is
undefined. -/
def Node0.skipFree (n : Node0) : Nat → Nat → Res Nat
  | 0, _ => .timeout
  | fuel+1, index =>
    if index ≥ 64 then .undefined
    else if n.bitMask &&& (1 <<< index) ≠ 0 then n.skipFree fuel (index + 1)
    else pure index

/-- `Node0::lower_bound(k, comp, kofval)`. -/
def Node0.lower_bound (n : Node0) (k : Nat) : Res Nat := do
  let index ← stdLowerBound n.array k n.capacity 0 n.capacity
  n.skipFree 65 index

/-- `Node0::upper_bound(k, comp, kofval)`. -/
def Node0.upper_bound (n : Node0) (k : Nat) : Res Nat := do
  let index ← stdUpperBound n.array k n.capacity 0 n.capacity
  n.skipFree 65 index

/-- `Node0::find(k, comp, kofval)`: `capacity` when `k` is not found. -/
def Node0.find (n : Node0) (k : Nat) : Res Nat := do
  let index ← n.lower_bound k
  if index = n.capacity then pure n.capacity
  else do
    let v ← arrayAt n.array index
    if k < v ∨ v < k then pure n.capacity else pure index

/-- The key `kofval(array[m].array[array[m].firstPos])` of `Node1::upperBoundN`
for a `Node1` of type `NODE1`, and `array1[m].first` otherwise. -/
def Node1.keyAt (n : Node1) (m : Nat) : Res Nat :=
  if n.type = NODE1 then do
    let c ← arrayAt n.array m
    arrayAt c.array c.firstPos
  else do
    let c ← arrayAt n.array1 m
    pure c.first

/-- The loop `while (l+1 < r)` of `Node1::upperBoundN`. -/
def Node1.upperBoundLoop (n : Node1) (v : Nat) : Nat → Nat → Nat → Res Nat
  | 0, _, _ => .timeout
  | fuel+1, l, r =>
    if l + 1 < r then do
      let m := (l + r) >>> 1
      let key ← n.keyAt m
      if v < key then n.upperBoundLoop v fuel l m
      else n.upperBoundLoop v fuel m r
    else pure l

/-- `Node1::upperBoundN(v, comp, kofval)`. -/
def Node1.upperBoundN (n : Node1) (v : Nat) : Res Nat :=
  if n.size = 0 then pure 0
  else do
    let l ← n.upperBoundLoop v (n.size + 1) 0 n.size
    let key ← n.keyAt l
    if ¬ v < key then pure (l + 1) else pure l

/-- `DTree::begin()`. -/
def DTree.begin (t : DTree) : IterBase := ⟨t.first, 0⟩

/-- `DTree::end()`. -/
def DTree.end (t : DTree) : Res IterBase := do
  let last ← t.node0At t.last
  pure ⟨t.last, last.capacity⟩

/-- The loop `while (curn1->type == NODE2)` of `findInt`, `lower_boundInt` and
`upper_boundInt`, from the `Node1` `curn1` at `path` on: nothing when the
function returns `begin()` inside the loop, and otherwise the `Node1` of type
`NODE1` that is reached, with its path.  `fuel` bounds the iterations. -/
def descendNode2 (key : Nat) : Nat → Node1 → List Nat → Res (Option (Node1 × List Nat))
  | 0, _, _ => .timeout
  | fuel+1, curn1, path =>
    if curn1.type = NODE2 then do
      let index ← curn1.upperBoundN key
      if index = 0 then pure none
      else do
        let next ← arrayAt curn1.array1 (index - 1)
        descendNode2 key fuel next (path ++ [index - 1])
    else pure (some (curn1, path))

/-- `DTree::findInt(key)`; `fuel` bounds the iterations of the loop over the
levels of the tree. -/
def DTree.findInt (fuel : Nat) (t : DTree) (key : Nat) : Res IterBase :=
  match t.root with
  | .n0 n0 => do
    let index ← n0.find key
    pure ⟨[], index⟩
  | .n1 n1 => do
    match ← descendNode2 key fuel n1 [] with
    | none => pure t.begin
    | some (curn1, path) =>
      let index ← curn1.upperBoundN key
      if index = 0 then pure t.begin
      else do
        let curn0 ← arrayAt curn1.array (index - 1)
        let itIndex ← curn0.find key
        if itIndex = curn0.capacity then t.end
        else pure ⟨path ++ [index - 1], itIndex⟩

/-- `DTree::find(key)`. -/
def DTree.find (fuel : Nat) (t : DTree) (key : Nat) : Res IterBase :=
  t.findInt fuel key

/-- The `Node1` that a pointer of the tree points to: the path of a `Node1` is
the path of its `Node0`s without the last index. -/
def DTree.node1At (t : DTree) (path : List Nat) : Res Node1 :=
  match t.root with
  | .n0 _ => .undefined
  | .n1 node => node.node1At path

/-- The loop `for (; i < 20 ; i++)` of `IterBase::toNextNode0` over the levels
above the `Node1` at `path`, entered with `i = 20 - fuel`: nothing when the end
of the tree is found (a `Node1` without parent), and otherwise the path of the
next `Node1` at the level where the loop stops. -/
def IterBase.toNextLevel (t : DTree) : Nat → List Nat → Res (Option (List Nat))
  | 0, _ => .undefined
  | fuel+1, path =>
    match path.getLast? with
    | none => pure none
    | some j => do
      let parent ← t.node1At path.dropLast
      if j + 1 < parent.size then pure (some (path.dropLast ++ [j + 1]))
      else IterBase.toNextLevel t fuel path.dropLast

/-- The loop `while (index < n0->capacity && (n0->bitMask & (1ULL<<index)) != 0)
index++` of `IterBase::toNextNode0`. -/
def IterBase.skipEmpty (n0 : Node0) : Nat → Nat → Res Nat
  | 0, _ => .timeout
  | fuel+1, index =>
    if index < n0.capacity ∧ n0.bitMask &&& (1 <<< index) ≠ 0 then
      IterBase.skipEmpty n0 fuel (index + 1)
    else pure index

/-- `IterBase::toNextNode0()`.  For the root `Node0`, which has no parent, the
function decrements the pointer `n0` and reads through it, outside the tree. -/
def IterBase.toNextNode0 (t : DTree) (it : IterBase) : Res IterBase := do
  let n0 ← t.node0At it.n0
  let moved ← (
    if it.index ≥ n0.capacity then
      match it.n0.getLast? with
      | none => .undefined
      | some j => do
        let parent ← t.node1At it.n0.dropLast
        if j + 1 ≥ parent.size then do
          match ← IterBase.toNextLevel t 19 it.n0.dropLast with
          | none => pure it
          | some path =>
            pure ⟨path ++ List.replicate (it.n0.length - path.length) 0, 0⟩
        else pure ⟨it.n0.dropLast ++ [j + 1], 0⟩
    else pure it : Res IterBase)
  let n0 ← t.node0At moved.n0
  let index ← IterBase.skipEmpty n0 (n0.capacity + 1) moved.index
  pure ⟨moved.n0, index⟩

/-- `DTree::lower_boundInt(key)`. -/
def DTree.lower_boundInt (fuel : Nat) (t : DTree) (key : Nat) : Res IterBase :=
  match t.root with
  | .n0 n0 => do
    let index ← n0.lower_bound key
    pure ⟨[], index⟩
  | .n1 n1 => do
    match ← descendNode2 key fuel n1 [] with
    | none => pure t.begin
    | some (curn1, path) =>
      let index ← curn1.upperBoundN key
      if index = 0 then pure t.begin
      else do
        let curn0 ← arrayAt curn1.array (index - 1)
        let itIndex ← curn0.lower_bound key
        if itIndex = curn0.capacity then IterBase.toNextNode0 t ⟨path ++ [index - 1], itIndex⟩
        else pure ⟨path ++ [index - 1], itIndex⟩

/-- `DTree::upper_boundInt(key)`. -/
def DTree.upper_boundInt (fuel : Nat) (t : DTree) (key : Nat) : Res IterBase :=
  match t.root with
  | .n0 n0 => do
    let index ← n0.upper_bound key
    pure ⟨[], index⟩
  | .n1 n1 => do
    match ← descendNode2 key fuel n1 [] with
    | none => pure t.begin
    | some (curn1, path) =>
      let index ← curn1.upperBoundN key
      if index = 0 then pure t.begin
      else do
        let curn0 ← arrayAt curn1.array (index - 1)
        let itIndex ← curn0.lower_bound key
        if itIndex = curn0.capacity then IterBase.toNextNode0 t ⟨path ++ [index - 1], itIndex⟩
        else pure ⟨path ++ [index - 1], itIndex⟩

/-- `DTree::lower_bound(key)`. -/
def DTree.lower_bound (fuel : Nat) (t : DTree) (key : Nat) : Res IterBase :=
  t.lower_boundInt fuel key

/-- `DTree::upper_bound(key)`. -/
def DTree.upper_bound (fuel : Nat) (t : DTree) (key : Nat) : Res IterBase :=
  t.upper_boundInt fuel key

/-- The element `*it` that an iterator points to. -/
def IterBase.deref (t : DTree) (it : IterBase) : Res Nat := do
  let n0 ← t.node0At it.n0
  arrayAt n0.array it.index

/-! ## DTree: well-formed trees

The conditions follow the comments of the members in `DTree.h`: `size` is the
number of elements, `capacity` the capacity of the array, `firstPos` the first
position with an element, a bit 1 of `bitMask` marks a free place, the array is
ordered and its free places hold copies of elements, `index` is the index in
the parent (255 for a root), `totalSize` counts the elements recursively and
`first` is the first element recursively. -/

/-- Each number of the list is less than the next one. -/
def strictlyIncreasing : List Nat → Bool
  | a :: b :: rest => decide (a < b) && strictlyIncreasing (b :: rest)
  | _ => true

/-- No number of the list is greater than the next one. -/
def nonDecreasing : List Nat → Bool
  | a :: b :: rest => decide (a ≤ b) && nonDecreasing (b :: rest)
  | _ => true

/-- The place `i` of the array of a `Node0` holds an element. -/
def Node0.holds (n : Node0) (i : Nat) : Bool := decide (n.bitMask &&& (1 <<< i) = 0)

/-- The elements of a `Node0`, in the order of the array. -/
def Node0.elements (n : Node0) : List Nat :=
  (List.range n.capacity).filterMap fun i => if n.holds i then n.array[i]? else none

/-- The conditions on a `Node0` at the place `index` of its parent; a node
other than the root has at least `minNode0Size` elements. -/
def Node0.wellFormed (n : Node0) (index : Nat) : Bool :=
  decide (n.index = index) &&
  decide (n.array.length = n.capacity) &&
  decide (n.capacity ≤ maxNode0Capacity) &&
  decide (n.bitMask < 2 ^ n.capacity) &&
  decide (n.size = ((List.range n.capacity).filter n.holds).length) &&
  decide (n.size ≤ maxNode0Size) &&
  (decide (index = 255) || decide (minNode0Size ≤ n.size)) &&
  decide (((List.range n.capacity).filter n.holds).head? = some n.firstPos ∨
    (n.size = 0 ∧ n.firstPos = 0)) &&
  nonDecreasing n.array &&
  strictlyIncreasing n.elements

/-- The elements of a `Node1`, in the order of the tree; `fuel` bounds the
depth. -/
def Node1.elements : Nat → Node1 → List Nat
  | 0, _ => []
  | fuel+1, n =>
    if n.type = NODE1 then (n.array.map Node0.elements).flatten
    else (n.array1.map (Node1.elements fuel)).flatten

/-- The conditions on a `Node1` at the place `index` of its parent, with
`depth` levels of `Node1` from it down: its children are well-formed, each at
its place, and every element of a child is below the elements of the next
child. -/
def Node1.wellFormed : Nat → Node1 → Nat → Bool
  | 0, _, _ => false
  | depth+1, n, index =>
    decide (n.index = index) &&
    decide (n.size ≤ n.capacity) &&
    decide (2 ≤ n.size) &&
    decide (n.size ≤ maxNode1Size) &&
    decide ((Node1.elements (depth + 1) n).head? = some n.first) &&
    strictlyIncreasing (Node1.elements (depth + 1) n) &&
    if depth = 0 then
      decide (n.type = NODE1) && decide (n.array1.length = 0) &&
      decide (n.array.length = n.size) &&
      decide (n.totalSize = (n.array.map Node0.size).sum) &&
      (List.range n.size).all fun i =>
        match n.array[i]? with
        | some c => c.wellFormed i
        | none => false
    else
      decide (n.type = NODE2) && decide (n.array.length = 0) &&
      decide (n.array1.length = n.size) &&
      decide (n.totalSize = (n.array1.map Node1.totalSize).sum) &&
      (List.range n.size).all fun i =>
        match n.array1[i]? with
        | some c => Node1.wellFormed depth c i
        | none => false

/-- The path to the last `Node0` below a `Node1`; `fuel` bounds the depth. -/
def Node1.lastPath : Nat → Node1 → List Nat
  | 0, _ => []
  | fuel+1, n =>
    if n.type = NODE1 then [n.size - 1]
    else
      match n.array1[n.size - 1]? with
      | some c => (n.size - 1) :: Node1.lastPath fuel c
      | none => []

/-- The elements of a tree with `depth` levels of `Node1`, in order. -/
def DTree.elements (depth : Nat) (t : DTree) : List Nat :=
  match t.root with
  | .n0 n => n.elements
  | .n1 n => Node1.elements depth n

/-- A well-formed tree with `depth` levels of `Node1`: the root is well-formed
and has the index 255, and `first` and `last` point to the first and to the
last `Node0`. -/
def DTree.WellFormed (depth : Nat) (t : DTree) : Prop :=
  match t.root with
  | .n0 n => depth = 0 ∧ n.wellFormed 255 = true ∧ t.first = [] ∧ t.last = []
  | .n1 n => Node1.wellFormed depth n 255 = true ∧ t.first = List.replicate depth 0 ∧
      t.last = Node1.lastPath depth n

instance (depth : Nat) (t : DTree) : Decidable (t.WellFormed depth) := by
  unfold DTree.WellFormed
  cases t.root <;> infer_instance

/-- A tree of two `Node0` of 18 elements each, 10 to 27 and 40 to 57, under a
root `Node1`; the arrays have the capacity 27 and a free place after every
second element, with a copy of that element, as `Node0::organizeArray` lays
them out. -/
def twoLeafTree : DTree where
  root := .n1 (.mk NODE1 255 2 2 36 10
    [{ index := 0, size := 18, capacity := 27, firstPos := 0, bitMask := 0x4924924,
       array := [10, 11, 11, 12, 13, 13, 14, 15, 15, 16, 17, 17, 18, 19, 19, 20, 21, 21,
         22, 23, 23, 24, 25, 25, 26, 27, 27] },
     { index := 1, size := 18, capacity := 27, firstPos := 0, bitMask := 0x4924924,
       array := [40, 41, 41, 42, 43, 43, 44, 45, 45, 46, 47, 47, 48, 49, 49, 50, 51, 51,
         52, 53, 53, 54, 55, 55, 56, 57, 57] }] [])
  first := [0]
  last := [1]


/-! ## ROCm metadata: the parser of the MsgPack document

The declarations of `CLRX/amdbin/ROCmBinaries.h` and the helpers of
`CLRX/utils/Utilities.h` are not among the sources. -/

/-- The C string that a pointer to `s` followed by a NUL gives: the bytes before
the first NUL. -/
def cstr (s : List Nat) : List Nat := s.takeWhile fun c => c ≠ 0

/-- The bytes of a string literal of the source. -/
def bytesOf (s : String) : List Nat := s.toList.map Char.toNat

/-- `trimStrSpaces(str)`. -/
def trimStrSpaces (str : List Nat) : List Nat :=
  ((str.dropWhile isSpace).reverse.dropWhile isSpace).reverse

/-- Modelled from the spec: `binaryFind(table, table + size, key, CStringLess())`
of `Utilities.h` for a sorted table of names, less the pointer `table`: the
index of the name that is equal to the C string `key`, and the size of the
table when there is none. -/
def binaryFindCStr (table : List String) (key : List Nat) : Nat :=
  (table.map bytesOf).indexOf (cstr key)

/-- Modelled from the spec: `binaryMapFind(map, map + size, key, comp)` of
`Utilities.h` for a sorted table of pairs, less the pointer `map`: the index of
the pair whose name is equal to the C string `key`, without regard to the case
of the letters for `CStringCaseLess`, and the size of the table when there is
none. -/
def binaryMapFind (table : List (String × String)) (key : List Nat) (caseLess : Bool) : Nat :=
  if caseLess then
    (table.map fun e => (bytesOf e.1).map toLower).indexOf ((cstr key).map toLower)
  else (table.map fun e => bytesOf e.1).indexOf (cstr key)

/-- Modelled from the spec: `MsgPackArrayParser::haveElements()` and
`MsgPackMapParser::haveElements()`: elements are left. -/
def haveElements (count : Nat) : Bool := decide (count ≠ 0)

/-- A loop `while (parser.haveElements()) body` over the elements of a MsgPack
array or map: `dataPtr`, the parser and the state of the caller after the loop.
Every turn of the loops of this file decrements the count of the parser, and
`turns` is that count at the start. -/
def whileHaveElements {π σ : Type} (count : π → Nat)
    (body : List Nat → Nat → π → σ → Res (Nat × π × σ)) (data : List Nat) :
    Nat → Nat → π → σ → Res (Nat × π × σ)
  | 0, dataPtr, parser, st =>
    if haveElements (count parser) then .timeout else pure (dataPtr, parser, st)
  | turns+1, dataPtr, parser, st =>
    if haveElements (count parser) then do
      let r ← body data dataPtr parser st
      whileHaveElements count body data turns r.1 r.2.1 r.2.2
    else pure (dataPtr, parser, st)

/-- `MsgPackArrayParser::handleErrors()`. -/
def MsgPackArrayParser.handleErrors (self : MsgPackArrayParserObject) : Res Unit :=
  if self.count = 0 then Res.raise "MsgPack: No left element to parse" else pure ()

/-- `MsgPackArrayParser::parseInteger(signess)`: the value, `dataPtr` and the
parser after the call. -/
def MsgPackArrayParser.parseInteger (W : MsgPackSigness) (data : List Nat) (dataPtr : Nat)
    (self : MsgPackArrayParserObject) (signess : Nat) :
    Res (Nat × Nat × MsgPackArrayParserObject) := do
  MsgPackArrayParser.handleErrors self
  let v ← parseMsgPackInteger W data dataPtr signess
  pure (v.1, v.2, ⟨self.count - 1⟩)

/-- `MsgPackArrayParser::parseString()`. -/
def MsgPackArrayParser.parseString (data : List Nat) (dataPtr : Nat)
    (self : MsgPackArrayParserObject) : Res (List Nat × Nat × MsgPackArrayParserObject) := do
  MsgPackArrayParser.handleErrors self
  let v ← parseMsgPackString data dataPtr
  pure (v.1, v.2, ⟨self.count - 1⟩)

/-- `MsgPackArrayParser::parseMap()`: the parser of the map, `dataPtr` and the
parser of the array after the call. -/
def MsgPackArrayParser.parseMap (data : List Nat) (dataPtr : Nat)
    (self : MsgPackArrayParserObject) :
    Res (MsgPackMapParserObject × Nat × MsgPackArrayParserObject) := do
  MsgPackArrayParser.handleErrors self
  let v ← MsgPackMapParser data dataPtr
  pure (v.1, v.2, ⟨self.count - 1⟩)

/-- The loop `for (size_t i = 0; i < elemsNum; i++) out[i] =
arrParser.parseInteger(signess)` of `parseMsgPackValueTypedArrayForMap`. -/
def parseTypedArrayLoop (W : MsgPackSigness) (data : List Nat) (signess : Nat) :
    Nat → Nat → MsgPackArrayParserObject → List Nat →
    Res (List Nat × Nat × MsgPackArrayParserObject)
  | 0, dataPtr, arrParser, out => pure (out, dataPtr, arrParser)
  | n+1, dataPtr, arrParser, out => do
    let r ← MsgPackArrayParser.parseInteger W data dataPtr arrParser signess
    parseTypedArrayLoop W data signess n r.2.1 r.2.2 (out ++ [r.1])

/-- `parseMsgPackValueTypedArrayForMap(map, out, elemsNum, signess)`: the
`elemsNum` values stored to `out`, `dataPtr` and the parser of the map after the
call. -/
def parseMsgPackValueTypedArrayForMap (W : MsgPackSigness) (data : List Nat) (dataPtr : Nat)
    (map : MsgPackMapParserObject) (elemsNum signess : Nat) :
    Res (List Nat × Nat × MsgPackMapParserObject) := do
  let a ← MsgPackMapParser.parseValueArray data dataPtr map
  let r ← parseTypedArrayLoop W data signess elemsNum a.2.1 a.1 []
  if haveElements r.2.2.count then Res.raise "Typed Array has too many elements"
  else pure (r.1, r.2.1, a.2.2)

/-- The table `rocmMetadataMPKernelArgNames`. -/
def rocmMetadataMPKernelArgNames : List String :=
  [".access", ".actual_access", ".address_space", ".is_const", ".is_pipe", ".is_restrict",
   ".is_volatile", ".name", ".offset", ".pointee_align", ".size", ".type_name",
   ".value_kind", ".value_type"]

/-- The table `rocmMPAccessQualifierTbl`. -/
def rocmMPAccessQualifierTbl : List String := ["read_only", "write_only", "read_write"]

/-- The table `rocmMPValueKindNamesMap`, the enumerators by their names. -/
def rocmMPValueKindNamesMap : List (String × String) :=
  [("by_value", "BY_VALUE"), ("dynamic_shared_pointer", "DYN_SHARED_PTR"),
   ("global_buffer", "GLOBAL_BUFFER"),
   ("hidden_completion_action", "HIDDEN_COMPLETION_ACTION"),
   ("hidden_default_queue", "HIDDEN_DEFAULT_QUEUE"),
   ("hidden_global_offset_x", "HIDDEN_GLOBAL_OFFSET_X"),
   ("hidden_global_offset_y", "HIDDEN_GLOBAL_OFFSET_Y"),
   ("hidden_global_offset_z", "HIDDEN_GLOBAL_OFFSET_Z"),
   ("hidden_multigrid_sync_arg", "HIDDEN_MULTIGRID_SYNC_ARG"),
   ("hidden_none", "HIDDEN_NONE"), ("hidden_printf_buffer", "HIDDEN_PRINTF_BUFFER"),
   ("image", "IMAGE"), ("pipe", "PIPE"), ("queue", "QUEUE"), ("sampler", "SAMPLER")]

/-- The table `rocmValueTypeNamesMap`, the enumerators by their names. -/
def rocmValueTypeNamesMap : List (String × String) :=
  [("F16", "FLOAT16"), ("F32", "FLOAT32"), ("F64", "FLOAT64"), ("I16", "INT16"),
   ("I32", "INT32"), ("I64", "INT64"), ("I8", "INT8"), ("Struct", "STRUCTURE"),
   ("U16", "UINT16"), ("U32", "UINT32"), ("U64", "UINT64"), ("U8", "UINT8")]

/-- The table `rocmAddrSpaceTypesTbl`. -/
def rocmAddrSpaceTypesTbl : List String :=
  ["Private", "Global", "Constant", "Local", "Generic", "Region"]

/-- The members of `ROCmKernelArgInfo` that `parseROCmMetadataKernelArgMsgPack`
assigns; `valueKind` and `valueType` hold the name of the enumerator, and
nothing for the value-initialized member. -/
structure ROCmKernelArgInfo where
  name : List Nat
  typeName : List Nat
  size : Nat
  offset : Nat
  pointeeAlign : Nat
  valueKind : Option String
  valueType : Option String
  addressSpace : Nat
  accessQual : Nat
  actualAccessQual : Nat
  isConst : Bool
  isRestrict : Bool
  isVolatile : Bool
  isPipe : Bool
  deriving DecidableEq, Repr

/-- The value-initialized `ROCmKernelArgInfo arg{}`. -/
def ROCmKernelArgInfo.zero : ROCmKernelArgInfo :=
  ⟨[], [], 0, 0, 0, none, none, 0, 0, 0, false, false, false, false⟩

/-- The body of the loop `while (aParser.haveElements())` of
`parseROCmMetadataKernelArgMsgPack`: `dataPtr`, the parser of the map and
`argInfo` after one entry.  `fuel` bounds the depth of the calls of
`skipMsgPackObject` inside itself. -/
def parseROCmMetadataKernelArgEntry (W : MsgPackSigness) (fuel : Nat) (data : List Nat)
    (dataPtr : Nat) (aParser : MsgPackMapParserObject) (argInfo : ROCmKernelArgInfo) :
    Res (Nat × MsgPackMapParserObject × ROCmKernelArgInfo) := do
  let key ← MsgPackMapParser.parseKeyString data dataPtr aParser
  let name := key.1
  let dataPtr := key.2.1
  let aParser := key.2.2
  let index := binaryFindCStr rocmMetadataMPKernelArgNames name
  if index = 0 ∨ index = 1 then do
    let v ← MsgPackMapParser.parseValueString data dataPtr aParser
    let acc := trimStrSpaces v.1
    let accIndex := (rocmMPAccessQualifierTbl.map bytesOf).indexOf (cstr acc)
    if accIndex = 3 then Res.raise "Wrong access qualifier"
    else if index = 0 then pure (v.2.1, v.2.2, { argInfo with accessQual := accIndex + 1 })
    else pure (v.2.1, v.2.2, { argInfo with actualAccessQual := accIndex + 1 })
  else if index = 2 then do
    let v ← MsgPackMapParser.parseValueString data dataPtr aParser
    let aspace := trimStrSpaces v.1
    let aspaceIndex := (rocmAddrSpaceTypesTbl.map fun s => (bytesOf s).map toLower).indexOf
      ((cstr aspace).map toLower)
    if aspaceIndex = 6 then Res.raise "Wrong address space"
    else pure (v.2.1, v.2.2, { argInfo with addressSpace := aspaceIndex + 1 })
  else if index = 3 then do
    let v ← MsgPackMapParser.parseValueBool data dataPtr aParser
    pure (v.2.1, v.2.2, { argInfo with isConst := v.1 })
  else if index = 4 then do
    let v ← MsgPackMapParser.parseValueBool data dataPtr aParser
    pure (v.2.1, v.2.2, { argInfo with isPipe := v.1 })
  else if index = 5 then do
    let v ← MsgPackMapParser.parseValueBool data dataPtr aParser
    pure (v.2.1, v.2.2, { argInfo with isRestrict := v.1 })
  else if index = 6 then do
    let v ← MsgPackMapParser.parseValueBool data dataPtr aParser
    pure (v.2.1, v.2.2, { argInfo with isVolatile := v.1 })
  else if index = 7 then do
    let v ← MsgPackMapParser.parseValueString data dataPtr aParser
    pure (v.2.1, v.2.2, { argInfo with name := v.1 })
  else if index = 8 then do
    let v ← MsgPackMapParser.parseValueInteger W data dataPtr aParser W.MSGPACK_WS_UNSIGNED
    pure (v.2.1, v.2.2, { argInfo with offset := v.1 })
  else if index = 9 then do
    let v ← MsgPackMapParser.parseValueInteger W data dataPtr aParser W.MSGPACK_WS_UNSIGNED
    pure (v.2.1, v.2.2, { argInfo with pointeeAlign := v.1 })
  else if index = 10 then do
    let v ← MsgPackMapParser.parseValueInteger W data dataPtr aParser W.MSGPACK_WS_UNSIGNED
    pure (v.2.1, v.2.2, { argInfo with size := v.1 })
  else if index = 11 then do
    let v ← MsgPackMapParser.parseValueString data dataPtr aParser
    pure (v.2.1, v.2.2, { argInfo with typeName := v.1 })
  else if index = 12 then do
    let v ← MsgPackMapParser.parseValueString data dataPtr aParser
    let vkind := trimStrSpaces v.1
    let vkindIndex := binaryMapFind rocmMPValueKindNamesMap vkind false
    match rocmMPValueKindNamesMap[vkindIndex]? with
    | none => Res.raise "Wrong argument value kind"
    | some e => pure (v.2.1, v.2.2, { argInfo with valueKind := some e.2 })
  else if index = 13 then do
    let v ← MsgPackMapParser.parseValueString data dataPtr aParser
    let vtype := trimStrSpaces v.1
    let vtypeIndex := binaryMapFind rocmValueTypeNamesMap vtype true
    match rocmValueTypeNamesMap[vtypeIndex]? with
    | none => Res.raise "Wrong argument value type"
    | some e => pure (v.2.1, v.2.2, { argInfo with valueType := some e.2 })
  else do
    let r ← MsgPackMapParser.skipValue fuel data dataPtr aParser
    pure (r.1, r.2, argInfo)

/-- `parseROCmMetadataKernelArgMsgPack(argsParser, argInfo)`: `dataPtr`, the
parser of the array and `argInfo` after the call. -/
def parseROCmMetadataKernelArgMsgPack (W : MsgPackSigness) (fuel : Nat) (data : List Nat)
    (dataPtr : Nat) (argsParser : MsgPackArrayParserObject) (argInfo : ROCmKernelArgInfo) :
    Res (Nat × MsgPackArrayParserObject × ROCmKernelArgInfo) := do
  let m ← MsgPackArrayParser.parseMap data dataPtr argsParser
  let r ← whileHaveElements MsgPackMapParserObject.count
    (parseROCmMetadataKernelArgEntry W fuel) data m.1.count m.2.1 m.1 argInfo
  pure (r.1, m.2.2, r.2.2)

/-- The table `rocmMetadataMPKernelNames`. -/
def rocmMetadataMPKernelNames : List String :=
  [".args", ".device_enqueue_symbol", ".group_segment_fixed_size", ".kernarg_segment_align",
   ".kernarg_segment_size", ".language", ".language_version", ".max_flat_workgroup_size",
   ".name", ".private_segment_fixed_size", ".reqd_workgroup_size", ".sgpr_count",
   ".sgpr_spill_count", ".symbol", ".vec_type_hint", ".vgpr_count", ".vgpr_spill_count",
   ".wavefront_size", ".workgroup_size_hint"]

/-- The members of `ROCmKernelMetadata` that `parseROCmMetadataKernelMsgPack`
assigns. -/
structure ROCmKernelMetadata where
  name : List Nat
  symbolName : List Nat
  deviceEnqueueSymbol : List Nat
  argInfos : List ROCmKernelArgInfo
  language : List Nat
  langVersion : List Nat
  reqdWorkGroupSize : List Nat
  workGroupSizeHint : List Nat
  vecTypeHint : List Nat
  kernargSegmentSize : Nat
  groupSegmentFixedSize : Nat
  privateSegmentFixedSize : Nat
  kernargSegmentAlign : Nat
  wavefrontSize : Nat
  sgprsNum : Nat
  vgprsNum : Nat
  maxFlatWorkGroupSize : Nat
  spilledSgprs : Nat
  spilledVgprs : Nat
  deriving DecidableEq, Repr

/-- The value-initialized `ROCmKernelMetadata kernel{}`, with arrays of zeros. -/
def ROCmKernelMetadata.zero : ROCmKernelMetadata :=
  ⟨[], [], [], [], [], [0, 0], [0, 0, 0], [0, 0, 0], [], 0, 0, 0, 0, 0, 0, 0, 0, 0, 0⟩

/-- The body of the loop `while (argsParser.haveElements())` of
`parseROCmMetadataKernelMsgPack` for the key `.args`. -/
def parseROCmMetadataKernelArgsEntry (W : MsgPackSigness) (fuel : Nat) (data : List Nat)
    (dataPtr : Nat) (argsParser : MsgPackArrayParserObject)
    (argInfos : List ROCmKernelArgInfo) :
    Res (Nat × MsgPackArrayParserObject × List ROCmKernelArgInfo) := do
  let r ← parseROCmMetadataKernelArgMsgPack W fuel data dataPtr argsParser
    ROCmKernelArgInfo.zero
  pure (r.1, r.2.1, argInfos ++ [r.2.2])

/-- The body of the loop `while (kParser.haveElements())` of
`parseROCmMetadataKernelMsgPack`: `dataPtr`, the parser of the map and `kernel`
after one entry. -/
def parseROCmMetadataKernelEntry (W : MsgPackSigness) (fuel : Nat) (data : List Nat)
    (dataPtr : Nat) (kParser : MsgPackMapParserObject) (kernel : ROCmKernelMetadata) :
    Res (Nat × MsgPackMapParserObject × ROCmKernelMetadata) := do
  let key ← MsgPackMapParser.parseKeyString data dataPtr kParser
  let name := key.1
  let dataPtr := key.2.1
  let kParser := key.2.2
  let index := binaryFindCStr rocmMetadataMPKernelNames name
  if index = 0 then do
    let a ← MsgPackMapParser.parseValueArray data dataPtr kParser
    let r ← whileHaveElements MsgPackArrayParserObject.count
      (parseROCmMetadataKernelArgsEntry W fuel) data a.1.count a.2.1 a.1 kernel.argInfos
    pure (r.1, a.2.2, { kernel with argInfos := r.2.2 })
  else if index = 1 then do
    let v ← MsgPackMapParser.parseValueString data dataPtr kParser
    pure (v.2.1, v.2.2, { kernel with deviceEnqueueSymbol := v.1 })
  else if index = 2 then do
    let v ← MsgPackMapParser.parseValueInteger W data dataPtr kParser W.MSGPACK_WS_UNSIGNED
    pure (v.2.1, v.2.2, { kernel with groupSegmentFixedSize := v.1 })
  else if index = 3 then do
    let v ← MsgPackMapParser.parseValueInteger W data dataPtr kParser W.MSGPACK_WS_UNSIGNED
    pure (v.2.1, v.2.2, { kernel with kernargSegmentAlign := v.1 })
  else if index = 4 then do
    let v ← MsgPackMapParser.parseValueInteger W data dataPtr kParser W.MSGPACK_WS_UNSIGNED
    pure (v.2.1, v.2.2, { kernel with kernargSegmentSize := v.1 })
  else if index = 5 then do
    let v ← MsgPackMapParser.parseValueString data dataPtr kParser
    pure (v.2.1, v.2.2, { kernel with language := v.1 })
  else if index = 6 then do
    let v ← parseMsgPackValueTypedArrayForMap W data dataPtr kParser 2 W.MSGPACK_WS_UNSIGNED
    pure (v.2.1, v.2.2, { kernel with langVersion := v.1 })
  else if index = 7 then do
    let v ← MsgPackMapParser.parseValueInteger W data dataPtr kParser W.MSGPACK_WS_UNSIGNED
    pure (v.2.1, v.2.2, { kernel with maxFlatWorkGroupSize := v.1 })
  else if index = 8 then do
    let v ← MsgPackMapParser.parseValueString data dataPtr kParser
    pure (v.2.1, v.2.2, { kernel with name := v.1 })
  else if index = 9 then do
    let v ← MsgPackMapParser.parseValueInteger W data dataPtr kParser W.MSGPACK_WS_UNSIGNED
    pure (v.2.1, v.2.2, { kernel with privateSegmentFixedSize := v.1 })
  else if index = 10 then do
    let v ← parseMsgPackValueTypedArrayForMap W data dataPtr kParser 3 W.MSGPACK_WS_UNSIGNED
    pure (v.2.1, v.2.2, { kernel with reqdWorkGroupSize := v.1 })
  else if index = 11 then do
    let v ← MsgPackMapParser.parseValueInteger W data dataPtr kParser W.MSGPACK_WS_UNSIGNED
    pure (v.2.1, v.2.2, { kernel with sgprsNum := v.1 })
  else if index = 12 then do
    let v ← MsgPackMapParser.parseValueInteger W data dataPtr kParser W.MSGPACK_WS_UNSIGNED
    pure (v.2.1, v.2.2, { kernel with spilledSgprs := v.1 })
  else if index = 13 then do
    let v ← MsgPackMapParser.parseValueString data dataPtr kParser
    pure (v.2.1, v.2.2, { kernel with symbolName := v.1 })
  else if index = 14 then do
    let v ← MsgPackMapParser.parseValueString data dataPtr kParser
    pure (v.2.1, v.2.2, { kernel with vecTypeHint := v.1 })
  else if index = 15 then do
    let v ← MsgPackMapParser.parseValueInteger W data dataPtr kParser W.MSGPACK_WS_UNSIGNED
    pure (v.2.1, v.2.2, { kernel with vgprsNum := v.1 })
  else if index = 16 then do
    let v ← MsgPackMapParser.parseValueInteger W data dataPtr kParser W.MSGPACK_WS_UNSIGNED
    pure (v.2.1, v.2.2, { kernel with spilledVgprs := v.1 })
  else if index = 17 then do
    let v ← MsgPackMapParser.parseValueInteger W data dataPtr kParser W.MSGPACK_WS_UNSIGNED
    pure (v.2.1, v.2.2, { kernel with wavefrontSize := v.1 })
  else if index = 18 then do
    let v ← parseMsgPackValueTypedArrayForMap W data dataPtr kParser 3 W.MSGPACK_WS_UNSIGNED
    pure (v.2.1, v.2.2, { kernel with workGroupSizeHint := v.1 })
  else do
    let r ← MsgPackMapParser.skipValue fuel data dataPtr kParser
    pure (r.1, r.2, kernel)

/-- `parseROCmMetadataKernelMsgPack(kernelsParser, kernel)`: `dataPtr`, the
parser of the array and `kernel` after the call. -/
def parseROCmMetadataKernelMsgPack (W : MsgPackSigness) (fuel : Nat) (data : List Nat)
    (dataPtr : Nat) (kernelsParser : MsgPackArrayParserObject) (kernel : ROCmKernelMetadata) :
    Res (Nat × MsgPackArrayParserObject × ROCmKernelMetadata) := do
  let m ← MsgPackArrayParser.parseMap data dataPtr kernelsParser
  let r ← whileHaveElements MsgPackMapParserObject.count
    (parseROCmMetadataKernelEntry W fuel) data m.1.count m.2.1 m.1 kernel
  pure (r.1, m.2.2, r.2.2)

/-- The functions that `parseROCmMetadataMsgPack` calls and that are not among
the sources: `ROCmKernelMetadata::initialize()`, and `parsePrintfInfoString`,
which takes the string and the set `printfIds` and gives the `ROCmPrintfInfo`
(here its members as numbers) and the set after the call. -/
structure ROCmMetadataHelpers where
  kernelInitialize : ROCmKernelMetadata → ROCmKernelMetadata
  parsePrintfInfoString : List Nat → List Nat → Res (List Nat × List Nat)

/-- The members of `ROCmMetadata` that `parseROCmMetadataMsgPack` assigns. -/
structure ROCmMetadata where
  version : List Nat
  printfInfos : List (List Nat)
  kernels : List ROCmKernelMetadata
  deriving DecidableEq, Repr

/-- The body of the loop `while (kernelsParser.haveElements())` of
`parseROCmMetadataMsgPack`. -/
def parseROCmMetadataKernelsEntry (W : MsgPackSigness) (H : ROCmMetadataHelpers) (fuel : Nat)
    (data : List Nat) (dataPtr : Nat) (kernelsParser : MsgPackArrayParserObject)
    (kernels : List ROCmKernelMetadata) :
    Res (Nat × MsgPackArrayParserObject × List ROCmKernelMetadata) := do
  let r ← parseROCmMetadataKernelMsgPack W fuel data dataPtr kernelsParser
    (H.kernelInitialize ROCmKernelMetadata.zero)
  pure (r.1, r.2.1, kernels ++ [r.2.2])

/-- The body of the loop `while (printfsParser.haveElements())` of
`parseROCmMetadataMsgPack`, on the set `printfIds` and the vector
`printfInfos`. -/
def parseROCmMetadataPrintfEntry (H : ROCmMetadataHelpers) (data : List Nat) (dataPtr : Nat)
    (printfsParser : MsgPackArrayParserObject) (st : List Nat × List (List Nat)) :
    Res (Nat × MsgPackArrayParserObject × List Nat × List (List Nat)) := do
  let pistr ← MsgPackArrayParser.parseString data dataPtr printfsParser
  let p ← H.parsePrintfInfoString pistr.1 st.1
  pure (pistr.2.1, pistr.2.2, p.2, st.2 ++ [p.1])

/-- The body of the loop `while (mainMap.haveElements())` of
`parseROCmMetadataMsgPack`: `dataPtr`, the parser of the map and `metadataInfo`
after one entry.  The key is a `CString`, compared as a C string. -/
def parseROCmMetadataEntry (W : MsgPackSigness) (H : ROCmMetadataHelpers) (fuel : Nat)
    (data : List Nat) (dataPtr : Nat) (mainMap : MsgPackMapParserObject)
    (metadataInfo : ROCmMetadata) : Res (Nat × MsgPackMapParserObject × ROCmMetadata) := do
  let key ← MsgPackMapParser.parseKeyString data dataPtr mainMap
  let name := cstr key.1
  let dataPtr := key.2.1
  let mainMap := key.2.2
  if name = bytesOf "amdhsa.version" then do
    let v ← parseMsgPackValueTypedArrayForMap W data dataPtr mainMap 2 W.MSGPACK_WS_UNSIGNED
    pure (v.2.1, v.2.2, { metadataInfo with version := v.1 })
  else if name = bytesOf "amdhsa.kernels" then do
    let a ← MsgPackMapParser.parseValueArray data dataPtr mainMap
    let r ← whileHaveElements MsgPackArrayParserObject.count
      (parseROCmMetadataKernelsEntry W H fuel) data a.1.count a.2.1 a.1 metadataInfo.kernels
    pure (r.1, a.2.2, { metadataInfo with kernels := r.2.2 })
  else if name = bytesOf "amdhsa.printf" then do
    let a ← MsgPackMapParser.parseValueArray data dataPtr mainMap
    let r ← whileHaveElements MsgPackArrayParserObject.count
      (parseROCmMetadataPrintfEntry H) data a.1.count a.2.1 a.1 ([], metadataInfo.printfInfos)
    pure (r.1, a.2.2, { metadataInfo with printfInfos := r.2.2.2 })
  else do
    let r ← MsgPackMapParser.skipValue fuel data dataPtr mainMap
    pure (r.1, r.2, metadataInfo)

/-- `parseROCmMetadataMsgPack(metadataSize, metadata, metadataInfo)` for the
`metadataSize` bytes `metadata`: `metadataInfo` after the call. -/
def parseROCmMetadataMsgPack (W : MsgPackSigness) (H : ROCmMetadataHelpers) (fuel : Nat)
    (metadata : List Nat) : Res ROCmMetadata := do
  let m ← MsgPackMapParser metadata 0
  let r ← whileHaveElements MsgPackMapParserObject.count
    (parseROCmMetadataEntry W H fuel) metadata m.1.count m.2 m.1 ⟨[0, 0], [], []⟩
  pure r.2.2

/-! ## ROCm metadata: documents as sequences of entries -/

/-- Modelled from the spec: `hdr` is a header of a MsgPack string of `len`
bytes: fixstr, str8, str16 or str32. -/
def IsStringHeader (len : Nat) (hdr : List Nat) : Prop :=
  (len < 32 ∧ hdr = [0xa0 + len]) ∨ (len < 0x100 ∧ hdr = [0xd9, len]) ∨
  (len < 0x10000 ∧ hdr = [0xda, len / 256, len % 256]) ∨
  (len < 0x100000000 ∧ hdr = 0xdb :: bigEndian32 len)

/-- Modelled from the spec: `hdr` is a header of a MsgPack map of `n` entries:
fixmap, map16 or map32. -/
def IsMapHeader (n : Nat) (hdr : List Nat) : Prop :=
  (n < 16 ∧ hdr = [0x80 + n]) ∨ (n < 0x10000 ∧ hdr = [0xde, n / 256, n % 256]) ∨
  (n < 0x100000000 ∧ hdr = 0xdf :: bigEndian32 n)

/-- Modelled from the spec: `hdr` is a header of a MsgPack array of `n`
elements: fixarray, array16 or array32. -/
def IsArrayHeader (n : Nat) (hdr : List Nat) : Prop :=
  (n < 16 ∧ hdr = [0x90 + n]) ∨ (n < 0x10000 ∧ hdr = [0xdc, n / 256, n % 256]) ∨
  (n < 0x100000000 ∧ hdr = 0xdd :: bigEndian32 n)

/-- An entry of a map whose key is none of `names`: a string, which is as a C
string (up to its first NUL) none of the names, followed by a well-formed
object, in which an array32 or a map32 has less than `2^31` elements. -/
def UnknownEntry (names : List String) (entry : List Nat) : Prop :=
  ∃ (hdr key obj : List Nat), entry = hdr ++ key ++ obj ∧ IsStringHeader key.length hdr ∧
    cstr key ∉ names.map bytesOf ∧ MsgPackObject 0x80000000 obj

/-- The body of a loop consumes the bytes `bytes`, wherever they stand in a
buffer and whatever number of elements is left after them: it leaves `dataPtr`
behind them, counts one element less and takes the state `st` of the caller to
`st1`.  `parser k` is the parser with `k` elements left. -/
def Consumes {π σ : Type} (parser : Nat → π)
    (body : List Nat → Nat → π → σ → Res (Nat × π × σ)) (bytes : List Nat) (st st1 : σ) :
    Prop :=
  ∀ (pre post : List Nat) (k : Nat),
    body (pre ++ bytes ++ post) pre.length (parser (k + 1)) st =
      .ret (pre.length + bytes.length, parser k, st1)

/-- The body of a loop consumes the elements `elems` one after the other, and
takes the state `st` of the caller to `st1`. -/
def ConsumesAll {π σ : Type} (parser : Nat → π)
    (body : List Nat → Nat → π → σ → Res (Nat × π × σ)) : List (List Nat) → σ → σ → Prop
  | [], st, st1 => st = st1
  | e :: rest, st, st1 =>
    ∃ st2, Consumes parser body e st st2 ∧ ConsumesAll parser body rest st2 st1

/-- The parser of a map with `k` entries left, before a key. -/
def mapParser (k : Nat) : MsgPackMapParserObject := ⟨k, true⟩

/-- The parser of an array with `k` elements left. -/
def arrayParser (k : Nat) : MsgPackArrayParserObject := ⟨k⟩

/-- The names `amdhsa.version`, `amdhsa.kernels` and `amdhsa.printf` that
`parseROCmMetadataMsgPack` compares the keys of the root map with. -/
def rocmMetadataMPNames : List String := ["amdhsa.version", "amdhsa.kernels", "amdhsa.printf"]

/-- The bytes of a map or an array with the header `hdr` and the entries or
elements `elems`. -/
def withHeader (hdr : List Nat) (elems : List (List Nat)) : List Nat := hdr ++ elems.flatten

/-- The entries `entries` with the entry `entry` added at the place `i` (at the
end from the number of entries on). -/
def insertEntry (entries : List (List Nat)) (i : Nat) (entry : List Nat) : List (List Nat) :=
  entries.take i ++ entry :: entries.drop i

/-- The entry of a map with the key `name`, a string with the header `keyHdr`,
and the bytes `value`. -/
def entryBytes (keyHdr : List Nat) (name : String) (value : List Nat) : List Nat :=
  keyHdr ++ bytesOf name ++ value

/-- The place of a kernel map in a document: `doc kernelMap` is a root map with
an entry `amdhsa.kernels`, whose array holds `kernelMap` as one of its
elements; the loops of the parser consume the entries of the root map before
and after that entry, and the kernel maps before and after `kernelMap`, and
with `kernel` as the `ROCmKernelMetadata` of `kernelMap` they arrive at the
metadata `info`. -/
def KernelMapPlace (W : MsgPackSigness) (H : ROCmMetadataHelpers) (fuel : Nat)
    (doc : List Nat → List Nat) (kernel : ROCmKernelMetadata) (info : ROCmMetadata) : Prop :=
  ∃ (rootHdr keyHdr arrayHdr post : List Nat) (before after kmBefore kmAfter : List (List Nat))
    (info1 : ROCmMetadata) (ks1 ks2 : List ROCmKernelMetadata),
    (∀ kernelMap, doc kernelMap = withHeader rootHdr (before ++ entryBytes keyHdr
      "amdhsa.kernels" (withHeader arrayHdr (kmBefore ++ kernelMap :: kmAfter)) :: after) ++
      post) ∧
    IsMapHeader (before.length + after.length + 1) rootHdr ∧ IsStringHeader 14 keyHdr ∧
    IsArrayHeader (kmBefore.length + kmAfter.length + 1) arrayHdr ∧
    ConsumesAll mapParser (parseROCmMetadataEntry W H fuel) before ⟨[0, 0], [], []⟩ info1 ∧
    ConsumesAll arrayParser (parseROCmMetadataKernelsEntry W H fuel) kmBefore info1.kernels
      ks1 ∧
    ConsumesAll arrayParser (parseROCmMetadataKernelsEntry W H fuel) kmAfter (ks1 ++ [kernel])
      ks2 ∧
    ConsumesAll mapParser (parseROCmMetadataEntry W H fuel) after { info1 with kernels := ks2 }
      info

/-- The place of an argument map in a document: `doc argMap` is a document with
a kernel map that has an entry `.args`, whose array holds `argMap` as one of
its elements; the loops of the parser consume the entries of the kernel map
before and after that entry, and the argument maps before and after `argMap`,
and with `arg` as the `ROCmKernelArgInfo` of `argMap` they arrive at the
metadata `info`. -/
def ArgMapPlace (W : MsgPackSigness) (H : ROCmMetadataHelpers) (fuel : Nat)
    (doc : List Nat → List Nat) (arg : ROCmKernelArgInfo) (info : ROCmMetadata) : Prop :=
  ∃ (kernelDoc : List Nat → List Nat) (kernel kernel1 : ROCmKernelMetadata)
    (kernelHdr keyHdr arrayHdr : List Nat) (before after amBefore amAfter : List (List Nat))
    (as1 as2 : List ROCmKernelArgInfo),
    KernelMapPlace W H fuel kernelDoc kernel info ∧
    (∀ argMap, doc argMap = kernelDoc (withHeader kernelHdr (before ++ entryBytes keyHdr
      ".args" (withHeader arrayHdr (amBefore ++ argMap :: amAfter)) :: after))) ∧
    IsMapHeader (before.length + after.length + 1) kernelHdr ∧ IsStringHeader 5 keyHdr ∧
    IsArrayHeader (amBefore.length + amAfter.length + 1) arrayHdr ∧
    ConsumesAll mapParser (parseROCmMetadataKernelEntry W fuel) before
      (H.kernelInitialize ROCmKernelMetadata.zero) kernel1 ∧
    ConsumesAll arrayParser (parseROCmMetadataKernelArgsEntry W fuel) amBefore
      kernel1.argInfos as1 ∧
    ConsumesAll arrayParser (parseROCmMetadataKernelArgsEntry W fuel) amAfter (as1 ++ [arg])
      as2 ∧
    ConsumesAll mapParser (parseROCmMetadataKernelEntry W fuel) after
      { kernel1 with argInfos := as2 } kernel

/-- Helpers for the examples: `initialize()` leaves the kernel as it is, and the
printf info is the string itself. -/
def plainHelpers : ROCmMetadataHelpers := ⟨id, fun s ids => .ret (s, ids)⟩

/-- An entry for the examples: the key `.zzz` with the value nil. -/
def zzzEntry : List Nat := [0xa4] ++ bytesOf ".zzz" ++ [0xc0]

/-- An entry for the examples: the key of the 12 bytes `.sgpr_count` and NUL,
with the string `a` as its value. -/
def nulKeyEntry : List Nat := [0xac] ++ (bytesOf ".sgpr_count" ++ [0]) ++ [0xa1, 97]

/-- An entry for the examples: the integer 5 as the key, with the value nil. -/
def integerKeyEntry : List Nat := [5, 0xc0]

/-- The entries of the argument map of the examples: `.name` with the value
`x`. -/
def exampleArgEntries : List (List Nat) := [entryBytes [0xa5] ".name" [0xa1, 120]]

/-- The entries of the kernel map of the examples: `.name` with the value `k`,
and `.args` with an array of the one argument map `argMap`. -/
def exampleKernelEntries (argMap : List Nat) : List (List Nat) :=
  [entryBytes [0xa5] ".name" [0xa1, 107], entryBytes [0xa5] ".args" (withHeader [0x91] [argMap])]

/-- The entries of the root map of the examples: `amdhsa.kernels` with an array
of the one kernel map `kernelMap`. -/
def exampleRootEntries (kernelMap : List Nat) : List (List Nat) :=
  [entryBytes [0xae] "amdhsa.kernels" (withHeader [0x91] [kernelMap])]

/-- A document for the examples: the root map with the one entry
`amdhsa.kernels`, an array of the one kernel map `kernelMap`. -/
def oneKernelDocument (kernelMap : List Nat) : List Nat :=
  withHeader [0x81] (exampleRootEntries kernelMap)

/-- A document for the examples: `oneKernelDocument` of the kernel map with the
entries `.name` and `.args`, an array of the one argument map `argMap`. -/
def oneArgDocument (argMap : List Nat) : List Nat :=
  oneKernelDocument (withHeader [0x82] (exampleKernelEntries argMap))

/-- The argument of the examples. -/
def exampleArg : ROCmKernelArgInfo := { ROCmKernelArgInfo.zero with name := [120] }

/-- The kernel of the examples. -/
def exampleKernel : ROCmKernelMetadata :=
  { ROCmKernelMetadata.zero with name := [107], argInfos := [exampleArg] }

/-- The metadata of the examples. -/
def exampleInfo : ROCmMetadata := ⟨[0, 0], [], [exampleKernel]⟩

/-- The entries of a kernel map for the examples: `.sgpr_count` with the value
5. -/
def sgprCountEntries : List (List Nat) := [entryBytes [0xab] ".sgpr_count" [5]]


/-! ## Gallium containers with an argument record -/

/-- The bytes of an argument record of a kernel: type, size, target size,
target alignment, sign extension and semantic. -/
def argRecord (type size targetSize targetAlign signExtended semantic : Nat) : List Nat :=
  storeLE 4 type ++ storeLE 4 size ++ storeLE 4 targetSize ++ storeLE 4 targetAlign ++
    storeLE 4 signExtended ++ storeLE 4 semantic

/-- The bytes of the record of a kernel with one argument record `arg`. -/
def kernelRecordWithArg (name : List Nat) (sectionId offset : Nat) (arg : List Nat) :
    List Nat :=
  storeLE 4 name.length ++ name ++ storeLE 4 sectionId ++ storeLE 4 offset ++ storeLE 4 1 ++ arg

/-- The container `oneKernelContainer` whose kernel `a` has the one argument
record `arg`. -/
def oneArgContainer (arg : List Nat) : List Nat :=
  storeLE 4 1 ++ kernelRecordWithArg (bytes "a") 0 2 arg ++ storeLE 4 1 ++
    sectionRecord 0 0 (generatedBytes Elf32Types nobitsDescription)


/-- A buffer of 132 bytes: a 32-bit ELF header with `e_shoff = 52`,
`e_shentsize = 40`, `e_shnum = 2` and `e_shstrndx = 1`, the null section header,
and the header of the section name string table with the given `sh_type`,
`sh_offset` and `sh_size`. -/
def stringTableHeaderBinary (type offset size : Nat) : List Nat :=
  [0x7f, 69, 76, 70, 1, 1, 1] ++ zeroFill 9 ++ storeLE 2 1 ++ storeLE 2 0 ++ storeLE 4 1 ++
    storeLE 4 0 ++ storeLE 4 0 ++ storeLE 4 52 ++ storeLE 4 0 ++ storeLE 2 52 ++
    storeLE 2 0 ++ storeLE 2 0 ++ storeLE 2 40 ++ storeLE 2 2 ++ storeLE 2 1 ++
    zeroFill 40 ++
    storeLE 4 0 ++ storeLE 4 type ++ storeLE 4 0 ++ storeLE 4 0 ++ storeLE 4 offset ++
    storeLE 4 size ++ storeLE 4 0 ++ storeLE 4 0 ++ storeLE 4 0 ++ storeLE 4 0


/-! ## ROCm metadata: `end()` of the MsgPack array and map parsers -/

/-- `MsgPackArrayParser::end()`: `dataPtr` after the call and the value it
returns. -/
def MsgPackArrayParser.end (fuel : Nat) (data : List Nat) (dataPtr : Nat)
    (self : MsgPackArrayParserObject) : Res (Nat × Nat) := do
  let dataPtr ← foldRange self.count dataPtr fun _ dataPtr =>
    skipMsgPackObject fuel data dataPtr
  pure (dataPtr, self.count)

/-- `MsgPackMapParser::end()`: `dataPtr` after the call and the value it
returns. -/
def MsgPackMapParser.end (fuel : Nat) (data : List Nat) (dataPtr : Nat)
    (self : MsgPackMapParserObject) : Res (Nat × Nat) := do
  let dataPtr ← (if !self.keyLeft then skipMsgPackObject fuel data dataPtr
    else pure dataPtr : Res Nat)
  let dataPtr ← foldRange self.count dataPtr fun _ dataPtr => do
    let dataPtr ← skipMsgPackObject fuel data dataPtr
    skipMsgPackObject fuel data dataPtr
  pure (dataPtr, self.count)


/-! ## The sizes of the regions after `computeSize` -/

/-- What `computeSize` does with the size of a region `r` of the description,
`r1` being the region after the call: a user region and a section with a
declared size that is not `NOBITS` keep their size, and a header table gets the
size of the table, narrowed to `Types::Word`; the kind of region, its section
part and its content are as they were. -/
def SizeAfterComputeSize (T : ElfTypes) (gen : ElfBinaryGen) (sectionsNum : Nat)
    (r r1 : ElfRegion) : Prop :=
  r1.type = r.type ∧ r1.sect = r.sect ∧ r1.data = r.data ∧
  r1.dataFromPointer = r.dataFromPointer ∧
  (r.type = ElfRegionType.USER → r1.size = r.size) ∧
  (r.type = ElfRegionType.SECTION → r.sect.type ≠ SHT_NOBITS → r.size ≠ 0 →
    r1.size = r.size) ∧
  (r.type = ElfRegionType.PHDR_TABLE →
    r1.size = (gen.progHeaders.length * T.phdrSize) % 256 ^ T.wordSize) ∧
  (r.type = ElfRegionType.SHDR_TABLE →
    r1.size = (sectionsNum * T.shdrSize) % 256 ^ T.wordSize)

/-- A 32-bit description with the section `.text` and a section headers table
that is declared with the size 5. -/
def sizedTableDescription : ElfBinaryGen :=
  ElfBinaryGen.create ⟨0, 0, 1, 0xe0, 1, UINT_MAX, 0, 0, 0, 0⟩
    [⟨.SECTION, true, 4, 1, some [1, 2, 3, 4], ⟨bytes ".text", 1, 6, 0, 0, 0, 0⟩⟩,
     ⟨.SHDR_TABLE, true, 5, 0, none, ⟨[], 0, 0, 0, 0, 0, 0⟩⟩]
    [] [] []

/-- The sizes of the regions after `computeSize`. -/
def computedSizes (T : ElfTypes) (gen : ElfBinaryGen) : Res (List Nat) :=
  (computeSize T gen).andThen fun gen1 => .ret (gen1.regions.map fun r => r.size)

/-! ## The rows of the joined table and the rows of the sorted table -/

/-- The row `f` of the joined table carries the row `s` of the sorted table
`sorted`: it has the mnemonic of `s`, an `archMask` inside the one of `s`, and
the encoding and opcode of `s` in its first slot or in its filled second slot;
and its `archMask` is the one of `s` when no `VOP3A`/`VOP3B` row of `sorted`
with the mnemonic of `s` has an `archMask` properly inside the one of `s`. -/
def RowCarries (sorted : List GCNAsmInstruction) (f s : GCNAsmInstruction) : Prop :=
  f.mnemonic = s.mnemonic ∧ f.archMask &&& s.archMask = f.archMask ∧
  ((f.encoding1 = s.encoding1 ∧ f.code1 = s.code1) ∨
    (f.encoding2 = s.encoding1 ∧ f.code2 = s.code1 ∧ f.code2 ≠ UINT16_MAX)) ∧
  ((∀ t ∈ sorted, (t.encoding1 = GCNENC_VOP3A ∨ t.encoding1 = GCNENC_VOP3B) →
      t.mnemonic = s.mnemonic → t.archMask &&& s.archMask = t.archMask →
      t.archMask = s.archMask) →
    f.archMask = s.archMask)

/-! ## `Node0::insert` and `Node0::erase`

The instance of the template for natural-number elements that are their own
keys, with `std::less`, as in the model of the lookups. -/

/-- Modelled from the spec: `CLZ64` (declared in a header that is not among the
sources), the number of leading zero bits of a non-zero 64-bit word. -/
def CLZ64 (v : Nat) : Nat := ((List.range 64).find? fun i => v.testBit (63 - i)).getD 64

/-- Modelled from the spec: `CTZ64` (declared in a header that is not among the
sources), the number of trailing zero bits of a non-zero 64-bit word. -/
def CTZ64 (v : Nat) : Nat := ((List.range 64).find? fun i => v.testBit i).getD 64

/-- A store into an array; an index outside the array is a write outside it. -/
def arrayStore {α : Type} (xs : List α) (i : Nat) (v : α) : Res (List α) :=
  if i < xs.length then .ret (xs.set i v) else .undefined

/-- The word `1ULL<<i`; a shift by 64 bits or more is undefined. -/
def bit64 (i : Nat) : Res Nat :=
  if i < 64 then .ret (1 <<< i) else .undefined

/-- The loop `while ((inBitMask & (1ULL<<i)) != 0) i++;` of `organizeArray`. -/
def skipFreeElems (inBitMask : Nat) : Nat → Nat → Res Nat
  | 0, _ => .timeout
  | fuel+1, i =>
    if i ≥ 64 then .undefined
    else if inBitMask &&& (1 <<< i) ≠ 0 then skipFreeElems inBitMask fuel (i + 1)
    else pure i

/-- The variables that `organizeArray` and the loop of `resizeWithIndexUpdate`
work on: the place `i` in the old array, the place `k` in the new one, `factor`,
`newIdx`, `toFill`, the new array and the new bit mask. -/
structure OrganizeState where
  i : Nat
  k : Nat
  factor : Nat
  newIdx : Nat
  toFill : Nat
  out : List Nat
  outBitMask : Nat
deriving Repr, DecidableEq

/-- The loop `for (; p0 < size; k++, p0++)` of `organizeArray`, with `count`
iterations to go. -/
def organizeArrayLoop (array : List Nat) (inBitMask newSize finc : Nat) :
    Nat → OrganizeState → Res OrganizeState
  | 0, st => pure st
  | count+1, st => do
    let v ← arrayAt array st.i
    let out ← arrayStore st.out st.k v
    let factor := (st.factor + finc) % 2 ^ 32
    let st1 : OrganizeState ←
      if factor ≥ newSize then do
        -- add additional (empty) element
        let out1 ← arrayStore out (st.k + 1) v
        let bit ← bit64 (st.k + 1)
        pure { st with k := st.k + 1, factor := factor - newSize, toFill := v, out := out1,
                       outBitMask := st.outBitMask ||| bit }
      else pure { st with factor := factor, toFill := v, out := out }
    let i ← skipFreeElems inBitMask 65 (st.i + 1)
    organizeArrayLoop array inBitMask newSize finc count { st1 with i := i, k := st1.k + 1 }

/-- `Node0::organizeArray(toFill, i, size, array, inBitMask, k, newSize, out,
outBitMask, factor, finc)`. -/
def organizeArray (st : OrganizeState) (size : Nat) (array : List Nat)
    (inBitMask newSize finc : Nat) : Res OrganizeState := do
  let i ← skipFreeElems inBitMask 65 st.i
  organizeArrayLoop array inBitMask newSize finc size { st with i := i }

/-- The new capacity that `resize` and `resizeWithIndexUpdate` work out. -/
def Node0.newCapacity (n : Node0) (extraSize : Nat) : Nat :=
  min ((n.size + extraSize + ((n.size + extraSize) >>> freePlacesShift)) % 256)
    maxNode0Capacity

/-- The filling of the remaining free element after the loop, in `resize` and in
`resizeWithIndexUpdate`. -/
def fillRemaining (st : OrganizeState) (newCapacity : Nat) : Res OrganizeState :=
  if st.k < newCapacity then do
    let out ← arrayStore st.out st.k st.toFill
    let bit ← bit64 st.k
    pure { st with out := out, outBitMask := st.outBitMask ||| bit }
  else pure st

/-- `Node0::resize(extraSize)`; the elements of `new T[newCapacity]` are 0
here. -/
def Node0.resize (n : Node0) (extraSize : Nat) : Res Node0 := do
  let newCapacity := n.newCapacity extraSize
  let finc := (newCapacity + 2 ^ 32 - n.size) % 2 ^ 32
  let st ← organizeArray ⟨0, 0, 0, 255, 0, List.replicate newCapacity 0, 0⟩ n.size n.array
    n.bitMask n.size finc
  let st1 ← fillRemaining st newCapacity
  pure { n with array := st1.out, capacity := newCapacity, bitMask := st1.outBitMask,
                firstPos := 0 }

/-- The loop `for (; i < capacity; j++)` of `resizeWithIndexUpdate`; `fuel`
bounds its iterations. -/
def Node0.resizeLoop (n : Node0) (idx finc : Nat) : Nat → OrganizeState → Res OrganizeState
  | 0, _ => .timeout
  | fuel+1, st =>
    if st.i < n.capacity then do
      let v ← arrayAt n.array st.i
      let out ← arrayStore st.out st.k v
      -- if is it this element
      let newIdx := if idx = st.i then st.k else st.newIdx
      let factor := (st.factor + finc) % 2 ^ 32
      let st1 : OrganizeState ←
        if factor ≥ n.size then do
          -- add additional (empty) element
          let out1 ← arrayStore out (st.k + 1) v
          let bit ← bit64 (st.k + 1)
          pure { st with k := st.k + 1, factor := factor - n.size, newIdx := newIdx,
                         toFill := v, out := out1, outBitMask := st.outBitMask ||| bit }
        else pure { st with factor := factor, newIdx := newIdx, toFill := v, out := out }
      let i ← n.skipFree 65 (st.i + 1)
      n.resizeLoop idx finc fuel { st1 with i := i, k := st1.k + 1 }
    else pure st

/-- `Node0::resizeWithIndexUpdate(extraSize, idx)`: the node and the new value of
`idx`; the elements of `new T[newCapacity]` are 0 here. -/
def Node0.resizeWithIndexUpdate (n : Node0) (extraSize idx : Nat) : Res (Node0 × Nat) := do
  let newCapacity := n.newCapacity extraSize
  let finc := (newCapacity + 2 ^ 32 - n.size) % 2 ^ 32
  let i ← n.skipFree 65 0
  -- fill newArray with skipping free spaces
  let st ← n.resizeLoop idx finc 65 ⟨i, 0, 0, 255, 0, List.replicate newCapacity 0, 0⟩
  -- fill a remaining free elements
  let st1 ← fillRemaining st newCapacity
  -- determine new index if it is last
  let newIdx ←
    if st1.newIdx = 255 then do
      let bit ← bit64 ((newCapacity + 2 ^ 32 - 1) % 2 ^ 32)
      pure ((newCapacity + 2 ^ 32 - (if st1.outBitMask &&& bit ≠ 0 then 1 else 0)) % 2 ^ 32)
    else pure st1.newIdx
  pure ({ n with array := st1.out, capacity := newCapacity, bitMask := st1.outBitMask,
                 firstPos := 0 }, newIdx)

/-- The loop `for (; k > idx; k--) array[k] = array[k-1];` of `insert`. -/
def moveRight (idx : Nat) : Nat → List Nat → Nat → Res (List Nat)
  | 0, _, _ => .timeout
  | fuel+1, array, k =>
    if k > idx then do
      let v ← arrayAt array (k - 1)
      let array1 ← arrayStore array k v
      moveRight idx fuel array1 (k - 1)
    else pure array

/-- The loop `for (; k < idx-1; k++) array[k] = array[k+1];` of `insert`. -/
def moveLeft (idx : Nat) : Nat → List Nat → Nat → Res (List Nat)
  | 0, _, _ => .timeout
  | fuel+1, array, k =>
    if k < (idx + 2 ^ 32 - 1) % 2 ^ 32 then do
      let v ← arrayAt array (k + 1)
      let array1 ← arrayStore array k v
      moveLeft idx fuel array1 (k + 1)
    else pure array

/-- The handling of the index hint in `insert`: the start value of `idx`. -/
def Node0.hintedIndex (n : Node0) (v indexHint : Nat) : Res Nat :=
  if indexHint ≠ 255 then do
    -- handle index hint
    let bit ← bit64 indexHint
    let here ← if n.bitMask &&& bit = 0 then do
        let a ← arrayAt n.array indexHint
        pure (decide (a = v))
      else pure false
    if here then pure indexHint
    else if indexHint > 0 then do
      let bit1 ← bit64 (indexHint - 1)
      if n.bitMask &&& bit1 = 0 then do
        let a ← arrayAt n.array (indexHint - 1)
        if a = v then pure (indexHint - 1) else pure indexHint
      else pure indexHint
    else pure indexHint
  else pure 255

/-- `Node0::insert(v, comp, kofval, indexHint)`: the node after the call and the
pair returned. -/
def Node0.insert (n : Node0) (v : Nat) (indexHint : Nat) : Res (Node0 × Nat × Bool) := do
  let idx0 ← n.hintedIndex v indexHint
  let idx1 ← if idx0 = 255 then n.lower_bound v else pure idx0
  let equal ← if idx1 < n.capacity then do
      let a ← arrayAt n.array idx1
      pure (decide (¬ v < a))
    else pure false
  if equal then
    -- is equal, then skip insertion
    pure (n, idx1, false)
  else do
    let minFreePlaces := (n.size + 1) >>> minFreePlacesShift
    let (n1, idx) ← if (n.size + 1) + minFreePlaces > n.capacity
      then n.resizeWithIndexUpdate 1 idx1 else pure (n, idx1)
    let bit ← bit64 idx
    if n1.bitMask &&& bit = 0 then do
      -- if this is not free element
      let leftMask := n1.bitMask &&& (bit - 1)
      let rightMask := n1.bitMask &&& (2 ^ 64 - 1 - ((2 <<< idx) % 2 ^ 64 + 2 ^ 64 - 1) % 2 ^ 64)
      let leftLen := if leftMask ≠ 0 then (idx + 2 ^ 32 - (63 - CLZ64 leftMask)) % 2 ^ 32 else 255
      let rightLen := if rightMask ≠ 0 then (CTZ64 rightMask + 2 ^ 32 - idx) % 2 ^ 32 else 255
      if leftLen ≥ rightLen then do
        -- move right side (shorter)
        let k := (idx + rightLen) % 2 ^ 32
        let bitk ← bit64 k
        let array ← moveRight idx 256 n1.array k
        let array1 ← arrayStore array idx v
        pure ({ n1 with bitMask := n1.bitMask &&& (2 ^ 64 - 1 - bitk), array := array1,
                        size := (n1.size + 1) % 256 }, idx, true)
      else do
        -- move left side (shorter)
        let k := (idx + 2 ^ 32 - leftLen) % 2 ^ 32
        let bitk ← bit64 k
        let array ← moveLeft idx 256 n1.array k
        let idx2 := (idx + 2 ^ 32 - 1) % 2 ^ 32
        let array1 ← arrayStore array idx2 v
        pure ({ n1 with bitMask := n1.bitMask &&& (2 ^ 64 - 1 - bitk), array := array1,
                        size := (n1.size + 1) % 256 }, idx2, true)
    else do
      -- if this is free place
      let array1 ← arrayStore n1.array idx v
      pure ({ n1 with array := array1, bitMask := n1.bitMask &&& (2 ^ 64 - 1 - bit),
                      size := (n1.size + 1) % 256 }, idx, true)

/-- The loop `while ((bitMask & (1U<<firstPos)) != 0) firstPos++;` of `erase`;
`1U` has 32 bits, and a shift by 32 bits or more is undefined. -/
def Node0.skipFirstPos (n : Node0) : Nat → Nat → Res Nat
  | 0, _ => .timeout
  | fuel+1, firstPos =>
    if firstPos ≥ 32 then .undefined
    else if n.bitMask &&& (1 <<< firstPos) ≠ 0 then n.skipFirstPos fuel ((firstPos + 1) % 256)
    else pure firstPos

/-- `Node0::erase(index)`: the node after the call and the value returned. -/
def Node0.eraseAt (n : Node0) (index : Nat) : Res (Node0 × Bool) := do
  let bit ← bit64 index
  if n.bitMask &&& bit ≠ 0 then pure (n, false)
  else
    let n1 := { n with bitMask := n.bitMask ||| bit, size := (n.size + 255) % 256 }
    let maxFreePlaces := (n1.size + 1) >>> freePlacesShift
    if n1.size + maxFreePlaces < n1.capacity then do
      let n2 ← n1.resize 0
      pure (n2, true)
    else if index = n1.firstPos then do
      -- skip free places
      let firstPos ← n1.skipFirstPos 65 n1.firstPos
      pure ({ n1 with firstPos := firstPos }, true)
    else pure (n1, true)

/-- `Node0::erase(v, comp, kofval)`: the node after the call and the value
returned. -/
def Node0.erase (n : Node0) (v : Nat) : Res (Node0 × Bool) := do
  let index ← n.lower_bound v
  let missing ← if index ≥ n.capacity then pure true else do
      let a ← arrayAt n.array index
      pure (decide (v < a))
  -- if not found
  if missing then pure (n, false) else n.eraseAt index

/-- The node `Node0()`: the empty root node. -/
def Node0.empty : Node0 := ⟨255, 0, 0, 0, 0, []⟩

/-- The node after the calls `insert(v)` for the values of `vs`, in their
order. -/
def Node0.insertAll (n : Node0) : List Nat → Res Node0
  | [] => pure n
  | v :: vs => do
    let r ← n.insert v 255
    Node0.insertAll r.1 vs

/-- The node after the calls `erase(v)` for the values of `vs`, in their
order. -/
def Node0.eraseAll (n : Node0) : List Nat → Res Node0
  | [] => pure n
  | v :: vs => do
    let r ← n.erase v
    Node0.eraseAll r.1 vs

/-- The values 10, 20, ... up to `10 * count`. -/
def tens (count : Nat) : List Nat := (List.range count).map fun i => 10 * (i + 1)

/-- A root node of capacity 6 that holds 10, 20, 30 and 40 at the places 0, 3, 4
and 5; the free places 1 and 2 still hold 15 and 16, which were erased. -/
def twiceErasedNode : Node0 := ⟨255, 4, 6, 0, 6, [10, 15, 16, 20, 30, 40]⟩

/-- The node `twiceErasedNode` after `insert(12)`. -/
def unorderedNode : Node0 := ⟨255, 5, 6, 0, 2, [10, 15, 12, 20, 30, 40]⟩

/-- A node of capacity 22 at the place 0 of its parent, which holds the 18
elements 20, 25, 30, 40, ..., 180 from the place 1 on; the free place 0 still
holds 10, which was erased. -/
def firstErasedNode : Node0 :=
  ⟨0, 18, 22, 1, 1313, [10, 20, 25, 30, 40, 40, 50, 60, 60, 70, 70, 80, 90, 100, 110, 120,
    130, 140, 150, 160, 170, 180]⟩

/-- The node `firstErasedNode` after `insert(5)`. -/
def staleFirstPosNode : Node0 :=
  ⟨0, 19, 22, 1, 1312, [5, 20, 25, 30, 40, 40, 50, 60, 60, 70, 70, 80, 90, 100, 110, 120,
    130, 140, 150, 160, 170, 180]⟩

/-- A `Node1` of type `NODE1` that holds `staleFirstPosNode` and a second node
with the 18 elements 240 to 257. -/
def staleFirstPosParent : Node1 :=
  .mk NODE1 255 2 2 37 5
    [staleFirstPosNode,
     { index := 1, size := 18, capacity := 27, firstPos := 0, bitMask := 0x4924924,
       array := [240, 241, 241, 242, 243, 243, 244, 245, 245, 246, 247, 247, 248, 249, 249,
         250, 251, 251, 252, 253, 253, 254, 255, 255, 256, 257, 257] }] []

/-! ## The kernel descriptor as the spec lays it out -/

/-- Following the spec (section 6, "Kernel descriptor"): the parts of the 256
bytes of a descriptor in the order of their offsets, every field stored
little-endian in the width that the spec lists: `codeVersionMajor:u32 @0`,
`codeVersionMinor:u32 @4`, the four `u16` of the machine from 8 on, four `u64`
from 16 on, `computePgmRsrc1:u32 @48`, `computePgmRsrc2:u32 @52`, two `u16`
flags from 56 on, three `u32` sizes from 60 on, `kernargSegmentSize:u64 @72`,
`workgroupFbarrierCount:u32 @80`, eight `u16` from 84 on, four `u8` from 100
on, `callConvention:u32 @104`, the 12 reserved bytes at 108, which are zero,
`runtimeLoaderKernelSymbol:u64 @120` and `controlDirective:byte[128] @128`. -/
def ROCmKernelConfig.segments (c : ROCmKernelConfig) : List (List Nat) :=
  [storeLE 4 c.amdCodeVersionMajor,
   storeLE 4 c.amdCodeVersionMinor,
   storeLE 2 c.amdMachineKind,
   storeLE 2 c.amdMachineMajor,
   storeLE 2 c.amdMachineMinor,
   storeLE 2 c.amdMachineStepping,
   storeLE 8 c.kernelCodeEntryOffset,
   storeLE 8 c.kernelCodePrefetchOffset,
   storeLE 8 c.kernelCodePrefetchSize,
   storeLE 8 c.maxScrachBackingMemorySize,
   storeLE 4 c.computePgmRsrc1,
   storeLE 4 c.computePgmRsrc2,
   storeLE 2 c.enableSpgrRegisterFlags,
   storeLE 2 c.enableFeatureFlags,
   storeLE 4 c.workitemPrivateSegmentSize,
   storeLE 4 c.workgroupGroupSegmentSize,
   storeLE 4 c.gdsSegmentSize,
   storeLE 8 c.kernargSegmentSize,
   storeLE 4 c.workgroupFbarrierCount,
   storeLE 2 c.wavefrontSgprCount,
   storeLE 2 c.workitemVgprCount,
   storeLE 2 c.reservedVgprFirst,
   storeLE 2 c.reservedVgprCount,
   storeLE 2 c.reservedSgprFirst,
   storeLE 2 c.reservedSgprCount,
   storeLE 2 c.debugWavefrontPrivateSegmentOffsetSgpr,
   storeLE 2 c.debugPrivateSegmentBufferSgpr,
   storeLE 1 c.kernargSegmentAlignment,
   storeLE 1 c.groupSegmentAlignment,
   storeLE 1 c.privateSegmentAlignment,
   storeLE 1 c.wavefrontSize,
   storeLE 4 c.callConvention,
   zeroFill 12,
   storeLE 8 c.runtimeLoaderKernelSymbol,
   c.controlDirective]

/-- Following the spec: the bytes of a descriptor, its parts one after the
other. -/
def ROCmKernelConfig.store (c : ROCmKernelConfig) : List Nat := c.segments.flatten

/-- Every field of the descriptor fits into the width that the spec lists for
it, and `controlDirective` has 128 bytes. -/
def ROCmKernelConfig.InRange (c : ROCmKernelConfig) : Prop :=
  c.amdCodeVersionMajor < 256 ^ 4 ∧
  c.amdCodeVersionMinor < 256 ^ 4 ∧
  c.amdMachineKind < 256 ^ 2 ∧
  c.amdMachineMajor < 256 ^ 2 ∧
  c.amdMachineMinor < 256 ^ 2 ∧
  c.amdMachineStepping < 256 ^ 2 ∧
  c.kernelCodeEntryOffset < 256 ^ 8 ∧
  c.kernelCodePrefetchOffset < 256 ^ 8 ∧
  c.kernelCodePrefetchSize < 256 ^ 8 ∧
  c.maxScrachBackingMemorySize < 256 ^ 8 ∧
  c.computePgmRsrc1 < 256 ^ 4 ∧
  c.computePgmRsrc2 < 256 ^ 4 ∧
  c.enableSpgrRegisterFlags < 256 ^ 2 ∧
  c.enableFeatureFlags < 256 ^ 2 ∧
  c.workitemPrivateSegmentSize < 256 ^ 4 ∧
  c.workgroupGroupSegmentSize < 256 ^ 4 ∧
  c.gdsSegmentSize < 256 ^ 4 ∧
  c.kernargSegmentSize < 256 ^ 8 ∧
  c.workgroupFbarrierCount < 256 ^ 4 ∧
  c.wavefrontSgprCount < 256 ^ 2 ∧
  c.workitemVgprCount < 256 ^ 2 ∧
  c.reservedVgprFirst < 256 ^ 2 ∧
  c.reservedVgprCount < 256 ^ 2 ∧
  c.reservedSgprFirst < 256 ^ 2 ∧
  c.reservedSgprCount < 256 ^ 2 ∧
  c.debugWavefrontPrivateSegmentOffsetSgpr < 256 ^ 2 ∧
  c.debugPrivateSegmentBufferSgpr < 256 ^ 2 ∧
  c.kernargSegmentAlignment < 256 ^ 1 ∧
  c.groupSegmentAlignment < 256 ^ 1 ∧
  c.privateSegmentAlignment < 256 ^ 1 ∧
  c.wavefrontSize < 256 ^ 1 ∧
  c.callConvention < 256 ^ 4 ∧
  c.runtimeLoaderKernelSymbol < 256 ^ 8 ∧
  c.controlDirective.length = 128

instance (c : ROCmKernelConfig) : Decidable c.InRange := by
  unfold ROCmKernelConfig.InRange
  infer_instance

/-- The descriptor of the kernel `kxx1` with the values of the golden dump of
`asmTestCases1Tbl`; the minor code version, which the dump does not show, is
0. -/
def goldenKxx1 : ROCmKernelConfig :=
  ⟨1, 0, 1, 8, 0, 0, 256, 0, 0, 0, 0x3c0000, 0xa0001ff, 0x0, 0x6, 111, 22, 100, 0, 3324, 8, 1,
   7, 11, 9, 4, 129, 58298, 5, 4, 7, 6, 0x34dac, 0x4dc98b3a,
   [0x01, 0x00, 0x00, 0x00, 0x02, 0x00, 0x00, 0x00, 0x03, 0x00, 0x00, 0x00] ++ zeroFill 116⟩

/-- The descriptor of the kernel `kxx2` with the values of the golden dump of
`asmTestCases1Tbl`; the minor code version, which the dump does not show, is
0. -/
def goldenKxx2 : ROCmKernelConfig :=
  ⟨1, 0, 1, 8, 0, 0, 256, 0, 0, 0, 0xc0000, 0x1fe, 0x8, 0x0, 0, 0, 0, 0, 0, 2, 1,
   0, 0, 0, 0, 0, 0, 4, 4, 4, 6, 0x1112234, 0x0,
   List.replicate 124 0xde ++ [0xcc, 0x66, 0xdd, 0xaa]⟩

/-! # Theorems -/

/-! ## Facts about the parser monad -/

theorem P.bind_apply {α β : Type} (x : P α) (f : α → P β) (s : PState) :
    (x >>= f) s = P.andThen x f s := rfl

theorem P.pure_apply {α : Type} (a : α) (s : PState) :
    (pure a : P α) s = (.ret a, s) := rfl

/-! ## `cstrtobyte` never returns a number -/

theorem toLower_eq_v {c : Nat} (h : toLower c = 118) : c = 118 ∨ c = 86 := by
  unfold toLower at h
  split at h <;> omega

/-- While the accumulator is below 256 and the cursor is on a digit, the loop of
`cstrtobyte` does not leave by its `return`. -/
theorem cstrtobyteLoop_ne_ret (asmr : Assembler) (str c : Nat)
    (hc : asmr.line.get? str = some c) (hd : isDigit c = true) (hne : str ≠ asmr.lineSize) :
    ∀ (fuel value v : Nat), cstrtobyteLoop asmr str fuel value ≠ .ret v := by
  intro fuel
  induction fuel with
  | zero => intro value v; simp [cstrtobyteLoop]
  | succ n ih =>
    intro value v
    simp only [cstrtobyteLoop, hne, hc, hd, ne_eq, not_false_eq_true, if_true]
    split
    · simp
    · exact ih _ v

/-- No call of `cstrtobyte` returns normally: it throws or it runs forever. -/
theorem cstrtobyte_ne_ret (fuel : Nat) (asmr : Assembler) (s : PState) (v : Nat) :
    (cstrtobyte fuel asmr s).1 ≠ .ret v := by
  unfold cstrtobyte
  by_cases hne : s.linePtr = asmr.lineSize
  · simp [hne]
  · cases hc : asmr.line.get? s.linePtr with
    | none => simp [hne]
    | some c =>
      by_cases hd : isDigit c = true
      · simpa [hne, hd] using cstrtobyteLoop_ne_ret asmr s.linePtr c hc hd hne fuel 0 v
      · simp [hne, hd]

/-- On the digit `0` the loop of `cstrtobyte` uses up any amount of fuel. -/
theorem cstrtobyteLoop_zero_digit (asmr : Assembler) (str : Nat)
    (hc : asmr.line.get? str = some 48) (hne : str ≠ asmr.lineSize) :
    ∀ fuel : Nat, cstrtobyteLoop asmr str fuel 0 = .timeout := by
  intro fuel
  induction fuel with
  | zero => rfl
  | succ n ih =>
    simp only [cstrtobyteLoop, hne, hc, ne_eq, not_false_eq_true, if_true]
    simpa [isDigit] using ih

/-- No state is reached by a normal return of `cstrtobyte`. -/
theorem cstrtobyte_eq_ret (fuel : Nat) (asmr : Assembler) (s s1 : PState) (v : Nat) :
    cstrtobyte fuel asmr s = (.ret v, s1) ↔ False := by
  constructor
  · intro h
    exact cstrtobyte_ne_ret fuel asmr s v (by rw [h])
  · exact False.elim

/-! ## What a parser action can return -/

/-- Every normal return of `x` satisfies `Q`. -/
structure P.Returns {α : Type} (x : P α) (Q : α → Prop) : Prop where
  out : ∀ s a s1, x s = (.ret a, s1) → Q a

theorem P.returns_pure {α : Type} {Q : α → Prop} {a : α} (h : Q a) :
    P.Returns (pure a : P α) Q := by
  constructor
  intro s b s1 hb
  simp only [P.pure_apply, Prod.mk.injEq, Res.ret.injEq] at hb
  exact hb.1 ▸ h

theorem P.returns_bind {α β : Type} {Q : β → Prop} (x : P α) (f : α → P β)
    (h : ∀ a, P.Returns (f a) Q) : P.Returns (x >>= f) Q := by
  constructor
  intro s b s1 hb
  simp only [P.bind_apply, P.andThen] at hb
  split at hb
  · exact (h _).out _ _ _ hb
  all_goals simp at hb

theorem P.returns_bind_never {α β : Type} {Q : β → Prop} (x : P α) (f : α → P β)
    (h : ∀ s v, (x s).1 ≠ .ret v) : P.Returns (x >>= f) Q := by
  constructor
  intro s b s1 hb
  simp only [P.bind_apply, P.andThen] at hb
  split at hb
  · rename_i a s2 heq
    exact absurd (by rw [heq]) (h s a)
  all_goals simp at hb

theorem P.returns_tryCatch {α : Type} {Q : α → Prop} (x : P α) (handler : String → P α)
    (hx : P.Returns x Q) (hh : ∀ m, P.Returns (handler m) Q) :
    P.Returns (P.tryCatch x handler) Q := by
  constructor
  intro s b s1 hb
  simp only [P.tryCatch] at hb
  split at hb
  · exact (hh _).out _ _ _ hb
  · exact hx.out _ _ _ hb

theorem P.returns_ite {α : Type} {Q : α → Prop} (c : Prop) [Decidable c] (x y : P α)
    (hx : P.Returns x Q) (hy : P.Returns y Q) : P.Returns (if c then x else y) Q := by
  split <;> assumption

/-- Whatever the tail of `parseSRegRange` (the forms `s<n>` and `s[lo:hi]`)
returns is the empty pair. -/
theorem parseSRegRangeTail_returns (fuel : Nat) (asmr : Assembler) (arch : Nat) (required : Bool)
    (sgprRangePlace : Nat) :
    P.Returns (parseSRegRangeTail fuel asmr arch required sgprRangePlace)
      (fun p => p = (0, 0)) := by
  unfold parseSRegRangeTail
  repeat' first
    | apply P.returns_bind_never _ _ (cstrtobyte_ne_ret fuel asmr)
    | (apply P.returns_bind; intro _)
    | apply P.returns_ite
    | exact P.returns_pure rfl

/-- Whatever `parseVRegRange` returns is the empty pair. -/
theorem parseVRegRange_returns (fuel : Nat) (asmr : Assembler) (required : Bool) :
    P.Returns (parseVRegRange fuel asmr required) (fun p => p = (0, 0)) := by
  unfold parseVRegRange
  repeat' first
    | apply P.returns_bind_never _ _ (cstrtobyte_ne_ret fuel asmr)
    | (apply P.returns_bind; intro _)
    | apply P.returns_ite
    | apply P.returns_tryCatch
    | exact P.returns_pure rfl
    | fail_if_no_progress dsimp only
    | intro _

/-! ## C7: vector-register ranges -/

/-- C7 (the code departs from the claim): `parseVRegRange` never returns a pair
`(256+n, 256+n+1)` or `(256+lo, 256+hi+1)`: whenever it returns, on any line, at
any cursor and with any amount of fuel, the pair is the empty pair `(0, 0)`. -/
theorem parseVRegRange_returns_empty (fuel : Nat) (asmr : Assembler) (required : Bool)
    (s s1 : PState) (p : RegPair)
    (h : parseVRegRange fuel asmr required s = (.ret p, s1)) : p = (0, 0) :=
  (parseVRegRange_returns fuel asmr required).out s p s1 h

/-- The text `v5`: `parseVRegRange` returns the empty pair without an error. -/
theorem parseVRegRange_returns_empty_witness :
    parseVRegRange 100 ⟨bytes "v5", 2⟩ true ⟨0, []⟩ = (.ret (0, 0), ⟨1, []⟩) ∧
      ((0, 0) : RegPair) = (0, 0) :=
  ⟨by decide, parseVRegRange_returns_empty 100 ⟨bytes "v5", 2⟩ true ⟨0, []⟩ ⟨1, []⟩ (0, 0)
    (by decide)⟩

/-- The single-register form `v<n>`: on a line that starts with `v` or `V`
followed by a digit, `parseVRegRange` tests the character at `vgprRangePlace`
(the letter) for being a digit, finds neither form and returns the empty pair
with no error, whatever the fuel. -/
theorem parseVRegRange_single (fuel : Nat) (required : Bool) (v d : Nat) (rest : List Nat)
    (errs : List AsmError) (hv : toLower v = 118) (hd : isDigit d = true) :
    parseVRegRange fuel ⟨v :: d :: rest, rest.length + 2⟩ required ⟨0, errs⟩
      = (.ret (0, 0), ⟨1, errs⟩) := by
  have hsp : isSpace v = false := by
    rcases toLower_eq_v hv with h | h <;> subst h <;> rfl
  have hvd : isDigit v = false := by
    rcases toLower_eq_v hv with h | h <;> subst h <;> rfl
  have hd91 : d ≠ 91 := by
    intro h; subst h; simp [isDigit] at hd
  simp [parseVRegRange, P.bind_apply, P.andThen, skipSpacesToEnd, scanWhile, hsp, P.getLinePtr,
    P.readAt, hv, P.setLinePtr, P.tryCatch, hvd, hd91, P.pure_apply]

/-- The range form `v[1:2]`: the first number already ends in the exception
"Number is too big". -/
theorem parseVRegRange_range_example :
    parseVRegRange 100 ⟨bytes "v[1:2]", 6⟩ true ⟨0, []⟩ =
      (.ret (0, 0), ⟨2, [⟨2, "Number is too big"⟩]⟩) := by decide

/-! ## C3, C8: scalar-register ranges -/

theorem toLower_eq_s {c : Nat} (h : toLower c = 115) : c = 115 ∨ c = 83 := by
  unfold toLower at h
  split at h <;> omega

/-- On a line whose cursor stands on `s` or `S`, `parseSRegRange` is the `try`
block around the tail that reads `s<n>` and `s[lo:hi]`. -/
theorem parseSRegRange_at_s (H : AsmHelpers) (fuel : Nat) (asmr : Assembler) (arch : Nat)
    (required : Bool) (s : PState) (c : Nat) (hc : asmr.line.get? s.linePtr = some c)
    (hs : toLower c = 115) (hne : s.linePtr ≠ asmr.lineSize) :
    parseSRegRange H fuel asmr arch required s =
      P.tryCatch (parseSRegRangeTail fuel asmr arch required s.linePtr)
        (fun what => P.getLinePtr >>= fun p => P.printError p what >>= fun _ => pure (0, 0)) s := by
  have hsp : isSpace c = false := by
    rcases toLower_eq_s hs with h | h <;> subst h <;> rfl
  have hlen : s.linePtr < asmr.line.length := by
    by_contra hlt
    rw [List.get?_eq_none.mpr (by omega)] at hc
    exact absurd hc (by simp)
  obtain ⟨n, hn⟩ : ∃ n, asmr.line.length - s.linePtr = n + 1 :=
    ⟨asmr.line.length - s.linePtr - 1, by omega⟩
  rw [List.get?_eq_getElem?] at hc
  simp [parseSRegRange, P.bind_apply, P.andThen, skipSpacesToEnd, hn, scanWhile, hne, hc, hsp,
    P.getLinePtr, P.tryCatch, P.readAt, hs]

/-- On a line whose cursor stands on `s` or `S`, whatever `parseSRegRange`
returns is the empty pair `(0, 0)`: no text `s[lo:hi]` (and no text `s<n>`) is
accepted, because `cstrtobyte` never returns a number. -/
theorem parseSRegRange_at_s_returns_empty (H : AsmHelpers) (fuel : Nat) (asmr : Assembler)
    (arch : Nat) (required : Bool) (s s1 : PState) (c : Nat) (p : RegPair)
    (hc : asmr.line.get? s.linePtr = some c) (hs : toLower c = 115)
    (h : parseSRegRange H fuel asmr arch required s = (.ret p, s1)) : p = (0, 0) := by
  by_cases hne : s.linePtr = asmr.lineSize
  · have hsc : ∀ n, scanWhile asmr isSpace n asmr.lineSize = .ret asmr.lineSize := by
      intro n; cases n <;> simp [scanWhile]
    cases required <;>
      simp [parseSRegRange, P.bind_apply, P.andThen, skipSpacesToEnd, hne, hsc, P.getLinePtr,
        P.printError, P.pure_apply] at h <;>
      exact h.1.symm
  · rw [parseSRegRange_at_s H fuel asmr arch required s c hc hs hne] at h
    refine (P.returns_tryCatch _ _ (parseSRegRangeTail_returns fuel asmr arch required s.linePtr)
      (fun m => ?_)).out s p s1 h
    repeat' first
      | (apply P.returns_bind; intro _)
      | exact P.returns_pure rfl

/-- The text `s[4:7]`, an aligned range of four registers: `parseSRegRange`
reports "Number is too big" and returns the empty pair. -/
theorem parseSRegRange_at_s_returns_empty_witness :
    parseSRegRange (fixedHelpers ⟨false, []⟩ 0 0 none none) 100 ⟨bytes "s[4:7]", 6⟩ 0 true ⟨0, []⟩
        = (.ret (0, 0), ⟨2, [⟨2, "Number is too big"⟩]⟩) ∧
      ((0, 0) : RegPair) = (0, 0) :=
  ⟨by decide,
   parseSRegRange_at_s_returns_empty (fixedHelpers ⟨false, []⟩ 0 0 none none) 100
     ⟨bytes "s[4:7]", 6⟩ 0 true ⟨0, []⟩ ⟨2, [⟨2, "Number is too big"⟩]⟩ 115 (0, 0)
     (by decide) (by decide) (by decide)⟩

/-- On the digit `0`, `cstrtobyte` uses up any amount of fuel. -/
theorem cstrtobyte_zero_digit (fuel : Nat) (asmr : Assembler) (s : PState)
    (hc : asmr.line.get? s.linePtr = some 48) (hne : s.linePtr ≠ asmr.lineSize) :
    cstrtobyte fuel asmr s = (.timeout, s) := by
  have hl := cstrtobyteLoop_zero_digit asmr s.linePtr hc hne fuel
  rw [List.get?_eq_getElem?] at hc
  simp [cstrtobyte, hne, hc, isDigit, hl]

/-- On a range whose first number starts with the digit `0`, `parseSRegRange` has
not returned with any amount of fuel: the cursor is still on the `0` and no
error is printed. -/
theorem parseSRegRange_zero_digit (H : AsmHelpers) (fuel : Nat) (arch : Nat)
    (required : Bool) (rest : List Nat) (errs : List AsmError) :
    parseSRegRange H fuel ⟨115 :: 91 :: 48 :: rest, rest.length + 3⟩ arch required ⟨0, errs⟩
      = (.timeout, ⟨2, errs⟩) := by
  rw [parseSRegRange_at_s H fuel ⟨115 :: 91 :: 48 :: rest, rest.length + 3⟩ arch required
    ⟨0, errs⟩ 115 rfl rfl (by simp)]
  have h0 : cstrtobyte fuel ⟨115 :: 91 :: 48 :: rest, rest.length + 3⟩ ⟨2, errs⟩
      = (.timeout, ⟨2, errs⟩) :=
    cstrtobyte_zero_digit fuel _ ⟨2, errs⟩ rfl (by simp)
  simp [parseSRegRangeTail, P.tryCatch, P.bind_apply, P.andThen, P.setLinePtr, P.getLinePtr,
    P.readAt, isDigit, skipSpacesToEnd, scanWhile, isSpace, h0]

/-- C8 (the code departs from the claim): the range `s[0:104]`, whose upper index
is at the SGPR count, is not rejected: with any amount of fuel, any helpers, any
architecture mask and either value of `required`, `parseSRegRange` has not
returned; the cursor stays on the `0` and no error is printed. -/
theorem parseSRegRange_s_0_104 (H : AsmHelpers) (fuel : Nat) (arch : Nat) (required : Bool) :
    parseSRegRange H fuel ⟨bytes "s[0:104]", 8⟩ arch required ⟨0, []⟩ = (.timeout, ⟨2, []⟩) :=
  parseSRegRange_zero_digit H fuel arch required (bytes ":104]") []

/-- The single form has no test of the register number: `s104` is turned down
only by the exception of `cstrtobyte`, with its message. -/
theorem parseSRegRange_s104 :
    parseSRegRange (fixedHelpers ⟨false, []⟩ 0 0 none none) 100 ⟨bytes "s104", 4⟩ 0 true ⟨0, []⟩
      = (.ret (0, 0), ⟨1, [⟨1, "Number is too big"⟩]⟩) := by decide

/-! ## C9: `isOnlyFloat` -/

/-- C9 (the code departs from the claim): a text of three or more characters
that starts with `0x` or `0X`, so every hexadecimal floating-point literal such
as `0x1.8p3` and `0x3p2`, is not taken for a floating-point value: the test
`str+2 >= end` sends it to the decimal branch, which stops at the `x`. -/
theorem isOnlyFloat_hex_prefix (x c : Nat) (rest : List Nat) (hx : x = 120 ∨ x = 88) :
    isOnlyFloat ⟨48 :: x :: c :: rest, rest.length + 3⟩ 0 = .ret false := by
  rcases hx with h | h <;> subst h <;>
    simp [isOnlyFloat, Assembler.deref, Bind.bind, Res.andThen, Pure.pure, isOnlyFloatBranch,
      scanWhile, isDigit]

/-- The hexadecimal floating-point literal `0x1.8p3`. -/
theorem isOnlyFloat_hex_prefix_witness :
    ((120 : Nat) = 120 ∨ (120 : Nat) = 88) ∧
      isOnlyFloat ⟨[48, 120, 49, 46, 56, 112, 51], 7⟩ 0 = .ret false :=
  ⟨Or.inl rfl, isOnlyFloat_hex_prefix 120 49 [46, 56, 112, 51] (Or.inl rfl)⟩

/-- The literals the claim names: the decimal ones are recognised, the
hexadecimal ones are not, plain integers are not. -/
theorem isOnlyFloat_examples :
    isOnlyFloat ⟨bytes "1.5", 3⟩ 0 = .ret true ∧
    isOnlyFloat ⟨bytes ".5", 2⟩ 0 = .ret true ∧
    isOnlyFloat ⟨bytes "2e3", 3⟩ 0 = .ret true ∧
    isOnlyFloat ⟨bytes "0x1.8p3", 7⟩ 0 = .ret false ∧
    isOnlyFloat ⟨bytes "0x3p2", 5⟩ 0 = .ret false ∧
    isOnlyFloat ⟨bytes "123", 3⟩ 0 = .ret false ∧
    isOnlyFloat ⟨bytes "0x1f", 4⟩ 0 = .ret false := by decide

/-! ## C1, C6: operand codes -/

/-- The `switch` over the single-precision bit patterns agrees with the table of
the claim. -/
theorem floatInlineCode_eq_claimed (arch value : Nat) :
    floatInlineCode arch value = claimedInlineCode false arch value := by
  simp only [floatInlineCode, claimedInlineCode, claimedFloatTable, List.lookup, beq_iff_eq,
    Bool.false_eq_true, if_false]
  by_cases h0 : value = 0x0
  · subst h0; rfl
  by_cases h1 : value = 0x3f000000
  · subst h1; rfl
  by_cases h2 : value = 0xbf000000
  · subst h2; rfl
  by_cases h3 : value = 0x3f800000
  · subst h3; rfl
  by_cases h4 : value = 0xbf800000
  · subst h4; rfl
  by_cases h5 : value = 0x40000000
  · subst h5; rfl
  by_cases h6 : value = 0xc0000000
  · subst h6; rfl
  by_cases h7 : value = 0x40800000
  · subst h7; rfl
  by_cases h8 : value = 0xc0800000
  · subst h8; rfl
  have e : ∀ k : Nat, value ≠ k → (value == k) = false := fun k hk => by simpa using hk
  rw [e _ h0, e _ h1, e _ h2, e _ h3, e _ h4, e _ h5, e _ h6, e _ h7, e _ h8]
  simp only [h0, h1, h2, h3, h4, h5, h6, h7, h8, if_false]
  by_cases h9 : value = 0x3e22f983 <;> by_cases ha : arch &&& ARCH_RX3X0 = 0 <;> simp [h9, ha]

/-- The `switch` over the half-precision bit patterns agrees with the table of
the claim. -/
theorem halfInlineCode_eq_claimed (arch value : Nat) :
    halfInlineCode arch value = claimedInlineCode true arch value := by
  simp only [halfInlineCode, claimedInlineCode, claimedHalfTable, List.lookup, beq_iff_eq,
    if_true]
  by_cases h0 : value = 0x0
  · subst h0; rfl
  by_cases h1 : value = 0x3800
  · subst h1; rfl
  by_cases h2 : value = 0xb800
  · subst h2; rfl
  by_cases h3 : value = 0x3c00
  · subst h3; rfl
  by_cases h4 : value = 0xbc00
  · subst h4; rfl
  by_cases h5 : value = 0x4000
  · subst h5; rfl
  by_cases h6 : value = 0xc000
  · subst h6; rfl
  by_cases h7 : value = 0x4400
  · subst h7; rfl
  by_cases h8 : value = 0xc400
  · subst h8; rfl
  have e : ∀ k : Nat, value ≠ k → (value == k) = false := fun k hk => by simpa using hk
  rw [e _ h0, e _ h1, e _ h2, e _ h3, e _ h4, e _ h5, e _ h6, e _ h7, e _ h8]
  simp only [h0, h1, h2, h3, h4, h5, h6, h7, h8, if_false]
  by_cases h9 : value = 0x3118 <;> by_cases ha : arch &&& ARCH_RX3X0 = 0 <;> simp [h9, ha]

/-- A mask that admits `SSOURCE` is neither exactly `SREGS` nor exactly `VREGS`. -/
theorem ssource_mask {instrOpMask : Nat} (h : instrOpMask &&& INSTROP_SSOURCE ≠ 0) :
    instrOpMask ≠ INSTROP_SREGS ∧ instrOpMask ≠ INSTROP_VREGS := by
  constructor <;> intro h1 <;> subst h1 <;> exact h (by decide)

/-- Under a mask that admits `SSOURCE`, when no register range was found,
`parseOperand` is its scalar-source part. -/
theorem parseOperand_ssource (H : AsmHelpers) (fuel : Nat) (asmr : Assembler)
    (arch instrOpMask : Nat) (s s1 : PState)
    (hS : instrOpMask &&& INSTROP_SSOURCE ≠ 0)
    (hregs : parseOperandRegs H fuel asmr arch instrOpMask s = (.ret (0, 0), s1)) :
    parseOperand H fuel asmr arch instrOpMask s =
      parseOperandSSource H asmr arch instrOpMask s1 := by
  obtain ⟨h1, h2⟩ := ssource_mask hS
  simp [parseOperand, h1, h2, hS, P.bind_apply, P.andThen, hregs]

/-- The codes of the claim's table fit the 16 bits of a `RegPair` half. -/
theorem claimedInlineCode_lt (half : Bool) (arch bitPattern c : Nat)
    (hc : claimedInlineCode half arch bitPattern = some c) : c < 65536 := by
  simp only [claimedInlineCode, claimedHalfTable, claimedFloatTable] at hc
  split at hc
  · rename_i c1 hl
    have : c1 = c := by simpa using hc
    subst this
    cases half <;>
      (simp only [List.lookup, Bool.false_eq_true, if_false, if_true] at hl
       repeat' split at hl
       all_goals first | omega | (simp at hl; omega) | simp at hl)
  · repeat' split at hc
    all_goals first
      | (simp at hc; done)
      | (simp at hc; rcases hc with ⟨_, rfl⟩; omega)

/-- Lines 458-530 and 573-581 of `parseOperand`, once the conversion has given
the bit pattern. -/
theorem parseOperandFloat_eq (H : AsmHelpers) (asmr : Assembler)
    (arch instrOpMask regNamePlace : Nat) (s3 s4 : PState) (bitPattern : Nat)
    (hconv : (if instrOpMask &&& INSTROP_TYPE_MASK = INSTROP_F16 then H.cstrtohCStyle asmr
      else H.cstrtovCStyle asmr) s3 = (.ret bitPattern, s4))
    (hbits : bitPattern < 4294967296) :
    parseOperandFloat H asmr arch instrOpMask regNamePlace s3 =
      match claimedInlineCode (instrOpMask &&& INSTROP_TYPE_MASK = INSTROP_F16) arch
          bitPattern with
      | some code => (.ret ⟨⟨(code, 0), 0⟩, none, none⟩, s4)
      | none =>
        if instrOpMask &&& INSTROP_ONLYINLINECONSTS ≠ 0 then
          (.ret ⟨⟨(0, 0), 0⟩, none, none⟩,
            { s4 with errors := s4.errors ++
              [⟨regNamePlace, "Literal constant is illegal in this place"⟩] })
        else (.ret ⟨⟨(255, 0), bitPattern⟩, none, some bitPattern⟩, s4) := by
  have hv : bitPattern % 18446744073709551616 = bitPattern := Nat.mod_eq_of_lt (by omega)
  have hv2 : bitPattern % 4294967296 = bitPattern := Nat.mod_eq_of_lt hbits
  have hlit : parseOperandLiteral instrOpMask regNamePlace bitPattern s4 =
      if instrOpMask &&& INSTROP_ONLYINLINECONSTS ≠ 0 then
        (.ret ⟨⟨(0, 0), 0⟩, none, none⟩,
          { s4 with errors := s4.errors ++
            [⟨regNamePlace, "Literal constant is illegal in this place"⟩] })
      else (.ret ⟨⟨(255, 0), bitPattern⟩, none, some bitPattern⟩, s4) := by
    by_cases hO : instrOpMask &&& INSTROP_ONLYINLINECONSTS = 0
    · simp [parseOperandLiteral, hO, P.pure_apply, toRegPair, hv2]
    · simp [parseOperandLiteral, hO, P.pure_apply, P.bind_apply, P.andThen, P.printError,
        OperandOut.plain]
  by_cases hF : instrOpMask &&& INSTROP_TYPE_MASK = INSTROP_F16
  · simp only [hF, if_true] at hconv
    simp only [parseOperandFloat, hF, if_true]
    simp only [P.bind_apply, P.andThen, P.tryCatch, hconv, P.pure_apply, hv,
      halfInlineCode_eq_claimed, decide_True]
    cases hcl : claimedInlineCode true arch bitPattern with
    | none => simpa using hlit
    | some code =>
      have := claimedInlineCode_lt true arch bitPattern code hcl
      simp [OperandOut.plain, toRegPair, P.pure_apply, Nat.mod_eq_of_lt this]
  · simp only [hF, if_false] at hconv
    simp only [parseOperandFloat, hF, if_false]
    simp only [P.bind_apply, P.andThen, P.tryCatch, hconv, P.pure_apply, hv2,
      floatInlineCode_eq_claimed, decide_False]
    cases hcl : claimedInlineCode false arch bitPattern with
    | none => simpa using hlit
    | some code =>
      have := claimedInlineCode_lt false arch bitPattern code hcl
      simp [OperandOut.plain, toRegPair, P.pure_apply, Nat.mod_eq_of_lt this]

/-- C6: for a floating-point operand that `parseOperand` parses under a mask
admitting `SSOURCE` (no register range and no condition code was found, the text
is exclusively floating point and its conversion gave the bit pattern
`bitPattern`, half precision when the type hint is `F16`, single precision
otherwise), the result depends on the bit pattern alone: the code of the claim's
table with no literal (248 for `1/(2*pi)` only with `ARCH_RX3X0`), and for every
other bit pattern the code 255 with the bit pattern as literal, or the error
"Literal constant is illegal in this place" and the empty pair when
`ONLY_INLINE_CONSTS` is set. -/
theorem parseOperand_float (H : AsmHelpers) (fuel : Nat) (asmr : Assembler)
    (arch instrOpMask : Nat) (s s1 s2 s3 s4 : PState) (bitPattern : Nat)
    (hS : instrOpMask &&& INSTROP_SSOURCE ≠ 0)
    (hregs : parseOperandRegs H fuel asmr arch instrOpMask s = (.ret (0, 0), s1))
    (hcc : parseOperandCondCode H asmr s1 = (.ret none, s2))
    (hat : parseOperandSkipAt asmr s2 = (.ret (), s3))
    (hfloat : isOnlyFloat asmr s3.linePtr = .ret true)
    (hconv : (if instrOpMask &&& INSTROP_TYPE_MASK = INSTROP_F16 then H.cstrtohCStyle asmr
      else H.cstrtovCStyle asmr) s3 = (.ret bitPattern, s4))
    (hbits : bitPattern < 4294967296) :
    parseOperand H fuel asmr arch instrOpMask s =
      match claimedInlineCode (instrOpMask &&& INSTROP_TYPE_MASK = INSTROP_F16) arch
          bitPattern with
      | some code => (.ret ⟨⟨(code, 0), 0⟩, none, none⟩, s4)
      | none =>
        if instrOpMask &&& INSTROP_ONLYINLINECONSTS ≠ 0 then
          (.ret ⟨⟨(0, 0), 0⟩, none, none⟩,
            { s4 with errors := s4.errors ++
              [⟨s1.linePtr, "Literal constant is illegal in this place"⟩] })
        else (.ret ⟨⟨(255, 0), bitPattern⟩, none, some bitPattern⟩, s4) := by
  rw [parseOperand_ssource H fuel asmr arch instrOpMask s s1 hS hregs]
  simp only [parseOperandSSource, P.bind_apply, P.andThen, P.getLinePtr, hcc, hat, hfloat,
    if_true]
  exact parseOperandFloat_eq H asmr arch instrOpMask s1.linePtr s3 s4 bitPattern hconv hbits

/-- The operand `0.5` under the mask `SSOURCE`: code 240 and no literal. -/
theorem parseOperand_float_witness :
    parseOperand (fixedHelpers ⟨false, []⟩ 0 0x3f000000 none none) 0 ⟨bytes "0.5", 3⟩ 0
        INSTROP_SSOURCE ⟨0, []⟩ = (.ret ⟨⟨(240, 0), 0⟩, none, none⟩, ⟨0, []⟩) :=
  parseOperand_float (fixedHelpers ⟨false, []⟩ 0 0x3f000000 none none) 0 ⟨bytes "0.5", 3⟩ 0
    INSTROP_SSOURCE ⟨0, []⟩ ⟨0, []⟩ ⟨0, []⟩ ⟨0, []⟩ ⟨0, []⟩ 0x3f000000
    (by decide) (by decide) (by decide) (by decide) (by decide) (by decide) (by decide)

/-- Lines 567-581 of `parseOperand` on the 64-bit pattern of a signed value `v`
that is at most 64. -/
theorem parseOperandInteger_eq (instrOpMask regNamePlace : Nat) (v : Int) (s : PState)
    (hlo : -9223372036854775808 ≤ v) (hhi : v ≤ 64) :
    parseOperandInteger instrOpMask regNamePlace (v % 18446744073709551616).toNat s =
      if -16 ≤ v then
        (.ret ⟨⟨((if 0 ≤ v then 128 + v else 192 - v).toNat, 0), 0⟩, none, none⟩, s)
      else if instrOpMask &&& INSTROP_ONLYINLINECONSTS ≠ 0 then
        (.ret ⟨⟨(0, 0), 0⟩, none, none⟩,
          { s with errors := s.errors ++
            [⟨regNamePlace, "Literal constant is illegal in this place"⟩] })
      else
        (.ret ⟨⟨(255, 0), (v % 4294967296).toNat⟩, none,
          some (v % 18446744073709551616).toNat⟩, s) := by
  by_cases h0 : 0 ≤ v
  · have hval : (v % 18446744073709551616).toNat = v.toNat := by omega
    have h1 : v.toNat ≤ 64 := by omega
    have h2 : (128 + v.toNat) % 65536 = (128 + v).toNat := by omega
    have h3 : -16 ≤ v := by omega
    simp [parseOperandInteger, hval, h1, h0, h3, OperandOut.plain, toRegPair, P.pure_apply, h2]
  · by_cases h16 : -16 ≤ v
    · have hval : (v % 18446744073709551616).toNat = (v + 18446744073709551616).toNat := by
        omega
      have h1 : ¬ (v + 18446744073709551616).toNat ≤ 64 := by omega
      have h2 : (v + 18446744073709551616).toNat < 9223372036854775808 ∨
          (v + 18446744073709551616).toNat ≥ 18446744073709551616 - 16 := by omega
      have h3 : ((192 + 18446744073709551616 - (v + 18446744073709551616).toNat) %
          18446744073709551616) % 65536 = (192 - v).toNat := by omega
      simp only [parseOperandInteger, hval, h1, h2, h0, h16, if_true, if_false, OperandOut.plain,
        toRegPair, P.pure_apply, h3, Nat.zero_mod]
    · have hval : (v % 18446744073709551616).toNat = (v + 18446744073709551616).toNat := by
        omega
      have h1 : ¬ (v + 18446744073709551616).toNat ≤ 64 := by omega
      have h2 : ¬ ((v + 18446744073709551616).toNat < 9223372036854775808 ∨
          (v + 18446744073709551616).toNat ≥ 18446744073709551616 - 16) := by omega
      have h3 : (v + 18446744073709551616).toNat % 4294967296 = (v % 4294967296).toNat := by
        omega
      simp only [parseOperandInteger, hval, h1, h2, h16, if_false]
      by_cases hO : instrOpMask &&& INSTROP_ONLYINLINECONSTS = 0
      · simp [parseOperandLiteral, hO, P.pure_apply, toRegPair, h3]
      · simp [parseOperandLiteral, hO, P.pure_apply, P.bind_apply, P.andThen, P.printError,
          OperandOut.plain]

/-- C1 as amended: for every absolute integer operand value `v` (the 64-bit value
read as signed) with `v <= 64` that `parseOperand` evaluates under a mask
admitting `SSOURCE` (no register range and no condition code was found, the text
is no floating-point literal, its expression has no symbol and is absolute, and
`getAbsoluteValueArg` stored the 64-bit pattern of `v`): if `-16 <= v` the result
is the inline-constant code, `128+v` for `0 <= v` and `192-v` for `v <= -1`, with
no literal; if `v < -16` the result is code 255 with the single 32-bit literal
`v mod 2^32` when the mask has no `ONLY_INLINE_CONSTS`, and the error "Literal
constant is illegal in this place" with the empty pair when it has. -/
theorem parseOperand_integer (H : AsmHelpers) (fuel : Nat) (asmr : Assembler)
    (arch instrOpMask : Nat) (s s1 s2 s3 s4 s5 : PState) (expr : AsmExpression)
    (value0 : Nat) (v : Int)
    (hS : instrOpMask &&& INSTROP_SSOURCE ≠ 0)
    (hregs : parseOperandRegs H fuel asmr arch instrOpMask s = (.ret (0, 0), s1))
    (hcc : parseOperandCondCode H asmr s1 = (.ret none, s2))
    (hat : parseOperandSkipAt asmr s2 = (.ret (), s3))
    (hfloat : isOnlyFloat asmr s3.linePtr = .ret false)
    (hexpr : H.parseExpr asmr s3 = (.ret (some expr), s4))
    (hempty : expr.isEmpty = false) (hsym : expr.symOccursNum = 0)
    (heval : expr.evaluate = some (value0, ASMSECT_ABS))
    (habs : H.getAbsoluteValueArg asmr s4 =
      (.ret (some (v % 18446744073709551616).toNat), s5))
    (hlo : -9223372036854775808 ≤ v) (hhi : v ≤ 64) :
    parseOperand H fuel asmr arch instrOpMask s =
      if -16 ≤ v then
        (.ret ⟨⟨((if 0 ≤ v then 128 + v else 192 - v).toNat, 0), 0⟩, none, none⟩, s5)
      else if instrOpMask &&& INSTROP_ONLYINLINECONSTS ≠ 0 then
        (.ret ⟨⟨(0, 0), 0⟩, none, none⟩,
          { s5 with errors := s5.errors ++
            [⟨s1.linePtr, "Literal constant is illegal in this place"⟩] })
      else
        (.ret ⟨⟨(255, 0), (v % 4294967296).toNat⟩, none,
          some (v % 18446744073709551616).toNat⟩, s5) := by
  rw [parseOperand_ssource H fuel asmr arch instrOpMask s s1 hS hregs]
  have hmod : (v % 18446744073709551616).toNat % 18446744073709551616 =
      (v % 18446744073709551616).toNat := by omega
  simp only [parseOperandSSource, P.bind_apply, P.andThen, P.getLinePtr, hcc, hat, hfloat,
    Bool.false_eq_true, if_false, parseOperandExpr, hexpr, hempty, hsym, heval, if_true,
    ne_eq, not_true_eq_false, habs, hmod]
  exact parseOperandInteger_eq instrOpMask s1.linePtr v s5 hlo hhi

/-- The operand `-5` under the mask `SSOURCE`: code 197 and no literal. -/
theorem parseOperand_integer_witness :
    parseOperand (fixedHelpers ⟨false, []⟩ 0 0 (some ⟨false, 0, some (0, ASMSECT_ABS)⟩)
        (some 18446744073709551611)) 0 ⟨bytes "-5", 2⟩ 0 INSTROP_SSOURCE ⟨0, []⟩ =
      (.ret ⟨⟨(197, 0), 0⟩, none, none⟩, ⟨0, []⟩) :=
  (parseOperand_integer (fixedHelpers ⟨false, []⟩ 0 0 (some ⟨false, 0, some (0, ASMSECT_ABS)⟩)
      (some 18446744073709551611)) 0 ⟨bytes "-5", 2⟩ 0 INSTROP_SSOURCE
    ⟨0, []⟩ ⟨0, []⟩ ⟨0, []⟩ ⟨0, []⟩ ⟨0, []⟩ ⟨0, []⟩ ⟨false, 0, some (0, ASMSECT_ABS)⟩ 0 (-5)
    (by decide) (by decide) (by decide) (by decide) (by decide) (by decide) rfl rfl rfl
    (by decide) (by decide) (by decide)).trans (by decide)

/-- C1 as stated fails: the value `-17` lies outside `[-16, 64]` and the mask
`SSOURCE | ONLY_INLINE_CONSTS` admits `SSOURCE`, yet the result is not code 255
with a literal: it is the empty pair and the error "Literal constant is illegal
in this place". -/
theorem parseOperand_integer_only_inline :
    (INSTROP_SSOURCE ||| INSTROP_ONLYINLINECONSTS) &&& INSTROP_SSOURCE ≠ 0 ∧
    parseOperand (fixedHelpers ⟨false, []⟩ 0 0 (some ⟨false, 0, some (0, ASMSECT_ABS)⟩)
        (some 18446744073709551599)) 0 ⟨bytes "-17", 3⟩ 0
        (INSTROP_SSOURCE ||| INSTROP_ONLYINLINECONSTS) ⟨0, []⟩ =
      (.ret ⟨⟨(0, 0), 0⟩, none, none⟩,
        ⟨0, [⟨0, "Literal constant is illegal in this place"⟩]⟩) := by
  decide

/-- The values the amended claim leaves out: for `64 < v < 2^63` the test
`int64_t(value) >= -16` of line 569 holds as well, and the result is the code
`(192 - v) mod 2^16` with no literal; here `v = 65` gives code 127. -/
theorem parseOperand_integer_65 :
    parseOperand (fixedHelpers ⟨false, []⟩ 0 0 (some ⟨false, 0, some (0, ASMSECT_ABS)⟩)
        (some 65)) 0 ⟨bytes "65", 2⟩ 0 INSTROP_SSOURCE ⟨0, []⟩ =
      (.ret ⟨⟨(127, 0), 0⟩, none, none⟩, ⟨0, []⟩) := by
  decide

/-- Every value above 64 and below `2^63` takes the branch of line 570. -/
theorem parseOperandInteger_above_64 (instrOpMask regNamePlace value : Nat) (s : PState)
    (h1 : 64 < value) (h2 : value < 9223372036854775808) :
    parseOperandInteger instrOpMask regNamePlace value s =
      (.ret ⟨⟨((192 + 18446744073709551616 - value) % 65536, 0), 0⟩, none, none⟩, s) := by
  have h3 : ¬ value ≤ 64 := by omega
  have h4 : (192 + 18446744073709551616 - value) % 18446744073709551616 % 65536 =
      (192 + 18446744073709551616 - value) % 65536 := by omega
  simp [parseOperandInteger, h3, h2, OperandOut.plain, toRegPair, P.pure_apply, h4]

/-! ## C2, C4: `GCNAssembler::assemble` -/

theorem strcmp_lt_zero (a b : List Nat) : strcmp a b < 0 ↔ a < b := by
  unfold strcmp
  split
  · simp [*]
  · split <;> simp [*]

theorem strcmp_eq_zero (a b : List Nat) : strcmp a b = 0 ↔ a = b := by
  unfold strcmp
  split
  · rename_i h
    simp [ne_of_lt h]
  · split <;> simp [*]

/-- Every encoder returns the output it was given and prints nothing. -/
theorem assembleEncode_eq (asmr : Assembler) (insn : GCNAsmInstruction) (linePtr : Nat)
    (output : List Nat) : assembleEncode asmr insn linePtr output = ⟨output, []⟩ := by
  simp only [assembleEncode, parseSOPCEncoding, parseSOPPEncoding, parseSOP1Encoding,
    parseSOP2Encoding, parseSOPKEncoding, parseSMRDEncoding, parseVOPCEncoding,
    parseVOP1Encoding, parseVOP2Encoding, parseVOP3Encoding, parseVINTRPEncoding,
    parseDSEncoding, parseMXBUFEncoding, parseMIMGEncoding, parseEXPEncoding,
    parseFLATEncoding, ite_self]

/-- C2 (the code departs from the claim): `GCNAssembler::assemble` appends no
byte to the section output, for any table, architecture mask, mnemonic and line;
in particular `s_mov_b32 s7, 0` does not append `80 00 87 BE`. -/
theorem assemble_appends_nothing (gcnInstrSortedTable : List GCNAsmInstruction)
    (curArchMask : Nat) (asmr : Assembler) (mnemonic : List Nat) (mnemPlace linePtr : Nat)
    (output : List Nat) :
    (assemble gcnInstrSortedTable curArchMask asmr mnemonic mnemPlace linePtr output).output
      = output := by
  unfold assemble
  split
  · rfl
  · split
    · rfl
    · rw [assembleEncode_eq]

/-- The line `s_mov_b32 s7, 0` of the ROCm test on a table that holds the `SOP1`
row of `s_mov_b32`: the row is found, no error is printed and the output stays
empty. -/
theorem assemble_s_mov_b32 :
    assemble [⟨bytes "s_mov_b32", GCNENC_SOP1, GCNENC_NONE, 0, 3, UINT16_MAX, 0xffff⟩] 1
        ⟨bytes "s_mov_b32 s7, 0", 15⟩ (bytes "s_mov_b32") 0 9 [] = ⟨[], []⟩ := by
  decide

/-- `std::lower_bound` on a table sorted by mnemonic: the rows before the result
have a smaller mnemonic, the rows from the result on have not. -/
theorem lowerBound_spec (table : List GCNAsmInstruction) (mnemonic : List Nat)
    (hs : SortedByMnemonic table) :
    ∀ fuel first count, count ≤ fuel → first + count ≤ table.length →
      (∀ (i : Nat) (r : GCNAsmInstruction), i < first → table[i]? = some r →
          r.mnemonic < mnemonic) →
      (∀ (i : Nat) (r : GCNAsmInstruction), first + count ≤ i → table[i]? = some r →
          mnemonic ≤ r.mnemonic) →
      (∀ (i : Nat) (r : GCNAsmInstruction), i < lowerBound table mnemonic fuel first count →
          table[i]? = some r → r.mnemonic < mnemonic) ∧
      (∀ (i : Nat) (r : GCNAsmInstruction), lowerBound table mnemonic fuel first count ≤ i →
          table[i]? = some r → mnemonic ≤ r.mnemonic) := by
  intro fuel
  induction fuel with
  | zero =>
    intro first count hc _ hlo hhi
    have : count = 0 := by omega
    subst this
    exact ⟨hlo, fun i r hi => hhi i r (by simpa [lowerBound] using hi)⟩
  | succ n ih =>
    intro first count hc hlen hlo hhi
    unfold lowerBound
    by_cases h0 : count = 0
    · subst h0
      simp only [if_true]
      exact ⟨hlo, fun i r hi => hhi i r (by simpa using hi)⟩
    · simp only [h0, if_false]
      have hit : first + count / 2 < table.length := by
        have : count / 2 < count := Nat.div_lt_self (by omega) (by decide)
        omega
      rw [List.getElem?_eq_getElem hit]
      simp only [strcmp_lt_zero]
      split
      · rename_i hlt
        apply ih
        · omega
        · omega
        · intro i r hi hr
          by_cases hii : i = first + count / 2
          · subst hii
            rw [List.getElem?_eq_getElem hit] at hr
            cases hr
            exact hlt
          · exact lt_of_le_of_lt
              (hs i (first + count / 2) r _ (by omega) hr (List.getElem?_eq_getElem hit)) hlt
        · intro i r hi hr
          exact hhi i r (by omega) hr
      · rename_i hge
        apply ih
        · omega
        · omega
        · exact hlo
        · intro i r hi hr
          by_cases hii : i = first + count / 2
          · subst hii
            rw [List.getElem?_eq_getElem hit] at hr
            cases hr
            exact not_lt.mp hge
          · exact le_trans (not_lt.mp hge)
              (hs (first + count / 2) i _ r (by omega) (List.getElem?_eq_getElem hit) hr)

/-- `binaryFind` on a table sorted by mnemonic: `end` when no row has the
mnemonic, else the first row that has it. -/
theorem binaryFind_spec (table : List GCNAsmInstruction) (mnemonic : List Nat)
    (hs : SortedByMnemonic table) :
    (binaryFind table mnemonic = table.length ∧
        ∀ (i : Nat) (r : GCNAsmInstruction), table[i]? = some r → r.mnemonic ≠ mnemonic) ∨
    (∃ row, table[binaryFind table mnemonic]? = some row ∧ row.mnemonic = mnemonic ∧
        ∀ (i : Nat) (r : GCNAsmInstruction), i < binaryFind table mnemonic →
          table[i]? = some r → r.mnemonic < mnemonic) := by
  obtain ⟨hlo, hhi⟩ := lowerBound_spec table mnemonic hs table.length 0 table.length
    (le_refl _) (by omega) (fun i r hi => absurd hi (by omega))
    (fun i r hi hr => by
      rw [List.getElem?_eq_none (by omega)] at hr
      cases hr)
  unfold binaryFind
  simp only
  cases hrow : table[lowerBound table mnemonic table.length 0 table.length]? with
  | none =>
    left
    refine ⟨rfl, fun i r hr heq => ?_⟩
    have hlen := List.getElem?_eq_none_iff.mp hrow
    have hi : i < table.length := (List.getElem?_eq_some_iff.mp hr).1
    have := hlo i r (by omega) hr
    exact absurd heq (ne_of_lt this)
  | some row =>
    simp only [strcmp_lt_zero]
    have hge := hhi _ row (le_refl _) hrow
    split
    · rename_i hlt
      left
      refine ⟨rfl, fun i r hr heq => ?_⟩
      by_cases hi : i < lowerBound table mnemonic table.length 0 table.length
      · exact absurd heq (ne_of_lt (hlo i r hi hr))
      · by_cases hi2 : i = lowerBound table mnemonic table.length 0 table.length
        · subst hi2
          rw [hrow] at hr
          cases hr
          exact absurd heq (ne_of_gt hlt)
        · have := hs _ i row r (by omega) hrow hr
          exact absurd heq (ne_of_gt (lt_of_lt_of_le hlt this))
    · rename_i hnlt
      right
      exact ⟨row, hrow, le_antisymm (not_lt.mp hnlt) hge, hlo⟩

/-- The forward scan of `assemble`: it passes rows of the mnemonic that are not
valid on the current architecture and stops at the first other row, or at `end`. -/
theorem assembleSkip_spec (table : List GCNAsmInstruction) (curArchMask : Nat)
    (mnemonic : List Nat) :
    ∀ fuel it, table.length ≤ it + fuel →
      it ≤ assembleSkip table curArchMask mnemonic fuel it ∧
      (∀ (j : Nat) (r : GCNAsmInstruction), it ≤ j →
          j < assembleSkip table curArchMask mnemonic fuel it → table[j]? = some r →
          r.mnemonic = mnemonic ∧ r.archMask &&& curArchMask = 0) ∧
      (∀ r : GCNAsmInstruction,
          table[assembleSkip table curArchMask mnemonic fuel it]? = some r →
          ¬ (r.mnemonic = mnemonic ∧ r.archMask &&& curArchMask = 0)) := by
  intro fuel
  induction fuel with
  | zero =>
    intro it hlen
    simp only [assembleSkip]
    refine ⟨le_refl _, fun j r h1 h2 => absurd h2 (by omega), fun r hr => ?_⟩
    rw [List.getElem?_eq_none (by omega)] at hr
    cases hr
  | succ n ih =>
    intro it hlen
    unfold assembleSkip
    cases hrow : table[it]? with
    | none =>
      simp only
      exact ⟨le_refl _, fun j r h1 h2 => absurd h2 (by omega),
        fun r hr => by rw [hrow] at hr; cases hr⟩
    | some row =>
      simp only [strcmp_eq_zero]
      split
      · rename_i hc
        obtain ⟨h0, h1, h2⟩ := ih (it + 1) (by omega)
        refine ⟨by omega, fun j r hj1 hj2 hr => ?_, h2⟩
        by_cases hji : j = it
        · subst hji
          rw [hrow] at hr
          cases hr
          exact hc
        · exact h1 j r (by omega) hj2 hr
      · rename_i hc
        exact ⟨le_refl _, fun j r h1 h2 => absurd h2 (by omega),
          fun r hr => by rw [hrow] at hr; cases hr; exact hc⟩

/-- Lines 673-689 of `assemble` on a table sorted by mnemonic: no row is found
exactly when no row matches, and a row that is found is the first that matches. -/
theorem assembleFind_spec (table : List GCNAsmInstruction) (curArchMask : Nat)
    (mnemonic : List Nat) (hs : SortedByMnemonic table) :
    match assembleFind table curArchMask mnemonic with
    | none => ∀ (i : Nat) (r : GCNAsmInstruction), table[i]? = some r →
        ¬ RowMatches curArchMask mnemonic r
    | some it => ∃ row, table[it]? = some row ∧ RowMatches curArchMask mnemonic row ∧
        ∀ (j : Nat) (r : GCNAsmInstruction), j < it → table[j]? = some r →
          ¬ RowMatches curArchMask mnemonic r := by
  unfold assembleFind
  simp only
  rcases binaryFind_spec table mnemonic hs with ⟨hend, hnone⟩ | ⟨row, hrow, hmn, hbefore⟩
  · -- no row has the mnemonic
    rw [hend, List.getElem?_eq_none (le_refl _)]
    simp only [List.getElem?_eq_none (le_refl _)]
    intro i r hr hm
    exact hnone i r hr hm.1
  · rw [hrow]
    simp only
    by_cases hmask : row.archMask &&& curArchMask = 0
    · simp only [hmask, if_true]
      obtain ⟨hit1, hskip, hstop⟩ := assembleSkip_spec table curArchMask mnemonic
        (table.length - (binaryFind table mnemonic + 1)) (binaryFind table mnemonic + 1)
        (by omega)
      generalize assembleSkip table curArchMask mnemonic
        (table.length - (binaryFind table mnemonic + 1)) (binaryFind table mnemonic + 1) = it1
        at hit1 hskip hstop
      -- rows before `it1` do not match
      have hnot : ∀ (j : Nat) (r : GCNAsmInstruction), j < it1 → table[j]? = some r →
          ¬ RowMatches curArchMask mnemonic r := by
        intro j r hj hr hm
        by_cases hj1 : j < binaryFind table mnemonic
        · exact absurd hm.1 (ne_of_lt (hbefore j r hj1 hr))
        · by_cases hj2 : j = binaryFind table mnemonic
          · subst hj2
            rw [hrow] at hr
            cases hr
            exact hm.2 hmask
          · exact hm.2 (hskip j r (by omega) hj hr).2
      cases hrow1 : table[it1]? with
      | none =>
        simp only
        intro i r hr
        have hlen := List.getElem?_eq_none_iff.mp hrow1
        have hi : i < table.length := (List.getElem?_eq_some_iff.mp hr).1
        exact hnot i r (by omega) hr
      | some row1 =>
        simp only [strcmp_eq_zero, ne_eq]
        by_cases hm1 : row1.mnemonic = mnemonic
        · simp only [hm1, not_true_eq_false, if_false]
          refine ⟨row1, hrow1, ⟨hm1, fun h0 => hstop row1 hrow1 ⟨hm1, h0⟩⟩, hnot⟩
        · simp only [hm1, not_false_eq_true, if_true]
          intro i r hr hm
          by_cases hi : i < it1
          · exact hnot i r hi hr hm
          · by_cases hi2 : i = it1
            · subst hi2
              rw [hrow1] at hr
              cases hr
              exact hm1 hm.1
            · -- a row after `it1` has a mnemonic above that of `row1`
              have hle1 : row1.mnemonic ≤ r.mnemonic := hs it1 i row1 r (by omega) hrow1 hr
              have hge : mnemonic ≤ row1.mnemonic := by
                have := hs (binaryFind table mnemonic) it1 row row1 (by omega) hrow hrow1
                rwa [hmn] at this
              have hlt : mnemonic < row1.mnemonic := lt_of_le_of_ne hge (Ne.symm hm1)
              rw [hm.1] at hle1
              exact absurd hlt (not_lt.mpr hle1)
    · simp only [hmask, if_false, hrow, strcmp_eq_zero, ne_eq, hmn, not_true_eq_false]
      refine ⟨row, rfl, ⟨hmn, hmask⟩, fun j r hj hr hm => ?_⟩
      exact absurd hm.1 (ne_of_lt (hbefore j r hj hr))

/-- C4: on a table sorted by mnemonic, `GCNAssembler::assemble` prints
"Unrecognized instruction" if and only if no row of the table has the mnemonic
and an `archMask` that contains the current architecture bit; and when `it` is
the first such row in table order, the lookup stops at `it` and `assemble` is the
encoder `switch` on that row. -/
theorem assemble_lookup (gcnInstrSortedTable : List GCNAsmInstruction) (curArchMask : Nat)
    (asmr : Assembler) (mnemonic : List Nat) (mnemPlace linePtr : Nat) (output : List Nat)
    (hs : SortedByMnemonic gcnInstrSortedTable) :
    ((assemble gcnInstrSortedTable curArchMask asmr mnemonic mnemPlace linePtr output).errors
        = [⟨mnemPlace, "Unrecognized instruction"⟩] ↔
      ¬ ∃ row ∈ gcnInstrSortedTable, RowMatches curArchMask mnemonic row) ∧
    (∀ (it : Nat) (row : GCNAsmInstruction), gcnInstrSortedTable[it]? = some row →
      RowMatches curArchMask mnemonic row →
      (∀ (j : Nat) (r : GCNAsmInstruction), j < it → gcnInstrSortedTable[j]? = some r →
        ¬ RowMatches curArchMask mnemonic r) →
      assembleFind gcnInstrSortedTable curArchMask mnemonic = some it ∧
      assemble gcnInstrSortedTable curArchMask asmr mnemonic mnemPlace linePtr output
        = assembleEncode asmr row linePtr output) := by
  have hspec := assembleFind_spec gcnInstrSortedTable curArchMask mnemonic hs
  unfold assemble
  cases hfind : assembleFind gcnInstrSortedTable curArchMask mnemonic with
  | none =>
    rw [hfind] at hspec
    simp only at hspec
    refine ⟨⟨fun _ => ?_, fun _ => rfl⟩, fun it row hrow hm _ => absurd hm (hspec it row hrow)⟩
    rintro ⟨row, hmem, hm⟩
    obtain ⟨i, hi⟩ := List.mem_iff_getElem?.mp hmem
    exact hspec i row hi hm
  | some it0 =>
    rw [hfind] at hspec
    obtain ⟨row0, hrow0, hm0, hfirst0⟩ := hspec
    simp only [hrow0, assembleEncode_eq]
    refine ⟨⟨fun h => ?_, fun h => ?_⟩, fun it row hrow hm hfirst => ?_⟩
    · simp at h
    · exact absurd ⟨row0, List.mem_iff_getElem?.mpr ⟨it0, hrow0⟩, hm0⟩ h
    · have : it0 = it := by
        rcases Nat.lt_trichotomy it0 it with h | h | h
        · exact absurd hm0 (hfirst it0 row0 h hrow0)
        · exact h
        · exact absurd hm (hfirst0 it row h hrow)
      exact ⟨by rw [this], trivial⟩

/-- A table with two rows of `s_mov_b32` and one of `s_mov_b64`, and the
architecture bit 4: the second row is the first that matches. -/
theorem assemble_lookup_witness :
    SortedByMnemonic
      [⟨bytes "s_mov_b32", GCNENC_SOP1, GCNENC_NONE, 0, 3, UINT16_MAX, 3⟩,
       ⟨bytes "s_mov_b32", GCNENC_SOP1, GCNENC_NONE, 0, 0, UINT16_MAX, 4⟩,
       ⟨bytes "s_mov_b64", GCNENC_SOP1, GCNENC_NONE, 0, 4, UINT16_MAX, 7⟩] ∧
    assembleFind
      [⟨bytes "s_mov_b32", GCNENC_SOP1, GCNENC_NONE, 0, 3, UINT16_MAX, 3⟩,
       ⟨bytes "s_mov_b32", GCNENC_SOP1, GCNENC_NONE, 0, 0, UINT16_MAX, 4⟩,
       ⟨bytes "s_mov_b64", GCNENC_SOP1, GCNENC_NONE, 0, 4, UINT16_MAX, 7⟩] 4
      (bytes "s_mov_b32") = some 1 := by
  have hs : SortedByMnemonic
      [⟨bytes "s_mov_b32", GCNENC_SOP1, GCNENC_NONE, 0, 3, UINT16_MAX, 3⟩,
       ⟨bytes "s_mov_b32", GCNENC_SOP1, GCNENC_NONE, 0, 0, UINT16_MAX, 4⟩,
       ⟨bytes "s_mov_b64", GCNENC_SOP1, GCNENC_NONE, 0, 4, UINT16_MAX, 7⟩] := by
    intro i j ri rj hij hi hj
    have hj3 : j < 3 := (List.getElem?_eq_some_iff.mp hj).1
    have hcases : (i = 0 ∧ j = 1) ∨ (i = 0 ∧ j = 2) ∨ (i = 1 ∧ j = 2) := by omega
    rcases hcases with ⟨rfl, rfl⟩ | ⟨rfl, rfl⟩ | ⟨rfl, rfl⟩ <;>
      (simp only [List.getElem?_cons_zero, List.getElem?_cons_succ, Option.some.injEq] at hi hj
       subst hi hj
       decide)
  exact ⟨hs, ((assemble_lookup _ 4 ⟨bytes "s_mov_b32 s7, 0", 15⟩ (bytes "s_mov_b32") 0 9 [] hs).2
    1 ⟨bytes "s_mov_b32", GCNENC_SOP1, GCNENC_NONE, 0, 0, UINT16_MAX, 4⟩ rfl
    (by unfold RowMatches; decide)
    (by
      intro j r hj hr
      have : j = 0 := by omega
      subst this
      simp only [List.getElem?_cons_zero, Option.some.injEq] at hr
      subst hr
      unfold RowMatches
      decide)).1⟩

/-! ## C5: the joining pass of `initializeGCNAssembler` -/

/-- The backward scan stops at row `k` when the rows after it, up to the start of
the scan, have the mnemonic of `insn` and an `archMask` that does not contain
the one of `insn`, and row `k` has not. -/
theorem fusionScan_eq (table : List GCNAsmInstruction) (insn c : GCNAsmInstruction) (k : Nat)
    (hk : table[k]? = some c)
    (hstop : ¬ (strcmp c.mnemonic insn.mnemonic = 0 ∧
      c.archMask &&& insn.archMask ≠ insn.archMask)) :
    ∀ d, k + d < table.length →
      (∀ (i : Nat) (row : GCNAsmInstruction), k < i → i ≤ k + d → table[i]? = some row →
        strcmp row.mnemonic insn.mnemonic = 0 ∧
          row.archMask &&& insn.archMask ≠ insn.archMask) →
      fusionScan table insn (k + d) = .ret k := by
  intro d
  induction d with
  | zero =>
    intro _ _
    cases k with
    | zero => simp [fusionScan, hk, hstop]
    | succ k1 => simp [fusionScan, hk, hstop]
  | succ d ih =>
    intro hlen hpass
    obtain ⟨row, hrow⟩ : ∃ row, table[k + d + 1]? = some row :=
      ⟨_, List.getElem?_eq_getElem (by omega)⟩
    have hp := hpass (k + d + 1) row (by omega) (by omega) hrow
    show fusionScan table insn (k + d + 1) = .ret k
    unfold fusionScan
    simp only [hrow]
    rw [if_pos hp]
    exact ih (by omega) (fun i row h1 h2 hr => hpass i row h1 (by omega) hr)

/-- A step of the joining loop leaves alone every row whose second slot is
filled, and removes no row. -/
theorem fusionStep_keeps (table table1 : List GCNAsmInstruction) (insn : GCNAsmInstruction)
    (h : fusionStep table insn = .ret table1) (i : Nat) (row : GCNAsmInstruction)
    (hrow : table[i]? = some row) (hfilled : row.code2 ≠ UINT16_MAX) :
    table1[i]? = some row := by
  have hi : i < table.length := (List.getElem?_eq_some_iff.mp hrow).1
  unfold fusionStep at h
  split at h
  · split at h
    · cases h
    · split at h
      · rename_i k hscan
        split at h
        · cases h
        · rename_i c hc
          split at h
          · split at h
            · rename_i hempty
              cases h
              rw [List.getElem?_set]
              split
              · rename_i hki
                subst hki
                rw [hc] at hrow
                cases hrow
                exact absurd hempty hfilled
              · exact hrow
            · cases h
              rw [List.getElem?_append_left hi]
              exact hrow
          · cases h
            rw [List.getElem?_append_left hi]
            exact hrow
      all_goals cases h
  · cases h
    rw [List.getElem?_append_left hi]
    exact hrow

/-- The rest of the joining loop leaves alone every row whose second slot is
filled. -/
theorem fusionPass_keeps (rest : List GCNAsmInstruction) :
    ∀ (table final : List GCNAsmInstruction), fusionPass table rest = .ret final →
      ∀ (i : Nat) (row : GCNAsmInstruction), table[i]? = some row →
        row.code2 ≠ UINT16_MAX → final[i]? = some row := by
  induction rest with
  | nil =>
    intro table final h i row hrow _
    simp only [fusionPass, Res.ret.injEq] at h
    subst h
    exact hrow
  | cons insn rest ih =>
    intro table final h i row hrow hfilled
    unfold fusionPass at h
    cases hstep : fusionStep table insn with
    | ret table1 =>
      rw [hstep] at h
      exact ih table1 final h i row (fusionStep_keeps table table1 insn hstep i row hrow hfilled)
        hfilled
    | throw m => rw [hstep] at h; cases h
    | undefined => rw [hstep] at h; cases h
    | timeout => rw [hstep] at h; cases h

/-- The joining loop over a list of rows followed by more rows runs the loop over
the first list and goes on from the table it leaves. -/
theorem fusionPass_append (pre rest : List GCNAsmInstruction) :
    ∀ (table mid : List GCNAsmInstruction), fusionPass table pre = .ret mid →
      fusionPass table (pre ++ rest) = fusionPass mid rest := by
  induction pre with
  | nil =>
    intro table mid h
    simp only [fusionPass, Res.ret.injEq] at h
    subst h
    rfl
  | cons insn pre ih =>
    intro table mid h
    simp only [List.cons_append]
    rw [fusionPass] at h
    rw [fusionPass]
    cases hstep : fusionStep table insn with
    | ret table1 =>
      rw [hstep] at h
      simp only at h ⊢
      exact ih table1 mid h
    | throw m => rw [hstep] at h; cases h
    | undefined => rw [hstep] at h; cases h
    | timeout => rw [hstep] at h; cases h

/-- The step of the joining loop for a `VOP3A`/`VOP3B` row `r` when the backward
scan stops at row `k`, which has the mnemonic of `r` and an `archMask` that
contains the one of `r`. -/
theorem fusionStep_found (table : List GCNAsmInstruction) (r c : GCNAsmInstruction) (k : Nat)
    (hr : r.encoding1 = GCNENC_VOP3A ∨ r.encoding1 = GCNENC_VOP3B)
    (hk : table[k]? = some c) (hmn : c.mnemonic = r.mnemonic)
    (hsup : c.archMask &&& r.archMask = r.archMask)
    (hbetween : ∀ (i : Nat) (row : GCNAsmInstruction), k < i → table[i]? = some row →
      row.mnemonic = r.mnemonic ∧ row.archMask &&& r.archMask ≠ r.archMask) :
    fusionStep table r =
      if c.code2 = UINT16_MAX then
        .ret (table.set k
          ⟨c.mnemonic, c.encoding1, r.encoding1, c.mode, c.code1, r.code1, r.archMask⟩)
      else
        .ret (table ++
          [⟨c.mnemonic, c.encoding1, r.encoding1, c.mode, c.code1, r.code1, r.archMask⟩]) := by
  have hklt : k < table.length := (List.getElem?_eq_some_iff.mp hk).1
  obtain ⟨j, hj⟩ : ∃ j, table.length = j + 1 := ⟨table.length - 1, by omega⟩
  have hstop : ¬ (strcmp c.mnemonic r.mnemonic = 0 ∧ c.archMask &&& r.archMask ≠ r.archMask) :=
    fun h => h.2 hsup
  have hscan : fusionScan table r j = .ret k := by
    have := fusionScan_eq table r c k hk hstop (j - k) (by omega)
      (fun i row h1 _ hrow => by
        obtain ⟨h3, h4⟩ := hbetween i row h1 hrow
        exact ⟨(strcmp_eq_zero _ _).mpr h3, h4⟩)
    rwa [show k + (j - k) = j by omega] at this
  have hfound : strcmp c.mnemonic r.mnemonic = 0 ∧ c.archMask &&& r.archMask = r.archMask :=
    ⟨(strcmp_eq_zero _ _).mpr hmn, hsup⟩
  unfold fusionStep
  rw [if_pos hr, hj]
  simp only [hscan, hk]
  rw [if_pos hfound, hsup]

/-- C5 as amended: let `r` be a `VOP3A`/`VOP3B` row of the sorted source table,
with an opcode other than `0xFFFF`, and let `table` be what the joining loop has
written when it comes to `r`.  If, scanning `table` backwards from its last row
over rows that have the mnemonic of `r` and an `archMask` that does not contain
the one of `r`, the first other row is a row `c` at index `k` that has the
mnemonic of `r` and an `archMask` containing the one of `r`, then: when the
second slot of `c` is empty, the loop writes `encoding2 = r.encoding1`,
`code2 = r.code1` and `archMask = r.archMask` into row `k` and adds no row for
`r`; when it is occupied, the loop appends exactly one row, with the mnemonic,
`encoding1`, `mode` and `code1` of `c`, the `archMask` of `r` and the encoding
and opcode of `r` in the second slot, and leaves row `k` alone; and these rows
are the rows `k` and `table.length` of the table `initializeGCNAssembler` leaves. -/
theorem initializeGCNAssembler_joins (gcnInstrsTable : List GCNInstruction)
    (pre rest table final : List GCNAsmInstruction) (r c : GCNAsmInstruction) (k : Nat)
    (hsorted : (gcnInstrsTable.map initialRow).insertionSort (fun a b => ¬ instrLess b a)
      = pre ++ r :: rest)
    (hinit : initializeGCNAssembler gcnInstrsTable = .ret final)
    (hpre : fusionPass [] pre = .ret table)
    (hr : r.encoding1 = GCNENC_VOP3A ∨ r.encoding1 = GCNENC_VOP3B)
    (hcode : r.code1 ≠ UINT16_MAX)
    (hk : table[k]? = some c) (hmn : c.mnemonic = r.mnemonic)
    (hsup : c.archMask &&& r.archMask = r.archMask)
    (hbetween : ∀ (i : Nat) (row : GCNAsmInstruction), k < i → table[i]? = some row →
      row.mnemonic = r.mnemonic ∧ row.archMask &&& r.archMask ≠ r.archMask) :
    (c.code2 = UINT16_MAX →
      fusionStep table r = .ret (table.set k
        ⟨c.mnemonic, c.encoding1, r.encoding1, c.mode, c.code1, r.code1, r.archMask⟩) ∧
      final[k]? =
        some ⟨c.mnemonic, c.encoding1, r.encoding1, c.mode, c.code1, r.code1, r.archMask⟩) ∧
    (c.code2 ≠ UINT16_MAX →
      fusionStep table r = .ret (table ++
        [⟨c.mnemonic, c.encoding1, r.encoding1, c.mode, c.code1, r.code1, r.archMask⟩]) ∧
      final[table.length]? =
        some ⟨c.mnemonic, c.encoding1, r.encoding1, c.mode, c.code1, r.code1, r.archMask⟩ ∧
      final[k]? = some c) := by
  have hklt : k < table.length := (List.getElem?_eq_some_iff.mp hk).1
  have hstep := fusionStep_found table r c k hr hk hmn hsup hbetween
  unfold initializeGCNAssembler at hinit
  rw [hsorted, fusionPass_append pre (r :: rest) [] table hpre, fusionPass] at hinit
  constructor
  · intro hempty
    rw [if_pos hempty] at hstep
    rw [hstep] at hinit
    refine ⟨hstep, fusionPass_keeps rest _ final hinit k _ ?_ hcode⟩
    rw [List.getElem?_set]
    simp [hklt]
  · intro hfilled
    rw [if_neg hfilled] at hstep
    rw [hstep] at hinit
    refine ⟨hstep, fusionPass_keeps rest _ final hinit table.length _ ?_ hcode,
      fusionPass_keeps rest _ final hinit k c ?_ hfilled⟩
    · rw [List.getElem?_append_right (le_refl _)]
      simp
    · rw [List.getElem?_append_left hklt]
      exact hk

/-- The rows of `v_add_f32`: the `VOP3A` row is joined to the `VOP2` row, whose
second slot is empty. -/
theorem initializeGCNAssembler_joins_witness :
    initializeGCNAssembler
        [⟨bytes "v_add_f32", GCNENC_VOP3A, 0, 259, 3⟩, ⟨bytes "v_add_f32", GCNENC_VOP2, 0, 3, 3⟩]
      = .ret [⟨bytes "v_add_f32", GCNENC_VOP2, GCNENC_VOP3A, 0, 3, 259, 3⟩] ∧
    ([⟨bytes "v_add_f32", GCNENC_VOP2, GCNENC_VOP3A, 0, 3, 259, 3⟩] :
        List GCNAsmInstruction)[0]? =
      some ⟨bytes "v_add_f32", GCNENC_VOP2, GCNENC_VOP3A, 0, 3, 259, 3⟩ :=
  ⟨by decide,
   ((initializeGCNAssembler_joins
      [⟨bytes "v_add_f32", GCNENC_VOP3A, 0, 259, 3⟩, ⟨bytes "v_add_f32", GCNENC_VOP2, 0, 3, 3⟩]
      [⟨bytes "v_add_f32", GCNENC_VOP2, GCNENC_NONE, 0, 3, UINT16_MAX, 3⟩] []
      [⟨bytes "v_add_f32", GCNENC_VOP2, GCNENC_NONE, 0, 3, UINT16_MAX, 3⟩]
      [⟨bytes "v_add_f32", GCNENC_VOP2, GCNENC_VOP3A, 0, 3, 259, 3⟩]
      ⟨bytes "v_add_f32", GCNENC_VOP3A, GCNENC_NONE, 0, 259, UINT16_MAX, 3⟩
      ⟨bytes "v_add_f32", GCNENC_VOP2, GCNENC_NONE, 0, 3, UINT16_MAX, 3⟩ 0
      (by decide) (by decide) (by decide) (by decide) (by decide) rfl rfl (by decide)
      (fun i row h1 h2 => by
        rw [List.getElem?_eq_none (by simp; omega)] at h2
        cases h2)).1 rfl).2⟩

/-- C5 as stated fails: in this table the `VOPC` row shares its mnemonic with the
`VOP3A` row, its `archMask` contains the one of the `VOP3A` row and its second
slot is empty, yet it is left as it was: the `VOP3A` row is joined to the `VOP2`
row, the nearest row before it. -/
theorem initializeGCNAssembler_nearest_row :
    initializeGCNAssembler
        [⟨bytes "v_x", GCNENC_VOPC, 0, 1, 1⟩, ⟨bytes "v_x", GCNENC_VOP2, 0, 2, 1⟩,
         ⟨bytes "v_x", GCNENC_VOP3A, 0, 258, 1⟩]
      = .ret [⟨bytes "v_x", GCNENC_VOPC, GCNENC_NONE, 0, 1, UINT16_MAX, 1⟩,
              ⟨bytes "v_x", GCNENC_VOP2, GCNENC_VOP3A, 0, 2, 258, 1⟩] := by
  decide

/-! ## C10: ELF round trip -/

set_option maxRecDepth 100000 in
/-- C10 (the code departs from the claim): the description `nobitsDescription`
declares the section `.bss` with size 16; the bytes `generate` emits are
accepted by the reader, which reports `.text` as described but `.bss` with size
0, because `computeSize` overwrote the declared size of the `NOBITS` section. -/
theorem roundTrip_nobits_size :
    (nobitsDescription.regions.map fun r => (r.sect.name, r.sect.type, r.size)).take 2 =
      [(bytes ".text", 1, 4), (bytes ".bss", SHT_NOBITS, 16)] ∧
    roundTripSection Elf32Types nobitsDescription 1 = .ret (bytes ".text", 1, 4, [1, 2, 3, 4]) ∧
    roundTripSection Elf32Types nobitsDescription 2 = .ret (bytes ".bss", SHT_NOBITS, 0, []) := by
  decide


/-! ## Facts about `Res` and the loops -/

theorem Res.bind_eq_ret {α β : Type} {x : Res α} {f : α → Res β} {b : β} :
    (x >>= f) = .ret b ↔ ∃ a, x = .ret a ∧ f a = .ret b := by
  cases x <;> simp [Bind.bind, Res.andThen]

theorem Res.andThen_eq_ret {α β : Type} {x : Res α} {f : α → Res β} {b : β} :
    x.andThen f = .ret b ↔ ∃ a, x = .ret a ∧ f a = .ret b := by
  cases x <;> simp [Res.andThen]

theorem Res.pure_eq_ret {α : Type} {a b : α} : (pure a : Res α) = .ret b ↔ a = b := by
  simp [Pure.pure]

theorem Res.raise_ne_ret {α : Type} {m : String} {b : α} : (Res.raise m : Res α) ≠ .ret b := by
  simp [Res.raise]

theorem foldRange_succ {σ : Type} (n : Nat) (init : σ) (body : Nat → σ → Res σ) :
    foldRange (n + 1) init body = (foldRange n init body).andThen fun st => body n st := by
  simp [foldRange, List.range_succ, List.foldl_append]

/-- A loop that returns has run every iteration: the states it went through. -/
theorem foldRange_ret {σ : Type} {n : Nat} {init r : σ} {body : Nat → σ → Res σ}
    (h : foldRange n init body = .ret r) :
    ∃ states : Nat → σ, states 0 = init ∧ states n = r ∧
      ∀ i, i < n → body i (states i) = .ret (states (i + 1)) := by
  induction n generalizing r with
  | zero =>
    refine ⟨fun _ => init, rfl, ?_, fun i hi => absurd hi (Nat.not_lt_zero i)⟩
    simpa [foldRange] using h
  | succ n ih =>
    rw [foldRange_succ, Res.andThen_eq_ret] at h
    obtain ⟨st, hst, hbody⟩ := h
    obtain ⟨states, h0, hn, hstep⟩ := ih hst
    refine ⟨fun i => if i ≤ n then states i else r, by simp [h0], by simp, ?_⟩
    intro i hi
    by_cases hin : i < n
    · have h1 : i ≤ n := by omega
      have h2 : i + 1 ≤ n := by omega
      simp only [h1, h2, if_true]
      exact hstep i hin
    · have hieq : i = n := by omega
      subst hieq
      simp [hn, hbody]

theorem forRange_succ (n : Nat) (body : Nat → Res Unit) :
    forRange (n + 1) body = (forRange n body).andThen fun _ => body n := by
  simp [forRange, List.range_succ, List.foldl_append]

/-- A loop that returns has run every iteration. -/
theorem forRange_ret {n : Nat} {body : Nat → Res Unit} (h : forRange n body = .ret ()) :
    ∀ i, i < n → body i = .ret () := by
  induction n with
  | zero => intro i hi; omega
  | succ n ih =>
    rw [forRange_succ, Res.andThen_eq_ret] at h
    obtain ⟨_, hst, hbody⟩ := h
    intro i hi
    by_cases hin : i < n
    · exact ih hst i hin
    · have hieq : i = n := by omega
      subst hieq
      exact hbody


/-! ## C12: the unfinished region of a string table -/

/-- The loop of `unfinishedRegionOfStringTable` entered at `k` inside the table
stops at the last zero byte at or below `k`, or at 0. -/
theorem unfinishedRegionLoop_spec (table : List Nat) (k : Nat) (hk : k < table.length) :
    ∃ r, unfinishedRegionLoop table k = .ret r ∧ r ≤ k ∧
      (∀ q, r < q → q ≤ k → table[q]? ≠ some 0) ∧ (0 < r → table[r]? = some 0) := by
  induction k with
  | zero => exact ⟨0, rfl, le_refl 0, fun q h1 h2 => by omega, fun h => by omega⟩
  | succ k ih =>
    obtain ⟨r, hr, hle, hnz, hz⟩ := ih (by omega)
    have hget : table[k + 1]? = some (table[k + 1]) := List.getElem?_eq_getElem hk
    by_cases hc : table[k + 1] = 0
    · refine ⟨k + 1, ?_, le_refl _, fun q h1 h2 => by omega, fun _ => by rw [hget, hc]⟩
      simp [unfinishedRegionLoop, hget, hc]
    · refine ⟨r, ?_, by omega, ?_, hz⟩
      · simp [unfinishedRegionLoop, hget, hc, hr]
      · intro q h1 h2
        by_cases hq : q ≤ k
        · exact hnz q h1 hq
        · have hqeq : q = k + 1 := by omega
          subst hqeq
          rw [hget]
          simpa using hc

/-- The loop returns only when its first read is inside the table. -/
theorem unfinishedRegionLoop_ret {table : List Nat} {k r : Nat}
    (h : unfinishedRegionLoop table k = .ret r) : k = 0 ∨ k < table.length := by
  cases k with
  | zero => exact Or.inl rfl
  | succ k =>
    right
    by_contra hlt
    have hnone : table[k + 1]? = none := List.getElem?_eq_none (by omega)
    simp [unfinishedRegionLoop, hnone] at h

/-- On a table that holds its declared `size` bytes, the result `r` of
`unfinishedRegionOfStringTable` is at most `size`, no byte from `r` on is zero,
and the byte before `r` is zero when `r` is not 0. -/
theorem unfinishedRegionOfStringTable_spec (table : List Nat) (size : Nat)
    (hsize : size ≤ table.length) :
    ∃ r, unfinishedRegionOfStringTable table size = .ret r ∧ r ≤ size ∧
      (∀ q, r ≤ q → q < size → table[q]? ≠ some 0) ∧ (0 < r → table[r - 1]? = some 0) := by
  by_cases h0 : size = 0
  · subst h0
    exact ⟨0, rfl, le_refl 0, fun q _ h => by omega, fun h => by omega⟩
  obtain ⟨k, hk, hle, hnz, hz⟩ := unfinishedRegionLoop_spec table (size - 1) (by omega)
  have hget : table[k]? = some (table[k]) := List.getElem?_eq_getElem (by omega)
  by_cases hc : table[k] = 0
  · refine ⟨k + 1, ?_, by omega, ?_, fun _ => by simpa [hget] using hc⟩
    · simp [unfinishedRegionOfStringTable, h0, hk, hget, hc]
    · intro q h1 h2
      exact hnz q (by omega) (by omega)
  · have hk0 : k = 0 := by
      by_contra hne
      have := hz (by omega)
      rw [hget] at this
      exact hc (by simpa using this)
    refine ⟨k, ?_, by omega, ?_, fun h => by omega⟩
    · simp [unfinishedRegionOfStringTable, h0, hk, hget, hc]
    · intro q h1 h2
      by_cases hq : q = 0
      · subst hq; subst hk0
        rw [hget]; simpa using hc
      · exact hnz q (by omega) (by omega)

/-- `unfinishedRegionOfStringTable` returns only on a table that holds its
declared size. -/
theorem unfinishedRegionOfStringTable_ret {table : List Nat} {size r : Nat}
    (h : unfinishedRegionOfStringTable table size = .ret r) : size ≤ table.length := by
  by_cases h0 : size = 0
  · omega
  rw [unfinishedRegionOfStringTable, if_neg h0] at h
  cases hl : unfinishedRegionLoop table (size - 1) with
  | ret k =>
    rw [hl] at h
    rcases unfinishedRegionLoop_ret hl with h1 | h1
    · have hk : k = 0 := by
        have hs : size - 1 = 0 := h1
        rw [hs] at hl
        simpa [unfinishedRegionLoop] using hl.symm
      subst hk
      by_contra hlt
      have hnone : table[0]? = none := List.getElem?_eq_none (by omega)
      simp [hnone] at h
    · omega
  | throw m => rw [hl] at h; simp at h
  | undefined => rw [hl] at h; simp at h
  | timeout => rw [hl] at h; simp at h

/-- An index below the unfinished region is followed by a zero byte inside the
table, and conversely. -/
theorem lt_unfinishedRegion_iff {table : List Nat} {size r : Nat}
    (h : unfinishedRegionOfStringTable table size = .ret r) (i : Nat) :
    i < r ↔ ∃ j, i ≤ j ∧ j < size ∧ table[j]? = some 0 := by
  obtain ⟨r1, hr1, hle, hnz, hz⟩ :=
    unfinishedRegionOfStringTable_spec table size (unfinishedRegionOfStringTable_ret h)
  rw [h] at hr1
  cases hr1
  constructor
  · intro hlt
    exact ⟨r - 1, by omega, by omega, hz (by omega)⟩
  · rintro ⟨j, hij, hj, hzero⟩
    by_contra hge
    exact hnz j (by omega) hj hzero


/-! ## What the ELF reader has checked when it accepts -/

/-- One iteration of the loop over the section headers that returns. -/
theorem checkSectionHeaders_step {T : ElfTypes} {buf : List Nat} {creationFlags : Nat}
    {ehdr : Ehdr} {shstrShdr : Shdr} {unfinishedShstrPos i : Nat} {st st1 : SectionScan}
    (h : (do
      let shdr ← getSectionHeader T buf i
      if shdr.sh_offset > buf.length then Res.raise "Section offset out of range!"
      else if shdr.sh_type ≠ SHT_NOBITS ∧
          usumGt (8 * T.wordSize) shdr.sh_offset shdr.sh_size buf.length then
        Res.raise "Section offset+size out of range!"
      else if shdr.sh_link ≥ ehdr.e_shnum then Res.raise "Section link out of range!"
      else if shdr.sh_name ≥ shstrShdr.sh_size then
        Res.raise "Section name index out of range!"
      else if shdr.sh_name ≥ unfinishedShstrPos then Res.raise "Unfinished section name!"
      else do
        let map ← (if creationFlags &&& ELF_CREATE_SECTIONMAP ≠ 0 then do
            let shname ← cstringAt buf buf.length (shstrShdr.sh_offset + shdr.sh_name)
            pure (st.sectionIndexMap ++ [(shname, i)])
          else pure st.sectionIndexMap : Res (List (List Nat × Nat)))
        pure ⟨map, if shdr.sh_type = SHT_SYMTAB then some i else st.symTableHdr,
          if shdr.sh_type = SHT_DYNSYM then some i else st.dynSymTableHdr⟩ : Res SectionScan)
      = .ret st1) :
    ∃ shdr, getSectionHeader T buf i = .ret shdr ∧ shdr.sh_offset ≤ buf.length ∧
      (shdr.sh_type ≠ SHT_NOBITS → shdr.sh_offset + shdr.sh_size ≤ buf.length) ∧
      shdr.sh_link < ehdr.e_shnum ∧ shdr.sh_name < shstrShdr.sh_size ∧
      shdr.sh_name < unfinishedShstrPos ∧
      st1.symTableHdr = (if shdr.sh_type = SHT_SYMTAB then some i else st.symTableHdr) ∧
      st1.dynSymTableHdr = (if shdr.sh_type = SHT_DYNSYM then some i else st.dynSymTableHdr) := by
  rw [Res.bind_eq_ret] at h
  obtain ⟨shdr, hshdr, h⟩ := h
  by_cases h1 : shdr.sh_offset > buf.length
  · rw [if_pos h1] at h; exact absurd h Res.raise_ne_ret
  rw [if_neg h1] at h
  by_cases h2 : shdr.sh_type ≠ SHT_NOBITS ∧
      usumGt (8 * T.wordSize) shdr.sh_offset shdr.sh_size buf.length
  · rw [if_pos h2] at h; exact absurd h Res.raise_ne_ret
  rw [if_neg h2] at h
  by_cases h3 : shdr.sh_link ≥ ehdr.e_shnum
  · rw [if_pos h3] at h; exact absurd h Res.raise_ne_ret
  rw [if_neg h3] at h
  by_cases h4 : shdr.sh_name ≥ shstrShdr.sh_size
  · rw [if_pos h4] at h; exact absurd h Res.raise_ne_ret
  rw [if_neg h4] at h
  by_cases h5 : shdr.sh_name ≥ unfinishedShstrPos
  · rw [if_pos h5] at h; exact absurd h Res.raise_ne_ret
  rw [if_neg h5, Res.bind_eq_ret] at h
  obtain ⟨map, _, h⟩ := h
  rw [Res.pure_eq_ret] at h
  subst h
  refine ⟨shdr, hshdr, by omega, ?_, by omega, by omega, by omega, rfl, rfl⟩
  intro hty
  have hu : ¬ usumGt (8 * T.wordSize) shdr.sh_offset shdr.sh_size buf.length = true :=
    fun hu => h2 ⟨hty, hu⟩
  simp only [usumGt, decide_eq_true_eq] at hu
  omega

theorem LastOfType_step {T : ElfTypes} {buf : List Nat} {ty n : Nat} {o : Option Nat}
    {shdr : Shdr} (h : LastOfType T buf ty n o) (hshdr : getSectionHeader T buf n = .ret shdr) :
    LastOfType T buf ty (n + 1) (if shdr.sh_type = ty then some n else o) := by
  by_cases hty : shdr.sh_type = ty
  · rw [if_pos hty]
    exact ⟨by omega, ⟨shdr, hshdr, hty⟩, fun k h1 h2 => by omega⟩
  · rw [if_neg hty]
    cases o with
    | none =>
      intro i hi s hs
      by_cases hin : i < n
      · exact h i hin s hs
      · have hieq : i = n := by omega
        subst hieq
        rw [hshdr] at hs
        cases hs
        exact hty
    | some j =>
      obtain ⟨hj, hex, hlast⟩ := h
      refine ⟨by omega, hex, ?_⟩
      intro k h1 h2 s hs
      by_cases hkn : k < n
      · exact hlast k h1 hkn s hs
      · have hkeq : k = n := by omega
        subst hkeq
        rw [hshdr] at hs
        cases hs
        exact hty

/-- What the loop over the section headers has checked when it returns: every
header lies in range, and the headers it hands on are the last `SYMTAB` and the
last `DYNSYM` header. -/
theorem checkSectionHeaders_ret {T : ElfTypes} {buf : List Nat} {creationFlags : Nat}
    {ehdr : Ehdr} {shstrShdr : Shdr} {unfinishedShstrPos : Nat} {scan : SectionScan}
    (h : checkSectionHeaders T buf creationFlags ehdr shstrShdr unfinishedShstrPos = .ret scan) :
    (∀ i, i < ehdr.e_shnum → ∃ shdr, getSectionHeader T buf i = .ret shdr ∧
      shdr.sh_offset ≤ buf.length ∧
      (shdr.sh_type ≠ SHT_NOBITS → shdr.sh_offset + shdr.sh_size ≤ buf.length) ∧
      shdr.sh_link < ehdr.e_shnum ∧ shdr.sh_name < shstrShdr.sh_size ∧
      shdr.sh_name < unfinishedShstrPos) ∧
    LastOfType T buf SHT_SYMTAB ehdr.e_shnum scan.symTableHdr ∧
    LastOfType T buf SHT_DYNSYM ehdr.e_shnum scan.dynSymTableHdr := by
  obtain ⟨states, h0, hn, hstep⟩ := foldRange_ret h
  have hinv : ∀ m, m ≤ ehdr.e_shnum →
      LastOfType T buf SHT_SYMTAB m (states m).symTableHdr ∧
      LastOfType T buf SHT_DYNSYM m (states m).dynSymTableHdr := by
    intro m
    induction m with
    | zero =>
      intro _
      rw [h0]
      exact ⟨fun i hi => by omega, fun i hi => by omega⟩
    | succ m ih =>
      intro hm
      obtain ⟨ih1, ih2⟩ := ih (by omega)
      obtain ⟨shdr, hshdr, _, _, _, _, _, hs, hd⟩ := checkSectionHeaders_step (hstep m (by omega))
      rw [hs, hd]
      exact ⟨LastOfType_step ih1 hshdr, LastOfType_step ih2 hshdr⟩
  refine ⟨?_, ?_, ?_⟩
  · intro i hi
    obtain ⟨shdr, hshdr, a, b, c, d, e, _, _⟩ := checkSectionHeaders_step (hstep i hi)
    exact ⟨shdr, hshdr, a, b, c, d, e⟩
  · rw [← hn]; exact (hinv _ (le_refl _)).1
  · rw [← hn]; exact (hinv _ (le_refl _)).2


/-- What the indexing of a symbol table has checked when it returns. -/
theorem indexSymbols_ret {T : ElfTypes} {buf : List Nat} {wantMap : Bool} {symTableHdr : Shdr}
    {msgEntSize msgNoStrings msgRange msgUnfinished : String} {idx : SymbolIndex}
    (h : indexSymbols T buf wantMap symTableHdr msgEntSize msgNoStrings msgRange msgUnfinished
      = .ret idx) :
    T.symSize ≤ symTableHdr.sh_entsize ∧ symTableHdr.sh_link ≠ SHN_UNDEF ∧
    ∃ symstrShdr unfinishedSymstrPos,
      getSectionHeader T buf symTableHdr.sh_link = .ret symstrShdr ∧
      unfinishedRegionOfStringTable (buf.drop symstrShdr.sh_offset) symstrShdr.sh_size
        = .ret unfinishedSymstrPos ∧
      idx.entSize = symTableHdr.sh_entsize ∧ idx.table = some symTableHdr.sh_offset ∧
      idx.stringTable = some symstrShdr.sh_offset ∧
      idx.symbolsNum = symTableHdr.sh_size / symTableHdr.sh_entsize ∧
      ∀ i, i < idx.symbolsNum →
        ∃ sym, readSym T buf (symTableHdr.sh_offset + i * symTableHdr.sh_entsize) = .ret sym ∧
          sym.st_name < symstrShdr.sh_size ∧ sym.st_name < unfinishedSymstrPos := by
  by_cases h1 : symTableHdr.sh_entsize < T.symSize
  · rw [indexSymbols, if_pos h1] at h; exact absurd h Res.raise_ne_ret
  rw [indexSymbols, if_neg h1] at h
  by_cases h2 : symTableHdr.sh_link = SHN_UNDEF
  · rw [if_pos h2] at h; exact absurd h Res.raise_ne_ret
  rw [if_neg h2, Res.bind_eq_ret] at h
  obtain ⟨symstrShdr, hstr, h⟩ := h
  rw [Res.bind_eq_ret] at h
  obtain ⟨unf, hunf, h⟩ := h
  rw [Res.bind_eq_ret] at h
  obtain ⟨map, hmap, h⟩ := h
  rw [Res.pure_eq_ret] at h
  subst h
  refine ⟨by omega, h2, symstrShdr, unf, hstr, hunf, rfl, rfl, rfl, rfl, ?_⟩
  intro i hi
  obtain ⟨states, _, _, hstep⟩ := foldRange_ret hmap
  have hb := hstep i hi
  rw [Res.bind_eq_ret] at hb
  obtain ⟨sym, hsym, hb⟩ := hb
  by_cases h3 : sym.st_name ≥ symstrShdr.sh_size
  · rw [if_pos h3] at hb; exact absurd hb Res.raise_ne_ret
  rw [if_neg h3] at hb
  by_cases h4 : sym.st_name ≥ unf
  · rw [if_pos h4] at hb; exact absurd hb Res.raise_ne_ret
  exact ⟨sym, hsym, by omega, by omega⟩


/-- What the constructor of `ElfBinaryTemplate` has checked and stored when it
accepts a buffer. -/
theorem ElfBinaryTemplate_ret {T : ElfTypes} {buf : List Nat} {flags : Nat} {bin : ElfBinary}
    (h : ElfBinaryTemplate T buf flags = .ret bin) :
    ∃ ehdr, readEhdr T buf = .ret ehdr ∧ T.ehdrSize ≤ buf.length ∧
      (ehdr.e_phoff = 0 → ehdr.e_phnum = 0) ∧
      (ehdr.e_phoff ≠ 0 →
        ehdr.e_phoff + ehdr.e_phentsize * ehdr.e_phnum % 256 ^ T.wordSize ≤ buf.length ∧
        checkProgramHeaders T buf ehdr = .ret ()) ∧
      (ehdr.e_shoff = 0 → ehdr.e_shnum = 0) ∧
      (¬ (ehdr.e_shoff ≠ 0 ∧ ehdr.e_shstrndx ≠ SHN_UNDEF) →
        bin = ⟨flags, buf, none, none, none, none, none, 0, 0, 0, 0, [], [], []⟩) ∧
      (ehdr.e_shoff ≠ 0 → ehdr.e_shstrndx ≠ SHN_UNDEF →
        ehdr.e_shoff + ehdr.e_shentsize * ehdr.e_shnum % 256 ^ T.wordSize ≤ buf.length ∧
        ehdr.e_shstrndx < ehdr.e_shnum ∧
        ∃ shstrShdr unfinishedShstrPos scan syms dynSyms,
          getSectionHeader T buf ehdr.e_shstrndx = .ret shstrShdr ∧
          unfinishedRegionOfStringTable (buf.drop shstrShdr.sh_offset) shstrShdr.sh_size
            = .ret unfinishedShstrPos ∧
          checkSectionHeaders T buf flags ehdr shstrShdr unfinishedShstrPos = .ret scan ∧
          (match scan.symTableHdr with
            | none => syms = ⟨0, none, none, 0, []⟩
            | some i => ∃ symTableHdr, getSectionHeader T buf i = .ret symTableHdr ∧
              indexSymbols T buf (flags &&& ELF_CREATE_SYMBOLMAP ≠ 0) symTableHdr
                "SymTable entry size is too small!" "Symbol table doesnt have string table"
                "Symbol name index out of range!" "Unfinished symbol name!" = .ret syms) ∧
          (match scan.dynSymTableHdr with
            | none => dynSyms = ⟨0, none, none, 0, []⟩
            | some i => ∃ dynSymTableHdr, getSectionHeader T buf i = .ret dynSymTableHdr ∧
              indexSymbols T buf (flags &&& ELF_CREATE_DYNSYMMAP ≠ 0) dynSymTableHdr
                "DynSymTable entry size is too small!" "DynSymbol table doesnt have string table"
                "DynSymbol name index out of range!" "Unfinished dynsymbol name!"
                = .ret dynSyms) ∧
          bin.binaryCode = buf ∧
          bin.sectionStringTable = some shstrShdr.sh_offset ∧
          bin.symbolStringTable = syms.stringTable ∧ bin.symbolTable = syms.table ∧
          bin.symbolsNum = syms.symbolsNum ∧ bin.symbolEntSize = syms.entSize ∧
          bin.dynSymStringTable = dynSyms.stringTable ∧ bin.dynSymTable = dynSyms.table ∧
          bin.dynSymbolsNum = dynSyms.symbolsNum ∧ bin.dynSymEntSize = dynSyms.entSize) := by
  by_cases hlen : buf.length < T.ehdrSize
  · rw [ElfBinaryTemplate, if_pos hlen] at h
    exact absurd h Res.raise_ne_ret
  rw [ElfBinaryTemplate, if_neg hlen, Res.bind_eq_ret] at h
  obtain ⟨magic, -, h⟩ := h
  by_cases hmagic : magic ≠ elfMagicValue
  · rw [if_pos hmagic] at h
    exact absurd h Res.raise_ne_ret
  rw [if_neg hmagic, Res.bind_eq_ret] at h
  obtain ⟨cls, -, h⟩ := h
  by_cases hcls : cls ≠ T.ELFCLASS
  · rw [if_pos hcls] at h
    exact absurd h Res.raise_ne_ret
  rw [if_neg hcls, Res.bind_eq_ret] at h
  obtain ⟨dat, -, h⟩ := h
  by_cases hdat : dat ≠ 1
  · rw [if_pos hdat] at h
    exact absurd h Res.raise_ne_ret
  rw [if_neg hdat, Res.bind_eq_ret] at h
  obtain ⟨ehdr, he, h⟩ := h
  refine ⟨ehdr, he, by omega, ?_⟩
  by_cases hph : ehdr.e_phoff = 0 ∧ ehdr.e_phnum ≠ 0
  · rw [if_pos hph] at h
    exact absurd h Res.raise_ne_ret
  rw [if_neg hph] at h
  -- the program headers
  have hprog : (ehdr.e_phoff ≠ 0 →
        ehdr.e_phoff + ehdr.e_phentsize * ehdr.e_phnum % 256 ^ T.wordSize ≤ buf.length ∧
        checkProgramHeaders T buf ehdr = .ret ()) ∧
      ∃ rest : Res ElfBinary, rest = .ret bin ∧ rest =
        (if ehdr.e_shoff = 0 ∧ ehdr.e_shnum ≠ 0 then
          Res.raise "Elf invalid shoff and shnum combination"
        else if ehdr.e_shoff ≠ 0 ∧ ehdr.e_shstrndx ≠ SHN_UNDEF then
          if ehdr.e_shoff > buf.length then
            Res.raise "SectionHeaders offset out of range!"
          else if usumGt (8 * T.wordSize) ehdr.e_shoff
              ((ehdr.e_shentsize * ehdr.e_shnum) % 256 ^ T.wordSize) buf.length then
            Res.raise "SectionHeaders offset+size out of range!"
          else if ehdr.e_shstrndx ≥ ehdr.e_shnum then Res.raise "Shstrndx out of range!"
          else do
            let shstrShdr ← getSectionHeader T buf ehdr.e_shstrndx
            let unfinishedShstrPos ← unfinishedRegionOfStringTable
              (buf.drop shstrShdr.sh_offset) shstrShdr.sh_size
            let scan ← checkSectionHeaders T buf flags ehdr shstrShdr
              unfinishedShstrPos
            let sectionIndexMap :=
              if flags &&& ELF_CREATE_SECTIONMAP ≠ 0 then mapSort scan.sectionIndexMap
              else scan.sectionIndexMap
            let syms ← (match scan.symTableHdr with
              | none => pure ⟨0, none, none, 0, []⟩
              | some i => do
                let symTableHdr ← getSectionHeader T buf i
                indexSymbols T buf (flags &&& ELF_CREATE_SYMBOLMAP ≠ 0)
                  symTableHdr "SymTable entry size is too small!"
                  "Symbol table doesnt have string table"
                  "Symbol name index out of range!" "Unfinished symbol name!"
              : Res SymbolIndex)
            let dynSyms ← (match scan.dynSymTableHdr with
              | none => pure ⟨0, none, none, 0, []⟩
              | some i => do
                let dynSymTableHdr ← getSectionHeader T buf i
                indexSymbols T buf (flags &&& ELF_CREATE_DYNSYMMAP ≠ 0)
                  dynSymTableHdr "DynSymTable entry size is too small!"
                  "DynSymbol table doesnt have string table"
                  "DynSymbol name index out of range!" "Unfinished dynsymbol name!"
              : Res SymbolIndex)
            pure (⟨flags, buf, some shstrShdr.sh_offset, syms.stringTable, syms.table,
              dynSyms.stringTable, dynSyms.table, syms.symbolsNum, dynSyms.symbolsNum,
              syms.entSize, dynSyms.entSize, sectionIndexMap, syms.indexMap,
              dynSyms.indexMap⟩ : ElfBinary)
        else pure ⟨flags, buf, none, none, none, none, none, 0, 0, 0, 0, [], [], []⟩) := by
    by_cases hp0 : ehdr.e_phoff ≠ 0
    · rw [if_pos hp0] at h
      by_cases hp1 : ehdr.e_phoff > buf.length
      · rw [if_pos hp1, Res.bind_eq_ret] at h
        obtain ⟨_, h1, _⟩ := h
        exact absurd h1 Res.raise_ne_ret
      rw [if_neg hp1] at h
      by_cases hp2 : usumGt (8 * T.wordSize) ehdr.e_phoff
          ((ehdr.e_phentsize * ehdr.e_phnum) % 256 ^ T.wordSize) buf.length = true
      · rw [if_pos hp2, Res.bind_eq_ret] at h
        obtain ⟨_, h1, _⟩ := h
        exact absurd h1 Res.raise_ne_ret
      rw [if_neg hp2, Res.bind_eq_ret] at h
      obtain ⟨_, h1, h2⟩ := h
      refine ⟨fun _ => ⟨?_, h1⟩, _, h2, rfl⟩
      simp only [usumGt, decide_eq_true_eq] at hp2
      omega
    · rw [if_neg hp0, Res.bind_eq_ret] at h
      obtain ⟨_, _, h2⟩ := h
      exact ⟨fun hne => absurd hne hp0, _, h2, rfl⟩
  obtain ⟨hprog1, rest, hrest, hdef⟩ := hprog
  clear h
  subst hdef
  rename' hrest => h
  refine ⟨fun h0 => by_contra fun hn => hph ⟨h0, hn⟩, hprog1, ?_⟩
  by_cases hsh : ehdr.e_shoff = 0 ∧ ehdr.e_shnum ≠ 0
  · rw [if_pos hsh] at h
    exact absurd h Res.raise_ne_ret
  rw [if_neg hsh] at h
  refine ⟨fun h0 => by_contra fun hn => hsh ⟨h0, hn⟩, ?_⟩
  by_cases hidx : ehdr.e_shoff ≠ 0 ∧ ehdr.e_shstrndx ≠ SHN_UNDEF
  · rw [if_pos hidx] at h
    refine ⟨fun hn => absurd hidx hn, fun _ _ => ?_⟩
    by_cases hs1 : ehdr.e_shoff > buf.length
    · rw [if_pos hs1] at h
      exact absurd h Res.raise_ne_ret
    rw [if_neg hs1] at h
    by_cases hs2 : usumGt (8 * T.wordSize) ehdr.e_shoff
        ((ehdr.e_shentsize * ehdr.e_shnum) % 256 ^ T.wordSize) buf.length = true
    · rw [if_pos hs2] at h
      exact absurd h Res.raise_ne_ret
    rw [if_neg hs2] at h
    by_cases hs3 : ehdr.e_shstrndx ≥ ehdr.e_shnum
    · rw [if_pos hs3] at h
      exact absurd h Res.raise_ne_ret
    rw [if_neg hs3, Res.bind_eq_ret] at h
    obtain ⟨shstrShdr, hshstr, h⟩ := h
    rw [Res.bind_eq_ret] at h
    obtain ⟨unf, hunf, h⟩ := h
    rw [Res.bind_eq_ret] at h
    obtain ⟨scan, hscan, h⟩ := h
    rw [Res.bind_eq_ret] at h
    obtain ⟨syms, hsyms, h⟩ := h
    rw [Res.bind_eq_ret] at h
    obtain ⟨dynSyms, hdyn, h⟩ := h
    rw [Res.pure_eq_ret] at h
    subst h
    simp only [usumGt, decide_eq_true_eq] at hs2
    refine ⟨by omega, by omega, shstrShdr, unf, scan, syms, dynSyms, hshstr, hunf, hscan,
      ?_, ?_, rfl, rfl, rfl, rfl, rfl, rfl, rfl, rfl, rfl, rfl⟩
    · cases hsc : scan.symTableHdr with
      | none =>
        rw [hsc] at hsyms
        exact (Res.pure_eq_ret.mp hsyms).symm
      | some i =>
        rw [hsc] at hsyms
        rw [Res.bind_eq_ret] at hsyms
        exact hsyms
    · cases hsc : scan.dynSymTableHdr with
      | none =>
        rw [hsc] at hdyn
        exact (Res.pure_eq_ret.mp hdyn).symm
      | some i =>
        rw [hsc] at hdyn
        rw [Res.bind_eq_ret] at hdyn
        exact hdyn
  · rw [if_neg hidx] at h
    exact ⟨fun _ => (Res.pure_eq_ret.mp h).symm, fun h1 h2 => absurd ⟨h1, h2⟩ hidx⟩


/-- A little-endian value of `n` bytes is below `256 ^ n`. -/
theorem valueLE_lt (l : List Nat) (h : ∀ b ∈ l, b < 256) : valueLE l < 256 ^ l.length := by
  induction l with
  | nil => simp [valueLE]
  | cons b bs ih =>
    have hb : b < 256 := h b (List.mem_cons_self b bs)
    have hbs := ih fun x hx => h x (List.mem_cons_of_mem b hx)
    simp only [valueLE, List.length_cons, pow_succ]
    omega

/-- A field of `n` bytes read from a buffer of bytes is below `256 ^ n`. -/
theorem loadLE_lt {buf : List Nat} {off n v : Nat} (hbytes : ∀ b ∈ buf, b < 256)
    (h : loadLE buf off n = .ret v) : v < 256 ^ n := by
  unfold loadLE at h
  split at h
  · rename_i hle
    cases h
    have hlen : ((buf.drop off).take n).length = n := by
      rw [List.length_take, List.length_drop]; omega
    have := valueLE_lt ((buf.drop off).take n) fun b hb =>
      hbytes b (List.mem_of_mem_drop (List.mem_of_mem_take hb))
    rwa [hlen] at this
  · cases h

/-- The 16-bit counts and entry sizes of an ELF header read from a buffer of
bytes. -/
theorem readEhdr_lt {T : ElfTypes} {buf : List Nat} {ehdr : Ehdr}
    (hbytes : ∀ b ∈ buf, b < 256) (h : readEhdr T buf = .ret ehdr) :
    ehdr.e_phentsize < 65536 ∧ ehdr.e_phnum < 65536 ∧ ehdr.e_shentsize < 65536 ∧
      ehdr.e_shnum < 65536 ∧ ehdr.e_shstrndx < 65536 := by
  unfold readEhdr at h
  simp only [Res.bind_eq_ret, Res.pure_eq_ret] at h
  obtain ⟨_, _, _, _, _, _, _, _, _, _, _, _, _, _, _, _, a, ha, b, hb, c, hc, d, hd, e, he,
    rfl⟩ := h
  exact ⟨loadLE_lt hbytes ha, loadLE_lt hbytes hb, loadLE_lt hbytes hc, loadLE_lt hbytes hd,
    loadLE_lt hbytes he⟩


/-! ## C11: ranges the ELF reader has checked -/

/-- C11 as amended: if the constructor of `ElfBinaryTemplate` accepts a buffer
of `n` bytes, then `e_phoff + e_phnum * e_phentsize <= n`; and if moreover
`e_shstrndx` is not `SHN_UNDEF`, then `e_shoff + e_shnum * e_shentsize <= n` and
every section header whose type is not `NOBITS` has `sh_offset + sh_size <= n`. -/
theorem ElfBinaryTemplate_ranges (T : ElfTypes) (buf : List Nat) (creationFlags : Nat)
    (bin : ElfBinary) (ehdr : Ehdr) (hT : T = Elf32Types ∨ T = Elf64Types)
    (hbytes : ∀ b ∈ buf, b < 256)
    (h : ElfBinaryTemplate T buf creationFlags = .ret bin)
    (hehdr : readEhdr T buf = .ret ehdr) :
    ehdr.e_phoff + ehdr.e_phnum * ehdr.e_phentsize ≤ buf.length ∧
    (ehdr.e_shstrndx ≠ SHN_UNDEF →
      ehdr.e_shoff + ehdr.e_shnum * ehdr.e_shentsize ≤ buf.length ∧
      ∀ i, i < ehdr.e_shnum → ∃ shdr, getSectionHeader T buf i = .ret shdr ∧
        (shdr.sh_type ≠ SHT_NOBITS → shdr.sh_offset + shdr.sh_size ≤ buf.length)) := by
  obtain ⟨ehdr1, he1, _, hph0, hph, hsh0, _, hsh⟩ := ElfBinaryTemplate_ret h
  rw [hehdr] at he1
  cases he1
  obtain ⟨l1, l2, l3, l4, _⟩ := readEhdr_lt hbytes hehdr
  have hW : 4294967296 ≤ 256 ^ T.wordSize := by
    rcases hT with hT | hT <;> subst hT <;> decide
  have hp : ehdr.e_phentsize * ehdr.e_phnum < 4294967296 := by nlinarith
  have hs : ehdr.e_shentsize * ehdr.e_shnum < 4294967296 := by nlinarith
  constructor
  · by_cases hz : ehdr.e_phoff = 0
    · rw [hz, hph0 hz]; simp
    · have := (hph hz).1
      rw [Nat.mod_eq_of_lt (by omega)] at this
      rw [Nat.mul_comm]; exact this
  · intro hstr
    by_cases hz : ehdr.e_shoff = 0
    · rw [hz, hsh0 hz]
      exact ⟨by simp, fun i hi => absurd hi (Nat.not_lt_zero i)⟩
    · obtain ⟨hle, _, shstrShdr, unf, scan, _, _, _, _, hscan, _⟩ := hsh hz hstr
      rw [Nat.mod_eq_of_lt (by omega)] at hle
      refine ⟨by rw [Nat.mul_comm]; exact hle, fun i hi => ?_⟩
      obtain ⟨shdr, hshdr, _, hsize, _⟩ := (checkSectionHeaders_ret hscan).1 i hi
      exact ⟨shdr, hshdr, hsize⟩

set_option maxRecDepth 100000 in
/-- The binary written for `nobitsDescription`: six section headers at offset
132 of 372 bytes. -/
theorem ElfBinaryTemplate_ranges_witness :
    (0 + 0 * 0 ≤ (generatedBytes Elf32Types nobitsDescription).length) ∧
    ((3 : Nat) ≠ SHN_UNDEF →
      132 + 6 * 40 ≤ (generatedBytes Elf32Types nobitsDescription).length ∧
      ∀ i, i < 6 → ∃ shdr,
        getSectionHeader Elf32Types (generatedBytes Elf32Types nobitsDescription) i = .ret shdr ∧
        (shdr.sh_type ≠ SHT_NOBITS → shdr.sh_offset + shdr.sh_size ≤
          (generatedBytes Elf32Types nobitsDescription).length)) :=
  ElfBinaryTemplate_ranges Elf32Types (generatedBytes Elf32Types nobitsDescription) 0
    ⟨0, generatedBytes Elf32Types nobitsDescription, some 56, some 94, some 97, none, none,
      2, 0, 16, 0, [], [], []⟩
    ⟨1, 224, 1, 0, 0, 132, 0, 52, 0, 0, 40, 6, 3⟩ (Or.inl rfl) (by decide) (by decide)
    (by decide)

/-- C11 as stated fails: the 52 bytes of `headerOnlyBinary` are accepted,
although `e_shoff + e_shnum * e_shentsize = 1000 + 1 * 40` exceeds 52; with
`e_shstrndx = SHN_UNDEF` the constructor does not look at the section headers. -/
theorem ElfBinaryTemplate_without_shstrndx :
    ElfBinaryTemplate Elf32Types headerOnlyBinary 0 =
      .ret ⟨0, headerOnlyBinary, none, none, none, none, none, 0, 0, 0, 0, [], [], []⟩ ∧
    headerOnlyBinary.length = 52 ∧
    ((readEhdr Elf32Types headerOnlyBinary).andThen fun ehdr =>
      .ret (ehdr.e_shoff, ehdr.e_shnum, ehdr.e_shentsize, ehdr.e_shstrndx)) =
      .ret (1000, 1, 40, SHN_UNDEF) := by
  decide


/-! ## C12: names end inside their string table -/

/-- A name index below the unfinished region of the string table at `offset` is
followed by a zero byte inside the table. -/
theorem name_terminated {buf : List Nat} {offset size unfinished name : Nat}
    (h : unfinishedRegionOfStringTable (buf.drop offset) size = .ret unfinished)
    (hname : name < unfinished) :
    ∃ j, name ≤ j ∧ j < size ∧ buf[offset + j]? = some 0 := by
  obtain ⟨j, h1, h2, h3⟩ := (lt_unfinishedRegion_iff h name).mp hname
  exact ⟨j, h1, h2, by rw [← List.getElem?_drop]; exact h3⟩

/-- The symbols of an indexed symbol table have names that end inside the
string table the symbol table links to. -/
theorem indexSymbols_names {T : ElfTypes} {buf : List Nat} {wantMap : Bool}
    {symTableHdr : Shdr} {m1 m2 m3 m4 : String} {idx : SymbolIndex}
    (h : indexSymbols T buf wantMap symTableHdr m1 m2 m3 m4 = .ret idx) :
    ∃ symstrShdr, getSectionHeader T buf symTableHdr.sh_link = .ret symstrShdr ∧
      idx.stringTable = some symstrShdr.sh_offset ∧ idx.table = some symTableHdr.sh_offset ∧
      idx.entSize = symTableHdr.sh_entsize ∧
      ∀ i, i < idx.symbolsNum →
        ∃ sym, readSym T buf (symTableHdr.sh_offset + i * symTableHdr.sh_entsize) = .ret sym ∧
          ∃ j, sym.st_name ≤ j ∧ j < symstrShdr.sh_size ∧
            buf[symstrShdr.sh_offset + j]? = some 0 := by
  obtain ⟨_, _, symstrShdr, unf, hstr, hunf, he, ht, hs, _, hall⟩ := indexSymbols_ret h
  refine ⟨symstrShdr, hstr, hs, ht, he, fun i hi => ?_⟩
  obtain ⟨sym, hsym, _, hlt⟩ := hall i hi
  exact ⟨sym, hsym, name_terminated hunf hlt⟩

/-- C12: on a table that holds its declared `size` bytes,
`unfinishedRegionOfStringTable` returns `p+1` for the position `p` of the last
zero byte among the first `size` bytes and 0 when none of them is zero, so an
index `i < size` is below the result exactly when a zero byte follows at some
`j` with `i <= j < size`; and when the ELF reader accepts a binary, the name of
every section (where `e_shstrndx` names a section string table), of every
symbol and of every dynamic symbol is followed by a zero byte inside its string
table. -/
theorem unfinishedRegion_names :
    (∀ (table : List Nat) (size : Nat), size ≤ table.length →
      ∃ r, unfinishedRegionOfStringTable table size = .ret r ∧
        (∀ p, p < size → table[p]? = some 0 →
          (∀ q, p < q → q < size → table[q]? ≠ some 0) → r = p + 1) ∧
        ((∀ p, p < size → table[p]? ≠ some 0) → r = 0) ∧
        ∀ i, i < size → (i < r ↔ ∃ j, i ≤ j ∧ j < size ∧ table[j]? = some 0)) ∧
    (∀ (T : ElfTypes) (buf : List Nat) (creationFlags : Nat) (bin : ElfBinary) (ehdr : Ehdr),
      ElfBinaryTemplate T buf creationFlags = .ret bin → readEhdr T buf = .ret ehdr →
      (ehdr.e_shstrndx ≠ SHN_UNDEF → ∀ i, i < ehdr.e_shnum →
        ∃ shstrShdr shdr, getSectionHeader T buf ehdr.e_shstrndx = .ret shstrShdr ∧
          bin.sectionStringTable = some shstrShdr.sh_offset ∧
          getSectionHeader T buf i = .ret shdr ∧
          ∃ j, shdr.sh_name ≤ j ∧ j < shstrShdr.sh_size ∧
            buf[shstrShdr.sh_offset + j]? = some 0) ∧
      (∀ i, i < bin.symbolsNum →
        ∃ k symTableHdr symstrShdr sym, k < ehdr.e_shnum ∧
          getSectionHeader T buf k = .ret symTableHdr ∧ symTableHdr.sh_type = SHT_SYMTAB ∧
          getSectionHeader T buf symTableHdr.sh_link = .ret symstrShdr ∧
          bin.symbolStringTable = some symstrShdr.sh_offset ∧
          getSymbol T bin i = .ret sym ∧
          ∃ j, sym.st_name ≤ j ∧ j < symstrShdr.sh_size ∧
            buf[symstrShdr.sh_offset + j]? = some 0) ∧
      (∀ i, i < bin.dynSymbolsNum →
        ∃ k dynSymTableHdr dynSymstrShdr sym, k < ehdr.e_shnum ∧
          getSectionHeader T buf k = .ret dynSymTableHdr ∧
          dynSymTableHdr.sh_type = SHT_DYNSYM ∧
          getSectionHeader T buf dynSymTableHdr.sh_link = .ret dynSymstrShdr ∧
          bin.dynSymStringTable = some dynSymstrShdr.sh_offset ∧
          getDynSymbol T bin i = .ret sym ∧
          ∃ j, sym.st_name ≤ j ∧ j < dynSymstrShdr.sh_size ∧
            buf[dynSymstrShdr.sh_offset + j]? = some 0)) := by
  constructor
  · intro table size hsize
    obtain ⟨r, hr, hle, hnz, hz⟩ := unfinishedRegionOfStringTable_spec table size hsize
    refine ⟨r, hr, ?_, ?_, fun i _ => lt_unfinishedRegion_iff hr i⟩
    · intro p hp hzero hlast
      by_contra hne
      by_cases hlt : p + 1 < r
      · exact hlast (r - 1) (by omega) (by omega) (hz (by omega))
      · exact hnz p (by omega) hp hzero
    · intro hnone
      by_contra hne
      exact hnone (r - 1) (by omega) (hz (by omega))
  · intro T buf flags bin ehdr h hehdr
    obtain ⟨ehdr1, he1, _, _, _, hsh0, hempty, hsh⟩ := ElfBinaryTemplate_ret h
    rw [hehdr] at he1
    cases he1
    by_cases hidx : ehdr.e_shoff ≠ 0 ∧ ehdr.e_shstrndx ≠ SHN_UNDEF
    · obtain ⟨_, _, shstrShdr, unf, scan, syms, dynSyms, hshstr, hunf, hscan, hsyms, hdyn,
        hbuf, hst, hsst, hstab, hsnum, hsent, hdst, hdtab, hdnum, hdent⟩ := hsh hidx.1 hidx.2
      obtain ⟨hall, hlastS, hlastD⟩ := checkSectionHeaders_ret hscan
      refine ⟨fun _ i hi => ?_, fun i hi => ?_, fun i hi => ?_⟩
      · obtain ⟨shdr, hshdr, _, _, _, _, hlt⟩ := hall i hi
        exact ⟨shstrShdr, shdr, hshstr, hst, hshdr, name_terminated hunf hlt⟩
      · cases hk : scan.symTableHdr with
        | none =>
          rw [hk] at hsyms
          rw [hsnum, hsyms] at hi
          exact absurd hi (Nat.not_lt_zero i)
        | some k =>
          rw [hk] at hsyms hlastS
          obtain ⟨symTableHdr, hhdr, hidxs⟩ := hsyms
          obtain ⟨hkn, ⟨s, hs, hty⟩, _⟩ := hlastS
          rw [hhdr] at hs
          cases hs
          obtain ⟨symstrShdr, hstr, h1, h2, h3, hnames⟩ := indexSymbols_names hidxs
          obtain ⟨sym, hsym, hj⟩ := hnames i (by rw [← hsnum]; exact hi)
          refine ⟨k, symTableHdr, symstrShdr, sym, hkn, hhdr, hty, hstr, by rw [hsst, h1], ?_, hj⟩
          simp only [getSymbol, hstab, h2, hbuf, hsent, h3]
          exact hsym
      · cases hk : scan.dynSymTableHdr with
        | none =>
          rw [hk] at hdyn
          rw [hdnum, hdyn] at hi
          exact absurd hi (Nat.not_lt_zero i)
        | some k =>
          rw [hk] at hdyn hlastD
          obtain ⟨dynSymTableHdr, hhdr, hidxs⟩ := hdyn
          obtain ⟨hkn, ⟨s, hs, hty⟩, _⟩ := hlastD
          rw [hhdr] at hs
          cases hs
          obtain ⟨symstrShdr, hstr, h1, h2, h3, hnames⟩ := indexSymbols_names hidxs
          obtain ⟨sym, hsym, hj⟩ := hnames i (by rw [← hdnum]; exact hi)
          refine ⟨k, dynSymTableHdr, symstrShdr, sym, hkn, hhdr, hty, hstr, by rw [hdst, h1], ?_,
            hj⟩
          simp only [getDynSymbol, hdtab, h2, hbuf, hdent, h3]
          exact hsym
    · have hb := hempty hidx
      subst hb
      refine ⟨fun hstr i hi => ?_, fun i hi => absurd hi (Nat.not_lt_zero i),
        fun i hi => absurd hi (Nat.not_lt_zero i)⟩
      have hz : ehdr.e_shoff = 0 := by
        by_contra hne
        exact hidx ⟨hne, hstr⟩
      rw [hsh0 hz] at hi
      exact absurd hi (Nat.not_lt_zero i)


set_option maxRecDepth 100000 in
/-- The table `a\0b` of declared size 3, and the name of section 1 of the binary
written for `nobitsDescription`. -/
theorem unfinishedRegion_names_witness :
    (∃ r, unfinishedRegionOfStringTable [97, 0, 98] 3 = .ret r ∧ r = 1 + 1) ∧
    (∃ shstrShdr shdr,
      getSectionHeader Elf32Types (generatedBytes Elf32Types nobitsDescription) 3
        = .ret shstrShdr ∧
      (some 56 : Option Nat) = some shstrShdr.sh_offset ∧
      getSectionHeader Elf32Types (generatedBytes Elf32Types nobitsDescription) 1 = .ret shdr ∧
      ∃ j, shdr.sh_name ≤ j ∧ j < shstrShdr.sh_size ∧
        (generatedBytes Elf32Types nobitsDescription)[shstrShdr.sh_offset + j]? = some 0) :=
  ⟨(unfinishedRegion_names.1 [97, 0, 98] 3 (by decide)).elim fun r hr =>
      ⟨r, hr.1, hr.2.1 1 (by decide) (by decide)
        (fun q h1 h2 => by interval_cases q; decide)⟩,
    (unfinishedRegion_names.2 Elf32Types (generatedBytes Elf32Types nobitsDescription) 0
      ⟨0, generatedBytes Elf32Types nobitsDescription, some 56, some 94, some 97, none, none,
        2, 0, 16, 0, [], [], []⟩
      ⟨1, 224, 1, 0, 0, 132, 0, 52, 0, 0, 40, 6, 3⟩ (by decide) (by decide)).1
      (by decide) 1 (by decide)⟩


/-! ## C13: symbol tables the ELF reader has checked -/

/-- C13 as amended: if the ELF reader accepts a binary whose `e_shstrndx` is not
`SHN_UNDEF`, then the last section of type `SYMTAB`, and the last section of
type `DYNSYM`, has an `sh_entsize` of at least `sizeof(Sym)` and an `sh_link`
that is not zero and is less than `e_shnum`. -/
theorem ElfBinaryTemplate_symtab (T : ElfTypes) (buf : List Nat) (creationFlags : Nat)
    (bin : ElfBinary) (ehdr : Ehdr) (ty i : Nat) (shdr : Shdr)
    (h : ElfBinaryTemplate T buf creationFlags = .ret bin)
    (hehdr : readEhdr T buf = .ret ehdr) (hstr : ehdr.e_shstrndx ≠ SHN_UNDEF)
    (hty : ty = SHT_SYMTAB ∨ ty = SHT_DYNSYM)
    (hi : i < ehdr.e_shnum) (hshdr : getSectionHeader T buf i = .ret shdr)
    (htype : shdr.sh_type = ty)
    (hlast : ∀ k, i < k → k < ehdr.e_shnum →
      ∀ s, getSectionHeader T buf k = .ret s → s.sh_type ≠ ty) :
    T.symSize ≤ shdr.sh_entsize ∧ shdr.sh_link ≠ SHN_UNDEF ∧ shdr.sh_link < ehdr.e_shnum := by
  obtain ⟨ehdr1, he1, _, _, _, hsh0, _, hsh⟩ := ElfBinaryTemplate_ret h
  rw [hehdr] at he1
  cases he1
  have hshoff : ehdr.e_shoff ≠ 0 := by
    intro hz
    rw [hsh0 hz] at hi
    exact absurd hi (Nat.not_lt_zero i)
  obtain ⟨_, _, shstrShdr, unf, scan, syms, dynSyms, _, _, hscan, hsyms, hdyn, _⟩ :=
    hsh hshoff hstr
  obtain ⟨hall, hlastS, hlastD⟩ := checkSectionHeaders_ret hscan
  have hlink : shdr.sh_link < ehdr.e_shnum := by
    obtain ⟨s, hs, _, _, hl, _⟩ := hall i hi
    rw [hshdr] at hs
    cases hs
    exact hl
  -- the header the scan hands on is the header `i`
  have hsame : ∀ o : Option Nat, LastOfType T buf ty ehdr.e_shnum o → o = some i := by
    intro o ho
    cases o with
    | none => exact absurd htype (ho i hi shdr hshdr)
    | some k =>
      obtain ⟨hk, ⟨s, hs, hsty⟩, hklast⟩ := ho
      have hki : k = i := by
        by_contra hne
        rcases Nat.lt_or_gt_of_ne hne with hlt | hgt
        · exact hklast i hlt hi shdr hshdr htype
        · exact hlast k hgt hk s hs hsty
      rw [hki]
  rcases hty with hty | hty
  · subst hty
    rw [hsame _ hlastS] at hsyms
    obtain ⟨hdr, hhdr, hidx⟩ := hsyms
    rw [hshdr] at hhdr
    cases hhdr
    obtain ⟨h1, h2, _⟩ := indexSymbols_ret hidx
    exact ⟨h1, h2, hlink⟩
  · subst hty
    rw [hsame _ hlastD] at hdyn
    obtain ⟨hdr, hhdr, hidx⟩ := hdyn
    rw [hshdr] at hhdr
    cases hhdr
    obtain ⟨h1, h2, _⟩ := indexSymbols_ret hidx
    exact ⟨h1, h2, hlink⟩

set_option maxRecDepth 100000 in
/-- The binary written for `nobitsDescription`: section 5 is its only `SYMTAB`
section, with entries of 16 bytes and the string table 4. -/
theorem ElfBinaryTemplate_symtab_witness :
    Elf32Types.symSize ≤ 16 ∧ (4 : Nat) ≠ SHN_UNDEF ∧ (4 : Nat) < 6 :=
  ElfBinaryTemplate_symtab Elf32Types (generatedBytes Elf32Types nobitsDescription) 0
    ⟨0, generatedBytes Elf32Types nobitsDescription, some 56, some 94, some 97, none, none,
      2, 0, 16, 0, [], [], []⟩
    ⟨1, 224, 1, 0, 0, 132, 0, 52, 0, 0, 40, 6, 3⟩ SHT_SYMTAB 5
    ⟨30, 2, 0, 0, 97, 32, 4, 0, 1, 16⟩ (by decide) (by decide) (by decide) (Or.inl rfl)
    (by decide) (by decide) (by decide)
    (fun k h1 h2 => absurd (show k < 6 from h2) (by omega))

set_option maxRecDepth 100000 in
/-- C13 as stated fails: the reader accepts the binary written for
`symtabLinkedToText` and indexes its two symbols, although the `sh_link` of the
`SYMTAB` section 4 names section 1, which has the type 1 (`PROGBITS`), not
`SHT_STRTAB`. -/
theorem ElfBinaryTemplate_symtab_links_text :
    linkedSectionType Elf32Types (generatedBytes Elf32Types symtabLinkedToText) 4 =
      .ret (2, SHT_SYMTAB, 1, 1) := by
  decide


/-! ## The layout `computeSize` works out -/

theorem alignedOffset_ge (size align : Nat) : size ≤ alignedOffset size align := by
  unfold alignedOffset; split <;> omega

set_option maxHeartbeats 1000000 in
/-- What one iteration of the loop over the regions in `computeSize` leaves when
nothing wraps around. -/
theorem computeRegion_ret {T : ElfTypes} {gen : ElfBinaryGen} {sectionsNum i : Nat}
    {st st1 : ComputeState} {region0 : ElfRegion}
    (hT : T = Elf32Types ∨ T = Elf64Types)
    (hreg : st.regions[i]? = some region0)
    (hnames : sectionNames st.regions = sectionNames gen.regions)
    (hsn : sectionsNum = 1 + (sectionNames gen.regions).length)
    (hfit : alignedOffset st.size (fixedAlign T region0) + contentSize T gen region0
      < 256 ^ T.wordSize)
    (h : computeRegion T gen sectionsNum i st = .ret st1) :
    st1.regions = st.regions.set i (adjustedRegion T gen region0) ∧
    st1.regionOffsets = st.regionOffsets ++ [alignedOffset st.size (fixedAlign T region0)] ∧
    st1.size = alignedOffset st.size (fixedAlign T region0) + contentSize T gen region0 ∧
    st1.sectionRegions = (if region0.type = ElfRegionType.SECTION then st.sectionRegions ++ [i]
      else st.sectionRegions) ∧
    st1.shdrTabRegion = (if region0.type = ElfRegionType.SHDR_TABLE then i
      else st.shdrTabRegion) ∧
    st1.phdrTabRegion = (if region0.type = ElfRegionType.PHDR_TABLE then i
      else st.phdrTabRegion) ∧
    (region0.type = ElfRegionType.PHDR_TABLE →
      checkRegionRanges st.regions.length gen.progHeaders = .ret ()) ∧
    (region0.type = ElfRegionType.SECTION → region0.sect.link < sectionsNum) := by
  have hW : 256 ^ T.wordSize ≤ 2 ^ 64 ∧ 2 ^ 64 % 256 ^ T.wordSize = 0 := by
    rcases hT with hT | hT <;> subst hT <;> decide
  have ha : alignedOffset st.size (fixedAlign T region0) < 256 ^ T.wordSize := by omega
  have hage := alignedOffset_ge st.size (fixedAlign T region0)
  rw [computeRegion, hreg] at h
  have hfa : (if region0.align = 0 then
        if region0.type = ElfRegionType.PHDR_TABLE ∨ region0.type = ElfRegionType.SHDR_TABLE
        then T.wordSize else 1
      else region0.align) = fixedAlign T region0 := rfl
  simp only [hfa] at h
  have hs1 : (if fixedAlign T region0 ≠ 0 ∧
        st.size &&& (fixedAlign T region0 - 1) ≠ 0 then
        (st.size + (fixedAlign T region0 - (st.size &&& (fixedAlign T region0 - 1)))) % 2 ^ 64
      else st.size) = alignedOffset st.size (fixedAlign T region0) := by
    unfold alignedOffset at ha ⊢
    split
    · rename_i hc
      rw [if_pos hc] at ha
      exact Nat.mod_eq_of_lt (by omega)
    · rfl
  simp only [hs1] at h
  generalize hA : alignedOffset st.size (fixedAlign T region0) = A at *
  generalize ha' : fixedAlign T region0 = a at *
  have hmodA : A % 256 ^ T.wordSize = A := Nat.mod_eq_of_lt ha
  simp only [hmodA] at h
  have hadj : ∀ sz, sz = contentSize T gen region0 →
      ({ type := region0.type, dataFromPointer := region0.dataFromPointer, size := sz,
          align := a, data := region0.data, sect := region0.sect } : ElfRegion) =
        adjustedRegion T gen region0 := by
    intro sz hsz
    simp only [adjustedRegion, hsz, ha']
  have hmod : ∀ len, A + len < 256 ^ T.wordSize →
      (A + len) % 2 ^ 64 = A + len ∧
      (A + len + 2 ^ 64 - A) % 256 ^ T.wordSize = len := by
    intro len hlen
    have h1 : (A + len) % 2 ^ 64 = A + len := Nat.mod_eq_of_lt (by omega)
    refine ⟨h1, ?_⟩
    have h2 : A + len + 2 ^ 64 - A = len + 2 ^ 64 := by omega
    rw [h2, Nat.add_mod, hW.2, Nat.add_zero, Nat.mod_mod]
    exact Nat.mod_eq_of_lt (by omega)
  cases hty : region0.type with
  | PHDR_TABLE =>
    have hcs : contentSize T gen region0 = gen.progHeaders.length * T.phdrSize := by
      simp [contentSize, hty]
    rw [hcs] at hfit
    obtain ⟨m1, m2⟩ := hmod _ hfit
    simp only [hty, m1, m2] at h
    cases hc : checkRegionRanges st.regions.length gen.progHeaders with
    | ret u =>
      rw [hc] at h
      simp only [Res.ret.injEq] at h
      subst h
      refine ⟨?_, rfl, by simp only [hcs], by simp, by simp, by simp, fun _ => rfl,
        fun hx => by simp at hx⟩
      simp only [← hty, hadj _ hcs.symm]
    | throw m => rw [hc] at h; cases h
    | undefined => rw [hc] at h; cases h
    | timeout => rw [hc] at h; cases h
  | SHDR_TABLE =>
    have hcs : contentSize T gen region0 = sectionsNum * T.shdrSize := by
      simp [contentSize, hty, hsn]
    rw [hcs] at hfit
    obtain ⟨m1, m2⟩ := hmod _ hfit
    simp only [hty, m1, m2, Res.ret.injEq] at h
    subst h
    refine ⟨?_, rfl, by simp only [hcs], by simp, by simp, by simp, fun hx => by simp at hx,
      fun hx => by simp at hx⟩
    simp only [← hty, hadj _ hcs.symm]
  | USER =>
    have hcs : contentSize T gen region0 = region0.size := by
      simp [contentSize, hty]
    rw [hcs] at hfit
    obtain ⟨m1, m2⟩ := hmod _ hfit
    simp only [hty, m1, Res.ret.injEq] at h
    subst h
    refine ⟨?_, rfl, by simp only [hcs], by simp, by simp, by simp, fun hx => by simp at hx,
      fun hx => by simp at hx⟩
    simp only [← hty, hadj _ hcs.symm]
  | SECTION =>
    simp only [hty] at h
    by_cases hlink : region0.sect.link ≥ sectionsNum
    · rw [if_pos hlink] at h; exact absurd h Res.raise_ne_ret
    rw [if_neg hlink] at h
    simp only [Res.ret.injEq] at h
    subst h
    have hm0 : (A + 2 ^ 64 - A) % 256 ^ T.wordSize = 0 := by
      have h2 : A + 2 ^ 64 - A = 2 ^ 64 := by omega
      rw [h2, hW.2]
    have hsized : ∀ len, len = contentSize T gen region0 →
        (A + len) % 2 ^ 64 = A + contentSize T gen region0 ∧
        ({ type := region0.type, dataFromPointer := region0.dataFromPointer,
            size := ((A + len) % 2 ^ 64 + 2 ^ 64 - A) % 256 ^ T.wordSize,
            align := a, data := region0.data, sect := region0.sect } : ElfRegion) =
          adjustedRegion T gen region0 := by
      intro len hlen
      obtain ⟨m1, m2⟩ := hmod len (by omega)
      rw [m1, m2]
      exact ⟨by rw [hlen], hadj _ hlen⟩
    obtain ⟨len, hcs0⟩ : ∃ len, contentSize T gen region0 = len := ⟨_, rfl⟩
    have hcs := hcs0
    unfold contentSize at hcs
    simp only [hty] at hcs
    rw [hty] at hadj hsized
    refine ⟨?_, rfl, ?_, by simp, by simp only [reduceCtorEq, if_false]; split_ifs <;> rfl,
      by simp only [reduceCtorEq, if_false]; split_ifs <;> rfl, fun hx => by simp at hx,
      fun _ => by omega⟩
    · apply congrArg (st.regions.set i)
      simp only [hnames]
      split_ifs at hcs ⊢
      · exact hadj _ (hcs.trans hcs0.symm)
      · exact (hsized _ (hcs.trans hcs0.symm)).2
      · exact (hsized _ (hcs.trans hcs0.symm)).2
      · simp only [Nat.add_assoc A 1]; exact (hsized _ (hcs.trans hcs0.symm)).2
      · simp only [Nat.add_assoc A 1]; exact (hsized _ (hcs.trans hcs0.symm)).2
      · simp only [Nat.add_assoc A 1]; exact (hsized _ (hcs.trans hcs0.symm)).2
      · simp only [hm0]; exact hadj _ (hcs.trans hcs0.symm)
      · simp only [hm0]; exact hadj _ (hcs.trans hcs0.symm)
    · simp only [hnames, apply_ite Prod.snd]
      split_ifs at hcs ⊢
      · rw [hcs0, ← hcs] at hfit ⊢; exact (hmod _ hfit).1
      · exact (hsized _ (hcs.trans hcs0.symm)).1
      · exact (hsized _ (hcs.trans hcs0.symm)).1
      · simp only [Nat.add_assoc A 1]; exact (hsized _ (hcs.trans hcs0.symm)).1
      · simp only [Nat.add_assoc A 1]; exact (hsized _ (hcs.trans hcs0.symm)).1
      · simp only [Nat.add_assoc A 1]; exact (hsized _ (hcs.trans hcs0.symm)).1
      · rw [hcs0, ← hcs]; rfl
      · rw [hcs0, ← hcs]; rfl


theorem plainSize_append (T : ElfTypes) (gen : ElfBinaryGen) (l1 l2 : List ElfRegion)
    (size : Nat) :
    plainSize T gen (l1 ++ l2) size = plainSize T gen l2 (plainSize T gen l1 size) := by
  induction l1 generalizing size with
  | nil => rfl
  | cons r rest ih =>
    rw [List.cons_append]
    simp only [plainSize]
    exact ih _

theorem plainSize_ge (T : ElfTypes) (gen : ElfBinaryGen) (l : List ElfRegion) (size : Nat) :
    size ≤ plainSize T gen l size := by
  induction l generalizing size with
  | nil => exact le_refl _
  | cons r rest ih =>
    simp only [plainSize]
    have := ih (alignedOffset size (fixedAlign T r) + contentSize T gen r)
    have := alignedOffset_ge size (fixedAlign T r)
    omega

theorem plainOffsets_append (T : ElfTypes) (gen : ElfBinaryGen) (l1 l2 : List ElfRegion)
    (size : Nat) :
    plainOffsets T gen (l1 ++ l2) size =
      plainOffsets T gen l1 size ++ plainOffsets T gen l2 (plainSize T gen l1 size) := by
  induction l1 generalizing size with
  | nil => rfl
  | cons r rest ih =>
    rw [List.cons_append]
    simp only [plainOffsets, plainSize, List.cons_append]
    rw [ih]

theorem plainOffsets_length (T : ElfTypes) (gen : ElfBinaryGen) (l : List ElfRegion)
    (size : Nat) : (plainOffsets T gen l size).length = l.length := by
  induction l generalizing size with
  | nil => rfl
  | cons r rest ih => simp only [plainOffsets, List.length_cons, ih]

/-- The offset of region `i` in the layout: the aligned offset after the end of
the regions before it. -/
theorem plainOffsets_getElem? (T : ElfTypes) (gen : ElfBinaryGen) (l : List ElfRegion)
    (size i : Nat) (region : ElfRegion) (h : l[i]? = some region) :
    (plainOffsets T gen l size)[i]? =
      some (alignedOffset (plainSize T gen (l.take i) size) (fixedAlign T region)) := by
  induction l generalizing size i with
  | nil => simp at h
  | cons r rest ih =>
    cases i with
    | zero =>
      simp only [List.getElem?_cons_zero, Option.some.injEq] at h
      subst h
      simp [plainOffsets, plainSize]
    | succ i =>
      simp only [List.getElem?_cons_succ] at h
      simp only [plainOffsets, List.getElem?_cons_succ, List.take_succ_cons, plainSize]
      exact ih _ i h

theorem sectionNames_map_adjustedRegion (T : ElfTypes) (gen : ElfBinaryGen)
    (l : List ElfRegion) : sectionNames (l.map (adjustedRegion T gen)) = sectionNames l := by
  induction l with
  | nil => rfl
  | cons r rest ih =>
    simp only [sectionNames, List.map_cons, List.filter_cons] at ih ⊢
    have : (adjustedRegion T gen r).type = r.type := rfl
    rw [this]
    split
    · simp only [List.map_cons, ih]; rfl
    · exact ih

theorem sectionNames_append (l1 l2 : List ElfRegion) :
    sectionNames (l1 ++ l2) = sectionNames l1 ++ sectionNames l2 := by
  simp [sectionNames]


theorem sectionNames_set (l : List ElfRegion) (k : Nat) (r r1 : ElfRegion)
    (h : l[k]? = some r) (htype : r1.type = r.type) (hsect : r1.sect = r.sect) :
    sectionNames (l.set k r1) = sectionNames l := by
  induction l generalizing k with
  | nil => simp at h
  | cons x rest ih =>
    cases k with
    | zero =>
      simp only [List.getElem?_cons_zero, Option.some.injEq] at h
      subst h
      simp only [List.set_cons_zero, sectionNames, List.filter_cons, htype]
      split <;> simp [hsect]
    | succ k =>
      simp only [List.getElem?_cons_succ] at h
      have := ih k h
      simp only [sectionNames, List.set_cons_succ, List.filter_cons] at this ⊢
      split <;> simp [this]

theorem take_succ_of_getElem? {α : Type} (l : List α) (k : Nat) (r : α) (h : l[k]? = some r) :
    l.take (k + 1) = l.take k ++ [r] := by
  rw [List.take_succ, h]; rfl

/-- What the loop over the regions in `computeSize` has worked out after `k`
regions, when nothing wraps around. -/
structure ComputeInv (T : ElfTypes) (gen : ElfBinaryGen) (k : Nat) (st : ComputeState) :
    Prop where
  len : st.regions.length = gen.regions.length
  regs : ∀ j, st.regions[j]? =
    if j < k then (gen.regions[j]?).map (adjustedRegion T gen) else gen.regions[j]?
  names : sectionNames st.regions = sectionNames gen.regions
  offsets : st.regionOffsets = plainOffsets T gen (gen.regions.take k) T.ehdrSize
  size : st.size = plainSize T gen (gen.regions.take k) T.ehdrSize
  sectLen : st.sectionRegions.length = 1 + (sectionNames (gen.regions.take k)).length
  sectIdx : ∀ idx j, 0 < idx → st.sectionRegions[idx]? = some j → j < k
  shdr : st.shdrTabRegion = gen.shdrTabRegion ∨ st.shdrTabRegion < k
  phdr : st.phdrTabRegion = gen.phdrTabRegion ∨ st.phdrTabRegion < k
  ranges : (∃ j r, j < k ∧ gen.regions[j]? = some r ∧ r.type = ElfRegionType.PHDR_TABLE) →
    checkRegionRanges gen.regions.length gen.progHeaders = .ret ()

theorem ComputeInv.step {T : ElfTypes} {gen : ElfBinaryGen} {k : Nat} {st st1 : ComputeState}
    (hT : T = Elf32Types ∨ T = Elf64Types)
    (hfit : plainSize T gen gen.regions T.ehdrSize < 256 ^ T.wordSize)
    (inv : ComputeInv T gen k st) (hk : k < gen.regions.length)
    (h : computeRegion T gen (1 + (sectionNames gen.regions).length) k st = .ret st1) :
    ComputeInv T gen (k + 1) st1 := by
  obtain ⟨r, hr⟩ : ∃ r, gen.regions[k]? = some r := ⟨_, List.getElem?_eq_getElem hk⟩
  have hreg : st.regions[k]? = some r := by
    rw [inv.regs k, if_neg (Nat.lt_irrefl k), hr]
  have htake := take_succ_of_getElem? gen.regions k r hr
  have hsize1 : plainSize T gen (gen.regions.take (k + 1)) T.ehdrSize =
      alignedOffset st.size (fixedAlign T r) + contentSize T gen r := by
    rw [htake, plainSize_append, inv.size]; rfl
  have hle : plainSize T gen (gen.regions.take (k + 1)) T.ehdrSize ≤
      plainSize T gen gen.regions T.ehdrSize := by
    conv_rhs => rw [← List.take_append_drop (k + 1) gen.regions, plainSize_append]
    exact plainSize_ge _ _ _ _
  obtain ⟨h1, h2, h3, h4, h5, h6, h7, _⟩ :=
    computeRegion_ret hT hreg inv.names rfl (by omega) h
  refine ⟨?_, ?_, ?_, ?_, ?_, ?_, ?_, ?_, ?_, ?_⟩
  · rw [h1, List.length_set, inv.len]
  · intro j
    rw [h1, List.getElem?_set]
    by_cases hj : k = j
    · subst hj
      have hlt : k < st.regions.length := by rw [inv.len]; exact hk
      simp [hlt, hr]
    · rw [if_neg hj, inv.regs j]
      by_cases hjk : j < k
      · rw [if_pos hjk, if_pos (by omega)]
      · rw [if_neg hjk, if_neg (by omega)]
  · rw [h1, sectionNames_set st.regions k r (adjustedRegion T gen r) hreg rfl rfl, inv.names]
  · rw [h2, htake, plainOffsets_append, inv.offsets, inv.size]; rfl
  · rw [h3, hsize1]
  · rw [h4, htake, sectionNames_append]
    by_cases hty : r.type = ElfRegionType.SECTION
    · rw [if_pos hty]
      simp [sectionNames, hty, inv.sectLen]
      omega
    · rw [if_neg hty]
      simp [sectionNames, hty, inv.sectLen]
  · intro idx j hidx hj
    rw [h4] at hj
    by_cases hty : r.type = ElfRegionType.SECTION
    · rw [if_pos hty, List.getElem?_append] at hj
      by_cases hlt : idx < st.sectionRegions.length
      · rw [if_pos hlt] at hj
        have := inv.sectIdx idx j hidx hj
        omega
      · rw [if_neg hlt] at hj
        cases hd : idx - st.sectionRegions.length with
        | zero =>
          rw [hd] at hj
          simp at hj
          omega
        | succ d =>
          rw [hd] at hj
          simp at hj
    · rw [if_neg hty] at hj
      have := inv.sectIdx idx j hidx hj
      omega
  · rw [h5]
    split
    · right; omega
    · rcases inv.shdr with h | h
      · left; exact h
      · right; omega
  · rw [h6]
    split
    · right; omega
    · rcases inv.phdr with h | h
      · left; exact h
      · right; omega
  · rintro ⟨j, r', hj, hr', hty⟩
    by_cases hjk : j < k
    · exact inv.ranges ⟨j, r', hjk, hr', hty⟩
    · have hjeq : j = k := by omega
      subst hjeq
      rw [hr] at hr'
      cases hr'
      rw [← inv.len]
      exact h7 hty


/-- The loop over the regions in `computeSize`, when it returns and nothing
wraps around. -/
theorem computeSize_loop {T : ElfTypes} {gen : ElfBinaryGen} {st : ComputeState}
    (hT : T = Elf32Types ∨ T = Elf64Types)
    (hfit : plainSize T gen gen.regions T.ehdrSize < 256 ^ T.wordSize)
    (h : foldRange gen.regions.length
      (⟨gen.regions, [], [UINT_MAX], T.ehdrSize, gen.shStrTab, gen.strTab, gen.dynStr,
        gen.shdrTabRegion, gen.phdrTabRegion⟩ : ComputeState)
      (computeRegion T gen (1 + (sectionNames gen.regions).length)) = .ret st) :
    ComputeInv T gen gen.regions.length st := by
  obtain ⟨states, h0, hn, hstep⟩ := foldRange_ret h
  have hinv : ∀ k, k ≤ gen.regions.length → ComputeInv T gen k (states k) := by
    intro k
    induction k with
    | zero =>
      intro _
      rw [h0]
      exact ⟨rfl, fun j => by simp, rfl, rfl, rfl, rfl,
        fun idx j hidx hj => by
          cases idx with
          | zero => omega
          | succ i => simp at hj,
        Or.inl rfl, Or.inl rfl, fun ⟨j, _, hj, _⟩ => absurd hj (Nat.not_lt_zero j)⟩
    | succ k ih =>
      intro hk
      exact (ih (by omega)).step hT hfit (by omega) (hstep k (by omega))
  rw [← hn]
  exact hinv _ (le_refl _)

/-- What `computeSize` leaves for a description built by the constructor and the
`add` calls, when it accepts the description and nothing wraps around: the
layout in unbounded arithmetic, and the checks it has made. -/
theorem computeSize_layout {T : ElfTypes} {header : ElfHeader} {regions : List ElfRegion}
    {progHeaders : List ElfProgramHeader} {symbols dynSymbols : List ElfSymbol}
    {gen gen1 : ElfBinaryGen}
    (hgen : gen = ElfBinaryGen.create header regions progHeaders symbols dynSymbols)
    (hT : T = Elf32Types ∨ T = Elf64Types)
    (hfit : plainSize T gen regions T.ehdrSize < 256 ^ T.wordSize)
    (h : computeSize T gen = .ret gen1) :
    gen1.header = header ∧ gen1.progHeaders = progHeaders ∧ gen1.symbols = symbols ∧
    gen1.dynSymbols = dynSymbols ∧
    gen1.regions = regions.map (adjustedRegion T gen) ∧
    gen1.regionOffsets = plainOffsets T gen regions T.ehdrSize ∧
    gen1.size = plainSize T gen regions T.ehdrSize ∧
    gen1.sectionsNum = 1 + (sectionNames regions).length ∧
    gen1.sectionRegions.length = 1 + (sectionNames regions).length ∧
    (∀ idx j, 0 < idx → gen1.sectionRegions[idx]? = some j → j < regions.length) ∧
    (regions ≠ [] → gen1.shdrTabRegion < regions.length ∧
      gen1.phdrTabRegion < regions.length) ∧
    ((∃ r ∈ regions, r.type = ElfRegionType.PHDR_TABLE) →
      checkRegionRanges regions.length progHeaders = .ret ()) ∧
    (header.entryRegion ≠ UINT_MAX → header.entryRegion < regions.length) ∧
    (∀ sym ∈ symbols, sym.sectionIndex < 1 + (sectionNames regions).length) ∧
    (∀ sym ∈ dynSymbols, sym.sectionIndex < 1 + (sectionNames regions).length) := by
  have hsn : 1 + (gen.regions.filter fun r => r.type = ElfRegionType.SECTION).length =
      1 + (sectionNames gen.regions).length := by simp [sectionNames]
  have hregs : gen.regions = regions := by rw [hgen]; rfl
  have hfresh : gen.sizeComputed = false := by rw [hgen]; rfl
  rw [computeSize, hfresh] at h
  simp only [Bool.false_eq_true, if_false, hsn] at h
  by_cases he : gen.header.entryRegion ≠ UINT_MAX ∧ gen.header.entryRegion ≥ gen.regions.length
  · rw [if_pos he] at h; exact absurd h Res.raise_ne_ret
  rw [if_neg he] at h
  by_cases hs : (gen.symbols.any fun sym =>
      decide (sym.sectionIndex ≥ 1 + (sectionNames gen.regions).length)) = true
  · rw [if_pos hs] at h; exact absurd h Res.raise_ne_ret
  rw [if_neg hs] at h
  by_cases hd : (gen.dynSymbols.any fun sym =>
      decide (sym.sectionIndex ≥ 1 + (sectionNames gen.regions).length)) = true
  · rw [if_pos hd] at h; exact absurd h Res.raise_ne_ret
  rw [if_neg hd] at h
  cases hf : foldRange gen.regions.length
      (⟨gen.regions, [], [UINT_MAX], T.ehdrSize, gen.shStrTab, gen.strTab, gen.dynStr,
        gen.shdrTabRegion, gen.phdrTabRegion⟩ : ComputeState)
      (computeRegion T gen (1 + (sectionNames gen.regions).length)) with
  | ret st =>
    rw [hf] at h
    simp only [Res.ret.injEq] at h
    have inv := computeSize_loop hT (by rw [hregs]; exact hfit) hf
    subst h
    obtain ⟨ilen, iregs, _, ioff, isize, isl, isi, ishdr, iphdr, iranges⟩ := inv
    simp only [hregs, List.take_length] at ioff isize isl isi ishdr iphdr iranges iregs he hs hd
    refine ⟨by rw [hgen]; rfl, by rw [hgen]; rfl, by rw [hgen]; rfl, by rw [hgen]; rfl,
      ?_, ioff, isize, by simp only [hregs], isl, isi, ?_, ?_, ?_, ?_, ?_⟩
    · apply List.ext_getElem?
      intro j
      simp only [iregs j, List.getElem?_map]
      by_cases hj : j < regions.length
      · rw [if_pos hj]
      · rw [if_neg hj, List.getElem?_eq_none (by omega)]; rfl
    · intro hne
      have hpos : 0 < regions.length := List.length_pos.mpr hne
      have h0s : gen.shdrTabRegion = 0 := by rw [hgen]; rfl
      have h0p : gen.phdrTabRegion = 0 := by rw [hgen]; rfl
      constructor
      · rcases ishdr with h | h
        · simp only [h, h0s]; exact hpos
        · exact h
      · rcases iphdr with h | h
        · simp only [h, h0p]; exact hpos
        · exact h
    · rintro ⟨r, hr, hty⟩
      obtain ⟨j, hj, hjr⟩ := List.getElem_of_mem hr
      have := iranges ⟨j, r, hj, by rw [List.getElem?_eq_getElem hj, hjr], hty⟩
      have hp : gen.progHeaders = progHeaders := by rw [hgen]; rfl
      rw [hp] at this
      exact this
    · intro hne
      have hh : gen.header = header := by rw [hgen]; rfl
      rw [hh] at he
      by_contra hge
      exact he ⟨hne, by omega⟩
    · intro sym hsym
      have hh : gen.symbols = symbols := by rw [hgen]; rfl
      rw [hh] at hs
      by_contra hge
      exact hs (List.any_eq_true.mpr ⟨sym, hsym, by simpa using Nat.le_of_not_lt hge⟩)
    · intro sym hsym
      have hh : gen.dynSymbols = dynSymbols := by rw [hgen]; rfl
      rw [hh] at hd
      by_contra hge
      exact hd (List.any_eq_true.mpr ⟨sym, hsym, by simpa using Nat.le_of_not_lt hge⟩)
  | throw m => rw [hf] at h; cases h
  | undefined => rw [hf] at h; cases h
  | timeout => rw [hf] at h; cases h


/-! ## C16: the offsets `computeSize` assigns -/

/-- For a power-of-two alignment the aligned offset is the smallest multiple of
the alignment that is not below `size`. -/
theorem alignedOffset_least (size k : Nat) :
    2 ^ k ∣ alignedOffset size (2 ^ k) ∧ size ≤ alignedOffset size (2 ^ k) ∧
      ∀ m, 2 ^ k ∣ m → size ≤ m → alignedOffset size (2 ^ k) ≤ m := by
  have hpos : 0 < 2 ^ k := Nat.pow_pos (by decide)
  have hdm := Nat.div_add_mod size (2 ^ k)
  have hmlt := Nat.mod_lt size hpos
  refine ⟨?_, alignedOffset_ge _ _, ?_⟩
  · unfold alignedOffset
    rw [Nat.and_pow_two_sub_one_eq_mod]
    split
    · refine ⟨size / 2 ^ k + 1, ?_⟩
      rw [Nat.mul_add, Nat.mul_one]
      omega
    · rename_i hc
      have hz : size % 2 ^ k = 0 := by
        by_contra hne
        exact hc ⟨by omega, hne⟩
      exact Nat.dvd_of_mod_eq_zero hz
  · intro m ⟨c, hc⟩ hle
    unfold alignedOffset
    rw [Nat.and_pow_two_sub_one_eq_mod]
    split
    · rename_i hcond
      have hlt : size / 2 ^ k < c := by
        by_contra hge
        have : 2 ^ k * c ≤ 2 ^ k * (size / 2 ^ k) := Nat.mul_le_mul_left _ (by omega)
        omega
      have : 2 ^ k * (size / 2 ^ k + 1) ≤ 2 ^ k * c := Nat.mul_le_mul_left _ (by omega)
      rw [Nat.mul_add, Nat.mul_one] at this
      omega
    · exact hle

/-- C16 as amended: for every description that `computeSize` accepts and whose
layout ends below `2^32` (ELF32) or `2^64` (ELF64), the offset assigned to
region `i` is the smallest multiple of the region's alignment that is not below
the end of region `i-1` (the ELF header size for `i = 0`), for every
power-of-two alignment; an alignment of 0 counts as the word size for
`PHDR_TABLE` and `SHDR_TABLE` regions and as 1 for every other region
(`fixedAlign`), and it is stored in the region. -/
theorem computeSize_aligned (T : ElfTypes) (header : ElfHeader) (regions : List ElfRegion)
    (progHeaders : List ElfProgramHeader) (symbols dynSymbols : List ElfSymbol)
    (gen1 : ElfBinaryGen) (i k : Nat) (region : ElfRegion)
    (hT : T = Elf32Types ∨ T = Elf64Types)
    (h : computeSize T (ElfBinaryGen.create header regions progHeaders symbols dynSymbols)
      = .ret gen1)
    (hfit : plainSize T (ElfBinaryGen.create header regions progHeaders symbols dynSymbols)
      regions T.ehdrSize < 256 ^ T.wordSize)
    (hregion : regions[i]? = some region) (hpow : fixedAlign T region = 2 ^ k) :
    ∃ off endBefore, gen1.regionOffsets[i]? = some off ∧
      (gen1.regions[i]?.map fun r => r.align) = some (fixedAlign T region) ∧
      (i = 0 → endBefore = T.ehdrSize) ∧
      (∀ j, i = j + 1 → ∃ offj rj, gen1.regionOffsets[j]? = some offj ∧
        gen1.regions[j]? = some rj ∧ endBefore = offj + rj.size) ∧
      fixedAlign T region ∣ off ∧ endBefore ≤ off ∧
      ∀ m, fixedAlign T region ∣ m → endBefore ≤ m → off ≤ m := by
  obtain ⟨_, _, _, _, hregs, hoffs, _⟩ := computeSize_layout rfl hT hfit h
  have hoff := plainOffsets_getElem? T
    (ElfBinaryGen.create header regions progHeaders symbols dynSymbols) regions T.ehdrSize i
    region hregion
  rw [hpow] at hoff ⊢
  obtain ⟨l1, l2, l3⟩ := alignedOffset_least
    (plainSize T (ElfBinaryGen.create header regions progHeaders symbols dynSymbols)
      (regions.take i) T.ehdrSize) k
  refine ⟨_, _, by rw [hoffs]; exact hoff, ?_, ?_, ?_, l1, l2, l3⟩
  · rw [hregs, List.getElem?_map, hregion]
    simp [adjustedRegion, hpow]
  · intro hi
    subst hi
    rfl
  · intro j hj
    subst hj
    obtain ⟨rj, hrj⟩ : ∃ rj, regions[j]? = some rj := by
      have hlt : j + 1 < regions.length := (List.getElem?_eq_some.mp hregion).1
      exact ⟨_, List.getElem?_eq_getElem (by omega)⟩
    refine ⟨_, _, by rw [hoffs]; exact plainOffsets_getElem? T _ regions T.ehdrSize j rj hrj,
      by rw [hregs, List.getElem?_map, hrj]; rfl, ?_⟩
    rw [take_succ_of_getElem? regions j rj hrj, plainSize_append]
    rfl

set_option maxRecDepth 100000 in
/-- The regions of `nobitsDescription`: the section header table, region 5, has
the alignment 0, which counts as 4; region 4 starts at 97 and has 32 bytes, and
region 5 starts at 132, the first multiple of 4 from 129 on. -/
theorem computeSize_aligned_witness :
    ∃ off endBefore,
      (computedLayout Elf32Types nobitsDescription).regionOffsets[5]? = some off ∧
      ((computedLayout Elf32Types nobitsDescription).regions[5]?.map fun r => r.align) =
        some (fixedAlign Elf32Types ⟨.SHDR_TABLE, true, 0, 0, none, ⟨[], 0, 0, 0, 0, 0, 0⟩⟩) ∧
      (5 = 0 → endBefore = Elf32Types.ehdrSize) ∧
      (∀ j, 5 = j + 1 → ∃ offj rj,
        (computedLayout Elf32Types nobitsDescription).regionOffsets[j]? = some offj ∧
        (computedLayout Elf32Types nobitsDescription).regions[j]? = some rj ∧
        endBefore = offj + rj.size) ∧
      fixedAlign Elf32Types ⟨.SHDR_TABLE, true, 0, 0, none, ⟨[], 0, 0, 0, 0, 0, 0⟩⟩ ∣ off ∧
      endBefore ≤ off ∧
      ∀ m, fixedAlign Elf32Types ⟨.SHDR_TABLE, true, 0, 0, none, ⟨[], 0, 0, 0, 0, 0, 0⟩⟩ ∣ m →
        endBefore ≤ m → off ≤ m :=
  computeSize_aligned Elf32Types ⟨0, 0, 1, 0xe0, 1, UINT_MAX, 0, 0, 0, 0⟩
    nobitsDescription.regions [] [⟨bytes "a", 1, 0, 0, false, 2, 4⟩] []
    (computedLayout Elf32Types nobitsDescription) 5 2
    ⟨.SHDR_TABLE, true, 0, 0, none, ⟨[], 0, 0, 0, 0, 0, 0⟩⟩ (Or.inl rfl) (by decide)
    (by decide) (by decide) (by decide)

set_option maxRecDepth 100000 in
/-- C16 as stated fails: in the 32-bit description `wrappingDescription` region 1
ends at `2^31 + 1` and region 2 has the alignment `2^31`; the smallest multiple
of `2^31` not below that end is `2^32`, but the offset assigned to region 2 is 0,
the 32-bit word that `2^32` wraps to. -/
theorem computeSize_offset_wraps :
    assignedOffsets Elf32Types wrappingDescription = .ret [2147483648, 2147483648, 0] := by
  decide


/-! ## C15: lookups of `generate` that `computeSize` has not checked -/

set_option maxRecDepth 100000 in
/-- C15 (the code departs from the claim): `computeSize` accepts a program
header with `regionStart = 0` and `regionsNum = 0`, a symbol of section 0 whose
value is an address, and a description without regions; on each of them
`generate` reads outside `regionOffsets` (at `regionStart + regionsNum - 1`, at
`sectionRegions[0] = UINT_MAX` and at `shdrTabRegion = 0`). -/
theorem generate_reads_out_of_range :
    ((computeSize Elf32Types emptyRangeDescription).isRet = true ∧
      generate Elf32Types emptyRangeDescription = .undefined) ∧
    ((computeSize Elf32Types undefinedSectionSymbol).isRet = true ∧
      generate Elf32Types undefinedSectionSymbol = .undefined) ∧
    ((computeSize Elf32Types noRegionDescription).isRet = true ∧
      generate Elf32Types noRegionDescription = .undefined) := by
  decide


/-! ## The bytes `generate` writes for each kind of content -/

theorem storeLE_length (n v : Nat) : (storeLE n v).length = n := by
  induction n generalizing v with
  | zero => rfl
  | succ n ih => simp [storeLE, ih]

theorem arrayAt_of_lt {α : Type} (xs : List α) (i : Nat) (h : i < xs.length) :
    arrayAt xs i = .ret xs[i] := by
  simp [arrayAt, List.getElem?_eq_getElem h]

theorem writeNames_length (names : List (List Nat)) :
    (writeNames names).length = namesSize names := by
  induction names with
  | nil => rfl
  | cons n rest ih =>
    simp only [writeNames, namesSize, List.map_cons, List.flatten_cons, List.length_append,
      List.length_cons, List.length_nil, List.sum_cons] at ih ⊢
    omega

theorem Res.ret_bind {α β : Type} (a : α) (f : α → Res β) : (Res.ret a >>= f) = f a := rfl

theorem Res.pure_bind {α β : Type} (a : α) (f : α → Res β) :
    ((pure a : Res α) >>= f) = f a := rfl

theorem Res.ite_pure_bind {α β : Type} (c : Prop) [Decidable c] (a b : α) (f : α → Res β) :
    ((if c then pure a else pure b : Res α) >>= f) = f (if c then a else b) := by
  split <;> rfl

/-- The ELF header `generate` writes has `sizeof(Ehdr)` bytes when its lookups
are in range. -/
theorem generateEhdr_length (T : ElfTypes) (gen : ElfBinaryGen)
    (hT : T = Elf32Types ∨ T = Elf64Types)
    (hentry : gen.header.entryRegion ≠ UINT_MAX →
      gen.header.entryRegion < gen.regionOffsets.length ∧
      gen.header.entryRegion < gen.regions.length)
    (hph : gen.phdrTabRegion < gen.regionOffsets.length)
    (hsh : gen.shdrTabRegion < gen.regionOffsets.length) :
    ∃ ehdr, generateEhdr T gen = .ret ehdr ∧ ehdr.length = T.ehdrSize := by
  have hlen : ∀ (ident : List Nat) (a b c d e f g h i j k l m : Nat), ident.length = 16 →
      (ident ++ storeLE 2 a ++ storeLE 2 b ++ storeLE 4 c ++ storeLE T.wordSize d ++
        storeLE T.wordSize e ++ storeLE T.wordSize f ++ storeLE 4 g ++ storeLE 2 h ++
        storeLE 2 i ++ storeLE 2 j ++ storeLE 2 k ++ storeLE 2 l ++ storeLE 2 m).length
        = T.ehdrSize := by
    intro ident a b c d e f g h i j k l m hid
    simp only [List.length_append, storeLE_length, hid]
    rcases hT with hT | hT <;> subst hT <;> rfl
  unfold generateEhdr
  simp only [arrayAt_of_lt _ _ hph, arrayAt_of_lt _ _ hsh]
  by_cases hp : gen.progHeaders ≠ [] <;> by_cases he : gen.header.entryRegion ≠ UINT_MAX
  · obtain ⟨h1, h2⟩ := hentry he
    simp only [if_pos he, if_pos hp, arrayAt_of_lt _ _ h1, arrayAt_of_lt _ _ h2, Res.ret_bind,
      Res.ite_pure_bind, Res.pure_bind]
    exact ⟨_, rfl, hlen _ _ _ _ _ _ _ _ _ _ _ _ _ _ rfl⟩
  · simp only [if_neg he, if_pos hp, Res.ret_bind, Res.ite_pure_bind, Res.pure_bind]
    exact ⟨_, rfl, hlen _ _ _ _ _ _ _ _ _ _ _ _ _ _ rfl⟩
  · obtain ⟨h1, h2⟩ := hentry he
    simp only [if_pos he, if_neg hp, arrayAt_of_lt _ _ h1, arrayAt_of_lt _ _ h2, Res.ret_bind,
      Res.ite_pure_bind, Res.pure_bind]
    exact ⟨_, rfl, hlen _ _ _ _ _ _ _ _ _ _ _ _ _ _ rfl⟩
  · simp only [if_neg he, if_neg hp, Res.ret_bind, Res.ite_pure_bind, Res.pure_bind]
    exact ⟨_, rfl, hlen _ _ _ _ _ _ _ _ _ _ _ _ _ _ rfl⟩


/-- One program header has `sizeof(Phdr)` bytes when its lookups are in range. -/
theorem generatePhdr_length (T : ElfTypes) (gen : ElfBinaryGen) (progHeader : ElfProgramHeader)
    (hT : T = Elf32Types ∨ T = Elf64Types)
    (hlen : gen.regionOffsets.length = gen.regions.length)
    (hstart : progHeader.regionStart < gen.regions.length)
    (hpos : 0 < progHeader.regionStart + progHeader.regionsNum)
    (hend : progHeader.regionStart + progHeader.regionsNum ≤ gen.regions.length) :
    ∃ phdr, generatePhdr T gen progHeader = .ret phdr ∧ phdr.length = T.phdrSize := by
  have h1 : progHeader.regionStart < gen.regionOffsets.length := by omega
  have h2 : progHeader.regionStart + progHeader.regionsNum - 1 < gen.regions.length := by omega
  have h3 : progHeader.regionStart + progHeader.regionsNum - 1 < gen.regionOffsets.length := by
    omega
  have h0 : ¬ progHeader.regionStart + progHeader.regionsNum = 0 := by omega
  unfold generatePhdr
  simp only [arrayAt_of_lt _ _ h1, arrayAt_of_lt _ _ hstart, arrayAt_of_lt _ _ h2,
    arrayAt_of_lt _ _ h3, Res.ret_bind, if_neg h0]
  rcases hT with hT | hT <;> subst hT
  · simp only [Elf32Types, if_true]
    exact ⟨_, rfl, by simp [storeLE_length]⟩
  · have : ¬ Elf64Types.wordSize = 4 := by decide
    simp only [if_neg this]
    exact ⟨_, rfl, by simp [storeLE_length, Elf64Types]⟩

/-- The program headers table has `sizeof(Phdr)` bytes for each program header
when the lookups are in range. -/
theorem generatePhdrs_length (T : ElfTypes) (gen : ElfBinaryGen)
    (hT : T = Elf32Types ∨ T = Elf64Types)
    (hlen : gen.regionOffsets.length = gen.regions.length)
    (progHeaders : List ElfProgramHeader)
    (hall : ∀ ph ∈ progHeaders, ph.regionStart < gen.regions.length ∧
      0 < ph.regionStart + ph.regionsNum ∧
      ph.regionStart + ph.regionsNum ≤ gen.regions.length) :
    ∃ bytes, generatePhdrs T gen progHeaders = .ret bytes ∧
      bytes.length = progHeaders.length * T.phdrSize := by
  induction progHeaders with
  | nil => exact ⟨[], rfl, by simp⟩
  | cons ph rest ih =>
    obtain ⟨a, b, c⟩ := hall ph (List.mem_cons_self _ _)
    obtain ⟨first, hf, hfl⟩ := generatePhdr_length T gen ph hT hlen a b c
    obtain ⟨others, ho, hol⟩ := ih fun p hp => hall p (List.mem_cons_of_mem _ hp)
    refine ⟨first ++ others, ?_, ?_⟩
    · simp only [generatePhdrs, hf, ho, Res.ret_bind]; rfl
    · simp only [List.length_append, hfl, hol, List.length_cons]
      ring

/-- What `checkRegionRanges` has checked when it returns. -/
theorem checkRegionRanges_ret {regionsSize : Nat} {progHeaders : List ElfProgramHeader}
    (h : checkRegionRanges regionsSize progHeaders = .ret ()) :
    ∀ ph ∈ progHeaders, ph.regionStart < regionsSize ∧
      ph.regionStart + ph.regionsNum ≤ regionsSize := by
  induction progHeaders with
  | nil => intro ph hph; simp at hph
  | cons p rest ih =>
    unfold checkRegionRanges at h
    by_cases h1 : p.regionStart ≥ regionsSize
    · rw [if_pos h1] at h; exact absurd h Res.raise_ne_ret
    rw [if_neg h1] at h
    by_cases h2 : p.regionStart + p.regionsNum > regionsSize
    · rw [if_pos h2] at h; exact absurd h Res.raise_ne_ret
    rw [if_neg h2] at h
    intro ph hph
    rcases List.mem_cons.mp hph with he | hr
    · subst he; exact ⟨by omega, by omega⟩
    · exact ih h ph hr

/-- The section headers have `sizeof(Shdr)` bytes for each region that is a
section. -/
theorem generateShdrs_length (T : ElfTypes) (gen : ElfBinaryGen)
    (hT : T = Elf32Types ∨ T = Elf64Types) (rs : List ElfRegion) (j nameOffset : Nat)
    (hj : j + rs.length ≤ gen.regionOffsets.length) :
    ∃ bytes, generateShdrs T gen rs j nameOffset = .ret bytes ∧
      bytes.length = (sectionNames rs).length * T.shdrSize := by
  induction rs generalizing j nameOffset with
  | nil => exact ⟨[], rfl, by simp [sectionNames]⟩
  | cons r rest ih =>
    have hlt : j < gen.regionOffsets.length := by simp at hj; omega
    have hrest : j + 1 + rest.length ≤ gen.regionOffsets.length := by simp at hj; omega
    by_cases hty : r.type = ElfRegionType.SECTION
    · obtain ⟨others, ho, hol⟩ := ih (j + 1)
        ((nameOffset + r.sect.name.length + 1) % 4294967296) hrest
      simp only [generateShdrs, if_pos hty, arrayAt_of_lt _ _ hlt, Res.ret_bind, ho]
      refine ⟨_, rfl, ?_⟩
      have hn : (sectionNames (r :: rest)).length = (sectionNames rest).length + 1 := by
        simp [sectionNames, hty]
      rw [hn]
      simp only [List.length_append, storeLE_length, hol]
      rcases hT with hT | hT <;> subst hT <;> simp only [Elf32Types, Elf64Types] <;> ring
    · obtain ⟨others, ho, hol⟩ := ih (j + 1) nameOffset hrest
      simp only [generateShdrs, if_neg hty, ho]
      refine ⟨_, rfl, ?_⟩
      have hn : (sectionNames (r :: rest)).length = (sectionNames rest).length := by
        simp [sectionNames, hty]
      rw [hn, hol]

/-- A symbol table has `sizeof(Sym)` bytes for each symbol when the lookups are
in range. -/
theorem generateSyms_length (T : ElfTypes) (gen : ElfBinaryGen)
    (hT : T = Elf32Types ∨ T = Elf64Types)
    (hlen : gen.regionOffsets.length = gen.regions.length)
    (hidx : ∀ idx j, 0 < idx → gen.sectionRegions[idx]? = some j → j < gen.regions.length)
    (syms : List ElfSymbol) (nameOffset : Nat)
    (hall : ∀ sym ∈ syms, sym.sectionIndex < gen.sectionRegions.length ∧
      (sym.valueIsAddr = true → sym.sectionIndex ≠ 0)) :
    ∃ bytes, generateSyms T gen syms nameOffset = .ret bytes ∧
      bytes.length = syms.length * T.symSize := by
  induction syms generalizing nameOffset with
  | nil => exact ⟨[], rfl, by simp⟩
  | cons s rest ih =>
    obtain ⟨hs1, hs2⟩ := hall s (List.mem_cons_self _ _)
    obtain ⟨others, ho, hol⟩ := ih ((nameOffset + s.name.length + 1) % 4294967296)
      fun p hp => hall p (List.mem_cons_of_mem _ hp)
    have hval : ∃ value, (if !s.valueIsAddr then pure s.value
      else do
        let regionIdx ← arrayAt gen.sectionRegions s.sectionIndex
        if s.sectionIndex ≠ 0 then do
          let region ← arrayAt gen.regions regionIdx
          let offset ← arrayAt gen.regionOffsets regionIdx
          if region.sect.addrBase ≠ 0 then pure (s.value + offset + region.sect.addrBase)
          else pure (s.value + offset + gen.header.vaddrBase)
        else do
          let offset ← arrayAt gen.regionOffsets regionIdx
          pure (s.value + offset + gen.header.vaddrBase) : Res Nat) = .ret value := by
      cases hv : s.valueIsAddr with
      | false => exact ⟨_, rfl⟩
      | true =>
        have hne := hs2 hv
        have hj := hidx s.sectionIndex (gen.sectionRegions[s.sectionIndex]) (by omega)
          (List.getElem?_eq_getElem hs1)
        have hj2 : gen.sectionRegions[s.sectionIndex] < gen.regionOffsets.length := by omega
        simp only [Bool.not_true, Bool.false_eq_true, if_false, arrayAt_of_lt _ _ hs1,
          Res.ret_bind, if_pos hne, arrayAt_of_lt _ _ hj, arrayAt_of_lt _ _ hj2]
        split <;> exact ⟨_, rfl⟩
    obtain ⟨value, hvalue⟩ := hval
    simp only [generateSyms, hvalue, Res.ret_bind, ho]
    refine ⟨_, rfl, ?_⟩
    rcases hT with hT | hT <;> subst hT
    · simp [storeLE_length, hol, Elf32Types]; ring
    · simp [storeLE_length, hol, Elf64Types]; ring


/-- The content `generate` writes for a region has the number of bytes
`computeSize` has counted for it, when the content is supplied and the lookups
are in range. -/
theorem generateRegion_length (T : ElfTypes) (gen gen1 : ElfBinaryGen) (region : ElfRegion)
    (hT : T = Elf32Types ∨ T = Elf64Types)
    (hlen : gen1.regionOffsets.length = gen1.regions.length)
    (hnames : sectionNames gen1.regions = sectionNames gen.regions)
    (hprog : gen1.progHeaders = gen.progHeaders) (hsyms : gen1.symbols = gen.symbols)
    (hdyn : gen1.dynSymbols = gen.dynSymbols)
    (hidx : ∀ idx j, 0 < idx → gen1.sectionRegions[idx]? = some j → j < gen1.regions.length)
    (hph : region.type = ElfRegionType.PHDR_TABLE →
      ∀ ph ∈ gen.progHeaders, ph.regionStart < gen1.regions.length ∧
        0 < ph.regionStart + ph.regionsNum ∧
        ph.regionStart + ph.regionsNum ≤ gen1.regions.length)
    (hsym : ∀ sym ∈ gen.symbols, sym.sectionIndex < gen1.sectionRegions.length ∧
      (sym.valueIsAddr = true → sym.sectionIndex ≠ 0))
    (hdynsym : ∀ sym ∈ gen.dynSymbols, sym.sectionIndex < gen1.sectionRegions.length ∧
      (sym.valueIsAddr = true → sym.sectionIndex ≠ 0))
    (hcontent : ContentSupplied T gen region) :
    ∃ content, generateRegion T gen1 (adjustedRegion T gen region) = .ret content ∧
      content.length = contentSize T gen region := by
  have hadjty : (adjustedRegion T gen region).type = region.type := rfl
  cases hty : region.type with
  | PHDR_TABLE =>
    obtain ⟨bytes, hb, hbl⟩ := generatePhdrs_length T gen1 hT hlen gen1.progHeaders
      (by rw [hprog]; exact hph hty)
    refine ⟨bytes, ?_, ?_⟩
    · simp only [generateRegion, hadjty, hty]; exact hb
    · rw [hbl, hprog]; simp [contentSize, hty]
  | SHDR_TABLE =>
    obtain ⟨bytes, hb, hbl⟩ := generateShdrs_length T gen1 hT gen1.regions 0 1 (by omega)
    refine ⟨zeroFill T.shdrSize ++ bytes, ?_, ?_⟩
    · simp only [generateRegion, hadjty, hty, hb, Res.ret_bind]; rfl
    · simp only [List.length_append, zeroFill, List.length_replicate, hbl, hnames, contentSize,
        hty]
      ring
  | USER =>
    simp only [ContentSupplied, hty] at hcontent
    obtain ⟨hfp, hdata⟩ := hcontent
    have hcs : contentSize T gen region = region.size := by simp [contentSize, hty]
    simp only [generateRegion, hadjty, hty, generateData, adjustedRegion, hfp, if_true, hcs]
    cases hd : region.data with
    | none =>
      simp only [hd] at hdata
      simp only [hdata, if_true]
      exact ⟨[], rfl, rfl⟩
    | some d =>
      simp only [hd] at hdata
      simp only [if_pos hdata]
      exact ⟨_, rfl, by simp [List.length_take, hdata]⟩
  | SECTION =>
    simp only [ContentSupplied, hty] at hcontent
    have hcs := (rfl : contentSize T gen region = contentSize T gen region)
    conv_rhs at hcs => unfold contentSize
    simp only [hty] at hcs
    cases hd : region.data with
    | none =>
      simp only [hd] at hcontent
      have hc1 : ¬ (region.sect.type ≠ SHT_NOBITS ∧ region.size ≠ 0) := by
        rintro ⟨a, b⟩
        rcases hcontent with h | h
        · exact b h
        · exact a h
      rw [if_neg hc1] at hcs
      simp only [generateRegion, hadjty, hty, adjustedRegion, hd, if_true]
      by_cases hs : region.sect.type = SHT_SYMTAB
      · rw [if_pos hs] at hcs
        obtain ⟨bytes, hb, hbl⟩ := generateSyms_length T gen1 hT hlen hidx gen1.symbols 1
          (by rw [hsyms]; exact hsym)
        simp only [hs, true_or, if_true, hb, Res.ret_bind]
        refine ⟨_, rfl, ?_⟩
        simp only [Pure.pure, List.length_append, zeroFill, List.length_replicate, hbl, hcs, hsyms]
        ring
      · rw [if_neg hs] at hcs
        by_cases hds : region.sect.type = SHT_DYNSYM
        · rw [if_pos hds] at hcs
          obtain ⟨bytes, hb, hbl⟩ := generateSyms_length T gen1 hT hlen hidx gen1.dynSymbols 1
            (by rw [hdyn]; exact hdynsym)
          have hne : ¬ SHT_DYNSYM = SHT_SYMTAB := by decide
          simp only [hds, or_true, if_true, hne, if_false, hb, Res.ret_bind]
          refine ⟨_, rfl, ?_⟩
          simp only [Pure.pure, List.length_append, zeroFill, List.length_replicate, hbl, hcs,
            hdyn]
          ring
        · rw [if_neg hds] at hcs
          have hno : ¬ (region.sect.type = SHT_SYMTAB ∨ region.sect.type = SHT_DYNSYM) := by
            rintro (h | h)
            · exact hs h
            · exact hds h
          simp only [if_neg hno]
          by_cases hst : region.sect.type = SHT_STRTAB
          · rw [if_pos hst] at hcs ⊢
            by_cases hn1 : region.sect.name = bytes ".strtab"
            · rw [if_pos hn1] at hcs ⊢
              exact ⟨_, rfl, by
                rw [hcs, hsyms]; simp [writeNames_length]; ring⟩
            rw [if_neg hn1] at hcs ⊢
            by_cases hn2 : region.sect.name = bytes ".dynstr"
            · rw [if_pos hn2] at hcs ⊢
              exact ⟨_, rfl, by
                rw [hcs, hdyn]; simp [writeNames_length]; ring⟩
            rw [if_neg hn2] at hcs ⊢
            by_cases hn3 : region.sect.name = bytes ".shstrtab"
            · rw [if_pos hn3] at hcs ⊢
              exact ⟨_, rfl, by
                rw [hcs, hnames]; simp [writeNames_length]; ring⟩
            rw [if_neg hn3] at hcs ⊢
            exact ⟨_, rfl, by rw [hcs]; rfl⟩
          · rw [if_neg hst] at hcs ⊢
            exact ⟨_, rfl, by rw [hcs]; rfl⟩
    | some d =>
      simp only [hd] at hcontent
      have hsome : ¬ (some d = (none : Option (List Nat))) := by simp
      simp only [generateRegion, hadjty, hty, adjustedRegion, hd, if_neg hsome]
      by_cases hnb : region.sect.type = SHT_NOBITS
      · have hc1 : ¬ (region.sect.type ≠ SHT_NOBITS ∧ region.size ≠ 0) := fun h => h.1 hnb
        have e1 : ¬ region.sect.type = SHT_SYMTAB := by rw [hnb]; decide
        have e2 : ¬ region.sect.type = SHT_DYNSYM := by rw [hnb]; decide
        have e3 : ¬ region.sect.type = SHT_STRTAB := by rw [hnb]; decide
        rw [if_neg hc1, if_neg e1, if_neg e2, if_neg e3] at hcs
        have : ¬ region.sect.type ≠ SHT_NOBITS := fun h => h hnb
        simp only [if_neg this]
        exact ⟨[], rfl, by rw [hcs]; rfl⟩
      · rcases hcontent with h | ⟨hfp, hle⟩
        · exact absurd h hnb
        · simp only [if_pos hnb, generateData, hfp, if_true, if_pos hle]
          exact ⟨_, rfl, by simp [List.length_take, hle]⟩


theorem drop_eq_cons_getElem? {α : Type} {l : List α} {i : Nat} {r : α} {rest : List α}
    (h : l.drop i = r :: rest) : l[i]? = some r ∧ l.drop (i + 1) = rest := by
  constructor
  · have := List.getElem?_drop l i 0
    rw [h] at this
    simpa using this.symm
  · have := congrArg (List.drop 1) h
    simpa [List.drop_drop, Nat.add_comm] using this

/-- The loop over the regions in `generate`, entered at region `i` with the
bytes up to the end of region `i-1` written: every region starts at its offset,
its content is written there, and the loop ends with the counted size. -/
theorem generateRegions_layout (T : ElfTypes) (gen gen1 : ElfBinaryGen)
    (hoffs : gen1.regionOffsets = plainOffsets T gen gen.regions T.ehdrSize)
    (hcontent : ∀ r ∈ gen.regions, ∃ content,
      generateRegion T gen1 (adjustedRegion T gen r) = .ret content ∧
      content.length = contentSize T gen r)
    (rs : List ElfRegion) (i : Nat) (out : List Nat) (hrs : gen.regions.drop i = rs)
    (hout : out.length = plainSize T gen (gen.regions.take i) T.ehdrSize) :
    ∃ out1, generateRegions T gen1 (rs.map (adjustedRegion T gen)) i out = .ret out1 ∧
      out1.length = plainSize T gen gen.regions T.ehdrSize ∧ out <+: out1 ∧
      ∀ j region, rs[j]? = some region → ∃ off content,
        gen1.regionOffsets[i + j]? = some off ∧
        generateRegion T gen1 (adjustedRegion T gen region) = .ret content ∧
        (out1.drop off).take content.length = content := by
  induction rs generalizing i out with
  | nil =>
    have hi : gen.regions.length ≤ i := List.drop_eq_nil_iff.mp hrs
    rw [List.take_of_length_le hi] at hout
    exact ⟨out, rfl, hout, List.prefix_refl _, fun j region h => by simp at h⟩
  | cons r rest ih =>
    obtain ⟨hr, hrest⟩ := drop_eq_cons_getElem? hrs
    have hmem : r ∈ gen.regions := List.getElem?_mem hr
    obtain ⟨content, hc, hcl⟩ := hcontent r hmem
    have hoff : gen1.regionOffsets[i]? = some (alignedOffset out.length (fixedAlign T r)) := by
      rw [hoffs, plainOffsets_getElem? T gen gen.regions T.ehdrSize i r hr, hout]
    have hfill : (out ++ zeroFill (if (adjustedRegion T gen r).align ≠ 0 ∧
        out.length &&& ((adjustedRegion T gen r).align - 1) ≠ 0 then
        (adjustedRegion T gen r).align - (out.length &&& ((adjustedRegion T gen r).align - 1))
        else 0)).length = alignedOffset out.length (fixedAlign T r) := by
      have : (adjustedRegion T gen r).align = fixedAlign T r := rfl
      rw [this, List.length_append, zeroFill, List.length_replicate]
      unfold alignedOffset
      split <;> rfl
    have hnext : (out ++ zeroFill (if (adjustedRegion T gen r).align ≠ 0 ∧
        out.length &&& ((adjustedRegion T gen r).align - 1) ≠ 0 then
        (adjustedRegion T gen r).align - (out.length &&& ((adjustedRegion T gen r).align - 1))
        else 0) ++ content).length = plainSize T gen (gen.regions.take (i + 1)) T.ehdrSize := by
      rw [List.length_append, hfill, hcl, take_succ_of_getElem? gen.regions i r hr,
        plainSize_append, ← hout]
      rfl
    obtain ⟨out1, ho, hol, hpre, hplace⟩ := ih (i + 1) _ hrest hnext
    refine ⟨out1, ?_, hol, ?_, ?_⟩
    · simp only [List.map_cons, generateRegions, arrayAt, hoff, Res.ret_bind, hfill, assertThat,
        decide_True, if_true, hc]
      exact ho
    · exact (List.prefix_append out _).trans ((List.prefix_append _ content).trans hpre)
    · intro j region hj
      cases j with
      | zero =>
        simp only [List.getElem?_cons_zero, Option.some.injEq] at hj
        subst hj
        refine ⟨_, content, hoff, hc, ?_⟩
        obtain ⟨t, ht⟩ := hpre
        rw [← ht, List.append_assoc, List.drop_left' hfill, List.take_left' rfl]
      | succ j =>
        simp only [List.getElem?_cons_succ] at hj
        obtain ⟨off, c, h1, h2, h3⟩ := hplace j region hj
        exact ⟨off, c, by rw [← h1]; congr 1; omega, h2, h3⟩


/-! ## C14: `generate` writes every region at its offset -/

/-- C14 as amended: for every description that `computeSize` accepts, whose
region contents are supplied from memory or generated automatically with the
sections without data declared with size 0 (`ContentSupplied`), whose lookups
are in range (there is a region, no program header has `regionStart +
regionsNum = 0`, no symbol of section 0 has an address as value) and whose
layout ends below `2^32` (ELF32) or `2^64` (ELF64), `generate` returns, so both
of its assertions hold: it starts region `i` at `regionOffsets[i]`, writes the
content of the region there, and writes `countSize()` bytes in all. -/
theorem generate_layout (T : ElfTypes) (header : ElfHeader) (regions : List ElfRegion)
    (progHeaders : List ElfProgramHeader) (symbols dynSymbols : List ElfSymbol)
    (gen1 : ElfBinaryGen)
    (hT : T = Elf32Types ∨ T = Elf64Types)
    (h : computeSize T (ElfBinaryGen.create header regions progHeaders symbols dynSymbols)
      = .ret gen1)
    (hfit : plainSize T (ElfBinaryGen.create header regions progHeaders symbols dynSymbols)
      regions T.ehdrSize < 256 ^ T.wordSize)
    (hcontent : ∀ r ∈ regions, ContentSupplied T
      (ElfBinaryGen.create header regions progHeaders symbols dynSymbols) r)
    (hregions : regions ≠ [])
    (hprog : ∀ ph ∈ progHeaders, 0 < ph.regionStart + ph.regionsNum)
    (hsym : ∀ sym ∈ symbols, sym.valueIsAddr = true → sym.sectionIndex ≠ 0)
    (hdynsym : ∀ sym ∈ dynSymbols, sym.valueIsAddr = true → sym.sectionIndex ≠ 0) :
    ∃ out,
      generate T (ElfBinaryGen.create header regions progHeaders symbols dynSymbols)
        = .ret (out, gen1) ∧
      countSize T (ElfBinaryGen.create header regions progHeaders symbols dynSymbols)
        = .ret (out.length, gen1) ∧
      ∀ (i : Nat) (region : ElfRegion), regions[i]? = some region → ∃ off content,
        gen1.regionOffsets[i]? = some off ∧ gen1.regions[i]? = some
          (adjustedRegion T (ElfBinaryGen.create header regions progHeaders symbols dynSymbols)
            region) ∧
        generateRegion T gen1 (adjustedRegion T
          (ElfBinaryGen.create header regions progHeaders symbols dynSymbols) region)
          = .ret content ∧
        (out.drop off).take content.length = content := by
  generalize hgen : ElfBinaryGen.create header regions progHeaders symbols dynSymbols = gen
    at h hfit hcontent ⊢
  obtain ⟨l1, l2, l3, l4, lregs, loffs, lsize, _, lsl, lsi, ltab, lranges, lentry, lsym, ldyn⟩ :=
    computeSize_layout hgen.symm hT hfit h
  have hgr : gen.regions = regions := by rw [← hgen]; rfl
  have hgp : gen.progHeaders = progHeaders := by rw [← hgen]; rfl
  have hgs : gen.symbols = symbols := by rw [← hgen]; rfl
  have hgd : gen.dynSymbols = dynSymbols := by rw [← hgen]; rfl
  have hrl : gen1.regions.length = regions.length := by rw [lregs, List.length_map]
  have hlen : gen1.regionOffsets.length = gen1.regions.length := by
    rw [loffs, plainOffsets_length, hrl]
  have hnames : sectionNames gen1.regions = sectionNames gen.regions := by
    rw [lregs, sectionNames_map_adjustedRegion, hgr]
  have hc : ∀ r ∈ gen.regions, ∃ content,
      generateRegion T gen1 (adjustedRegion T gen r) = .ret content ∧
      content.length = contentSize T gen r := by
    intro r hr
    rw [hgr] at hr
    refine generateRegion_length T gen gen1 r hT hlen hnames (by rw [l2, hgp])
      (by rw [l3, hgs]) (by rw [l4, hgd]) (fun idx j h1 h2 => by rw [hrl]; exact lsi idx j h1 h2)
      ?_ ?_ ?_ (hcontent r hr)
    · intro hty ph hph
      rw [hgp] at hph
      obtain ⟨a, b⟩ := checkRegionRanges_ret (lranges ⟨r, hr, hty⟩) ph hph
      rw [hrl]
      exact ⟨a, hprog ph hph, b⟩
    · intro sym hs
      rw [hgs] at hs
      rw [lsl]
      exact ⟨lsym sym hs, hsym sym hs⟩
    · intro sym hs
      rw [hgd] at hs
      rw [lsl]
      exact ⟨ldyn sym hs, hdynsym sym hs⟩
  obtain ⟨t1, t2⟩ := ltab hregions
  obtain ⟨ehdr, he, hel⟩ := generateEhdr_length T gen1 hT
    (fun hne => by
      rw [l1] at hne ⊢
      have := lentry hne
      rw [hlen, hrl]
      exact ⟨this, this⟩)
    (by rw [hlen, hrl]; exact t2) (by rw [hlen, hrl]; exact t1)
  obtain ⟨out, ho, hol, _, hplace⟩ := generateRegions_layout T gen gen1
    (by rw [loffs, hgr]) hc gen.regions 0 ehdr rfl (by rw [hel]; rfl)
  refine ⟨out, ?_, ?_, ?_⟩
  · simp only [generate, h, Res.ret_bind, he, lregs, ← hgr, ho, assertThat]
    rw [lsize, ← hgr, ← hol]
    simp only [decide_True, if_true]
    rfl
  · simp only [countSize, h, lsize, ← hgr, hol]
  · intro i region hi
    rw [← hgr] at hi
    obtain ⟨off, content, h1, h2, h3⟩ := hplace i region hi
    rw [Nat.zero_add] at h1
    refine ⟨off, content, h1, ?_, h2, h3⟩
    rw [lregs, ← hgr, List.getElem?_map, hi]
    rfl

set_option maxRecDepth 100000 in
/-- For `nobitsDescription` the hypotheses hold: `generate` returns 372 bytes,
the size `countSize` reports, with each region at its offset. -/
theorem generate_layout_witness :
    ∃ out,
      generate Elf32Types (ElfBinaryGen.create ⟨0, 0, 1, 0xe0, 1, UINT_MAX, 0, 0, 0, 0⟩
        nobitsDescription.regions [] [⟨bytes "a", 1, 0, 0, false, 2, 4⟩] [])
        = .ret (out, computedLayout Elf32Types nobitsDescription) ∧
      countSize Elf32Types (ElfBinaryGen.create ⟨0, 0, 1, 0xe0, 1, UINT_MAX, 0, 0, 0, 0⟩
        nobitsDescription.regions [] [⟨bytes "a", 1, 0, 0, false, 2, 4⟩] [])
        = .ret (out.length, computedLayout Elf32Types nobitsDescription) ∧
      ∀ (i : Nat) (region : ElfRegion), nobitsDescription.regions[i]? = some region →
        ∃ off content,
        (computedLayout Elf32Types nobitsDescription).regionOffsets[i]? = some off ∧
        (computedLayout Elf32Types nobitsDescription).regions[i]? = some
          (adjustedRegion Elf32Types
            (ElfBinaryGen.create ⟨0, 0, 1, 0xe0, 1, UINT_MAX, 0, 0, 0, 0⟩
              nobitsDescription.regions [] [⟨bytes "a", 1, 0, 0, false, 2, 4⟩] []) region) ∧
        generateRegion Elf32Types (computedLayout Elf32Types nobitsDescription)
          (adjustedRegion Elf32Types
            (ElfBinaryGen.create ⟨0, 0, 1, 0xe0, 1, UINT_MAX, 0, 0, 0, 0⟩
              nobitsDescription.regions [] [⟨bytes "a", 1, 0, 0, false, 2, 4⟩] []) region)
          = .ret content ∧
        (out.drop off).take content.length = content :=
  generate_layout Elf32Types ⟨0, 0, 1, 0xe0, 1, UINT_MAX, 0, 0, 0, 0⟩
    nobitsDescription.regions [] [⟨bytes "a", 1, 0, 0, false, 2, 4⟩] []
    (computedLayout Elf32Types nobitsDescription) (Or.inl rfl) (by decide) (by decide)
    (by
      intro r hr
      simp only [nobitsDescription, ElfBinaryGen.create, List.mem_cons, List.mem_singleton,
        List.mem_nil_iff, or_false] at hr
      rcases hr with rfl | rfl | rfl | rfl | rfl | rfl <;>
        simp [ContentSupplied, contentSize, SHT_NOBITS, SHT_STRTAB, SHT_SYMTAB])
    (by decide) (by decide) (by decide) (by decide)

/-- One round of the loop over the regions in `generate`, for a region whose
content is known: the padding is written, and the assertion compares the offset
assigned to the region with the number of bytes written. -/
theorem generateRegions_cons (T : ElfTypes) (gen : ElfBinaryGen) (region : ElfRegion)
    (rest : List ElfRegion) (i : Nat) (out : List Nat) (offset toFill : Nat)
    (content : List Nat) (ho : gen.regionOffsets[i]? = some offset)
    (hc : generateRegion T gen region = .ret content)
    (hfill : toFill = if region.align ≠ 0 ∧ out.length &&& (region.align - 1) ≠ 0 then
      region.align - (out.length &&& (region.align - 1)) else 0) :
    generateRegions T gen (region :: rest) i out =
      if offset = out.length + toFill then
        generateRegions T gen rest (i + 1) (out ++ zeroFill toFill ++ content)
      else Res.raise "Assertion failed" := by
  rw [generateRegions]
  simp only [← hfill, arrayAt, ho, Res.ret_bind, assertThat, List.length_append, zeroFill,
    List.length_replicate, hc]
  by_cases c : offset = out.length + toFill
  · simp only [c, decide_True, if_true]
    rfl
  · simp only [c, decide_False, if_false]
    rfl

set_option maxRecDepth 100000 in
/-- In the 32-bit description `wrappingDescription` the offset of region 2 has
wrapped around to 0, while `generate` has written `2^32` bytes when it comes to
the region: its assertion on the offset fails. -/
theorem generate_offset_wraps :
    generate Elf32Types wrappingDescription = .throw "Assertion failed" := by
  have hcs : computeSize Elf32Types wrappingDescription =
      .ret (computedLayout Elf32Types wrappingDescription) := by decide
  obtain ⟨ehdr, he, hel⟩ := generateEhdr_length Elf32Types
    (computedLayout Elf32Types wrappingDescription) (Or.inl rfl)
    (fun h => absurd rfl h) (by decide) (by decide)
  have hregs : (computedLayout Elf32Types wrappingDescription).regions =
      [⟨.USER, true, 0, 2147483648, some [], ⟨[], 0, 0, 0, 0, 0, 0⟩⟩,
       ⟨.USER, true, 1, 1, some [0], ⟨[], 0, 0, 0, 0, 0, 0⟩⟩,
       ⟨.USER, true, 0, 2147483648, some [], ⟨[], 0, 0, 0, 0, 0, 0⟩⟩] := by decide
  have hl : ehdr.length = 52 := hel
  have hlen1 : (ehdr ++ zeroFill 2147483596 ++ ([] : List Nat)).length = 2147483648 := by
    simp only [List.length_append, zeroFill, List.length_replicate, hl, List.length_nil]
  have hlen2 : (ehdr ++ zeroFill 2147483596 ++ ([] : List Nat) ++ zeroFill 0 ++ [0]).length =
      2147483649 := by
    simp only [List.length_append, zeroFill, List.length_replicate, hl, List.length_nil,
      List.length_singleton]
  rw [generate, hcs, Res.ret_bind, he, Res.ret_bind, hregs,
    generateRegions_cons Elf32Types _ _ _ 0 ehdr 2147483648 2147483596 []
      (by decide) (by decide) (by rw [hl]; decide),
    if_pos (by rw [hl]),
    generateRegions_cons Elf32Types _ _ _ 1 _ 2147483648 0 [0]
      (by decide) (by decide) (by rw [hlen1]; decide),
    if_pos (by rw [hlen1]),
    generateRegions_cons Elf32Types _ _ _ 2 _ 0 2147483647 []
      (by decide) (by decide) (by rw [hlen2]; decide),
    if_neg (by rw [hlen2]; decide)]
  rfl

set_option maxRecDepth 100000 in
/-- C14 as stated fails on descriptions that `computeSize` accepts.  In
`wrappingDescription`, whose three regions are supplied from memory, the layout
passes `2^32`: the offset assigned to region 2 is `2^32` wrapped to 0, and the
assertion of `generate` on the offset fails.  In `declaredSymtabSize`, whose
`.symtab` is generated automatically but declared with 8 bytes, `computeSize`
counts the declared 8 bytes, so `countSize()` is 60; `generate` writes the 16
bytes of the null symbol, 68 bytes in all, and its assertion on the size
fails. -/
theorem generate_assertion_fails :
    ((computeSize Elf32Types wrappingDescription).isRet = true ∧
      assignedOffsets Elf32Types wrappingDescription = .ret [2147483648, 2147483648, 0] ∧
      generate Elf32Types wrappingDescription = .throw "Assertion failed") ∧
    ((countSize Elf32Types declaredSymtabSize).andThen (fun r => .ret r.1) = .ret 60 ∧
      ((generateRegions Elf32Types (computedLayout Elf32Types declaredSymtabSize)
        (computedLayout Elf32Types declaredSymtabSize).regions 0
        (zeroFill 52)).andThen fun out => .ret out.length) = .ret 68 ∧
      generate Elf32Types declaredSymtabSize = .throw "Assertion failed") :=
  ⟨⟨by decide, by decide, generate_offset_wraps⟩, by decide⟩


/-! ## What the constructor of `GalliumBinary` has checked when it accepts -/

/-- An iteration of the loop over the kernels that returns has appended one
kernel, whose name is above the name of the kernel before it, and leaves
`data32` at `data`. -/
theorem parseKernel_ret {G : GalliumHeader} {buf : List Nat} {flags i : Nat}
    {st st1 : KernelScan} (h : parseKernel G buf flags i st = .ret st1) :
    st1.data32 = st1.data ∧ ∃ kernel, st1.kernels = st.kernels ++ [kernel] ∧
      (i ≠ 0 → ∃ previous, st.kernels[i - 1]? = some previous ∧
        previous.kernelName < kernel.kernelName) := by
  rw [parseKernel] at h
  by_cases c1 : usumGt 32 (st.data % 2 ^ 32) 4 buf.length = true
  · rw [if_pos c1] at h; exact absurd h Res.raise_ne_ret
  rw [if_neg c1, Res.bind_eq_ret] at h
  obtain ⟨symNameLen, _, h⟩ := h
  by_cases c2 : usumGt 32 ((st.data + 4) % 2 ^ 32) symNameLen buf.length = true
  · rw [if_pos c2] at h; exact absurd h Res.raise_ne_ret
  rw [if_neg c2, Res.bind_eq_ret] at h
  obtain ⟨kernelName, _, h⟩ := h
  rw [Res.bind_eq_ret] at h
  obtain ⟨unsorted, hunsorted, h⟩ := h
  by_cases c3 : unsorted = true
  · rw [if_pos c3] at h; exact absurd h Res.raise_ne_ret
  rw [if_neg c3] at h
  by_cases c4 : usumGt 32 ((st.data + 4 + symNameLen) % 2 ^ 32) 12 buf.length = true
  · simp only [c4, if_true] at h; exact absurd h Res.raise_ne_ret
  simp only [c4, Bool.false_eq_true, if_false] at h
  rw [Res.bind_eq_ret] at h
  obtain ⟨sectionId, _, h⟩ := h
  rw [Res.bind_eq_ret] at h
  obtain ⟨offset, _, h⟩ := h
  rw [Res.bind_eq_ret] at h
  obtain ⟨argsNum, _, h⟩ := h
  by_cases c5 : UINT32_MAX / 24 < argsNum
  · rw [if_pos c5] at h; exact absurd h Res.raise_ne_ret
  rw [if_neg c5] at h
  by_cases c6 : usumGt 32 ((st.data + 4 + symNameLen + 12) % 2 ^ 32) ((24 * argsNum) % 2 ^ 32)
      buf.length = true
  · rw [if_pos c6] at h; exact absurd h Res.raise_ne_ret
  rw [if_neg c6, Res.bind_eq_ret] at h
  obtain ⟨argInfos, _, h⟩ := h
  rw [Res.pure_eq_ret] at h
  subst h
  refine ⟨rfl, ⟨kernelName, sectionId, offset, argInfos⟩, rfl, ?_⟩
  intro hi
  rw [if_pos hi, Res.bind_eq_ret] at hunsorted
  obtain ⟨previous, hprev, hp⟩ := hunsorted
  rw [Res.pure_eq_ret] at hp
  refine ⟨previous, ?_, ?_⟩
  · unfold arrayAt at hprev
    split at hprev
    · rename_i x hx
      rw [hx]
      exact congrArg some (Res.ret.inj hprev)
    · exact absurd hprev (by simp)
  · have hle : ¬ kernelName ≤ previous.kernelName := by
      intro hle
      apply c3
      rw [← hp]
      exact decide_eq_true hle
    exact lt_of_not_le hle

/-- The loop over the kernels, when it returns: it has parsed `n` kernels with
strictly ascending names; `data32` is at `data` after a kernel, and both are
where they started when there is no kernel. -/
theorem parseKernels_ret {G : GalliumHeader} {buf : List Nat} {flags n : Nat}
    {ks : KernelScan}
    (h : foldRange n ⟨0, 4, [], []⟩ (parseKernel G buf flags) = .ret ks) :
    ks.kernels.length = n ∧
    List.Chain' (fun a b : GalliumKernel => a.kernelName < b.kernelName) ks.kernels ∧
    (n = 0 → ks.data32 = 0 ∧ ks.data = 4) ∧ (0 < n → ks.data32 = ks.data) := by
  obtain ⟨states, h0, hn, hstep⟩ := foldRange_ret h
  have inv : ∀ i, i ≤ n → (states i).kernels.length = i ∧
      List.Chain' (fun a b : GalliumKernel => a.kernelName < b.kernelName) (states i).kernels ∧
      (0 < i → (states i).data32 = (states i).data) := by
    intro i
    induction i with
    | zero =>
      intro _
      rw [h0]
      exact ⟨rfl, List.chain'_nil, fun h => absurd h (Nat.lt_irrefl 0)⟩
    | succ i ih =>
      intro hi
      obtain ⟨hlen, hchain, _⟩ := ih (by omega)
      obtain ⟨hd, kernel, hk, hprev⟩ := parseKernel_ret (hstep i (by omega))
      refine ⟨by rw [hk, List.length_append, hlen]; rfl, ?_, fun _ => hd⟩
      rw [hk]
      refine List.Chain'.append hchain (List.chain'_singleton _) ?_
      intro x hx y hy
      rw [List.head?_cons, Option.mem_def, Option.some.injEq] at hy
      subst hy
      by_cases hi0 : i = 0
      · subst hi0
        rw [List.length_eq_zero] at hlen
        rw [hlen] at hx
        exact absurd hx (by simp)
      · obtain ⟨previous, hp, hlt⟩ := hprev hi0
        rw [List.getLast?_eq_getElem?, hlen, hp] at hx
        rw [Option.mem_def, Option.some.injEq] at hx
        rw [← hx]
        exact hlt
  obtain ⟨a, b, c⟩ := inv n (Nat.le_refl n)
  rw [hn] at a b c
  refine ⟨a, b, ?_, c⟩
  intro hz
  subst hz
  rw [← hn, h0]
  exact ⟨rfl, rfl⟩

/-- An iteration of the loop over the sections that returns has appended one
section; an `elfBinary` that was found stays, and one is found exactly when the
section has the type `TEXT`: it is then made of the content of the section. -/
theorem parseSection_ret {G : GalliumHeader} {buf : List Nat} {flags i : Nat}
    {st st1 : SectionsScan} (h : parseSection G buf flags i st = .ret st1) :
    ∃ sect, st1.sections = st.sections ++ [sect] ∧
      (∀ found, st.elfBinary = some found → st1.elfBinary = some found) ∧
      (st.elfBinary = none →
        (sect.type ≠ G.sectionTypeText ∧ st1.elfBinary = none) ∨
        (sect.type = G.sectionTypeText ∧ ∃ content elf,
          bytesAt buf sect.offset sect.size = .ret content ∧
          GalliumElfBinary G content (flags >>> G.innerShift) = .ret elf ∧
          st1.elfBinary = some (sect.sectionId, elf))) := by
  rw [parseSection] at h
  by_cases c1 : usumGt 32 (st.data % 2 ^ 32) 20 buf.length = true
  · rw [if_pos c1] at h; exact absurd h Res.raise_ne_ret
  rw [if_neg c1, Res.bind_eq_ret] at h
  obtain ⟨sectionId, _, h⟩ := h
  rw [Res.bind_eq_ret] at h
  obtain ⟨secType, _, h⟩ := h
  by_cases c2 : secType > G.sectionTypeMax
  · rw [if_pos c2] at h; exact absurd h Res.raise_ne_ret
  rw [if_neg c2, Res.bind_eq_ret] at h
  obtain ⟨size, _, h⟩ := h
  rw [Res.bind_eq_ret] at h
  obtain ⟨sizeOfData, _, h⟩ := h
  rw [Res.bind_eq_ret] at h
  obtain ⟨sizeFromHeader, _, h⟩ := h
  by_cases c3 : size ≠ (sizeOfData + 2 ^ 32 - 4) % 2 ^ 32 ∨ size ≠ sizeFromHeader
  · rw [if_pos c3] at h; exact absurd h Res.raise_ne_ret
  rw [if_neg c3] at h
  by_cases c4 : usumGt 32 ((st.data32 + 20) % 2 ^ 32) size buf.length = true
  · simp only [c4, if_true] at h; exact absurd h Res.raise_ne_ret
  simp only [c4, Bool.false_eq_true, if_false] at h
  rw [Res.bind_eq_ret] at h
  obtain ⟨elfBinary, helf, h⟩ := h
  rw [Res.pure_eq_ret] at h
  subst h
  refine ⟨⟨sectionId, secType, st.data32 + 20, size⟩, rfl, ?_, ?_⟩
  · intro found hfound
    rw [hfound] at helf
    exact ((Res.pure_eq_ret.mp helf).symm)
  · intro hnone
    rw [hnone] at helf
    by_cases c5 : secType = G.sectionTypeText
    · right
      simp only [if_pos c5] at helf
      rw [Res.bind_eq_ret] at helf
      obtain ⟨content, hcontent, helf⟩ := helf
      rw [Res.bind_eq_ret] at helf
      obtain ⟨elf, he, helf⟩ := helf
      rw [Res.pure_eq_ret] at helf
      exact ⟨c5, content, elf, hcontent, he, helf.symm⟩
    · left
      simp only [if_neg c5] at helf
      exact ⟨c5, (Res.pure_eq_ret.mp helf).symm⟩


theorem FirstText_step {G : GalliumHeader} {buf : List Nat} {flags i : Nat}
    {st st1 : SectionsScan} (h : parseSection G buf flags i st = .ret st1)
    (inv : FirstText G buf flags st.sections st.elfBinary) :
    st1.sections.length = st.sections.length + 1 ∧
    FirstText G buf flags st1.sections st1.elfBinary := by
  obtain ⟨sect, hs, hkeep, hnew⟩ := parseSection_ret h
  refine ⟨by rw [hs, List.length_append]; rfl, ?_⟩
  cases hst : st.elfBinary with
  | some found =>
    rw [hst] at inv
    rw [hkeep found hst, hs]
    obtain ⟨j, s, hj, hty, hfirst, hid, hcontent⟩ := inv
    have hjlt : j < st.sections.length := by
      by_contra hge
      rw [List.getElem?_eq_none (by omega)] at hj
      exact absurd hj (by simp)
    refine ⟨j, s, ?_, hty, ?_, hid, hcontent⟩
    · rw [List.getElem?_append_left hjlt]
      exact hj
    · intro k s1 hk hk1
      rw [List.getElem?_append_left (by omega)] at hk1
      exact hfirst k s1 hk hk1
  | none =>
    rw [hst] at inv
    rcases hnew hst with ⟨hty, hnone⟩ | ⟨hty, content, elf, hcontent, helf, hsome⟩
    · rw [hnone, hs]
      show ∀ s ∈ st.sections ++ [sect], s.type ≠ G.sectionTypeText
      have inv0 : ∀ s ∈ st.sections, s.type ≠ G.sectionTypeText := inv
      intro s hmem
      rw [List.mem_append, List.mem_singleton] at hmem
      rcases hmem with hmem | rfl
      · exact inv0 s hmem
      · exact hty
    · rw [hsome, hs]
      have inv0 : ∀ s ∈ st.sections, s.type ≠ G.sectionTypeText := inv
      refine ⟨st.sections.length, sect, ?_, hty, ?_, rfl, content, hcontent, helf⟩
      · rw [List.getElem?_append_right (Nat.le_refl _)]
        simp
      · intro k s1 hk hk1
        rw [List.getElem?_append_left hk] at hk1
        exact inv0 s1 (List.getElem?_mem hk1)

/-- The loop over the sections, when it returns: it has parsed `n` sections, and
`elfBinary` is made of the first section of the type `TEXT`. -/
theorem parseSections_ret {G : GalliumHeader} {buf : List Nat} {flags n a b : Nat}
    {ss : SectionsScan}
    (h : foldRange n ⟨a, b, [], none⟩ (parseSection G buf flags) = .ret ss) :
    ss.sections.length = n ∧ FirstText G buf flags ss.sections ss.elfBinary := by
  obtain ⟨states, h0, hn, hstep⟩ := foldRange_ret h
  have inv : ∀ i, i ≤ n → (states i).sections.length = i ∧
      FirstText G buf flags (states i).sections (states i).elfBinary := by
    intro i
    induction i with
    | zero =>
      intro _
      rw [h0]
      refine ⟨rfl, ?_⟩
      show ∀ s ∈ ([] : List GalliumSection), s.type ≠ G.sectionTypeText
      exact fun s hs => absurd hs (List.not_mem_nil s)
    | succ i ih =>
      intro hi
      obtain ⟨hlen, hinv⟩ := ih (by omega)
      obtain ⟨hlen1, hinv1⟩ := FirstText_step (hstep i (by omega)) hinv
      exact ⟨by rw [hlen1, hlen], hinv1⟩
  have := inv n (Nat.le_refl n)
  rw [hn] at this
  exact this

theorem checkKernelSections_ret {elfSectionId : Nat} {kernels : List GalliumKernel}
    (h : checkKernelSections elfSectionId kernels = .ret ()) :
    ∀ kernel ∈ kernels, kernel.sectionId = elfSectionId := by
  induction kernels with
  | nil => intro k hk; exact absurd hk (List.not_mem_nil k)
  | cons kernel rest ih =>
    rw [checkKernelSections] at h
    by_cases c : kernel.sectionId ≠ elfSectionId
    · rw [if_pos c] at h; exact absurd h Res.raise_ne_ret
    rw [if_neg c] at h
    intro k hk
    rw [List.mem_cons] at hk
    rcases hk with rfl | hk
    · exact not_not.mp c
    · exact ih h k hk

/-- The inner loop of the verification, when it returns: the symbols it has
passed do not lie in `.text` or are skipped, and the symbol it stops at, if it
stops inside the table, has the name and the offset of the kernel. -/
theorem findKernelSymbol_ret {elf : ElfBinary} {textIndex symsNum : Nat}
    {kernel : GalliumKernel} (fuel : Nat) {symIndex found : Nat}
    {before : List (List Nat × Nat)}
    (h : findKernelSymbol elf textIndex symsNum kernel fuel symIndex = .ret found)
    (hbefore : textSymbols elf textIndex symIndex = .ret before) :
    symIndex ≤ found ∧ textSymbols elf textIndex found = .ret before ∧
      (found < symsNum → textSymbols elf textIndex (found + 1) =
        .ret (before ++ [(kernel.kernelName, kernel.offset)])) := by
  induction fuel generalizing symIndex with
  | zero =>
    rw [findKernelSymbol] at h
    by_cases c : symIndex < symsNum
    · rw [if_pos c] at h; exact absurd h (by simp)
    rw [if_neg c, Res.pure_eq_ret] at h
    subst h
    exact ⟨Nat.le_refl _, hbefore, fun hlt => absurd hlt c⟩
  | succ fuel ih =>
    rw [findKernelSymbol] at h
    by_cases c : symIndex < symsNum
    · rw [if_pos c, Res.bind_eq_ret] at h
      obtain ⟨sym, hsym, h⟩ := h
      rw [Res.bind_eq_ret] at h
      obtain ⟨symName, hname, h⟩ := h
      by_cases c1 : symName ≠ [] ∧ strcmp symName (bytes "EndOfTextLabel") ≠ 0 ∧
          sym.st_shndx = textIndex
      · rw [if_pos c1] at h
        by_cases c2 : kernel.kernelName ≠ symName
        · rw [if_pos c2] at h; exact absurd h Res.raise_ne_ret
        rw [if_neg c2] at h
        by_cases c3 : sym.st_value ≠ kernel.offset
        · rw [if_pos c3] at h; exact absurd h Res.raise_ne_ret
        rw [if_neg c3, Res.pure_eq_ret] at h
        subst h
        refine ⟨Nat.le_refl _, hbefore, fun _ => ?_⟩
        have c1' : symName ≠ [] ∧ symName ≠ bytes "EndOfTextLabel" ∧
            sym.st_shndx = textIndex :=
          ⟨c1.1, fun he => c1.2.1 ((strcmp_eq_zero _ _).mpr he), c1.2.2⟩
        rw [textSymbols, hbefore, Res.ret_bind, hsym, Res.ret_bind, hname, Res.ret_bind,
          if_pos c1', not_not.mp c2, ← not_not.mp c3]
        rfl
      · rw [if_neg c1] at h
        have c1' : ¬ (symName ≠ [] ∧ symName ≠ bytes "EndOfTextLabel" ∧
            sym.st_shndx = textIndex) := by
          intro ⟨a, b, d⟩
          exact c1 ⟨a, fun he => b ((strcmp_eq_zero _ _).mp he), d⟩
        have hnext : textSymbols elf textIndex (symIndex + 1) = .ret before := by
          rw [textSymbols, hbefore, Res.ret_bind, hsym, Res.ret_bind, hname, Res.ret_bind,
            if_neg c1']
          rfl
        obtain ⟨h1, h2, h3⟩ := ih h hnext
        exact ⟨by omega, h2, h3⟩
    · rw [if_neg c, Res.pure_eq_ret] at h
      subst h
      exact ⟨Nat.le_refl _, hbefore, fun hlt => absurd hlt c⟩

/-- The verification of the kernel offsets, when it returns: the kernels are, in
order, the symbols in `.text` between `symIndex` and some index `n` of the
table. -/
theorem verifyKernels_ret {elf : ElfBinary} {textIndex symsNum : Nat}
    (kernels : List GalliumKernel) {symIndex : Nat} {before : List (List Nat × Nat)}
    (h : verifyKernels elf textIndex symsNum kernels symIndex = .ret ())
    (hle : symIndex ≤ symsNum)
    (hbefore : textSymbols elf textIndex symIndex = .ret before) :
    ∃ n, n ≤ symsNum ∧ textSymbols elf textIndex n =
      .ret (before ++ kernels.map fun k => (k.kernelName, k.offset)) := by
  induction kernels generalizing symIndex before with
  | nil => exact ⟨symIndex, hle, by rw [hbefore]; simp⟩
  | cons kernel rest ih =>
    rw [verifyKernels, Res.bind_eq_ret] at h
    obtain ⟨found, hfound, h⟩ := h
    by_cases c : found ≥ symsNum
    · rw [if_pos c] at h; exact absurd h Res.raise_ne_ret
    rw [if_neg c] at h
    obtain ⟨_, _, h3⟩ := findKernelSymbol_ret _ hfound hbefore
    obtain ⟨n, hn, hsyms⟩ := ih h (by omega) (h3 (by omega))
    refine ⟨n, hn, ?_⟩
    rw [hsyms, List.map_cons, List.append_assoc]
    rfl

/-- The constructor of `GalliumBinary`, when it returns, has run both loops and
the two checks of the kernels. -/
theorem GalliumBinary_ret {G : GalliumHeader} {buf : List Nat} {flags : Nat}
    {bin : GalliumBinaryObject} (h : GalliumBinary G buf flags = .ret bin) :
    ∃ kernelsNum ks sectionsNum ss elfSectionId textIndex,
      loadLE buf 0 4 = .ret kernelsNum ∧
      foldRange kernelsNum ⟨0, 4, [], []⟩ (parseKernel G buf flags) = .ret ks ∧
      loadLE buf ks.data32 4 = .ret sectionsNum ∧
      foldRange sectionsNum ⟨ks.data32 + 4, ks.data + 4, [], none⟩ (parseSection G buf flags)
        = .ret ss ∧
      ss.elfBinary = some (elfSectionId, bin.elfBinary) ∧
      checkKernelSections elfSectionId ks.kernels = .ret () ∧
      getSectionIndex G Elf32Types bin.elfBinary.elf ".text" = .ret textIndex ∧
      verifyKernels bin.elfBinary.elf textIndex (getSymbolsNum bin.elfBinary.elf) ks.kernels 0
        = .ret () ∧
      bin.kernels = ks.kernels ∧ bin.sections = ss.sections := by
  rw [GalliumBinary] at h
  by_cases c1 : buf.length < 4
  · rw [if_pos c1] at h; exact absurd h Res.raise_ne_ret
  rw [if_neg c1, Res.bind_eq_ret] at h
  obtain ⟨kernelsNum, hk, h⟩ := h
  by_cases c2 : buf.length < kernelsNum * 16
  · rw [if_pos c2] at h; exact absurd h Res.raise_ne_ret
  rw [if_neg c2, Res.bind_eq_ret] at h
  obtain ⟨ks, hks, h⟩ := h
  by_cases c3 : usumGt 32 (ks.data % 2 ^ 32) 4 buf.length = true
  · rw [if_pos c3] at h; exact absurd h Res.raise_ne_ret
  rw [if_neg c3, Res.bind_eq_ret] at h
  obtain ⟨sectionsNum, hsn, h⟩ := h
  by_cases c4 : (buf.length + 2 ^ 64 - ks.data) % 2 ^ 64 < sectionsNum * 20
  · rw [if_pos c4] at h; exact absurd h Res.raise_ne_ret
  rw [if_neg c4, Res.bind_eq_ret] at h
  obtain ⟨ss, hss, h⟩ := h
  cases helf : ss.elfBinary with
  | none =>
    rw [helf] at h
    exact absurd h Res.raise_ne_ret
  | some found =>
    obtain ⟨elfSectionId, elfBinary⟩ := found
    rw [helf] at h
    simp only [] at h
    rw [Res.bind_eq_ret] at h
    obtain ⟨_, hcheck, h⟩ := h
    rw [Res.bind_eq_ret] at h
    obtain ⟨textIndex, htext, h⟩ := h
    rw [Res.bind_eq_ret] at h
    obtain ⟨_, hverify, h⟩ := h
    rw [Res.pure_eq_ret] at h
    subst h
    exact ⟨kernelsNum, ks, sectionsNum, ss, elfSectionId, textIndex, hk, hks, hsn, hss, helf,
      hcheck, htext, hverify, rfl, rfl⟩


/-- The symbols in `.text` among the first `n` symbols are the first of those
among the first `n + d`. -/
theorem textSymbols_prefix {elf : ElfBinary} {textIndex n : Nat} (d : Nat)
    {syms : List (List Nat × Nat)} (h : textSymbols elf textIndex (n + d) = .ret syms) :
    ∃ l, textSymbols elf textIndex n = .ret l ∧ l <+: syms := by
  induction d generalizing syms with
  | zero => exact ⟨syms, h, List.prefix_refl syms⟩
  | succ d ih =>
    rw [← Nat.add_assoc, textSymbols, Res.bind_eq_ret] at h
    obtain ⟨before, hb, h⟩ := h
    rw [Res.bind_eq_ret] at h
    obtain ⟨sym, _, h⟩ := h
    rw [Res.bind_eq_ret] at h
    obtain ⟨symName, _, h⟩ := h
    obtain ⟨l, hl, hpre⟩ := ih hb
    refine ⟨l, hl, ?_⟩
    by_cases c : symName ≠ [] ∧ symName ≠ bytes "EndOfTextLabel" ∧ sym.st_shndx = textIndex
    · rw [if_pos c, Res.pure_eq_ret] at h
      rw [← h]
      exact hpre.trans (List.prefix_append _ _)
    · rw [if_neg c, Res.pure_eq_ret] at h
      rw [← h]
      exact hpre

/-! ## C17: the kernels of an accepted Gallium container -/

/-- C17: if the constructor of `GalliumBinary` accepts a container, then the
names of its kernels are strictly ascending; the section id of every kernel is
the id of the section of type `TEXT` that holds the inner ELF, the first section
of that type; and the (name, offset) of the kernels are, in order, the (name,
`st_value`) of the symbols of the inner ELF that lie in `.text`, in the order of
the symbol table and without the unnamed symbols and `EndOfTextLabel`: they are
those among the first `n` symbols for some `n`, hence the first of those of any
longer part of the table. -/
theorem GalliumBinary_kernels (G : GalliumHeader) (buf : List Nat) (flags : Nat)
    (bin : GalliumBinaryObject) (h : GalliumBinary G buf flags = .ret bin) :
    List.Pairwise (fun a b : GalliumKernel => a.kernelName < b.kernelName) bin.kernels ∧
    (∃ (j : Nat) (s : GalliumSection), bin.sections[j]? = some s ∧
      s.type = G.sectionTypeText ∧
      (∀ (k : Nat) (s1 : GalliumSection), k < j → bin.sections[k]? = some s1 →
        s1.type ≠ G.sectionTypeText) ∧
      (∃ content, bytesAt buf s.offset s.size = .ret content ∧
        GalliumElfBinary G content (flags >>> G.innerShift) = .ret bin.elfBinary) ∧
      ∀ kernel ∈ bin.kernels, kernel.sectionId = s.sectionId) ∧
    ∃ textIndex n, getSectionIndex G Elf32Types bin.elfBinary.elf ".text" = .ret textIndex ∧
      n ≤ getSymbolsNum bin.elfBinary.elf ∧
      textSymbols bin.elfBinary.elf textIndex n =
        .ret (bin.kernels.map fun k => (k.kernelName, k.offset)) ∧
      ∀ (m : Nat) (syms : List (List Nat × Nat)), n ≤ m →
        textSymbols bin.elfBinary.elf textIndex m = .ret syms →
        (bin.kernels.map fun k => (k.kernelName, k.offset)) <+: syms := by
  obtain ⟨kernelsNum, ks, sectionsNum, ss, elfSectionId, textIndex, _, hks, _, hss, helf,
    hcheck, htext, hverify, hk, hs⟩ := GalliumBinary_ret h
  obtain ⟨_, hchain, _, _⟩ := parseKernels_ret hks
  obtain ⟨_, hfirst⟩ := parseSections_ret hss
  rw [helf] at hfirst
  obtain ⟨j, s, hj, hty, hbefore, hid, hcontent⟩ := hfirst
  obtain ⟨n, hn, hsyms⟩ := verifyKernels_ret ks.kernels hverify (Nat.zero_le _) rfl
  rw [List.nil_append] at hsyms
  rw [hk, hs]
  refine ⟨?_, ⟨j, s, hj, hty, hbefore, hcontent, ?_⟩, textIndex, n, htext, hn, hsyms, ?_⟩
  · have htrans : IsTrans GalliumKernel (fun a b => a.kernelName < b.kernelName) :=
      ⟨fun _ _ _ h1 h2 => lt_trans h1 h2⟩
    exact List.chain'_iff_pairwise.mp hchain
  · intro kernel hkernel
    rw [hid]
    exact checkKernelSections_ret hcheck kernel hkernel
  · intro m syms hnm hm
    obtain ⟨d, rfl⟩ := Nat.exists_eq_add_of_le hnm
    obtain ⟨l, hl, hpre⟩ := textSymbols_prefix d hm
    rw [hsyms] at hl
    rw [Res.ret.injEq] at hl
    rw [hl]
    exact hpre

set_option maxRecDepth 100000 in
/-- The constructor accepts `oneKernelContainer`: its kernel `a` names section
0, the section of type `TEXT`, and is the symbol `a` of `.text`, the second of
the two symbols of the inner ELF. -/
theorem GalliumBinary_kernels_witness :
    GalliumBinary galliumHeader oneKernelContainer 0 =
      .ret (acceptedContainer galliumHeader oneKernelContainer 0) ∧
    (acceptedContainer galliumHeader oneKernelContainer 0).kernels = [⟨bytes "a", 0, 2, []⟩] ∧
    (List.Pairwise (fun a b : GalliumKernel => a.kernelName < b.kernelName)
      (acceptedContainer galliumHeader oneKernelContainer 0).kernels ∧
    (∃ (j : Nat) (s : GalliumSection),
      (acceptedContainer galliumHeader oneKernelContainer 0).sections[j]? = some s ∧
      s.type = galliumHeader.sectionTypeText ∧
      (∀ (k : Nat) (s1 : GalliumSection), k < j →
        (acceptedContainer galliumHeader oneKernelContainer 0).sections[k]? = some s1 →
        s1.type ≠ galliumHeader.sectionTypeText) ∧
      (∃ content, bytesAt oneKernelContainer s.offset s.size = .ret content ∧
        GalliumElfBinary galliumHeader content (0 >>> galliumHeader.innerShift) =
          .ret (acceptedContainer galliumHeader oneKernelContainer 0).elfBinary) ∧
      ∀ kernel ∈ (acceptedContainer galliumHeader oneKernelContainer 0).kernels,
        kernel.sectionId = s.sectionId) ∧
    ∃ textIndex n,
      getSectionIndex galliumHeader Elf32Types
        (acceptedContainer galliumHeader oneKernelContainer 0).elfBinary.elf ".text" =
        .ret textIndex ∧
      n ≤ getSymbolsNum (acceptedContainer galliumHeader oneKernelContainer 0).elfBinary.elf ∧
      textSymbols (acceptedContainer galliumHeader oneKernelContainer 0).elfBinary.elf
        textIndex n =
        .ret ((acceptedContainer galliumHeader oneKernelContainer 0).kernels.map
          fun k => (k.kernelName, k.offset)) ∧
      ∀ (m : Nat) (syms : List (List Nat × Nat)), n ≤ m →
        textSymbols (acceptedContainer galliumHeader oneKernelContainer 0).elfBinary.elf
          textIndex m = .ret syms →
        ((acceptedContainer galliumHeader oneKernelContainer 0).kernels.map
          fun k => (k.kernelName, k.offset)) <+: syms) :=
  ⟨by decide, by decide,
    GalliumBinary_kernels galliumHeader oneKernelContainer 0
      (acceptedContainer galliumHeader oneKernelContainer 0) (by decide)⟩

/-! ## C18: the section of type `TEXT` -/

/-- C18 as amended: the constructor of `GalliumBinary` accepts a container only
if at least one of its sections has the type `TEXT`, and it takes the inner ELF
from the first section of that type. -/
theorem GalliumBinary_text_section (G : GalliumHeader) (buf : List Nat) (flags : Nat)
    (bin : GalliumBinaryObject) (h : GalliumBinary G buf flags = .ret bin) :
    1 ≤ (bin.sections.filter fun s => s.type = G.sectionTypeText).length ∧
    ∃ (j : Nat) (s : GalliumSection), bin.sections[j]? = some s ∧
      s.type = G.sectionTypeText ∧
      (∀ (k : Nat) (s1 : GalliumSection), k < j → bin.sections[k]? = some s1 →
        s1.type ≠ G.sectionTypeText) ∧
      ∃ content, bytesAt buf s.offset s.size = .ret content ∧
        GalliumElfBinary G content (flags >>> G.innerShift) = .ret bin.elfBinary := by
  obtain ⟨kernelsNum, ks, sectionsNum, ss, elfSectionId, textIndex, _, _, _, hss, helf,
    _, _, _, _, hs⟩ := GalliumBinary_ret h
  obtain ⟨_, hfirst⟩ := parseSections_ret hss
  rw [helf] at hfirst
  obtain ⟨j, s, hj, hty, hbefore, _, hcontent⟩ := hfirst
  rw [hs]
  refine ⟨?_, j, s, hj, hty, hbefore, hcontent⟩
  have hmem : s ∈ ss.sections.filter fun s => s.type = G.sectionTypeText := by
    rw [List.mem_filter]
    exact ⟨List.getElem?_mem hj, by simpa using hty⟩
  exact List.length_pos_of_mem hmem

set_option maxRecDepth 100000 in
/-- On `oneKernelContainer` the constructor returns, with one section of the
type `TEXT`. -/
theorem GalliumBinary_text_section_witness :
    GalliumBinary galliumHeader oneKernelContainer 0 =
      .ret (acceptedContainer galliumHeader oneKernelContainer 0) ∧
    (acceptedContainer galliumHeader oneKernelContainer 0).sections = [⟨0, 0, 45, 372⟩] ∧
    (1 ≤ ((acceptedContainer galliumHeader oneKernelContainer 0).sections.filter
      fun s => s.type = galliumHeader.sectionTypeText).length ∧
    ∃ (j : Nat) (s : GalliumSection),
      (acceptedContainer galliumHeader oneKernelContainer 0).sections[j]? = some s ∧
      s.type = galliumHeader.sectionTypeText ∧
      (∀ (k : Nat) (s1 : GalliumSection), k < j →
        (acceptedContainer galliumHeader oneKernelContainer 0).sections[k]? = some s1 →
        s1.type ≠ galliumHeader.sectionTypeText) ∧
      ∃ content, bytesAt oneKernelContainer s.offset s.size = .ret content ∧
        GalliumElfBinary galliumHeader content (0 >>> galliumHeader.innerShift) =
          .ret (acceptedContainer galliumHeader oneKernelContainer 0).elfBinary) :=
  ⟨by decide, by decide,
    GalliumBinary_text_section galliumHeader oneKernelContainer 0
      (acceptedContainer galliumHeader oneKernelContainer 0) (by decide)⟩

set_option maxRecDepth 100000 in
/-- C18 as stated fails: the constructor accepts `twoTextContainer`, in which
both sections have the type `TEXT` (0); the inner ELF is taken from the first
one and the second one is parsed as a plain section. -/
theorem GalliumBinary_two_text_sections :
    galliumHeader.sectionTypeText = 0 ∧
    ((GalliumBinary galliumHeader twoTextContainer 0).andThen fun bin =>
      .ret (bin.kernels, bin.sections)) =
      .ret ([⟨bytes "a", 0, 2, []⟩], [⟨0, 0, 45, 372⟩, ⟨1, 0, 437, 0⟩]) := by
  decide

/-! ## C19: a container without kernels -/

/-- C19 (the code departs from the claim): when the kernel count of a container
is 0, `data32` still points at the kernel count when the section count is read,
so the section count is 0 whatever follows: no section is parsed, and the
constructor throws, `GalliumBinary is too small!!!` for a container of less than
8 bytes and `Gallium Elf binary not found!` for every other one. -/
theorem GalliumBinary_without_kernels (G : GalliumHeader) (buf : List Nat) (flags : Nat)
    (h : loadLE buf 0 4 = .ret 0) :
    GalliumBinary G buf flags = .throw "GalliumBinary is too small!!!" ∨
    GalliumBinary G buf flags = .throw "Gallium Elf binary not found!" := by
  have hlen : ¬ buf.length < 4 := by
    intro hlt
    unfold loadLE at h
    rw [if_neg (by omega)] at h
    exact absurd h (by simp)
  have hfold0 : ∀ {σ : Type} (init : σ) (body : Nat → σ → Res σ),
      foldRange 0 init body = .ret init := fun _ _ => rfl
  rw [GalliumBinary, if_neg hlen, h, Res.ret_bind, if_neg (by omega), hfold0, Res.ret_bind]
  by_cases c : usumGt 32 (4 % 2 ^ 32) 4 buf.length = true
  · left
    rw [if_pos c]
    rfl
  · right
    rw [if_neg c, h, Res.ret_bind, if_neg (by omega), hfold0, Res.ret_bind]
    rfl

set_option maxRecDepth 100000 in
/-- The kernel count of `zeroKernelContainer` is 0. -/
theorem GalliumBinary_without_kernels_witness :
    loadLE zeroKernelContainer 0 4 = .ret 0 ∧
    (GalliumBinary galliumHeader zeroKernelContainer 0 =
      .throw "GalliumBinary is too small!!!" ∨
    GalliumBinary galliumHeader zeroKernelContainer 0 =
      .throw "Gallium Elf binary not found!") :=
  ⟨by decide, GalliumBinary_without_kernels galliumHeader zeroKernelContainer 0 (by decide)⟩

set_option maxRecDepth 100000 in
/-- The container `zeroKernelContainer`, with no kernel and one valid section of
type `TEXT` (the section count 1 at offset 4), is rejected; with the kernel `a`
before the same section the container is accepted with one section. -/
theorem GalliumBinary_zero_kernels_one_text :
    loadLE zeroKernelContainer 4 4 = .ret 1 ∧
    GalliumBinary galliumHeader zeroKernelContainer 0 =
      .throw "Gallium Elf binary not found!" ∧
    ((GalliumBinary galliumHeader oneKernelContainer 0).andThen fun bin =>
      .ret bin.sections.length) = .ret 1 := by
  decide


/-! ## C20: MsgPack unsigned integers -/

/-- The loops of `msgPackWriteUInt` never come to an end: their condition
`i >= 0` holds for every unsigned `i`. -/
theorem msgPackWriteUIntLoop_ne_ret (fuel i v2 : Nat) (d out : List Nat) :
    msgPackWriteUIntLoop fuel i v2 d ≠ .ret out := by
  induction fuel generalizing i v2 d with
  | zero => simp [msgPackWriteUIntLoop]
  | succ fuel ih =>
    rw [msgPackWriteUIntLoop, if_pos (Nat.zero_le i)]
    by_cases c : i < d.length
    · rw [if_pos c]
      exact ih _ _ _
    · rw [if_neg c]
      simp

/-- C20 (the code departs from the claim): for every `v` from 65536 on,
`msgPackWriteUInt(v)` does not return: the first store of its loop is outside
the array (`d[5]` of `cxbyte d[5]`, `d[9]` of `cxbyte d[9]`), and the condition
`i >= 0` of the loop holds for every unsigned `i`. -/
theorem msgPackWriteUInt_large (fuel v : Nat) (output : List Nat) (hv : 65536 ≤ v) :
    (∀ out, msgPackWriteUInt fuel v output ≠ .ret out) ∧
    msgPackWriteUInt (fuel + 1) v output = .undefined := by
  have h1 : ¬ v < 128 := by omega
  have h2 : ¬ v < 256 := by omega
  have h3 : ¬ v < 0x10000 := by omega
  constructor
  · intro out h
    rw [msgPackWriteUInt, if_neg h1, if_neg h2, if_neg h3] at h
    by_cases c : v < 0x100000000
    · rw [if_pos c, Res.bind_eq_ret] at h
      obtain ⟨d, hd, _⟩ := h
      exact msgPackWriteUIntLoop_ne_ret _ _ _ _ _ hd
    · rw [if_neg c, Res.bind_eq_ret] at h
      obtain ⟨d, hd, _⟩ := h
      exact msgPackWriteUIntLoop_ne_ret _ _ _ _ _ hd
  · rw [msgPackWriteUInt, if_neg h1, if_neg h2, if_neg h3]
    by_cases c : v < 0x100000000
    · rw [if_pos c]; rfl
    · rw [if_neg c]; rfl

/-- For `v = 65536` the call does not return. -/
theorem msgPackWriteUInt_large_witness :
    65536 ≤ 65536 ∧ ((∀ out, msgPackWriteUInt 0 65536 [] ≠ .ret out) ∧
      msgPackWriteUInt (0 + 1) 65536 [] = .undefined) :=
  ⟨by decide, msgPackWriteUInt_large 0 65536 [] (by decide)⟩

/-- Below 65536 the round trip of C20 holds: `msgPackWriteUInt(v)` appends one,
two or three bytes, and `parseMsgPackInteger` at these bytes returns `v` and
leaves `dataPtr` at their end, for every signedness request. -/
theorem msgPackWriteUInt_small (W : MsgPackSigness) (fuel v signess : Nat)
    (output : List Nat) (hv : v < 65536) :
    ∃ out, msgPackWriteUInt fuel v output = .ret out ∧ output <+: out ∧
      parseMsgPackInteger W out output.length signess = .ret (v, out.length) := by
  have hat : ∀ (l : List Nat) (k : Nat) (x : Nat), l[k]? = some x →
      arrayAt (output ++ l) (output.length + k) = .ret x := by
    intro l k x hx
    unfold arrayAt
    rw [List.getElem?_append_right (Nat.le_add_right _ _), Nat.add_sub_cancel_left, hx]
  have hsig1 : ¬ (signess = W.MSGPACK_WS_UNSIGNED ∧ 0xcc ≥ 0xd0 ∧ v ≥ 2 ^ 63) := by
    intro ⟨_, h, _⟩; exact absurd h (by decide)
  have hsig2 : ¬ (signess = W.MSGPACK_WS_SIGNED ∧ 0xcc < 0xd0 ∧ v ≥ 2 ^ 63) := by
    intro ⟨_, _, h⟩; omega
  have hsig3 : ¬ (signess = W.MSGPACK_WS_UNSIGNED ∧ 0xcd ≥ 0xd0 ∧ v ≥ 2 ^ 63) := by
    intro ⟨_, h, _⟩; exact absurd h (by decide)
  have hsig4 : ¬ (signess = W.MSGPACK_WS_SIGNED ∧ 0xcd < 0xd0 ∧ v ≥ 2 ^ 63) := by
    intro ⟨_, _, h⟩; omega
  by_cases c1 : v < 128
  · refine ⟨output ++ [v % 256], by rw [msgPackWriteUInt, if_pos c1],
      List.prefix_append _ _, ?_⟩
    have hv1 : v % 256 = v := Nat.mod_eq_of_lt (by omega)
    have h0 := hat [v] 0 v rfl
    rw [Nat.add_zero] at h0
    rw [hv1, parseMsgPackInteger, if_neg (by simp), h0, Res.ret_bind,
      if_pos (by omega : v < 0x80)]
    simp [Pure.pure]
  by_cases c2 : v < 256
  · refine ⟨output ++ [0xcc, v % 256], by rw [msgPackWriteUInt, if_neg c1, if_pos c2],
      List.prefix_append _ _, ?_⟩
    have hv1 : v % 256 = v := Nat.mod_eq_of_lt c2
    have h0 := hat [0xcc, v] 0 0xcc rfl
    have h1 := hat [0xcc, v] 1 v rfl
    rw [Nat.add_zero] at h0
    rw [hv1, parseMsgPackInteger, if_neg (by simp), h0, Res.ret_bind,
      if_neg (by decide : ¬ 0xcc < 0x80), if_neg (by decide : ¬ 0xcc ≥ 0xe0)]
    simp only [true_or, if_true]
    rw [if_neg (by simp), h1, Res.ret_bind]
    simp only [Pure.pure, Res.ret_bind]
    rw [if_neg hsig1, if_neg hsig2]
    simp
  · have c3 : v < 0x10000 := hv
    refine ⟨output ++ [0xcd, (v >>> 8) % 256, (v &&& 0xff) % 256],
      by rw [msgPackWriteUInt, if_neg c1, if_neg c2, if_pos c3], List.prefix_append _ _, ?_⟩
    have e1 : v >>> 8 = v / 256 := Nat.shiftRight_eq_div_pow v 8
    have e2 : v &&& 0xff = v % 256 := Nat.and_pow_two_sub_one_eq_mod v 8
    have e3 : (v / 256) % 256 = v / 256 := Nat.mod_eq_of_lt (by omega)
    have e4 : ((v / 256) <<< 8) ||| (v % 256) = v := by
      rw [Nat.shiftLeft_eq, Nat.mul_comm,
        ← Nat.mul_add_lt_is_or (by omega : v % 256 < 2 ^ 8) (v / 256)]
      omega
    rw [e1, e2, e3, Nat.mod_mod]
    have h0 := hat [0xcd, v / 256, v % 256] 0 0xcd rfl
    have h1 := hat [0xcd, v / 256, v % 256] 1 (v / 256) rfl
    have h2 := hat [0xcd, v / 256, v % 256] 2 (v % 256) rfl
    rw [Nat.add_zero] at h0
    rw [parseMsgPackInteger, if_neg (by simp), h0, Res.ret_bind,
      if_neg (by decide : ¬ 0xcd < 0x80), if_neg (by decide : ¬ 0xcd ≥ 0xe0)]
    simp only [(by decide : ¬ ((0xcd : Nat) = 0xcc ∨ (0xcd : Nat) = 0xd0)), if_false,
      true_or, if_true]
    rw [if_neg (by simp), h1, Res.ret_bind, Nat.add_assoc, h2, Res.ret_bind, e4,
      if_neg (fun h => absurd h.1 (by decide))]
    simp only [Pure.pure, Res.ret_bind]
    rw [if_neg hsig3, if_neg hsig4]
    simp [Nat.add_assoc]

/-- The value 300 is written as `cd 01 2c` and read back. -/
theorem msgPackWriteUInt_small_witness :
    300 < 65536 ∧ ∃ out, msgPackWriteUInt 0 300 [] = .ret out ∧ [] <+: out ∧
      parseMsgPackInteger ⟨0, 1, 2⟩ out ([] : List Nat).length 0 = .ret (300, out.length) :=
  ⟨by decide, msgPackWriteUInt_small ⟨0, 1, 2⟩ 0 300 0 [] (by decide)⟩


/-! ## Facts about loops and buffers for the MsgPack reader -/

theorem Res.andThen_ret {α : Type} (x : Res α) : x.andThen Res.ret = x := by
  cases x <;> rfl

theorem Res.andThen_assoc {α β γ : Type} (x : Res α) (f : α → Res β) (g : β → Res γ) :
    (x.andThen f).andThen g = x.andThen fun a => (f a).andThen g := by
  cases x <;> rfl

/-- A loop whose body does not look at the counter runs the body first and then
the rest of the loop. -/
theorem foldRange_const_succ {σ : Type} (n : Nat) (init : σ) (f : σ → Res σ) :
    foldRange (n + 1) init (fun _ st => f st) =
      (f init).andThen fun st => foldRange n st (fun _ st => f st) := by
  induction n generalizing init with
  | zero =>
    rw [foldRange_succ]
    have h0 : ∀ st : σ, foldRange 0 st (fun _ st => f st) = .ret st := fun _ => rfl
    simp only [h0]
    rw [Res.andThen_ret]
    rfl
  | succ n ih =>
    rw [foldRange_succ, ih, Res.andThen_assoc]
    congr 1
    funext st
    rw [foldRange_succ]

theorem arrayAt_append_right {α : Type} (pre l : List α) (k : Nat) :
    arrayAt (pre ++ l) (pre.length + k) = arrayAt l k := by
  unfold arrayAt
  rw [List.getElem?_append_right (Nat.le_add_right _ _), Nat.add_sub_cancel_left]

theorem arrayAt_append_zero {α : Type} (pre : List α) (x : α) (l : List α) :
    arrayAt (pre ++ x :: l) pre.length = .ret x := by
  have h := arrayAt_append_right pre (x :: l) 0
  rw [Nat.add_zero] at h
  rw [h]
  simp [arrayAt]

/-- A sum of two numbers with no bit in common is their bitwise or. -/
theorem mul_or_eq_add (q b i : Nat) (hb : b < 2 ^ i) : (q * 2 ^ i) ||| b = q * 2 ^ i + b := by
  rw [Nat.mul_comm, ← Nat.mul_add_lt_is_or hb]

theorem bigEndian16_or (n : Nat) (_h : n < 0x10000) : ((n / 256) <<< 8) ||| (n % 256) = n := by
  have := mul_or_eq_add (n / 256) (n % 256) 8 (by omega)
  simp only [Nat.reducePow] at this
  rw [Nat.shiftLeft_eq, this]
  omega

/-- The loop of the readers over four bytes gives back the number that
`bigEndian32` has split. -/
theorem parseMsgPackBytes_bigEndian32 (pre : List Nat) (n : Nat) (rest : List Nat)
    (h : n < 0x100000000) :
    parseMsgPackBytes (pre ++ (bigEndian32 n ++ rest)) 4 pre.length 0 = .ret n := by
  have h0 := arrayAt_append_right pre (bigEndian32 n ++ rest) 0
  have h1 := arrayAt_append_right pre (bigEndian32 n ++ rest) 1
  have h2 := arrayAt_append_right pre (bigEndian32 n ++ rest) 2
  have h3 := arrayAt_append_right pre (bigEndian32 n ++ rest) 3
  rw [Nat.add_zero] at h0
  have e0 : (0 : Nat) ||| (n / 16777216 % 256) <<< (8 * 3) = n / 16777216 * 16777216 := by
    rw [Nat.zero_or, Nat.shiftLeft_eq]
    have : n / 16777216 % 256 = n / 16777216 := Nat.mod_eq_of_lt (by omega)
    rw [this]
  have e1 : (n / 16777216 * 16777216) ||| (n / 65536 % 256) <<< (8 * 2) =
      n / 65536 * 65536 := by
    have := mul_or_eq_add (n / 16777216) ((n / 65536 % 256) * 65536) 24 (by omega)
    simp only [Nat.reducePow] at this
    rw [Nat.shiftLeft_eq]
    simp only [Nat.reduceMul, Nat.reducePow]
    rw [this]
    omega
  have e2 : (n / 65536 * 65536) ||| (n / 256 % 256) <<< (8 * 1) = n / 256 * 256 := by
    have := mul_or_eq_add (n / 65536) ((n / 256 % 256) * 256) 16 (by omega)
    simp only [Nat.reducePow] at this
    rw [Nat.shiftLeft_eq]
    simp only [Nat.reduceMul, Nat.reducePow]
    rw [this]
    omega
  have e3 : (n / 256 * 256) ||| (n % 256) <<< (8 * 0) = n := by
    have := mul_or_eq_add (n / 256) (n % 256) 8 (by omega)
    simp only [Nat.reducePow] at this
    rw [Nat.shiftLeft_eq]
    simp only [Nat.reduceMul, Nat.reducePow, Nat.mul_one]
    rw [this]
    omega
  have a0 : arrayAt (bigEndian32 n ++ rest) 0 = .ret (n / 16777216 % 256) := by
    simp [arrayAt, bigEndian32]
  have a1 : arrayAt (bigEndian32 n ++ rest) 1 = .ret (n / 65536 % 256) := by
    simp [arrayAt, bigEndian32]
  have a2 : arrayAt (bigEndian32 n ++ rest) 2 = .ret (n / 256 % 256) := by
    simp [arrayAt, bigEndian32]
  have a3 : arrayAt (bigEndian32 n ++ rest) 3 = .ret (n % 256) := by
    simp [arrayAt, bigEndian32]
  rw [parseMsgPackBytes, h0, a0, Res.ret_bind, e0, parseMsgPackBytes, h1, a1, Res.ret_bind, e1,
    parseMsgPackBytes, Nat.add_assoc, h2, a2, Res.ret_bind, e2, parseMsgPackBytes,
    Nat.add_assoc, h3, a3, Res.ret_bind, e3, parseMsgPackBytes]
  rfl

theorem skipMsgPackCount_bigEndian32 (pre : List Nat) (n : Nat) (rest : List Nat)
    (h : n < 0x80000000) :
    skipMsgPackCount (pre ++ (bigEndian32 n ++ rest)) 4 pre.length 0 = .ret n := by
  have hp := parseMsgPackBytes_bigEndian32 pre n rest (by omega)
  have h0 := arrayAt_append_right pre (bigEndian32 n ++ rest) 0
  have h1 := arrayAt_append_right pre (bigEndian32 n ++ rest) 1
  have h2 := arrayAt_append_right pre (bigEndian32 n ++ rest) 2
  have h3 := arrayAt_append_right pre (bigEndian32 n ++ rest) 3
  rw [Nat.add_zero] at h0
  have a0 : arrayAt (bigEndian32 n ++ rest) 0 = .ret (n / 16777216 % 256) := by
    simp [arrayAt, bigEndian32]
  have a1 : arrayAt (bigEndian32 n ++ rest) 1 = .ret (n / 65536 % 256) := by
    simp [arrayAt, bigEndian32]
  have a2 : arrayAt (bigEndian32 n ++ rest) 2 = .ret (n / 256 % 256) := by
    simp [arrayAt, bigEndian32]
  have a3 : arrayAt (bigEndian32 n ++ rest) 3 = .ret (n % 256) := by
    simp [arrayAt, bigEndian32]
  have c0 : ¬ (n / 16777216 % 256) <<< (8 * 3) ≥ 2 ^ 31 := by
    rw [Nat.shiftLeft_eq]; omega
  have c1 : ¬ (n / 65536 % 256) <<< (8 * 2) ≥ 2 ^ 31 := by
    rw [Nat.shiftLeft_eq]; omega
  have c2 : ¬ (n / 256 % 256) <<< (8 * 1) ≥ 2 ^ 31 := by
    rw [Nat.shiftLeft_eq]; omega
  have c3 : ¬ (n % 256) <<< (8 * 0) ≥ 2 ^ 31 := by
    rw [Nat.shiftLeft_eq]; omega
  rw [parseMsgPackBytes, h0, a0, Res.ret_bind, parseMsgPackBytes, h1, a1, Res.ret_bind,
    parseMsgPackBytes, Nat.add_assoc, h2, a2, Res.ret_bind, parseMsgPackBytes,
    Nat.add_assoc, h3, a3, Res.ret_bind, parseMsgPackBytes] at hp
  rw [skipMsgPackCount, h0, a0, Res.ret_bind, if_neg c0, skipMsgPackCount, h1, a1, Res.ret_bind,
    if_neg c1, skipMsgPackCount, Nat.add_assoc, h2, a2, Res.ret_bind, if_neg c2,
    skipMsgPackCount, Nat.add_assoc, h3, a3, Res.ret_bind, if_neg c3, skipMsgPackCount]
  exact hp

theorem fixstr_bits : ∀ n, n < 32 → (0xa0 + n) &&& 0xe0 = 0xa0 ∧ (0xa0 + n) &&& 0x1f = n := by
  decide

theorem fixarray_bits : ∀ n, n < 16 →
    (0x90 + n) &&& 0xe0 ≠ 0xa0 ∧ (0x90 + n) &&& 0xf0 = 0x90 ∧ (0x90 + n) &&& 15 = n := by
  decide

theorem fixmap_bits : ∀ n, n < 16 →
    (0x80 + n) &&& 0xe0 ≠ 0xa0 ∧ (0x80 + n) &&& 0xf0 ≠ 0x90 ∧ (0x80 + n) &&& 0xf0 = 0x80 ∧
      (0x80 + n) &&& 15 = n := by
  decide

/-- The loop over the elements of an array or a map skips them one after the
other, when `skipMsgPackObject` skips each of them wherever it stands. -/
theorem skipMsgPackObject_elems (fuel : Nat) (elems : List (List Nat))
    (ih : ∀ e ∈ elems, ∀ (fuel : Nat) (pre post : List Nat), e.length ≤ fuel →
      skipMsgPackObject fuel (pre ++ e ++ post) pre.length = .ret (pre.length + e.length))
    (hfuel : elems.flatten.length ≤ fuel) (pre post : List Nat) :
    foldRange elems.length pre.length
      (fun _ dataPtr => skipMsgPackObject fuel (pre ++ elems.flatten ++ post) dataPtr) =
      .ret (pre.length + elems.flatten.length) := by
  induction elems generalizing pre with
  | nil => rfl
  | cons e rest ihrest =>
    rw [List.length_cons, foldRange_const_succ, List.flatten_cons]
    have he : e.length ≤ fuel := by
      rw [List.flatten_cons, List.length_append] at hfuel; omega
    have hr : rest.flatten.length ≤ fuel := by
      rw [List.flatten_cons, List.length_append] at hfuel; omega
    have h1 : pre ++ (e ++ rest.flatten) ++ post = pre ++ e ++ (rest.flatten ++ post) := by
      simp only [List.append_assoc]
    have h2 : pre ++ (e ++ rest.flatten) ++ post = (pre ++ e) ++ rest.flatten ++ post := by
      simp only [List.append_assoc]
    rw [h1, ih e (List.mem_cons_self _ _) fuel pre (rest.flatten ++ post) he]
    rw [← h1, h2]
    have := ihrest (fun e he => ih e (List.mem_cons_of_mem _ he)) hr (pre ++ e)
    rw [List.length_append] at this
    rw [List.length_append, ← Nat.add_assoc]
    exact this

/-- `skipMsgPackObject` skips every well-formed object in which no array32 and
no map32 has `2^31` or more elements: wherever the object stands in the buffer,
the call returns with `dataPtr` right after it, when `fuel` is at least the
length of the object. -/
theorem skipMsgPackObject_wellFormed {obj : List Nat} (h : MsgPackObject 0x80000000 obj) :
    ∀ (fuel : Nat) (pre post : List Nat), obj.length ≤ fuel →
      skipMsgPackObject fuel (pre ++ obj ++ post) pre.length = .ret (pre.length + obj.length) := by
  induction h with
  | single b h =>
    intro fuel pre post hfuel
    obtain ⟨f, rfl⟩ : ∃ f, fuel = f + 1 := ⟨fuel - 1, by rw [List.length_singleton] at hfuel; omega⟩
    have hlen : ¬ pre.length ≥ (pre ++ b :: post).length := by
      rw [List.length_append, List.length_cons]; omega
    have hb : b = 0xc0 ∨ b = 0xc2 ∨ b = 0xc3 ∨ b < 0x80 ∨ b ≥ 0xe0 := by omega
    rw [List.append_assoc, List.singleton_append, skipMsgPackObject, if_neg hlen,
      arrayAt_append_zero, Res.ret_bind, if_pos hb]
    rfl
  | number code payload h =>
    intro fuel pre post hfuel
    obtain ⟨f, rfl⟩ : ∃ f, fuel = f + 1 := ⟨fuel - 1, by rw [List.length_cons] at hfuel; omega⟩
    have hl : (pre ++ code :: (payload ++ post)).length =
        pre.length + (1 + (payload.length + post.length)) := by
      simp only [List.length_append, List.length_cons]; omega
    rw [List.append_assoc, List.cons_append, skipMsgPackObject, if_neg (by rw [hl]; omega),
      arrayAt_append_zero, Res.ret_bind, List.length_cons, hl]
    rcases h with ⟨hc | hc, hp⟩ | ⟨hc | hc, hp⟩ | ⟨hc | hc | hc, hp⟩ | ⟨hc | hc | hc, hp⟩ <;>
      subst hc <;> simp +decide only [if_false, if_true] <;>
      rw [if_neg (by omega), hp] <;> rfl
  | fixstr s h =>
    intro fuel pre post hfuel
    obtain ⟨f, rfl⟩ : ∃ f, fuel = f + 1 := ⟨fuel - 1, by rw [List.length_cons] at hfuel; omega⟩
    have hl : (pre ++ (0xa0 + s.length) :: (s ++ post)).length =
        pre.length + (1 + (s.length + post.length)) := by
      simp only [List.length_append, List.length_cons]; omega
    obtain ⟨b1, b2⟩ := fixstr_bits s.length h
    rw [List.append_assoc, List.cons_append, skipMsgPackObject, if_neg (by rw [hl]; omega),
      arrayAt_append_zero, Res.ret_bind, List.length_cons, hl, if_neg (by omega),
      if_neg (by omega), if_neg (by omega), if_neg (by omega), if_neg (by omega), if_pos b1]
    simp only [b2]
    rw [if_neg (by omega)]
    rfl
  | bytes8 code s hcode h =>
    intro fuel pre post hfuel
    obtain ⟨f, rfl⟩ : ∃ f, fuel = f + 1 := ⟨fuel - 1, by rw [List.length_cons] at hfuel; omega⟩
    have hl : (pre ++ code :: s.length :: (s ++ post)).length =
        pre.length + (2 + (s.length + post.length)) := by
      simp only [List.length_append, List.length_cons]; omega
    have h1 : arrayAt (pre ++ code :: s.length :: (s ++ post)) (pre.length + 1) =
        .ret s.length := by
      rw [arrayAt_append_right]; simp [arrayAt]
    rw [List.append_assoc, List.cons_append, List.cons_append, skipMsgPackObject,
      if_neg (by rw [hl]; omega), arrayAt_append_zero, Res.ret_bind, List.length_cons,
      List.length_cons, hl]
    rcases hcode with hc | hc <;> subst hc <;>
      simp +decide only [if_false, if_true, h1, Res.ret_bind] <;>
      rw [if_neg (by omega), if_neg (by omega)] <;>
      exact congrArg Res.ret (by omega)
  | bytes16 code s hcode h =>
    intro fuel pre post hfuel
    obtain ⟨f, rfl⟩ : ∃ f, fuel = f + 1 := ⟨fuel - 1, by rw [List.length_cons] at hfuel; omega⟩
    have hl : (pre ++ code :: s.length / 256 :: s.length % 256 :: (s ++ post)).length =
        pre.length + (3 + (s.length + post.length)) := by
      simp only [List.length_append, List.length_cons]; omega
    have h1 : arrayAt (pre ++ code :: s.length / 256 :: s.length % 256 :: (s ++ post))
        (pre.length + 1) = .ret (s.length / 256) := by
      rw [arrayAt_append_right]; simp [arrayAt]
    have h2 : arrayAt (pre ++ code :: s.length / 256 :: s.length % 256 :: (s ++ post))
        (pre.length + 1 + 1) = .ret (s.length % 256) := by
      rw [Nat.add_assoc, arrayAt_append_right]; simp [arrayAt]
    rw [List.append_assoc, List.cons_append, List.cons_append, List.cons_append,
      skipMsgPackObject, if_neg (by rw [hl]; omega), arrayAt_append_zero, Res.ret_bind,
      List.length_cons, List.length_cons, List.length_cons, hl]
    rcases hcode with hc | hc <;> subst hc <;>
      simp +decide only [if_false, if_true, h1, h2, Res.ret_bind, bigEndian16_or _ h] <;>
      rw [if_neg (by omega), if_neg (by omega)] <;>
      exact congrArg Res.ret (by omega)
  | bytes32 code s hcode h =>
    intro fuel pre post hfuel
    obtain ⟨f, rfl⟩ : ∃ f, fuel = f + 1 := ⟨fuel - 1, by rw [List.length_cons] at hfuel; omega⟩
    have hl : (pre ++ code :: (bigEndian32 s.length ++ (s ++ post))).length =
        pre.length + (5 + (s.length + post.length)) := by
      simp only [List.length_append, List.length_cons, bigEndian32, List.length_nil]; omega
    have hb := parseMsgPackBytes_bigEndian32 (pre ++ [code]) s.length (s ++ post) h
    rw [List.length_append, List.length_singleton, List.append_assoc,
      List.singleton_append] at hb
    have hol : (code :: (bigEndian32 s.length ++ s)).length = s.length + 5 := by
      simp only [List.length_append, List.length_cons, bigEndian32, List.length_nil]; omega
    rw [List.append_assoc, List.cons_append, List.append_assoc, skipMsgPackObject,
      if_neg (by rw [hl]; omega), arrayAt_append_zero, Res.ret_bind, hol, hl]
    rcases hcode with hc | hc <;> subst hc <;>
      simp +decide only [if_false, if_true, hb, Res.ret_bind] <;>
      rw [if_neg (by omega), if_neg (by omega)] <;>
      exact congrArg Res.ret (by omega)
  | fixarray elems h helems ih =>
    intro fuel pre post hfuel
    obtain ⟨f, rfl⟩ : ∃ f, fuel = f + 1 := ⟨fuel - 1, by rw [List.length_cons] at hfuel; omega⟩
    have hl : (pre ++ (0x90 + elems.length) :: (elems.flatten ++ post)).length =
        pre.length + (1 + (elems.flatten.length + post.length)) := by
      simp only [List.length_append, List.length_cons]; omega
    obtain ⟨b1, b2, b3⟩ := fixarray_bits elems.length h
    have hloop := skipMsgPackObject_elems f elems ih
      (by rw [List.length_cons] at hfuel; omega) (pre ++ [0x90 + elems.length]) post
    rw [List.length_append, List.length_singleton, List.append_assoc, List.append_assoc,
      List.singleton_append] at hloop
    rw [List.append_assoc, List.cons_append, skipMsgPackObject, if_neg (by rw [hl]; omega),
      arrayAt_append_zero, Res.ret_bind, List.length_cons, if_neg (by omega),
      if_neg (by omega), if_neg (by omega), if_neg (by omega), if_neg (by omega), if_neg b1,
      if_neg (by omega), if_neg (by omega), if_neg (by omega), if_pos (Or.inl b2)]
    simp only [b3, show ¬ (0x90 + elems.length < 0x90) from by omega, decide_False,
      Bool.false_eq_true, if_false]
    rw [hloop]
    exact congrArg Res.ret (by omega)
  | array16 elems h helems ih =>
    intro fuel pre post hfuel
    obtain ⟨f, rfl⟩ : ∃ f, fuel = f + 1 := ⟨fuel - 1, by rw [List.length_cons] at hfuel; omega⟩
    have hl : (pre ++ 0xdc :: elems.length / 256 :: elems.length % 256 ::
        (elems.flatten ++ post)).length =
        pre.length + (3 + (elems.flatten.length + post.length)) := by
      simp only [List.length_append, List.length_cons]; omega
    have h1 : arrayAt (pre ++ 0xdc :: elems.length / 256 :: elems.length % 256 ::
        (elems.flatten ++ post)) (pre.length + 1) = .ret (elems.length / 256) := by
      rw [arrayAt_append_right]; simp [arrayAt]
    have h2 : arrayAt (pre ++ 0xdc :: elems.length / 256 :: elems.length % 256 ::
        (elems.flatten ++ post)) (pre.length + 1 + 1) = .ret (elems.length % 256) := by
      rw [Nat.add_assoc, arrayAt_append_right]; simp [arrayAt]
    have hloop := skipMsgPackObject_elems f elems ih
      (by simp only [List.length_cons] at hfuel; omega)
      (pre ++ [0xdc, elems.length / 256, elems.length % 256]) post
    simp only [List.length_append, List.length_cons, List.length_nil, List.append_assoc,
      List.cons_append, List.nil_append, Nat.zero_add] at hloop
    have hol : (0xdc :: elems.length / 256 :: elems.length % 256 :: elems.flatten).length =
        elems.flatten.length + 3 := by
      simp only [List.length_cons]
    rw [List.append_assoc, List.cons_append, List.cons_append, List.cons_append,
      skipMsgPackObject, if_neg (by rw [hl]; omega), arrayAt_append_zero, Res.ret_bind,
      hol, hl]
    simp +decide only [if_false, if_true, h1, h2, Res.ret_bind, bigEndian16_or _ h]
    rw [if_neg (by omega), show pre.length + 1 + 2 = pre.length + (1 + 1 + 1) from by omega,
      hloop]
    exact congrArg Res.ret (by omega)
  | array32 elems h helems ih =>
    intro fuel pre post hfuel
    obtain ⟨f, rfl⟩ : ∃ f, fuel = f + 1 := ⟨fuel - 1, by rw [List.length_cons] at hfuel; omega⟩
    have hl : (pre ++ 0xdd :: (bigEndian32 elems.length ++ (elems.flatten ++ post))).length =
        pre.length + (5 + (elems.flatten.length + post.length)) := by
      simp only [List.length_append, List.length_cons, bigEndian32, List.length_nil]; omega
    have hb := skipMsgPackCount_bigEndian32 (pre ++ [0xdd]) elems.length
      (elems.flatten ++ post) h
    rw [List.length_append, List.length_singleton, List.append_assoc,
      List.singleton_append] at hb
    have hol : (0xdd :: (bigEndian32 elems.length ++ elems.flatten)).length =
        elems.flatten.length + 5 := by
      simp only [List.length_append, List.length_cons, bigEndian32, List.length_nil]; omega
    have hloop := skipMsgPackObject_elems f elems ih (by rw [hol] at hfuel; omega)
      (pre ++ 0xdd :: bigEndian32 elems.length) post
    have hpl : (pre ++ 0xdd :: bigEndian32 elems.length).length = pre.length + 1 + 4 := by
      simp only [List.length_append, List.length_cons, bigEndian32, List.length_nil]
    rw [hpl, List.append_assoc, List.append_assoc, List.cons_append] at hloop
    rw [List.append_assoc, List.cons_append, List.append_assoc, skipMsgPackObject,
      if_neg (by rw [hl]; omega), arrayAt_append_zero, Res.ret_bind, hol, hl]
    simp +decide only [if_false, if_true, hb, Res.ret_bind]
    rw [if_neg (by omega), hloop]
    exact congrArg Res.ret (by omega)
  | fixmap n elems h hn helems ih =>
    intro fuel pre post hfuel
    obtain ⟨f, rfl⟩ : ∃ f, fuel = f + 1 := ⟨fuel - 1, by rw [List.length_cons] at hfuel; omega⟩
    have hl : (pre ++ (0x80 + n) :: (elems.flatten ++ post)).length =
        pre.length + (1 + (elems.flatten.length + post.length)) := by
      simp only [List.length_append, List.length_cons]; omega
    obtain ⟨b1, b2, b3, b4⟩ := fixmap_bits n h
    have hloop := skipMsgPackObject_elems f elems ih
      (by rw [List.length_cons] at hfuel; omega) (pre ++ [0x80 + n]) post
    rw [List.length_append, List.length_singleton, List.append_assoc, List.append_assoc,
      List.singleton_append, hn] at hloop
    rw [List.append_assoc, List.cons_append, skipMsgPackObject, if_neg (by rw [hl]; omega),
      arrayAt_append_zero, Res.ret_bind, List.length_cons, if_neg (by omega),
      if_neg (by omega), if_neg (by omega), if_neg (by omega), if_neg (by omega), if_neg b1,
      if_neg (by omega), if_neg (by omega), if_neg (by omega), if_pos (Or.inr b3)]
    simp only [b4, show (0x80 + n < 0x90) from by omega, decide_True, if_true,
      Nat.shiftLeft_eq, Nat.pow_one, Nat.mul_comm n 2]
    rw [hloop]
    exact congrArg Res.ret (by omega)
  | map16 n elems h hn helems ih =>
    intro fuel pre post hfuel
    obtain ⟨f, rfl⟩ : ∃ f, fuel = f + 1 := ⟨fuel - 1, by rw [List.length_cons] at hfuel; omega⟩
    have hl : (pre ++ 0xde :: n / 256 :: n % 256 :: (elems.flatten ++ post)).length =
        pre.length + (3 + (elems.flatten.length + post.length)) := by
      simp only [List.length_append, List.length_cons]; omega
    have h1 : arrayAt (pre ++ 0xde :: n / 256 :: n % 256 :: (elems.flatten ++ post))
        (pre.length + 1) = .ret (n / 256) := by
      rw [arrayAt_append_right]; simp [arrayAt]
    have h2 : arrayAt (pre ++ 0xde :: n / 256 :: n % 256 :: (elems.flatten ++ post))
        (pre.length + 1 + 1) = .ret (n % 256) := by
      rw [Nat.add_assoc, arrayAt_append_right]; simp [arrayAt]
    have hloop := skipMsgPackObject_elems f elems ih
      (by simp only [List.length_cons] at hfuel; omega) (pre ++ [0xde, n / 256, n % 256]) post
    simp only [List.length_append, List.length_cons, List.length_nil, List.append_assoc,
      List.cons_append, List.nil_append, Nat.zero_add, hn] at hloop
    have hol : (0xde :: n / 256 :: n % 256 :: elems.flatten).length =
        elems.flatten.length + 3 := by
      simp only [List.length_cons]
    rw [List.append_assoc, List.cons_append, List.cons_append, List.cons_append,
      skipMsgPackObject, if_neg (by rw [hl]; omega), arrayAt_append_zero, Res.ret_bind,
      hol, hl]
    simp +decide only [if_false, if_true, h1, h2, Res.ret_bind, bigEndian16_or _ h]
    simp only [Nat.shiftLeft_eq, Nat.pow_one, Nat.mul_comm n 2]
    rw [if_neg (by omega), show pre.length + 1 + 2 = pre.length + (1 + 1 + 1) from by omega,
      hloop]
    exact congrArg Res.ret (by omega)
  | map32 n elems h hn helems ih =>
    intro fuel pre post hfuel
    obtain ⟨f, rfl⟩ : ∃ f, fuel = f + 1 := ⟨fuel - 1, by rw [List.length_cons] at hfuel; omega⟩
    have hl : (pre ++ 0xdf :: (bigEndian32 n ++ (elems.flatten ++ post))).length =
        pre.length + (5 + (elems.flatten.length + post.length)) := by
      simp only [List.length_append, List.length_cons, bigEndian32, List.length_nil]; omega
    have hb := skipMsgPackCount_bigEndian32 (pre ++ [0xdf]) n (elems.flatten ++ post) h
    rw [List.length_append, List.length_singleton, List.append_assoc,
      List.singleton_append] at hb
    have hol : (0xdf :: (bigEndian32 n ++ elems.flatten)).length =
        elems.flatten.length + 5 := by
      simp only [List.length_append, List.length_cons, bigEndian32, List.length_nil]; omega
    have hloop := skipMsgPackObject_elems f elems ih (by rw [hol] at hfuel; omega)
      (pre ++ 0xdf :: bigEndian32 n) post
    have hpl : (pre ++ 0xdf :: bigEndian32 n).length = pre.length + 1 + 4 := by
      simp only [List.length_append, List.length_cons, bigEndian32, List.length_nil]
    rw [hpl, List.append_assoc, List.append_assoc, List.cons_append, hn] at hloop
    rw [List.append_assoc, List.cons_append, List.append_assoc, skipMsgPackObject,
      if_neg (by rw [hl]; omega), arrayAt_append_zero, Res.ret_bind, hol, hl]
    simp +decide only [if_false, if_true, hb, Res.ret_bind, Nat.shiftLeft_eq, Nat.pow_one,
      Nat.mul_comm n 2]
    rw [if_neg (by omega), hloop]
    exact congrArg Res.ret (by omega)

/-! ## C24: `skipMsgPackObject` on well-formed objects -/

theorem flatten_replicate_singleton {α : Type} (n : Nat) (a : α) :
    (List.replicate n [a]).flatten = List.replicate n a := by
  induction n with
  | zero => rfl
  | succ n ih => rw [List.replicate_succ, List.flatten_cons, ih, List.replicate_succ]; rfl

theorem bigEndian32_length (n : Nat) : (bigEndian32 n).length = 4 := rfl

/-- In the branch of `skipMsgPackObject` for array32 and map32 the first byte
of the count is shifted by 24 bits as an `int`: from `0x80` on the call is
undefined. -/
theorem skipMsgPackObject_count_overflow (fuel : Nat) (pre : List Nat) (code b : Nat)
    (rest : List Nat) (hcode : code = 0xdd ∨ code = 0xdf) (hb : 0x80 ≤ b) :
    skipMsgPackObject (fuel + 1) (pre ++ code :: b :: rest) pre.length = .undefined := by
  have hl : (pre ++ code :: b :: rest).length = pre.length + (2 + rest.length) := by
    simp only [List.length_append, List.length_cons]; omega
  have h1 : arrayAt (pre ++ code :: b :: rest) (pre.length + 1) = .ret b := by
    rw [arrayAt_append_right]; simp [arrayAt]
  have hov : b <<< (8 * 3) ≥ 2 ^ 31 := by
    rw [Nat.shiftLeft_eq]; omega
  rw [skipMsgPackObject, if_neg (by rw [hl]; omega), arrayAt_append_zero, Res.ret_bind, hl]
  rcases hcode with hc | hc <;> subst hc <;>
    simp +decide only [if_false, if_true] <;>
    rw [if_neg (by omega), skipMsgPackCount, h1, Res.ret_bind, if_pos hov] <;> rfl

/-- C24 (the code departs from the claim): the array32 of `2^31` nil objects is
a well-formed object of `2^31 + 5` bytes, and wherever it stands in a buffer,
`skipMsgPackObject` is undefined on it: the first byte `0x80` of its count,
shifted by 24 bits as an `int`, overflows. -/
theorem skipMsgPackObject_nilArray32 :
    MsgPackObject 0x100000000 nilArray32 ∧ nilArray32.length = 2147483653 ∧
    ∀ (fuel : Nat) (pre post : List Nat),
      skipMsgPackObject (fuel + 1) (pre ++ nilArray32 ++ post) pre.length = .undefined := by
  refine ⟨?_, ?_, ?_⟩
  · have h := @MsgPackObject.array32 0x100000000
      (List.replicate 2147483648 [0xc0])
      (by rw [List.length_replicate]; decide)
      (fun e he => by
        rw [List.eq_of_mem_replicate he]
        exact MsgPackObject.single 0xc0 (Or.inl rfl))
    rw [List.length_replicate, flatten_replicate_singleton] at h
    exact h
  · rw [nilArray32, List.length_cons, List.length_append, List.length_replicate,
      bigEndian32_length]
  · intro fuel pre post
    have h := skipMsgPackObject_count_overflow fuel pre 0xdd 0x80
      ([0, 0, 0] ++ List.replicate 2147483648 0xc0 ++ post) (Or.inl rfl) (by decide)
    have e : pre ++ nilArray32 ++ post =
        pre ++ 0xdd :: 0x80 :: ([0, 0, 0] ++ List.replicate 2147483648 0xc0 ++ post) := by
      simp only [nilArray32, bigEndian32, List.append_assoc, List.cons_append,
        List.nil_append]
    rw [e]
    exact h

/-- A fixarray of nil and of a fixmap from the string `A` to the number 258 is
skipped as a whole. -/
theorem skipMsgPackObject_nested :
    skipMsgPackObject 3 [0x92, 0xc0, 0x81, 0xa1, 65, 0xcd, 1, 2] 0 = .ret 8 := by
  decide

/-! ## C25: what `skipMsgPackObject` does with the other inputs -/

/-- C25 (the code departs from the claim): on a first byte that is none of the
recognized type codes (`0xc1`, `0xc7` to `0xc9`, `0xd4` to `0xd8`) no branch of
`skipMsgPackObject` is taken and there is no final `else`: the call returns
with `dataPtr` unchanged. -/
theorem skipMsgPackObject_unrecognized (fuel : Nat) (data : List Nat) (dataPtr first : Nat)
    (hfirst : data[dataPtr]? = some first)
    (hcode : first = 0xc1 ∨ (0xc7 ≤ first ∧ first ≤ 0xc9) ∨ (0xd4 ≤ first ∧ first ≤ 0xd8)) :
    skipMsgPackObject (fuel + 1) data dataPtr = .ret dataPtr := by
  have hlt : dataPtr < data.length := by
    by_contra hge
    rw [List.getElem?_eq_none (by omega)] at hfirst
    exact absurd hfirst (by simp)
  have ha : arrayAt data dataPtr = .ret first := by
    unfold arrayAt; rw [hfirst]
  have hc : first = 0xc1 ∨ first = 0xc7 ∨ first = 0xc8 ∨ first = 0xc9 ∨ first = 0xd4 ∨
      first = 0xd5 ∨ first = 0xd6 ∨ first = 0xd7 ∨ first = 0xd8 := by omega
  rw [skipMsgPackObject, if_neg (by omega), ha, Res.ret_bind]
  rcases hc with h | h | h | h | h | h | h | h | h <;> subst h <;>
    simp +decide only [if_false] <;> rfl

/-- On the one byte `0xc1` the call returns with `dataPtr` unchanged. -/
theorem skipMsgPackObject_unrecognized_witness :
    [0xc1][0]? = some 0xc1 ∧ skipMsgPackObject (0 + 1) [0xc1] 0 = .ret 0 :=
  ⟨rfl, skipMsgPackObject_unrecognized 0 [0xc1] 0 0xc1 rfl (Or.inl rfl)⟩

/-- Headers that end before their count: an array16 and a map32 with one byte
of the count, a str32 with two: the call reads the count beyond `dataEnd`.  An
uint16 without its second byte makes the call throw. -/
theorem skipMsgPackObject_truncated :
    skipMsgPackObject 1 [0xdc, 0x00] 0 = .undefined ∧
    skipMsgPackObject 1 [0xdf, 0x00] 0 = .undefined ∧
    skipMsgPackObject 1 [0xdb, 0x00, 0x00] 0 = .undefined ∧
    skipMsgPackObject 1 [0xcd, 0x01] 0 = .throw "MsgPack: Can't skip object" := by
  decide


/-! ## C21: strings written by `msgPackWriteString` and read back -/

theorem drop_take_window {α : Type} (pre s post : List α) (p n : Nat) (hp : p = pre.length)
    (hn : n = s.length) : ((pre ++ (s ++ post)).drop p).take n = s := by
  subst hp; subst hn
  rw [List.drop_left, List.take_left]

theorem strlen_terminated (s junk : List Nat) (hs : ∀ c ∈ s, c ≠ 0) :
    strlen (s ++ 0 :: junk) = s.length := by
  unfold strlen
  rw [List.takeWhile_append_of_pos (fun c hc => by simpa using hs c hc)]
  simp

/-- The header that `msgPackWriteString` puts before a string of `len` bytes,
with the bytes in the form of the format: fixstr, str8, str16, str32. -/
theorem msgPackWriteString_header (s junk output : List Nat) (hs : ∀ c ∈ s, c ≠ 0)
    (hlen : s.length < 0x100000000) :
    msgPackWriteString (s ++ 0 :: junk) output = output ++
      (if s.length < 32 then [0xa0 + s.length]
      else if s.length < 256 then [0xd9, s.length]
      else if s.length < 0x10000 then [0xda, s.length / 256, s.length % 256]
      else 0xdb :: bigEndian32 s.length) ++ s := by
  unfold msgPackWriteString
  simp only [strlen_terminated s junk hs, List.take_left]
  have e1 : (s.length &&& 0xff) = s.length % 256 := Nat.and_pow_two_sub_one_eq_mod s.length 8
  have e2 : ((s.length >>> 8) &&& 0xff) = s.length / 256 % 256 := by
    rw [Nat.and_pow_two_sub_one_eq_mod _ 8, Nat.shiftRight_eq_div_pow]
  have e3 : ((s.length >>> 16) &&& 0xff) = s.length / 65536 % 256 := by
    rw [Nat.and_pow_two_sub_one_eq_mod _ 8, Nat.shiftRight_eq_div_pow]
  have e4 : s.length >>> 24 = s.length / 16777216 := by
    rw [Nat.shiftRight_eq_div_pow]
  have e5 : s.length >>> 8 = s.length / 256 := by
    rw [Nat.shiftRight_eq_div_pow]
  by_cases c1 : s.length < 32
  · rw [if_pos c1, if_pos c1, Nat.mod_eq_of_lt (by omega)]
  · rw [if_neg c1, if_neg c1]
    by_cases c2 : s.length < 256
    · rw [if_pos c2, if_pos c2, Nat.mod_eq_of_lt c2]
    · rw [if_neg c2, if_neg c2]
      by_cases c3 : s.length < 0x10000
      · rw [if_pos c3, if_pos c3, e1, e5, Nat.mod_mod, Nat.mod_eq_of_lt (a := s.length / 256)
          (by omega)]
      · rw [if_neg c3, if_neg c3, e1, e2, e3, e4, Nat.mod_mod, Nat.mod_mod, Nat.mod_mod]
        rfl

theorem parseMsgPackString_fixstr (pre s post : List Nat) (h : s.length < 32) :
    parseMsgPackString (pre ++ [0xa0 + s.length] ++ s ++ post) pre.length =
      .ret (s, (pre ++ [0xa0 + s.length] ++ s).length) := by
  have e : pre ++ [0xa0 + s.length] ++ s ++ post = pre ++ (0xa0 + s.length) :: (s ++ post) := by
    simp
  have hl : (pre ++ (0xa0 + s.length) :: (s ++ post)).length =
      pre.length + 1 + s.length + post.length := by
    simp only [List.length_append, List.length_cons]; omega
  have hl2 : (pre ++ [0xa0 + s.length] ++ s).length = pre.length + 1 + s.length := by
    simp only [List.length_append, List.length_cons, List.length_nil]
  have e2 : pre ++ (0xa0 + s.length) :: (s ++ post) = (pre ++ [0xa0 + s.length]) ++ (s ++ post) := by
    simp
  rw [e, hl2, parseMsgPackString, if_neg (by rw [hl]; omega), arrayAt_append_zero, Res.ret_bind,
    if_pos (fixstr_bits _ h).1, Res.pure_bind]
  simp only [(fixstr_bits _ h).2]
  rw [if_neg (by rw [hl]; omega), e2, drop_take_window _ _ _ _ _ (by simp) rfl]
  rfl

theorem parseMsgPackString_str8 (pre s post : List Nat) :
    parseMsgPackString (pre ++ [0xd9, s.length] ++ s ++ post) pre.length =
      .ret (s, (pre ++ [0xd9, s.length] ++ s).length) := by
  have e : pre ++ [0xd9, s.length] ++ s ++ post = pre ++ 0xd9 :: s.length :: (s ++ post) := by
    simp
  have hl : (pre ++ 0xd9 :: s.length :: (s ++ post)).length =
      pre.length + 2 + s.length + post.length := by
    simp only [List.length_append, List.length_cons]; omega
  have hl2 : (pre ++ [0xd9, s.length] ++ s).length = pre.length + 2 + s.length := by
    simp only [List.length_append, List.length_cons, List.length_nil]
  have e2 : pre ++ 0xd9 :: s.length :: (s ++ post) = (pre ++ [0xd9, s.length]) ++ (s ++ post) := by
    simp
  have a1 : arrayAt (pre ++ 0xd9 :: s.length :: (s ++ post)) (pre.length + 1) = .ret s.length := by
    rw [arrayAt_append_right]; simp [arrayAt]
  rw [e, hl2, parseMsgPackString, if_neg (by rw [hl]; omega), arrayAt_append_zero, Res.ret_bind]
  simp +decide only [if_false, if_true, hl, a1, Res.ret_bind]
  rw [if_neg (by omega), Res.pure_bind]
  simp only []
  rw [if_neg (by omega), e2, drop_take_window _ _ _ _ _ (by simp) rfl]
  rfl

theorem parseMsgPackString_str16 (pre s post : List Nat) (h : s.length < 0x10000) :
    parseMsgPackString (pre ++ [0xda, s.length / 256, s.length % 256] ++ s ++ post) pre.length =
      .ret (s, (pre ++ [0xda, s.length / 256, s.length % 256] ++ s).length) := by
  have e : pre ++ [0xda, s.length / 256, s.length % 256] ++ s ++ post =
      pre ++ 0xda :: s.length / 256 :: s.length % 256 :: (s ++ post) := by
    simp
  have hl : (pre ++ 0xda :: s.length / 256 :: s.length % 256 :: (s ++ post)).length =
      pre.length + 3 + s.length + post.length := by
    simp only [List.length_append, List.length_cons]; omega
  have hl2 : (pre ++ [0xda, s.length / 256, s.length % 256] ++ s).length =
      pre.length + 3 + s.length := by
    simp only [List.length_append, List.length_cons, List.length_nil]
  have e2 : pre ++ 0xda :: s.length / 256 :: s.length % 256 :: (s ++ post) =
      (pre ++ [0xda, s.length / 256, s.length % 256]) ++ (s ++ post) := by
    simp
  have a1 : arrayAt (pre ++ 0xda :: s.length / 256 :: s.length % 256 :: (s ++ post))
      (pre.length + 1) = .ret (s.length / 256) := by
    rw [arrayAt_append_right]; simp [arrayAt]
  have a2 : arrayAt (pre ++ 0xda :: s.length / 256 :: s.length % 256 :: (s ++ post))
      (pre.length + 1 + 1) = .ret (s.length % 256) := by
    rw [Nat.add_assoc, arrayAt_append_right]; simp [arrayAt]
  rw [e, hl2, parseMsgPackString, if_neg (by rw [hl]; omega), arrayAt_append_zero, Res.ret_bind]
  simp +decide only [if_false, if_true, hl, a1, a2, Res.ret_bind]
  rw [if_neg (by omega), Res.pure_bind]
  simp only [bigEndian16_or _ h]
  rw [if_neg (by omega), e2, drop_take_window _ _ _ _ _ (by simp) rfl]
  rfl

theorem parseMsgPackString_str32 (pre s post : List Nat) (h : s.length < 0x100000000) :
    parseMsgPackString (pre ++ 0xdb :: bigEndian32 s.length ++ s ++ post) pre.length =
      .ret (s, (pre ++ 0xdb :: bigEndian32 s.length ++ s).length) := by
  have e : pre ++ 0xdb :: bigEndian32 s.length ++ s ++ post =
      pre ++ 0xdb :: (bigEndian32 s.length ++ (s ++ post)) := by
    simp
  have hl : (pre ++ 0xdb :: (bigEndian32 s.length ++ (s ++ post))).length =
      pre.length + 5 + s.length + post.length := by
    simp only [List.length_append, List.length_cons, bigEndian32_length]; omega
  have hl2 : (pre ++ 0xdb :: bigEndian32 s.length ++ s).length = pre.length + 5 + s.length := by
    simp only [List.length_append, List.length_cons, bigEndian32_length]
  have e2 : pre ++ 0xdb :: (bigEndian32 s.length ++ (s ++ post)) =
      (pre ++ 0xdb :: bigEndian32 s.length) ++ (s ++ post) := by
    simp
  have e3 : pre ++ 0xdb :: (bigEndian32 s.length ++ (s ++ post)) =
      (pre ++ [0xdb]) ++ (bigEndian32 s.length ++ (s ++ post)) := by
    simp
  have hb : parseMsgPackBytes (pre ++ 0xdb :: (bigEndian32 s.length ++ (s ++ post))) 4
      (pre.length + 1) 0 = .ret s.length := by
    have := parseMsgPackBytes_bigEndian32 (pre ++ [0xdb]) s.length (s ++ post) h
    rw [List.length_append, List.length_singleton] at this
    rw [e3]; exact this
  rw [e, hl2, parseMsgPackString, if_neg (by rw [hl]; omega), arrayAt_append_zero, Res.ret_bind]
  simp +decide only [if_false, if_true, hl, hb, Res.ret_bind]
  rw [if_neg (by omega), Res.pure_bind]
  simp only []
  rw [if_neg (by omega), e2,
    drop_take_window _ _ _ _ _ (by simp [bigEndian32_length]) rfl]
  rfl

/-- C21: for a string `s` without NUL of less than `2^32` bytes, standing in
memory before its terminating NUL, `msgPackWriteString` appends to `output` the
shortest header for the length of `s` (fixstr below 32 bytes, str8 below 256,
str16 below 65536, str32 otherwise) followed by the bytes of `s`; and
`parseMsgPackString` at the place of the written bytes, whatever follows them,
returns `s` with `dataPtr` at the end of the written bytes. -/
theorem msgPackString_roundTrip (s junk output post : List Nat) (hs : ∀ c ∈ s, c ≠ 0)
    (hlen : s.length < 0x100000000) :
    msgPackWriteString (s ++ 0 :: junk) output = output ++
      (if s.length < 32 then [0xa0 + s.length]
      else if s.length < 256 then [0xd9, s.length]
      else if s.length < 0x10000 then [0xda, s.length / 256, s.length % 256]
      else 0xdb :: bigEndian32 s.length) ++ s ∧
    parseMsgPackString (msgPackWriteString (s ++ 0 :: junk) output ++ post) output.length =
      .ret (s, (msgPackWriteString (s ++ 0 :: junk) output).length) := by
  refine ⟨msgPackWriteString_header s junk output hs hlen, ?_⟩
  rw [msgPackWriteString_header s junk output hs hlen]
  by_cases c1 : s.length < 32
  · rw [if_pos c1]; exact parseMsgPackString_fixstr output s post c1
  · rw [if_neg c1]
    by_cases c2 : s.length < 256
    · rw [if_pos c2]; exact parseMsgPackString_str8 output s post
    · rw [if_neg c2]
      by_cases c3 : s.length < 0x10000
      · rw [if_pos c3]; exact parseMsgPackString_str16 output s post c3
      · rw [if_neg c3]; exact parseMsgPackString_str32 output s post hlen

/-- The string `kernel` after the bytes 1, 2 is written as a fixstr of 6 bytes
and read back. -/
theorem msgPackString_roundTrip_witness :
    (∀ c ∈ [107, 101, 114, 110, 101, 108], c ≠ 0) ∧
    msgPackWriteString ([107, 101, 114, 110, 101, 108] ++ 0 :: [7]) [1, 2] =
      [1, 2, 0xa6, 107, 101, 114, 110, 101, 108] ∧
    parseMsgPackString (msgPackWriteString ([107, 101, 114, 110, 101, 108] ++ 0 :: [7]) [1, 2]
      ++ [0xc0]) 2 = .ret ([107, 101, 114, 110, 101, 108], 9) :=
  ⟨by decide,
    (msgPackString_roundTrip [107, 101, 114, 110, 101, 108] [7] [1, 2] [0xc0] (by decide)
      (by decide)).1.trans (by decide),
    (msgPackString_roundTrip [107, 101, 114, 110, 101, 108] [7] [1, 2] [0xc0] (by decide)
      (by decide)).2.trans (by decide)⟩


/-! ## C22, C23: `parseMsgPackInteger` on the complete encodings -/

theorem bigEndian_lt (payload : List Nat) (hb : ∀ b ∈ payload, b < 256) :
    bigEndian payload < 256 ^ payload.length := by
  induction payload with
  | nil => simp [bigEndian]
  | cons b rest ih =>
    have h1 := ih (fun c hc => hb c (List.mem_cons_of_mem _ hc))
    have h2 : b < 256 := hb b (List.mem_cons_self _ _)
    rw [bigEndian, List.length_cons, Nat.pow_succ]
    have : b * 256 ^ rest.length ≤ 255 * 256 ^ rest.length := Nat.mul_le_mul_right _ (by omega)
    omega

/-- The loop of `parseMsgPackInteger` over the bytes of a payload gives the
number with these bytes, the most significant one first. -/
theorem parseMsgPackBytes_bigEndian (payload : List Nat) (hb : ∀ b ∈ payload, b < 256) :
    ∀ (pre post : List Nat) (v : Nat), 256 ^ payload.length ∣ v →
      parseMsgPackBytes (pre ++ (payload ++ post)) payload.length pre.length v =
        .ret (v + bigEndian payload) := by
  induction payload with
  | nil => intro pre post v _; rfl
  | cons b rest ih =>
    intro pre post v hv
    have hb0 : b < 256 := hb b (List.mem_cons_self _ _)
    have e : pre ++ b :: (rest ++ post) = (pre ++ [b]) ++ (rest ++ post) := by simp
    have hor : v ||| (b <<< (8 * rest.length)) = v + b * 256 ^ rest.length := by
      obtain ⟨q, hq⟩ := hv
      have hp : (256 : Nat) ^ rest.length = 2 ^ (8 * rest.length) := by
        rw [Nat.pow_mul]
      have hlt : b * 2 ^ (8 * rest.length) < 2 ^ (8 * rest.length + 8) := by
        rw [Nat.pow_add]
        have := Nat.mul_lt_mul_of_pos_right hb0 (Nat.pow_pos (n := 8 * rest.length)
          (by decide : 0 < 2))
        simpa [Nat.mul_comm] using this
      have := mul_or_eq_add q (b * 2 ^ (8 * rest.length)) (8 * rest.length + 8) hlt
      rw [Nat.shiftLeft_eq, hq, List.length_cons, Nat.pow_succ, hp]
      have e2 : 2 ^ (8 * rest.length) * 256 * q = q * 2 ^ (8 * rest.length + 8) := by
        rw [Nat.pow_add]; ring
      rw [e2]
      exact this
    have hdvd : 256 ^ rest.length ∣ v + b * 256 ^ rest.length := by
      refine Nat.dvd_add ?_ (Nat.dvd_mul_left _ _)
      exact Nat.dvd_trans (Nat.pow_dvd_pow 256 (Nat.le_succ _)) hv
    have ih2 := ih (fun c hc => hb c (List.mem_cons_of_mem _ hc)) (pre ++ [b]) post
      (v + b * 256 ^ rest.length) hdvd
    rw [List.length_append, List.length_singleton] at ih2
    rw [List.length_cons, parseMsgPackBytes, List.cons_append, arrayAt_append_zero, Res.ret_bind,
      hor, bigEndian, ← Nat.add_assoc, ← ih2, e]

theorem and_two_pow_ne_zero (v w : Nat) (hv : v < 2 ^ (w + 1)) : v &&& 2 ^ w ≠ 0 ↔ 2 ^ w ≤ v := by
  rw [Nat.and_two_pow, Nat.testBit_to_div_mod]
  have hp : 0 < 2 ^ w := Nat.pow_pos (by decide)
  have hd : v / 2 ^ w < 2 := by
    rw [Nat.div_lt_iff_lt_mul hp, Nat.mul_comm, ← Nat.pow_succ]; exact hv
  constructor
  · intro h
    by_contra hlt
    rw [Nat.div_eq_of_lt (by omega)] at h
    simp at h
  · intro h
    have : 1 ≤ v / 2 ^ w := (Nat.one_le_div_iff hp).mpr h
    have h1 : v / 2 ^ w % 2 = 1 := by omega
    rw [h1]
    simp

theorem or_high_eq_add (v q i : Nat) (hv : v < 2 ^ i) : v ||| (q * 2 ^ i) = v + q * 2 ^ i := by
  rw [Nat.lor_comm, mul_or_eq_add q v i hv, Nat.add_comm]

theorem integer_checks (signess U S : Nat) (c1 c2 d1 d2 : Prop) [Decidable c1] [Decidable c2]
    [Decidable d1] [Decidable d2] (m1 m2 : String) (x y : Nat × Nat) (h1 : c1 ↔ d1)
    (h2 : c2 ↔ d2) (hxy : x = y) :
    (if signess = U ∧ c1 then Res.raise m1
      else if signess = S ∧ c2 then Res.raise m2 else pure x : Res (Nat × Nat)) =
    if signess = U ∧ d1 then .throw m1 else if signess = S ∧ d2 then .throw m2 else .ret y := by
  subst hxy
  by_cases a : signess = U ∧ d1
  · rw [if_pos a, if_pos ⟨a.1, h1.mpr a.2⟩]; rfl
  · rw [if_neg a, if_neg (fun hh => a ⟨hh.1, h1.mp hh.2⟩)]
    by_cases b : signess = S ∧ d2
    · rw [if_pos b, if_pos ⟨b.1, h2.mpr b.2⟩]; rfl
    · rw [if_neg b, if_neg (fun hh => b ⟨hh.1, h2.mp hh.2⟩)]; rfl

/-- What `parseMsgPackInteger` gives for a complete encoding `enc` wherever it
stands in a buffer: the exception for a negative number when an unsigned one is
requested, the exception for a number from `2^63` on with an unsigned tag when a
signed one is requested, and otherwise the stored integer in 64 bits with
`dataPtr` behind the encoding. -/
theorem parseMsgPackInteger_encoding (W : MsgPackSigness) (pre enc post : List Nat)
    (signess : Nat) (h : IsIntegerEncoding enc) :
    parseMsgPackInteger W (pre ++ enc ++ post) pre.length signess =
      if signess = W.MSGPACK_WS_UNSIGNED ∧ storedInteger enc < 0 then
        .throw "MsgPack: Negative value for unsigned integer"
      else if signess = W.MSGPACK_WS_SIGNED ∧ hasUnsignedTag enc ∧ 2 ^ 63 ≤ storedInteger enc then
        .throw "MsgPack: Positive value out of range for signed integer"
      else .ret ((storedInteger enc % 2 ^ 64).toNat, pre.length + enc.length) := by
  obtain ⟨hbytes, hlen⟩ := h
  cases enc with
  | nil => simp at hlen
  | cons first payload =>
    simp only [List.head?_cons, Option.some_bind, List.length_cons, Nat.add_sub_cancel] at hlen
    have hfirst : first < 256 := hbytes first (List.mem_cons_self _ _)
    have hpay : ∀ b ∈ payload, b < 256 := fun b hb => hbytes b (List.mem_cons_of_mem _ hb)
    have hbe := bigEndian_lt payload hpay
    have hread := parseMsgPackBytes_bigEndian payload hpay (pre ++ [first]) post 0
      (Nat.dvd_zero _)
    have hut : hasUnsignedTag (first :: payload) ↔ 0xcc ≤ first ∧ first ≤ 0xcf := by
      simp [hasUnsignedTag]
    have e : pre ++ first :: payload ++ post = pre ++ first :: (payload ++ post) := by simp
    have e2 : pre ++ first :: (payload ++ post) = (pre ++ [first]) ++ (payload ++ post) := by
      simp
    have hl : (pre ++ first :: (payload ++ post)).length =
        pre.length + 1 + payload.length + post.length := by
      simp only [List.length_append, List.length_cons]; omega
    rw [← e2, List.length_append, List.length_singleton, Nat.zero_add] at hread
    rw [e, parseMsgPackInteger, if_neg (by rw [hl]; omega), arrayAt_append_zero, Res.ret_bind]
    unfold integerPayloadLength at hlen
    by_cases c0 : first < 0x80
    · simp only [if_pos c0, hut, storedInteger]
      rw [if_neg (by omega), if_neg (by omega)]
      rw [if_pos (Or.inl c0)] at hlen
      have hp : payload.length = 0 := by simpa using hlen.symm
      exact congrArg Res.ret (Prod.ext (by simp only []; omega)
        (by simp only [List.length_cons]; omega))
    by_cases c1 : 0xe0 ≤ first
    · simp only [if_neg c0, if_pos c1, ge_iff_le, Nat.and_pow_two_sub_one_eq_mod first 5, hut,
        storedInteger]
      rw [if_pos (Or.inr ⟨c1, hfirst⟩)] at hlen
      have hp : payload.length = 0 := by simpa using hlen.symm
      by_cases cu : signess = W.MSGPACK_WS_UNSIGNED
      · rw [if_pos ⟨cu, by omega⟩, if_pos ⟨cu, by omega⟩]; rfl
      · rw [if_neg (fun hh => cu hh.1), if_neg (fun hh => cu hh.1), if_neg (by omega)]
        exact congrArg Res.ret (Prod.ext (by simp only []; omega)
          (by simp only [List.length_cons]; omega))
    rw [if_neg (by omega)] at hlen
    simp only [if_neg c0, if_neg c1]
    by_cases c2 : first = 0xcc ∨ first = 0xd0
    · rw [if_pos c2] at hlen
      have hp : payload.length = 1 := by simpa using hlen.symm
      obtain ⟨b, rfl⟩ := List.length_eq_one.mp hp
      have hb : b < 256 := hpay b (List.mem_singleton_self _)
      have a1 : arrayAt (pre ++ first :: ([b] ++ post)) (pre.length + 1) = .ret b := by
        rw [arrayAt_append_right]; simp [arrayAt]
      have hbe1 : bigEndian [b] = b := by simp [bigEndian]
      rcases c2 with c2 | c2 <;> subst c2 <;>
        simp +decide only [if_false, if_true, hl, a1, Res.ret_bind] <;>
        rw [if_neg (by simp only [List.length_cons, List.length_nil]; omega), Res.pure_bind] <;>
        refine integer_checks _ _ _ _ _ _ _ _ _ _ _ ?_ ?_ ?_ <;>
        simp +decide only [storedInteger, hut, hbe1, if_false, if_true, false_and, true_and,
          and_true, false_iff, iff_false, ge_iff_le, List.length_cons, List.length_nil,
          Prod.mk.injEq, Nat.reduceMul, Nat.reduceAdd, Nat.reduceSub] <;>
        (try split_ifs) <;> omega
    rw [if_neg c2] at hlen
    simp only [if_neg c2]
    by_cases c3 : first = 0xcd ∨ first = 0xd1
    · rw [if_pos c3] at hlen
      have hp : payload.length = 2 := by simpa using hlen.symm
      obtain ⟨bh, bl, rfl⟩ := List.length_eq_two.mp hp
      have hbh : bh < 256 := hpay bh (by simp)
      have hbl : bl < 256 := hpay bl (by simp)
      have a1 : arrayAt (pre ++ first :: ([bh, bl] ++ post)) (pre.length + 1) = .ret bh := by
        rw [arrayAt_append_right]; simp [arrayAt]
      have a2 : arrayAt (pre ++ first :: ([bh, bl] ++ post)) (pre.length + 1 + 1) = .ret bl := by
        rw [Nat.add_assoc, arrayAt_append_right]; simp [arrayAt]
      have hbe2 : bigEndian [bh, bl] = bh * 256 + bl := by simp [bigEndian]
      have hv : (bh <<< 8) ||| bl = bh * 256 + bl := by
        rw [Nat.shiftLeft_eq]; exact mul_or_eq_add bh bl 8 hbl
      have hsign := and_two_pow_ne_zero (bh * 256 + bl) 15 (by omega)
      have hext : (bh * 256 + bl) ||| ((0xffffffffffff <<< 16) % 2 ^ 64) =
          bh * 256 + bl + 0xffffffffffff0000 :=
        or_high_eq_add (bh * 256 + bl) 0xffffffffffff 16 (by omega)
      rcases c3 with c3 | c3 <;> subst c3 <;>
        simp +decide only [if_false, if_true, hl, a1, a2, hv, hsign, hext, Res.ret_bind,
          false_and, true_and] <;>
        rw [if_neg (by simp only [List.length_cons, List.length_nil]; omega)]
      · rw [Res.pure_bind]
        refine integer_checks _ _ _ _ _ _ _ _ _ _ _ ?_ ?_ ?_ <;>
        simp +decide only [storedInteger, hut, hbe2, if_false, if_true, false_and, true_and,
          and_true, false_iff, iff_false, ge_iff_le, List.length_cons, List.length_nil,
          Prod.mk.injEq, Nat.reduceMul, Nat.reduceAdd, Nat.reduceSub] <;>
        omega
      · rw [Res.ite_pure_bind]
        refine integer_checks _ _ _ _ _ _ _ _ _ _ _ ?_ ?_ ?_ <;>
        simp +decide only [storedInteger, hut, hbe2, if_false, if_true, false_and, true_and,
          and_true, false_iff, iff_false, ge_iff_le, List.length_cons, List.length_nil,
          Prod.mk.injEq, Nat.reduceMul, Nat.reduceAdd, Nat.reduceSub] <;>
        (try split_ifs) <;> (try simp only [Prod.mk.injEq, and_true]) <;> omega
    rw [if_neg c3] at hlen
    simp only [if_neg c3]
    by_cases c4 : first = 0xce ∨ first = 0xd2
    · rw [if_pos c4] at hlen
      have hp : payload.length = 4 := by simpa using hlen.symm
      rw [hp] at hread hbe hl
      have hsign := and_two_pow_ne_zero (bigEndian payload) 31 (by omega)
      have hext : bigEndian payload ||| ((0xffffffff <<< 32) % 2 ^ 64) =
          bigEndian payload + 0xffffffff00000000 :=
        or_high_eq_add (bigEndian payload) 0xffffffff 32 (by omega)
      rcases c4 with c4 | c4 <;> subst c4 <;>
        simp +decide only [if_false, if_true, hl, hread, hsign, hext, Res.ret_bind,
          false_and, true_and] <;>
        rw [if_neg (by omega)]
      · rw [Res.pure_bind]
        refine integer_checks _ _ _ _ _ _ _ _ _ _ _ ?_ ?_ ?_ <;>
        simp +decide only [storedInteger, hut, hp, if_false, if_true, false_and, true_and,
          and_true, false_iff, iff_false, ge_iff_le, List.length_cons, List.length_nil,
          Prod.mk.injEq, Nat.reduceMul, Nat.reduceAdd, Nat.reduceSub] <;>
        omega
      · rw [Res.ite_pure_bind]
        refine integer_checks _ _ _ _ _ _ _ _ _ _ _ ?_ ?_ ?_ <;>
        simp +decide only [storedInteger, hut, hp, if_false, if_true, false_and, true_and,
          and_true, false_iff, iff_false, ge_iff_le, List.length_cons, List.length_nil,
          Prod.mk.injEq, Nat.reduceMul, Nat.reduceAdd, Nat.reduceSub] <;>
        (try split_ifs) <;> (try simp only [Prod.mk.injEq, and_true]) <;> omega
    rw [if_neg c4] at hlen
    simp only [if_neg c4]
    by_cases c5 : first = 0xcf ∨ first = 0xd3
    · rw [if_pos c5] at hlen
      have hp : payload.length = 8 := by simpa using hlen.symm
      rw [hp] at hread hbe hl
      rcases c5 with c5 | c5 <;> subst c5 <;>
        simp +decide only [if_false, if_true, hl, hread, Res.ret_bind,
          false_and, true_and] <;>
        rw [if_neg (by omega), Res.pure_bind] <;>
        refine integer_checks _ _ _ _ _ _ _ _ _ _ _ ?_ ?_ ?_ <;>
        simp +decide only [storedInteger, hut, hp, if_false, if_true, false_and, true_and,
          and_true, false_iff, iff_false, ge_iff_le, List.length_cons, List.length_nil,
          Prod.mk.injEq, Nat.reduceMul, Nat.reduceAdd, Nat.reduceSub] <;>
        (try split_ifs) <;> omega
    rw [if_neg c5] at hlen
    exact absurd hlen (by simp)

/-- The stored integer is negative exactly for a negative fixint and for a
signed tag whose payload has its sign bit set. -/
theorem storedInteger_neg_iff (first : Nat) (payload : List Nat) (hfirst : first < 256)
    (hpay : ∀ b ∈ payload, b < 256) :
    storedInteger (first :: payload) < 0 ↔
      0xe0 ≤ first ∨
        (0xd0 ≤ first ∧ first ≤ 0xd3 ∧ 2 ^ (8 * payload.length - 1) ≤ bigEndian payload) := by
  have hbe := bigEndian_lt payload hpay
  have hp : (256 : Nat) ^ payload.length = 2 ^ (8 * payload.length) := by rw [Nat.pow_mul]
  have hc : ((2 ^ (8 * payload.length) : Nat) : Int) = 2 ^ (8 * payload.length) := by
    push_cast; rfl
  rw [hp] at hbe
  simp only [storedInteger]
  split_ifs with a b c <;> constructor <;> intro hh <;> omega

/-- C22: for a complete MsgPack integer encoding `enc`, wherever it stands in a
buffer, `parseMsgPackInteger` throws if and only if the request is
`MSGPACK_WS_UNSIGNED` and the stored integer is negative, or the request is
`MSGPACK_WS_SIGNED` and the integer is stored with an unsigned tag and is at
least `2^63`; in every other case it returns, and so it does for every encoding
with the request `MSGPACK_WS_BOTH`, a constant different from the other two. -/
theorem parseMsgPackInteger_fails_iff (W : MsgPackSigness) (pre enc post : List Nat)
    (signess : Nat) (h : IsIntegerEncoding enc) :
    ((∃ msg, parseMsgPackInteger W (pre ++ enc ++ post) pre.length signess = .throw msg) ↔
      (signess = W.MSGPACK_WS_UNSIGNED ∧ storedInteger enc < 0) ∨
      (signess = W.MSGPACK_WS_SIGNED ∧ hasUnsignedTag enc ∧ 2 ^ 63 ≤ storedInteger enc)) ∧
    ((∃ msg, parseMsgPackInteger W (pre ++ enc ++ post) pre.length signess = .throw msg) ∨
      ∃ v, parseMsgPackInteger W (pre ++ enc ++ post) pre.length signess = .ret v) ∧
    (W.MSGPACK_WS_BOTH ≠ W.MSGPACK_WS_UNSIGNED → W.MSGPACK_WS_BOTH ≠ W.MSGPACK_WS_SIGNED →
      ∃ v, parseMsgPackInteger W (pre ++ enc ++ post) pre.length W.MSGPACK_WS_BOTH = .ret v) := by
  have hb := parseMsgPackInteger_encoding W pre enc post W.MSGPACK_WS_BOTH h
  have hs := parseMsgPackInteger_encoding W pre enc post signess h
  refine ⟨?_, ?_, ?_⟩
  · rw [hs]
    by_cases a : signess = W.MSGPACK_WS_UNSIGNED ∧ storedInteger enc < 0
    · rw [if_pos a]; exact ⟨fun _ => Or.inl a, fun _ => ⟨_, rfl⟩⟩
    · rw [if_neg a]
      by_cases b : signess = W.MSGPACK_WS_SIGNED ∧ hasUnsignedTag enc ∧
          2 ^ 63 ≤ storedInteger enc
      · rw [if_pos b]; exact ⟨fun _ => Or.inr b, fun _ => ⟨_, rfl⟩⟩
      · rw [if_neg b]
        refine ⟨fun ⟨msg, hm⟩ => absurd hm (by simp), fun hh => ?_⟩
        rcases hh with hh | hh
        · exact absurd hh a
        · exact absurd hh b
  · rw [hs]
    by_cases a : signess = W.MSGPACK_WS_UNSIGNED ∧ storedInteger enc < 0
    · rw [if_pos a]; exact Or.inl ⟨_, rfl⟩
    · rw [if_neg a]
      by_cases b : signess = W.MSGPACK_WS_SIGNED ∧ hasUnsignedTag enc ∧
          2 ^ 63 ≤ storedInteger enc
      · rw [if_pos b]; exact Or.inl ⟨_, rfl⟩
      · rw [if_neg b]; exact Or.inr ⟨_, rfl⟩
  · intro h1 h2
    rw [hb, if_neg (fun hh => h1 hh.1), if_neg (fun hh => h2 hh.1)]
    exact ⟨_, rfl⟩

/-- The int8 with the payload `0x80` is refused for an unsigned request. -/
theorem parseMsgPackInteger_fails_iff_witness :
    IsIntegerEncoding [0xd0, 0x80] ∧
    ∃ msg, parseMsgPackInteger ⟨0, 1, 2⟩ ([0xc0] ++ [0xd0, 0x80] ++ [0xc3]) 1 0 = .throw msg :=
  ⟨by decide,
    (parseMsgPackInteger_fails_iff ⟨0, 1, 2⟩ [0xc0] [0xd0, 0x80] [0xc3] 0 (by decide)).1.mpr
      (Or.inl ⟨rfl, by decide⟩)⟩

theorem integerEncoding_length (enc : List Nat) (h : IsIntegerEncoding enc) :
    enc.length = 1 ∨ enc.length = 2 ∨ enc.length = 3 ∨ enc.length = 5 ∨ enc.length = 9 := by
  obtain ⟨_, hlen⟩ := h
  cases enc with
  | nil => simp at hlen
  | cons first payload =>
    simp only [List.head?_cons, Option.some_bind, List.length_cons, Nat.add_sub_cancel] at hlen
    unfold integerPayloadLength at hlen
    rw [List.length_cons]
    split_ifs at hlen <;> simp at hlen <;> omega

/-- On a buffer that ends before the end of a complete encoding
`parseMsgPackInteger` throws. -/
theorem parseMsgPackInteger_truncated (W : MsgPackSigness) (pre enc : List Nat) (signess : Nat)
    (h : IsIntegerEncoding enc) (k : Nat) (hk : k < enc.length) :
    parseMsgPackInteger W (pre ++ enc.take k) pre.length signess =
      .throw "MsgPack: Can't parse integer value" := by
  obtain ⟨_, hlen⟩ := h
  cases enc with
  | nil => simp at hlen
  | cons first payload =>
    simp only [List.head?_cons, Option.some_bind, List.length_cons, Nat.add_sub_cancel] at hlen
    cases k with
    | zero =>
      rw [List.take_zero, List.append_nil, parseMsgPackInteger, if_pos (Nat.le_refl _)]; rfl
    | succ j =>
      rw [List.length_cons] at hk
      have hj : j < payload.length := by omega
      have hl : (pre ++ first :: payload.take j).length = pre.length + 1 + j := by
        simp only [List.length_append, List.length_cons, List.length_take]; omega
      rw [List.take_succ_cons, parseMsgPackInteger, if_neg (by rw [hl]; omega),
        arrayAt_append_zero, Res.ret_bind]
      unfold integerPayloadLength at hlen
      by_cases c0 : first < 0x80 ∨ (0xe0 ≤ first ∧ first < 0x100)
      · rw [if_pos c0] at hlen
        have : payload.length = 0 := by simpa using hlen.symm
        omega
      rw [if_neg c0] at hlen
      have c0a : ¬ first < 0x80 := fun hh => c0 (Or.inl hh)
      by_cases c1 : first ≥ 0xe0
      · have hf : first ≥ 0x100 := by
          by_contra hh
          exact c0 (Or.inr ⟨c1, by omega⟩)
        have hn : integerPayloadLength first = none := by
          unfold integerPayloadLength
          rw [if_neg c0, if_neg (by omega), if_neg (by omega), if_neg (by omega),
            if_neg (by omega)]
        unfold integerPayloadLength at hn
        rw [if_neg c0, hlen] at hn
        exact absurd hn (by simp)
      simp only [if_neg c0a, if_neg c1]
      by_cases c2 : first = 0xcc ∨ first = 0xd0
      · rw [if_pos c2] at hlen
        have hp : payload.length = 1 := by simpa using hlen.symm
        simp only [if_pos c2, hl]
        rw [if_pos (by omega)]; rfl
      rw [if_neg c2] at hlen
      simp only [if_neg c2]
      by_cases c3 : first = 0xcd ∨ first = 0xd1
      · rw [if_pos c3] at hlen
        have hp : payload.length = 2 := by simpa using hlen.symm
        simp only [if_pos c3, hl]
        rw [if_pos (by omega)]; rfl
      rw [if_neg c3] at hlen
      simp only [if_neg c3]
      by_cases c4 : first = 0xce ∨ first = 0xd2
      · rw [if_pos c4] at hlen
        have hp : payload.length = 4 := by simpa using hlen.symm
        simp only [if_pos c4, hl]
        rw [if_pos (by omega)]; rfl
      rw [if_neg c4] at hlen
      simp only [if_neg c4]
      by_cases c5 : first = 0xcf ∨ first = 0xd3
      · rw [if_pos c5] at hlen
        have hp : payload.length = 8 := by simpa using hlen.symm
        simp only [if_pos c5, hl]
        rw [if_pos (by omega)]; rfl
      rw [if_neg c5] at hlen
      exact absurd hlen (by simp)

/-- C23: for a complete MsgPack integer encoding `enc` (a fixint or one of the
tags of uint8 to uint64 and int8 to int64 with its payload of 1, 2, 4 or 8
bytes), wherever it stands in a buffer: when `parseMsgPackInteger` returns, the
value is the stored integer (the payload, most significant byte first, in the
width and signedness of the tag) in 64 bits, two's complement, and `dataPtr` has
advanced by the length of the encoding, which is 1, 2, 3, 5 or 9 bytes, and is
not beyond `dataEnd`; it returns for every request other than
`MSGPACK_WS_UNSIGNED` and `MSGPACK_WS_SIGNED`; and on a buffer that ends before
the end of the encoding the call throws. -/
theorem parseMsgPackInteger_value (W : MsgPackSigness) (pre enc post : List Nat)
    (signess : Nat) (h : IsIntegerEncoding enc) :
    (∀ (v dataPtr : Nat),
      parseMsgPackInteger W (pre ++ enc ++ post) pre.length signess = .ret (v, dataPtr) →
        v = (storedInteger enc % 2 ^ 64).toNat ∧ dataPtr = pre.length + enc.length ∧
        dataPtr ≤ (pre ++ enc ++ post).length) ∧
    (signess ≠ W.MSGPACK_WS_UNSIGNED → signess ≠ W.MSGPACK_WS_SIGNED →
      parseMsgPackInteger W (pre ++ enc ++ post) pre.length signess =
        .ret ((storedInteger enc % 2 ^ 64).toNat, pre.length + enc.length)) ∧
    (enc.length = 1 ∨ enc.length = 2 ∨ enc.length = 3 ∨ enc.length = 5 ∨ enc.length = 9) ∧
    (∀ k, k < enc.length →
      parseMsgPackInteger W (pre ++ enc.take k) pre.length signess =
        .throw "MsgPack: Can't parse integer value") := by
  have hs := parseMsgPackInteger_encoding W pre enc post signess h
  refine ⟨?_, ?_, integerEncoding_length enc h, parseMsgPackInteger_truncated W pre enc signess h⟩
  · intro v dataPtr hr
    rw [hs] at hr
    by_cases a : signess = W.MSGPACK_WS_UNSIGNED ∧ storedInteger enc < 0
    · rw [if_pos a] at hr; exact absurd hr (by simp)
    · rw [if_neg a] at hr
      by_cases b : signess = W.MSGPACK_WS_SIGNED ∧ hasUnsignedTag enc ∧
          2 ^ 63 ≤ storedInteger enc
      · rw [if_pos b] at hr; exact absurd hr (by simp)
      · rw [if_neg b] at hr
        have hi := Res.ret.inj hr
        have h1 : v = (storedInteger enc % 2 ^ 64).toNat := (congrArg Prod.fst hi).symm
        have h2 : dataPtr = pre.length + enc.length := (congrArg Prod.snd hi).symm
        refine ⟨h1, h2, ?_⟩
        rw [h2]
        simp only [List.length_append]
        omega
  · intro h1 h2
    rw [hs, if_neg (fun hh => h1 hh.1), if_neg (fun hh => h2 hh.1)]

/-- The int16 with the payload `ff fe`, the number -2, read with the request
`MSGPACK_WS_BOTH`. -/
theorem parseMsgPackInteger_value_witness :
    IsIntegerEncoding [0xd1, 0xff, 0xfe] ∧
    parseMsgPackInteger ⟨0, 1, 2⟩ ([0xc0] ++ [0xd1, 0xff, 0xfe] ++ [0xc3]) 1 2 =
      .ret (0xfffffffffffffffe, 4) ∧
    parseMsgPackInteger ⟨0, 1, 2⟩ ([0xc0] ++ [0xd1, 0xff]) 1 2 =
      .throw "MsgPack: Can't parse integer value" :=
  ⟨by decide,
    ((parseMsgPackInteger_value ⟨0, 1, 2⟩ [0xc0] [0xd1, 0xff, 0xfe] [0xc3] 2 (by decide)).2.1
      (by decide) (by decide)).trans (by decide),
    (parseMsgPackInteger_value ⟨0, 1, 2⟩ [0xc0] [0xd1, 0xff, 0xfe] [0xc3] 2 (by decide)).2.2.2
      2 (by decide)⟩


/-! ## C26: the alternation of keys and values in `MsgPackMapParser` -/

theorem Res.throw_bind {α β : Type} (m : String) (f : α → Res β) :
    ((Res.throw m : Res α) >>= f) = .throw m := rfl

/-- What `handleErrors` does in each state. -/
theorem MsgPackMapParser.handleErrors_eq (self : MsgPackMapParserObject) (key : Bool) :
    MsgPackMapParser.handleErrors self key =
      if self.count = 0 then .throw "MsgPack: No left element to parse"
      else if key = self.keyLeft then .ret ()
      else if key = true then .throw "MsgPack: Key already parsed"
      else .throw "MsgPack: This is not a value" := by
  unfold MsgPackMapParser.handleErrors
  by_cases h0 : self.count = 0
  · rw [if_pos h0, if_pos h0]; rfl
  · rw [if_neg h0, if_neg h0]
    cases key <;> cases hk : self.keyLeft <;> simp <;> rfl

/-- Every call of the parser begins with `handleErrors` for its kind: its
exception is the exception of the call. -/
theorem MsgPackMapParser.call_throw (W : MsgPackSigness) (fuel : Nat) (data : List Nat)
    (c : MsgPackMapCall) (dataPtr : Nat) (self : MsgPackMapParserObject) (msg : String)
    (h : MsgPackMapParser.handleErrors self c.isKey = .throw msg) :
    MsgPackMapParser.call W fuel data c dataPtr self = .throw msg := by
  cases c <;>
    simp only [MsgPackMapCall.isKey] at h <;>
    simp only [MsgPackMapParser.call, MsgPackMapParser.parseKeyNil,
      MsgPackMapParser.parseKeyBool, MsgPackMapParser.parseKeyInteger,
      MsgPackMapParser.parseKeyString, MsgPackMapParser.parseKeyData,
      MsgPackMapParser.parseKeyArray, MsgPackMapParser.parseKeyMap,
      MsgPackMapParser.parseValueNil, MsgPackMapParser.parseValueBool,
      MsgPackMapParser.parseValueInteger, MsgPackMapParser.parseValueString,
      MsgPackMapParser.parseValueData, MsgPackMapParser.parseValueArray,
      MsgPackMapParser.parseValueMap, MsgPackMapParser.skipValue, h, Res.throw_bind]

/-- A call that returns has passed `handleErrors` for its kind, and has changed
the parser in the way of its kind. -/
theorem MsgPackMapParser.call_ret (W : MsgPackSigness) (fuel : Nat) (data : List Nat)
    (c : MsgPackMapCall) (dataPtr : Nat) (self : MsgPackMapParserObject) (q : Nat)
    (self1 : MsgPackMapParserObject)
    (h : MsgPackMapParser.call W fuel data c dataPtr self = .ret (q, self1)) :
    MsgPackMapParser.handleErrors self c.isKey = .ret () ∧
      self1 = if c.isKey = true then ⟨self.count, false⟩ else ⟨self.count - 1, true⟩ := by
  cases c <;>
    simp only [MsgPackMapParser.call, MsgPackMapParser.parseKeyNil,
      MsgPackMapParser.parseKeyBool, MsgPackMapParser.parseKeyInteger,
      MsgPackMapParser.parseKeyString, MsgPackMapParser.parseKeyData,
      MsgPackMapParser.parseKeyArray, MsgPackMapParser.parseKeyMap,
      MsgPackMapParser.parseValueNil, MsgPackMapParser.parseValueBool,
      MsgPackMapParser.parseValueInteger, MsgPackMapParser.parseValueString,
      MsgPackMapParser.parseValueData, MsgPackMapParser.parseValueArray,
      MsgPackMapParser.parseValueMap, MsgPackMapParser.skipValue, Res.bind_eq_ret] at h <;>
    simp only [MsgPackMapCall.isKey] <;>
    first
    | (obtain ⟨_, h1, _, _, h3⟩ := h
       have h5 := Res.ret.inj h3
       refine ⟨h1, ?_⟩
       first | rw [if_pos True.intro] | rw [if_neg Bool.false_ne_true]
       exact (congrArg Prod.snd h5).symm)
    | (obtain ⟨a, ⟨_, h1, _, _, h3⟩, h4⟩ := h
       have h5 := Res.ret.inj h3
       have h6 := Res.ret.inj h4
       rw [← h5] at h6
       refine ⟨h1, ?_⟩
       first | rw [if_pos True.intro] | rw [if_neg Bool.false_ne_true]
       exact (congrArg Prod.snd h6).symm)

theorem MsgPackMapParser.handleErrors_ret (self : MsgPackMapParserObject) (key : Bool)
    (h : MsgPackMapParser.handleErrors self key = .ret ()) :
    self.count ≠ 0 ∧ key = self.keyLeft := by
  rw [MsgPackMapParser.handleErrors_eq] at h
  by_cases h0 : self.count = 0
  · rw [if_pos h0] at h; exact absurd h (by simp)
  · rw [if_neg h0] at h
    by_cases h1 : key = self.keyLeft
    · exact ⟨h0, h1⟩
    · rw [if_neg h1] at h
      by_cases h2 : key = true
      · rw [if_pos h2] at h; exact absurd h (by simp)
      · rw [if_neg h2] at h; exact absurd h (by simp)

/-- A sequence of calls that returns: each call has used up one of the calls
that the parser admits, two for each entry left, less one when the key of the
current entry is parsed; and keys and values alternate. -/
theorem MsgPackMapParser.calls_ret (W : MsgPackSigness) (fuel : Nat) (data : List Nat)
    (cs : List MsgPackMapCall) :
    ∀ (dataPtr : Nat) (self : MsgPackMapParserObject) (q : Nat)
      (self1 : MsgPackMapParserObject),
      MsgPackMapParser.calls W fuel data cs dataPtr self = .ret (q, self1) →
        (2 * self1.count - (if self1.keyLeft = true then 0 else 1)) + cs.length =
          2 * self.count - (if self.keyLeft = true then 0 else 1) ∧
        ((self.keyLeft = false → 0 < self.count) →
          (self1.keyLeft = false → 0 < self1.count)) ∧
        (self1.keyLeft = true ↔ (cs.length % 2 = 0 ↔ self.keyLeft = true)) ∧
        ∀ (i : Nat) (c : MsgPackMapCall), cs[i]? = some c →
          (c.isKey = true ↔ (i % 2 = 0 ↔ self.keyLeft = true)) := by
  induction cs with
  | nil =>
    intro dataPtr self q self1 h
    have h5 := Res.ret.inj h
    have h6 : self = self1 := congrArg Prod.snd h5
    subst h6
    refine ⟨rfl, fun hh => hh, by simp, fun i c hc => by simp at hc⟩
  | cons c rest ih =>
    intro dataPtr self q self1 h
    rw [MsgPackMapParser.calls, Res.bind_eq_ret] at h
    obtain ⟨r, hr, hrest⟩ := h
    obtain ⟨he, hs⟩ := MsgPackMapParser.call_ret W fuel data c dataPtr self r.1 r.2 hr
    obtain ⟨h0, hk⟩ := MsgPackMapParser.handleErrors_ret self c.isKey he
    obtain ⟨iA, iB, iD, iC⟩ := ih r.1 r.2 q self1 hrest
    rw [hs] at iA iB iD iC
    rw [List.length_cons]
    cases hkl : self.keyLeft <;> rw [hkl] at hk <;> rw [hk] at iA iB iD iC <;>
      simp only [Bool.false_eq_true, if_false, if_true] at iA iB iD iC ⊢
    · refine ⟨by omega, fun _ => iB (fun hh => absurd hh (by simp)), ?_, ?_⟩
      · rw [iD]; simp only [iff_true, iff_false]; omega
      · intro i c1 hc
        cases i with
        | zero =>
          simp only [List.getElem?_cons_zero, Option.some.injEq] at hc
          subst hc
          simp [hk]
        | succ j =>
          simp only [List.getElem?_cons_succ] at hc
          have := iC j c1 hc
          rw [this]; simp only [iff_true, iff_false]; omega
    · refine ⟨by omega, fun _ => iB (fun _ => by omega), ?_, ?_⟩
      · rw [iD]; simp only [iff_true, iff_false]; omega
      · intro i c1 hc
        cases i with
        | zero =>
          simp only [List.getElem?_cons_zero, Option.some.injEq] at hc
          subst hc
          simp [hk]
        | succ j =>
          simp only [List.getElem?_cons_succ] at hc
          have := iC j c1 hc
          rw [this]; simp only [iff_true, iff_false]; omega

theorem parseMsgPackNil_nil (pre post : List Nat) :
    parseMsgPackNil (pre ++ 0xc0 :: post) pre.length = .ret (pre.length + 1) := by
  rw [parseMsgPackNil, if_neg (by simp), arrayAt_append_zero, Res.ret_bind, if_neg (by simp)]
  rfl

/-- A parser with `n` entries left admits `n` pairs of a key and a value: here
on `n` pairs of nil objects. -/
theorem MsgPackMapParser.calls_nil_pairs (W : MsgPackSigness) (fuel : Nat) (post : List Nat)
    (n : Nat) : ∀ (pre : List Nat),
      MsgPackMapParser.calls W fuel (pre ++ (List.replicate (2 * n) 0xc0 ++ post))
        (List.replicate n [MsgPackMapCall.parseKeyNil, MsgPackMapCall.parseValueNil]).flatten
        pre.length ⟨n, true⟩ = .ret (pre.length + 2 * n, ⟨0, true⟩) := by
  induction n with
  | zero => intro pre; rfl
  | succ n ih =>
    intro pre
    have e : pre ++ (List.replicate (2 * (n + 1)) 0xc0 ++ post) =
        pre ++ 0xc0 :: ([0xc0] ++ (List.replicate (2 * n) 0xc0 ++ post)) := by
      rw [Nat.mul_succ, List.replicate_succ, List.replicate_succ]; simp
    have e1 : pre ++ 0xc0 :: ([0xc0] ++ (List.replicate (2 * n) 0xc0 ++ post)) =
        (pre ++ [0xc0]) ++ 0xc0 :: (List.replicate (2 * n) 0xc0 ++ post) := by simp
    have e2 : (pre ++ [0xc0]) ++ 0xc0 :: (List.replicate (2 * n) 0xc0 ++ post) =
        (pre ++ [0xc0, 0xc0]) ++ (List.replicate (2 * n) 0xc0 ++ post) := by simp
    have k1 := parseMsgPackNil_nil pre ([0xc0] ++ (List.replicate (2 * n) 0xc0 ++ post))
    have k2 := parseMsgPackNil_nil (pre ++ [0xc0]) (List.replicate (2 * n) 0xc0 ++ post)
    rw [List.length_append, List.length_singleton] at k2
    rw [← e1] at k2
    have k3 := ih (pre ++ [0xc0, 0xc0])
    rw [← e2, ← e1, List.length_append] at k3
    have k4 : pre.length + [0xc0, 0xc0].length = pre.length + 1 + 1 := rfl
    rw [k4] at k3
    rw [e, List.replicate_succ, List.flatten_cons]
    show MsgPackMapParser.calls W fuel _
      (MsgPackMapCall.parseKeyNil :: MsgPackMapCall.parseValueNil :: _) _ _ = _
    rw [MsgPackMapParser.calls, MsgPackMapParser.call, MsgPackMapParser.parseKeyNil,
      MsgPackMapParser.handleErrors_eq, if_neg (Nat.succ_ne_zero n), if_pos rfl, Res.ret_bind,
      k1, Res.ret_bind, Res.pure_bind]
    rw [MsgPackMapParser.calls, MsgPackMapParser.call, MsgPackMapParser.parseValueNil,
      MsgPackMapParser.handleErrors_eq, if_neg (Nat.succ_ne_zero n), if_pos rfl, Res.ret_bind,
      k2, Res.ret_bind, Res.pure_bind]
    simp only [Nat.add_sub_cancel]
    show MsgPackMapParser.calls W fuel _
      (List.replicate n [MsgPackMapCall.parseKeyNil, MsgPackMapCall.parseValueNil]).flatten
      _ _ = _
    rw [k3]
    exact congrArg Res.ret (Prod.ext (by simp only []; omega) rfl)

theorem MsgPackMapParser_fixmap (pre post : List Nat) (n : Nat) (h : n < 16) :
    MsgPackMapParser (pre ++ (0x80 + n) :: post) pre.length = .ret (⟨n, true⟩, pre.length + 1) := by
  rw [MsgPackMapParser, if_neg (by simp), arrayAt_append_zero, Res.ret_bind,
    if_pos (fixmap_bits n h).2.2.1, (fixmap_bits n h).2.2.2]
  rfl

theorem MsgPackMapParser_map16 (pre post : List Nat) (n : Nat) (h : n < 0x10000) :
    MsgPackMapParser (pre ++ 0xde :: n / 256 :: n % 256 :: post) pre.length =
      .ret (⟨n, true⟩, pre.length + 3) := by
  have a1 : arrayAt (pre ++ 0xde :: n / 256 :: n % 256 :: post) (pre.length + 1) =
      .ret (n / 256) := by
    rw [arrayAt_append_right]; simp [arrayAt]
  have a2 : arrayAt (pre ++ 0xde :: n / 256 :: n % 256 :: post) (pre.length + 1 + 1) =
      .ret (n % 256) := by
    rw [Nat.add_assoc, arrayAt_append_right]; simp [arrayAt]
  have hl : (pre ++ 0xde :: n / 256 :: n % 256 :: post).length = pre.length + 3 + post.length := by
    simp only [List.length_append, List.length_cons]; omega
  rw [MsgPackMapParser, if_neg (by simp), arrayAt_append_zero, Res.ret_bind]
  simp +decide only [if_false, if_true, hl, a1, a2, Res.ret_bind]
  rw [if_neg (by omega), bigEndian16_or n h]
  rfl

theorem MsgPackMapParser_map32 (pre post : List Nat) (n : Nat) (h : n < 0x100000000) :
    MsgPackMapParser (pre ++ 0xdf :: (bigEndian32 n ++ post)) pre.length =
      .ret (⟨n, true⟩, pre.length + 5) := by
  have hl : (pre ++ 0xdf :: (bigEndian32 n ++ post)).length = pre.length + 5 + post.length := by
    simp only [List.length_append, List.length_cons, bigEndian32_length]; omega
  have e3 : pre ++ 0xdf :: (bigEndian32 n ++ post) = (pre ++ [0xdf]) ++ (bigEndian32 n ++ post) := by
    simp
  have hb : parseMsgPackBytes (pre ++ 0xdf :: (bigEndian32 n ++ post)) 4 (pre.length + 1) 0 =
      .ret n := by
    have := parseMsgPackBytes_bigEndian32 (pre ++ [0xdf]) n post h
    rw [List.length_append, List.length_singleton] at this
    rw [e3]; exact this
  rw [MsgPackMapParser, if_neg (by simp), arrayAt_append_zero, Res.ret_bind]
  simp +decide only [if_false, if_true, hl, hb, Res.ret_bind]
  rw [if_neg (by omega)]
  rfl

/-- C26: `MsgPackMapParser` is a state machine over `count` and `keyLeft`.  In
every state a `parseKey*` call throws when `keyLeft` is false, a `parseValue*`
or `skipValue` call throws when `keyLeft` is true, and every call throws when
`count` is 0; a call that returns has only set `keyLeft` to false when it
parses a key, and has set `keyLeft` to true and decremented `count` when it
parses or skips a value.  The constructor on the header of a map of `n` entries
(fixmap, map16, map32) gives `count = n` and `keyLeft = true`; a sequence of
calls that returns from there has at most `2 * n` calls, keys at the even
places and values at the odd ones, and leaves `count = n - length / 2`; and `n`
pairs of a key and a value are admitted, here on `n` pairs of nil objects. -/
theorem MsgPackMapParser_alternation (W : MsgPackSigness) (fuel : Nat) (data : List Nat) :
    (∀ (c : MsgPackMapCall) (dataPtr : Nat) (self : MsgPackMapParserObject),
      (c.isKey = true → self.keyLeft = false →
        ∃ msg, MsgPackMapParser.call W fuel data c dataPtr self = .throw msg) ∧
      (c.isKey = false → self.keyLeft = true →
        ∃ msg, MsgPackMapParser.call W fuel data c dataPtr self = .throw msg) ∧
      (self.count = 0 → MsgPackMapParser.call W fuel data c dataPtr self =
        .throw "MsgPack: No left element to parse") ∧
      (∀ (q : Nat) (self1 : MsgPackMapParserObject),
        MsgPackMapParser.call W fuel data c dataPtr self = .ret (q, self1) →
          0 < self.count ∧ c.isKey = self.keyLeft ∧
          self1 = if c.isKey = true then ⟨self.count, false⟩ else ⟨self.count - 1, true⟩)) ∧
    (∀ (n : Nat) (pre post : List Nat),
      (n < 16 → MsgPackMapParser (pre ++ (0x80 + n) :: post) pre.length =
        .ret (⟨n, true⟩, pre.length + 1)) ∧
      (n < 0x10000 → MsgPackMapParser (pre ++ 0xde :: n / 256 :: n % 256 :: post) pre.length =
        .ret (⟨n, true⟩, pre.length + 3)) ∧
      (n < 0x100000000 → MsgPackMapParser (pre ++ 0xdf :: (bigEndian32 n ++ post)) pre.length =
        .ret (⟨n, true⟩, pre.length + 5))) ∧
    (∀ (n : Nat) (cs : List MsgPackMapCall) (dataPtr q : Nat) (self1 : MsgPackMapParserObject),
      MsgPackMapParser.calls W fuel data cs dataPtr ⟨n, true⟩ = .ret (q, self1) →
        cs.length ≤ 2 * n ∧ self1 = ⟨n - cs.length / 2, decide (cs.length % 2 = 0)⟩ ∧
        ∀ (i : Nat) (c : MsgPackMapCall), cs[i]? = some c → (c.isKey = true ↔ i % 2 = 0)) ∧
    (∀ (n : Nat) (pre post : List Nat),
      MsgPackMapParser.calls W fuel (pre ++ (List.replicate (2 * n) 0xc0 ++ post))
        (List.replicate n [MsgPackMapCall.parseKeyNil, MsgPackMapCall.parseValueNil]).flatten
        pre.length ⟨n, true⟩ = .ret (pre.length + 2 * n, ⟨0, true⟩)) := by
  refine ⟨fun c dataPtr self => ⟨?_, ?_, ?_, ?_⟩, fun n pre post => ⟨?_, ?_, ?_⟩, ?_, ?_⟩
  · intro hc hk
    have he := MsgPackMapParser.handleErrors_eq self c.isKey
    rw [hc, hk] at he
    by_cases h0 : self.count = 0
    · rw [if_pos h0] at he
      exact ⟨_, MsgPackMapParser.call_throw W fuel data c dataPtr self _ (hc ▸ he)⟩
    · rw [if_neg h0, if_neg (by decide), if_pos rfl] at he
      exact ⟨_, MsgPackMapParser.call_throw W fuel data c dataPtr self _ (hc ▸ he)⟩
  · intro hc hk
    have he := MsgPackMapParser.handleErrors_eq self c.isKey
    rw [hc, hk] at he
    by_cases h0 : self.count = 0
    · rw [if_pos h0] at he
      exact ⟨_, MsgPackMapParser.call_throw W fuel data c dataPtr self _ (hc ▸ he)⟩
    · rw [if_neg h0, if_neg (by decide), if_neg (by decide)] at he
      exact ⟨_, MsgPackMapParser.call_throw W fuel data c dataPtr self _ (hc ▸ he)⟩
  · intro h0
    have he := MsgPackMapParser.handleErrors_eq self c.isKey
    rw [if_pos h0] at he
    exact MsgPackMapParser.call_throw W fuel data c dataPtr self _ he
  · intro q self1 hr
    obtain ⟨he, hs⟩ := MsgPackMapParser.call_ret W fuel data c dataPtr self q self1 hr
    obtain ⟨h0, hk⟩ := MsgPackMapParser.handleErrors_ret self c.isKey he
    exact ⟨Nat.pos_of_ne_zero h0, hk, hs⟩
  · exact MsgPackMapParser_fixmap pre post n
  · exact MsgPackMapParser_map16 pre post n
  · exact MsgPackMapParser_map32 pre post n
  · intro n cs dataPtr q self1 hr
    obtain ⟨iA, iB, iD, iC⟩ := MsgPackMapParser.calls_ret W fuel data cs dataPtr ⟨n, true⟩ q
      self1 hr
    simp only [if_true, Nat.sub_zero, iff_true] at iA iD iC
    have iB1 := iB (fun hh => absurd hh (by simp))
    refine ⟨by omega, ?_, iC⟩
    obtain ⟨c1, k1⟩ := self1
    simp only at iA iB1 iD
    cases k1
    · have hpos := iB1 rfl
      have hodd : ¬ cs.length % 2 = 0 := fun hh => absurd (iD.mpr hh) (by simp)
      simp only [Bool.false_eq_true, if_false] at iA
      rw [decide_eq_false hodd]
      exact congrArg (fun c => MsgPackMapParserObject.mk c false) (by omega)
    · have heven : cs.length % 2 = 0 := iD.mp rfl
      simp only [if_true, Nat.sub_zero] at iA
      rw [decide_eq_true heven]
      exact congrArg (fun c => MsgPackMapParserObject.mk c true) (by omega)
  · exact fun n pre post => MsgPackMapParser.calls_nil_pairs W fuel post n pre

/-- A fixmap of two entries, nil to true and the string `A` to 1: the
constructor gives `count = 2`, the four calls in the order key, value, key,
value return with `count = 0`. -/
theorem MsgPackMapParser_alternation_witness :
    MsgPackMapParser [0x82, 0xc0, 0xc3, 0xa1, 65, 0x01] 0 = .ret (⟨2, true⟩, 1) ∧
    MsgPackMapParser.calls ⟨0, 1, 2⟩ 1 [0x82, 0xc0, 0xc3, 0xa1, 65, 0x01]
      [.parseKeyNil, .parseValueBool, .parseKeyString, .parseValueInteger 2] 1 ⟨2, true⟩ =
      .ret (6, ⟨0, true⟩) ∧
    [MsgPackMapCall.parseKeyNil, .parseValueBool, .parseKeyString,
      .parseValueInteger 2].length ≤ 2 * 2 :=
  ⟨by decide, by decide,
    ((MsgPackMapParser_alternation ⟨0, 1, 2⟩ 1 [0x82, 0xc0, 0xc3, 0xa1, 65, 0x01]).2.2.1 2
      [.parseKeyNil, .parseValueBool, .parseKeyString, .parseValueInteger 2] 1 6 ⟨0, true⟩
      (by decide)).1⟩

/-- On the same map a value before its key, two keys one after the other, and a
fifth call are refused. -/
theorem MsgPackMapParser_out_of_order :
    MsgPackMapParser.calls ⟨0, 1, 2⟩ 1 [0x82, 0xc0, 0xc3, 0xa1, 65, 0x01]
      [.parseValueNil] 1 ⟨2, true⟩ = .throw "MsgPack: This is not a value" ∧
    MsgPackMapParser.calls ⟨0, 1, 2⟩ 1 [0x82, 0xc0, 0xc3, 0xa1, 65, 0x01]
      [.parseKeyNil, .parseKeyBool] 1 ⟨2, true⟩ = .throw "MsgPack: Key already parsed" ∧
    MsgPackMapParser.calls ⟨0, 1, 2⟩ 1 [0x82, 0xc0, 0xc3, 0xa1, 65, 0x01]
      [.parseKeyNil, .parseValueBool, .parseKeyString, .parseValueInteger 2, .parseKeyNil]
      1 ⟨2, true⟩ = .throw "MsgPack: No left element to parse" := by
  decide


/-! ## The kernel descriptors in the golden code of the ROCm test -/

set_option maxRecDepth 100000 in
/-- The fields of the kernel descriptor, read little-endian from the golden
code of the ROCm test at the offsets that the spec lists, are the values of the
golden dump under `Config:` for both kernels, `kxx1` at 0 and `kxx2` at 512: so
`computePgmRsrc1 = 0x3c0000` and `debugPrivateSegmentBufferSgpr = 58298` for
`kxx1` and `callConvention = 0x1112234` for `kxx2`.  The bytes of the code
version are `01 00 00 00` at 0 and `00 00 00 00` at 4; the two numbers of the
line `amdCodeVersion` of the dump are both the major version. -/
theorem goldenCode_descriptors :
    goldenCode.length = 772 ∧
    printROCmOutputConfig goldenCode 0 = .ret (some goldenConfigKxx1) ∧
    printROCmOutputConfig goldenCode 512 = .ret (some goldenConfigKxx2) ∧
    loadLE goldenCode 48 4 = .ret 0x3c0000 ∧
    loadLE goldenCode 98 2 = .ret 58298 ∧
    loadLE goldenCode (512 + 104) 4 = .ret 0x1112234 ∧
    bytesAt goldenCode 0 4 = .ret [0x01, 0x00, 0x00, 0x00] ∧
    bytesAt goldenCode 4 4 = .ret [0x00, 0x00, 0x00, 0x00] ∧
    bytesAt goldenCode 512 4 = .ret [0x01, 0x00, 0x00, 0x00] ∧
    bytesAt goldenCode (512 + 4) 4 = .ret [0x00, 0x00, 0x00, 0x00] := by
  decide


/-! ## C29, C30: `find` and `upper_bound` of `DTree` -/

/-- The binary search of `upperBoundN` ends at 0 when the key is below the first
key of every child. -/
theorem Node1.upperBoundLoop_below (n : Node1) (v : Nat)
    (hkeys : ∀ m, m < n.size → ∃ k, n.keyAt m = .ret k ∧ v < k) :
    ∀ (fuel r : Nat), r ≤ fuel → r ≤ n.size → n.upperBoundLoop v (fuel + 1) 0 r = .ret 0 := by
  intro fuel
  induction fuel with
  | zero =>
    intro r hr _
    rw [Node1.upperBoundLoop, if_neg (by omega)]; rfl
  | succ fuel ih =>
    intro r hr hs
    rw [Node1.upperBoundLoop]
    by_cases h1 : 0 + 1 < r
    · have hm : (0 + r) >>> 1 < r := by
        rw [Nat.zero_add, Nat.shiftRight_eq_div_pow]; omega
      obtain ⟨k, hk, hlt⟩ := hkeys ((0 + r) >>> 1) (by omega)
      rw [if_pos h1]
      simp only [hk, Res.ret_bind, if_pos hlt]
      exact ih _ (by omega) (by omega)
    · rw [if_neg h1]; rfl

theorem Node1.upperBoundN_below (n : Node1) (v : Nat)
    (hkeys : ∀ m, m < n.size → ∃ k, n.keyAt m = .ret k ∧ v < k) :
    n.upperBoundN v = .ret 0 := by
  rw [Node1.upperBoundN]
  by_cases h0 : n.size = 0
  · rw [if_pos h0]; rfl
  · rw [if_neg h0, Node1.upperBoundLoop_below n v hkeys n.size n.size (Nat.le_refl _)
      (Nat.le_refl _), Res.ret_bind]
    obtain ⟨k, hk, hlt⟩ := hkeys 0 (Nat.pos_of_ne_zero h0)
    rw [hk, Res.ret_bind, if_neg (not_not.mpr hlt)]
    rfl

/-- C29 (the code departs from the claim): in a tree whose root is a `Node1`,
for a key that is below the first key of every child of the root, and so below
every element, `find` returns `begin()`, the iterator to the first element: the
`return begin()` of the search for the child is the one of `lower_boundInt`. -/
theorem DTree_find_below_first (fuel : Nat) (t : DTree) (n : Node1) (key : Nat)
    (hroot : t.root = .n1 n)
    (hkeys : ∀ m, m < n.size → ∃ k, n.keyAt m = .ret k ∧ key < k) :
    t.find (fuel + 1) key = .ret t.begin := by
  have hu := Node1.upperBoundN_below n key hkeys
  unfold DTree.find DTree.findInt
  rw [hroot]
  simp only [descendNode2, hu]
  by_cases h2 : n.type = NODE2
  · simp only [if_pos h2, Res.ret_bind, if_true, Res.pure_bind]
    rfl
  · simp only [if_neg h2, Res.pure_bind, hu, Res.ret_bind, if_true]
    rfl

set_option maxRecDepth 100000 in
/-- The tree of the elements 10 to 27 and 40 to 57 is well-formed and does not
hold 5; `find(5)` returns the iterator to the element 10, and `end()` is
another iterator. -/
theorem DTree_find_below_first_witness :
    twoLeafTree.WellFormed 1 ∧ 5 ∉ twoLeafTree.elements 1 ∧
    twoLeafTree.find (0 + 1) 5 = .ret ⟨[0], 0⟩ ∧
    IterBase.deref twoLeafTree ⟨[0], 0⟩ = .ret 10 ∧
    twoLeafTree.end = .ret ⟨[1], 27⟩ :=
  ⟨by decide, by decide,
    DTree_find_below_first 0 twoLeafTree _ 5 rfl (fun m hm => by
      have h : m = 0 ∨ m = 1 := by
        have : m < 2 := hm
        omega
      rcases h with h | h <;> subst h
      · exact ⟨10, by decide, by decide⟩
      · exact ⟨40, by decide, by decide⟩),
    by decide, by decide⟩

set_option maxRecDepth 100000 in
/-- On the same tree `find` finds the elements of either child, and returns
`end()` for the keys 30 and 58, which are not stored, between the children and
above the last element; for 9 and 0 the result is `begin()` again. -/
theorem DTree_find_examples :
    twoLeafTree.find 1 10 = .ret ⟨[0], 0⟩ ∧ twoLeafTree.find 1 11 = .ret ⟨[0], 1⟩ ∧
    twoLeafTree.find 1 27 = .ret ⟨[0], 25⟩ ∧ twoLeafTree.find 1 45 = .ret ⟨[1], 7⟩ ∧
    twoLeafTree.find 1 30 = .ret ⟨[1], 27⟩ ∧ twoLeafTree.find 1 58 = .ret ⟨[1], 27⟩ ∧
    twoLeafTree.find 1 9 = .ret ⟨[0], 0⟩ ∧ twoLeafTree.find 1 0 = .ret ⟨[0], 0⟩ := by
  decide

/-- In a tree whose root is a `Node1`, `upper_boundInt` is `lower_boundInt`: the
search in the `Node0` calls `lower_bound` in both. -/
theorem DTree.upper_boundInt_eq_lower_boundInt (fuel : Nat) (t : DTree) (n : Node1)
    (key : Nat) (hroot : t.root = .n1 n) :
    t.upper_boundInt fuel key = t.lower_boundInt fuel key := by
  unfold DTree.upper_boundInt DTree.lower_boundInt
  rw [hroot]

set_option maxRecDepth 100000 in
/-- C30 (the code departs from the claim): on the well-formed tree of the
elements 10 to 27 and 40 to 57, `upper_bound(45)` returns the iterator to the
element 45 itself, as `lower_bound(45)` does; the first element that is greater
than 45 is 46, two places further. -/
theorem DTree_upper_bound_stored :
    twoLeafTree.WellFormed 1 ∧ 45 ∈ twoLeafTree.elements 1 ∧
    twoLeafTree.upper_bound 1 45 = .ret ⟨[1], 7⟩ ∧
    IterBase.deref twoLeafTree ⟨[1], 7⟩ = .ret 45 ∧
    twoLeafTree.lower_bound 1 45 = .ret ⟨[1], 7⟩ ∧
    IterBase.deref twoLeafTree ⟨[1], 9⟩ = .ret 46 := by
  decide

set_option maxRecDepth 100000 in
/-- For a key that is not stored the result of `upper_bound` on the same tree is
the first element above it, also across the end of a `Node0`, and `end()`
above the last element. -/
theorem DTree_upper_bound_examples :
    twoLeafTree.upper_bound 1 5 = .ret ⟨[0], 0⟩ ∧
    twoLeafTree.upper_bound 1 30 = .ret ⟨[1], 0⟩ ∧
    twoLeafTree.upper_bound 1 60 = .ret ⟨[1], 27⟩ ∧
    twoLeafTree.end = .ret ⟨[1], 27⟩ := by
  decide


/-! ## ROCm metadata: the loops of the parser -/

theorem ConsumesAll_append {π σ : Type} (parser : Nat → π)
    (body : List Nat → Nat → π → σ → Res (Nat × π × σ)) (l1 l2 : List (List Nat)) :
    ∀ (st st1 : σ), ConsumesAll parser body (l1 ++ l2) st st1 ↔
      ∃ st2, ConsumesAll parser body l1 st st2 ∧ ConsumesAll parser body l2 st2 st1 := by
  induction l1 with
  | nil =>
    intro st st1
    constructor
    · intro h; exact ⟨st, rfl, h⟩
    · rintro ⟨st2, h1, h2⟩
      have : st = st2 := h1
      subst this; exact h2
  | cons e rest ih =>
    intro st st1
    constructor
    · rintro ⟨s2, hc, hr⟩
      obtain ⟨s3, h1, h2⟩ := (ih s2 st1).mp hr
      exact ⟨s3, ⟨s2, hc, h1⟩, h2⟩
    · rintro ⟨s3, ⟨s2, hc, h1⟩, h2⟩
      exact ⟨s2, hc, (ih s2 st1).mpr ⟨s3, h1, h2⟩⟩

/-- An element that is consumed without a change of the state can be put at any
place of a sequence of elements. -/
theorem ConsumesAll_insert {π σ : Type} (parser : Nat → π)
    (body : List Nat → Nat → π → σ → Res (Nat × π × σ)) (elems : List (List Nat))
    (e : List Nat) (i : Nat) (st st1 : σ) (he : ∀ s, Consumes parser body e s s)
    (h : ConsumesAll parser body elems st st1) :
    ConsumesAll parser body (elems.take i ++ e :: elems.drop i) st st1 := by
  rw [← List.take_append_drop i elems] at h
  obtain ⟨s2, h1, h2⟩ := (ConsumesAll_append parser body _ _ st st1).mp h
  exact (ConsumesAll_append parser body _ _ st st1).mpr ⟨s2, h1, s2, he s2, h2⟩

/-- The loop over the elements of an array or a map whose elements the body
consumes one after the other. -/
theorem whileHaveElements_consumes {π σ : Type} (count : π → Nat) (parser : Nat → π)
    (body : List Nat → Nat → π → σ → Res (Nat × π × σ)) (hcount : ∀ k, count (parser k) = k)
    (elems : List (List Nat)) :
    ∀ (st st1 : σ) (pre post : List Nat), ConsumesAll parser body elems st st1 →
      whileHaveElements count body (pre ++ elems.flatten ++ post) elems.length pre.length
        (parser elems.length) st =
        .ret (pre.length + elems.flatten.length, parser 0, st1) := by
  induction elems with
  | nil =>
    intro st st1 pre post h
    have : st = st1 := h
    subst this
    rw [List.length_nil, whileHaveElements, hcount]
    rfl
  | cons e rest ih =>
    intro st st1 pre post h
    obtain ⟨s2, hc, hr⟩ := h
    have e1 : pre ++ (e :: rest).flatten ++ post = pre ++ e ++ (rest.flatten ++ post) := by
      simp [List.flatten_cons]
    have e2 : pre ++ e ++ (rest.flatten ++ post) = (pre ++ e) ++ rest.flatten ++ post := by
      simp
    have h1 := hc pre (rest.flatten ++ post) rest.length
    have h2 := ih s2 st1 (pre ++ e) post hr
    rw [← e2, List.length_append] at h2
    rw [List.length_cons, whileHaveElements, hcount, e1]
    simp only [haveElements, ne_eq, Nat.succ_ne_zero, not_false_eq_true, decide_True, if_true,
      h1, Res.ret_bind, h2]
    exact congrArg Res.ret (Prod.ext (by simp [List.flatten_cons]; omega) rfl)

theorem parseMsgPackString_header (pre key post hdr : List Nat)
    (h : IsStringHeader key.length hdr) :
    parseMsgPackString (pre ++ hdr ++ key ++ post) pre.length =
      .ret (key, pre.length + hdr.length + key.length) := by
  rcases h with ⟨h, rfl⟩ | ⟨_, rfl⟩ | ⟨h, rfl⟩ | ⟨h, rfl⟩
  · rw [parseMsgPackString_fixstr pre key post h]
    simp [Nat.add_assoc]; omega
  · rw [parseMsgPackString_str8 pre key post]
    simp [Nat.add_assoc]; omega
  · rw [parseMsgPackString_str16 pre key post h]
    simp [Nat.add_assoc]; omega
  · rw [parseMsgPackString_str32 pre key post h]
    simp [Nat.add_assoc, bigEndian32_length]; omega

theorem MsgPackMapParser_header (pre post hdr : List Nat) (n : Nat) (h : IsMapHeader n hdr) :
    MsgPackMapParser (pre ++ hdr ++ post) pre.length = .ret (mapParser n, pre.length + hdr.length) := by
  rcases h with ⟨h, rfl⟩ | ⟨h, rfl⟩ | ⟨h, rfl⟩
  · have := MsgPackMapParser_fixmap pre post n h
    simpa using this
  · have := MsgPackMapParser_map16 pre post n h
    simpa using this
  · have := MsgPackMapParser_map32 pre post n h
    simpa [bigEndian32_length] using this

theorem MsgPackArrayParser_fixarray (pre post : List Nat) (n : Nat) (h : n < 16) :
    MsgPackArrayParser (pre ++ (0x90 + n) :: post) pre.length = .ret (⟨n⟩, pre.length + 1) := by
  rw [MsgPackArrayParser, if_neg (by simp), arrayAt_append_zero, Res.ret_bind,
    if_pos (fixarray_bits n h).2.1, (fixarray_bits n h).2.2]
  rfl

theorem MsgPackArrayParser_array16 (pre post : List Nat) (n : Nat) (h : n < 0x10000) :
    MsgPackArrayParser (pre ++ 0xdc :: n / 256 :: n % 256 :: post) pre.length =
      .ret (⟨n⟩, pre.length + 3) := by
  have a1 : arrayAt (pre ++ 0xdc :: n / 256 :: n % 256 :: post) (pre.length + 1) =
      .ret (n / 256) := by
    rw [arrayAt_append_right]; simp [arrayAt]
  have a2 : arrayAt (pre ++ 0xdc :: n / 256 :: n % 256 :: post) (pre.length + 1 + 1) =
      .ret (n % 256) := by
    rw [Nat.add_assoc, arrayAt_append_right]; simp [arrayAt]
  have hl : (pre ++ 0xdc :: n / 256 :: n % 256 :: post).length = pre.length + 3 + post.length := by
    simp only [List.length_append, List.length_cons]; omega
  rw [MsgPackArrayParser, if_neg (by simp), arrayAt_append_zero, Res.ret_bind]
  simp +decide only [if_false, if_true, hl, a1, a2, Res.ret_bind]
  rw [if_neg (by omega), bigEndian16_or n h]
  rfl

theorem MsgPackArrayParser_array32 (pre post : List Nat) (n : Nat) (h : n < 0x100000000) :
    MsgPackArrayParser (pre ++ 0xdd :: (bigEndian32 n ++ post)) pre.length =
      .ret (⟨n⟩, pre.length + 5) := by
  have hl : (pre ++ 0xdd :: (bigEndian32 n ++ post)).length = pre.length + 5 + post.length := by
    simp only [List.length_append, List.length_cons, bigEndian32_length]; omega
  have e3 : pre ++ 0xdd :: (bigEndian32 n ++ post) = (pre ++ [0xdd]) ++ (bigEndian32 n ++ post) := by
    simp
  have hb : parseMsgPackBytes (pre ++ 0xdd :: (bigEndian32 n ++ post)) 4 (pre.length + 1) 0 =
      .ret n := by
    have := parseMsgPackBytes_bigEndian32 (pre ++ [0xdd]) n post h
    rw [List.length_append, List.length_singleton] at this
    rw [e3]; exact this
  rw [MsgPackArrayParser, if_neg (by simp), arrayAt_append_zero, Res.ret_bind]
  simp +decide only [if_false, if_true, hl, hb, Res.ret_bind]
  rw [if_neg (by omega)]
  rfl

theorem MsgPackArrayParser_header (pre post hdr : List Nat) (n : Nat) (h : IsArrayHeader n hdr) :
    MsgPackArrayParser (pre ++ hdr ++ post) pre.length =
      .ret (arrayParser n, pre.length + hdr.length) := by
  rcases h with ⟨h, rfl⟩ | ⟨h, rfl⟩ | ⟨h, rfl⟩
  · have := MsgPackArrayParser_fixarray pre post n h
    simpa using this
  · have := MsgPackArrayParser_array16 pre post n h
    simpa using this
  · have := MsgPackArrayParser_array32 pre post n h
    simpa [bigEndian32_length] using this

theorem MsgPackMapParser.parseKeyString_header (pre key post hdr : List Nat) (k : Nat)
    (h : IsStringHeader key.length hdr) :
    MsgPackMapParser.parseKeyString (pre ++ hdr ++ key ++ post) pre.length (mapParser (k + 1)) =
      .ret (key, pre.length + hdr.length + key.length, ⟨k + 1, false⟩) := by
  rw [MsgPackMapParser.parseKeyString, MsgPackMapParser.handleErrors_eq, mapParser,
    if_neg (Nat.succ_ne_zero k), if_pos rfl, Res.ret_bind, parseMsgPackString_header _ _ _ _ h,
    Res.ret_bind]
  rfl

theorem MsgPackMapParser.parseValueString_header (pre s post hdr : List Nat) (k : Nat)
    (h : IsStringHeader s.length hdr) :
    MsgPackMapParser.parseValueString (pre ++ hdr ++ s ++ post) pre.length ⟨k + 1, false⟩ =
      .ret (s, pre.length + hdr.length + s.length, mapParser k) := by
  rw [MsgPackMapParser.parseValueString, MsgPackMapParser.handleErrors_eq,
    if_neg (Nat.succ_ne_zero k), if_pos rfl, Res.ret_bind, parseMsgPackString_header _ _ _ _ h,
    Res.ret_bind]
  rfl

theorem MsgPackMapParser.skipValue_object (fuel : Nat) (pre obj post : List Nat) (k : Nat)
    (h : MsgPackObject 0x80000000 obj) (hfuel : obj.length ≤ fuel) :
    MsgPackMapParser.skipValue fuel (pre ++ obj ++ post) pre.length ⟨k + 1, false⟩ =
      .ret (pre.length + obj.length, mapParser k) := by
  rw [MsgPackMapParser.skipValue, MsgPackMapParser.handleErrors_eq,
    if_neg (Nat.succ_ne_zero k), if_pos rfl, Res.ret_bind,
    skipMsgPackObject_wellFormed h fuel pre post hfuel, Res.ret_bind]
  rfl

theorem indexOf_of_not_mem {α : Type} [BEq α] [LawfulBEq α] (a : α) (l : List α)
    (h : a ∉ l) : l.indexOf a = l.length := by
  induction l with
  | nil => rfl
  | cons b rest ih =>
    have hb : (b == a) = false := by
      rw [beq_eq_false_iff_ne]
      exact fun hh => h (hh ▸ List.mem_cons_self _ _)
    rw [List.indexOf_cons, hb, cond_false, ih (fun hh => h (List.mem_cons_of_mem _ hh)),
      List.length_cons]

theorem binaryFindCStr_unknown (names : List String) (key : List Nat)
    (h : cstr key ∉ names.map bytesOf) : binaryFindCStr names key = names.length := by
  rw [binaryFindCStr, indexOf_of_not_mem _ _ h, List.length_map]

/-- An entry with an unknown key in an argument map is consumed, and `argInfo`
stays as it is. -/
theorem parseROCmMetadataKernelArgEntry_unknown (W : MsgPackSigness) (fuel : Nat)
    (entry : List Nat) (h : UnknownEntry rocmMetadataMPKernelArgNames entry)
    (hfuel : entry.length ≤ fuel) (argInfo : ROCmKernelArgInfo) :
    Consumes mapParser (parseROCmMetadataKernelArgEntry W fuel) entry argInfo argInfo := by
  obtain ⟨hdr, key, obj, rfl, hh, hk, ho⟩ := h
  intro pre post k
  have e1 : pre ++ (hdr ++ key ++ obj) ++ post = pre ++ hdr ++ key ++ (obj ++ post) := by simp
  have e2 : pre ++ hdr ++ key ++ (obj ++ post) = (pre ++ hdr ++ key) ++ obj ++ post := by simp
  have hs := MsgPackMapParser.skipValue_object fuel (pre ++ hdr ++ key) obj post k ho
    (by simp only [List.length_append] at hfuel; omega)
  rw [← e2] at hs
  have hi := binaryFindCStr_unknown _ key hk
  have hi14 : binaryFindCStr rocmMetadataMPKernelArgNames key = 14 := hi
  rw [e1, parseROCmMetadataKernelArgEntry,
    MsgPackMapParser.parseKeyString_header pre key (obj ++ post) hdr k hh, Res.ret_bind]
  simp +decide only [hi14, if_false]
  simp only [List.length_append] at hs
  rw [hs, Res.ret_bind]
  exact congrArg Res.ret (Prod.ext (by simp only [List.length_append]; omega) rfl)

/-- An entry with an unknown key in a kernel map is consumed, and `kernel`
stays as it is. -/
theorem parseROCmMetadataKernelEntry_unknown (W : MsgPackSigness) (fuel : Nat)
    (entry : List Nat) (h : UnknownEntry rocmMetadataMPKernelNames entry)
    (hfuel : entry.length ≤ fuel) (kernel : ROCmKernelMetadata) :
    Consumes mapParser (parseROCmMetadataKernelEntry W fuel) entry kernel kernel := by
  obtain ⟨hdr, key, obj, rfl, hh, hk, ho⟩ := h
  intro pre post k
  have e1 : pre ++ (hdr ++ key ++ obj) ++ post = pre ++ hdr ++ key ++ (obj ++ post) := by simp
  have e2 : pre ++ hdr ++ key ++ (obj ++ post) = (pre ++ hdr ++ key) ++ obj ++ post := by simp
  have hs := MsgPackMapParser.skipValue_object fuel (pre ++ hdr ++ key) obj post k ho
    (by simp only [List.length_append] at hfuel; omega)
  rw [← e2] at hs
  have hi := binaryFindCStr_unknown _ key hk
  have hi19 : binaryFindCStr rocmMetadataMPKernelNames key = 19 := hi
  rw [e1, parseROCmMetadataKernelEntry,
    MsgPackMapParser.parseKeyString_header pre key (obj ++ post) hdr k hh, Res.ret_bind]
  simp +decide only [hi19, if_false]
  simp only [List.length_append] at hs
  rw [hs, Res.ret_bind]
  exact congrArg Res.ret (Prod.ext (by simp only [List.length_append]; omega) rfl)

/-- An entry with an unknown key in the root map is consumed, and
`metadataInfo` stays as it is. -/
theorem parseROCmMetadataEntry_unknown (W : MsgPackSigness) (H : ROCmMetadataHelpers)
    (fuel : Nat) (entry : List Nat) (h : UnknownEntry rocmMetadataMPNames entry)
    (hfuel : entry.length ≤ fuel) (metadataInfo : ROCmMetadata) :
    Consumes mapParser (parseROCmMetadataEntry W H fuel) entry metadataInfo metadataInfo := by
  obtain ⟨hdr, key, obj, rfl, hh, hk, ho⟩ := h
  intro pre post k
  have e1 : pre ++ (hdr ++ key ++ obj) ++ post = pre ++ hdr ++ key ++ (obj ++ post) := by simp
  have e2 : pre ++ hdr ++ key ++ (obj ++ post) = (pre ++ hdr ++ key) ++ obj ++ post := by simp
  have hs := MsgPackMapParser.skipValue_object fuel (pre ++ hdr ++ key) obj post k ho
    (by simp only [List.length_append] at hfuel; omega)
  rw [← e2] at hs
  have h1 : ¬ cstr key = bytesOf "amdhsa.version" := fun hh => hk (by rw [hh]; decide)
  have h2 : ¬ cstr key = bytesOf "amdhsa.kernels" := fun hh => hk (by rw [hh]; decide)
  have h3 : ¬ cstr key = bytesOf "amdhsa.printf" := fun hh => hk (by rw [hh]; decide)
  rw [e1, parseROCmMetadataEntry,
    MsgPackMapParser.parseKeyString_header pre key (obj ++ post) hdr k hh, Res.ret_bind]
  simp only [if_neg h1, if_neg h2, if_neg h3]
  simp only [List.length_append] at hs
  rw [hs, Res.ret_bind]
  exact congrArg Res.ret (Prod.ext (by simp only [List.length_append]; omega) rfl)

theorem MsgPackArrayParser.parseMap_header (pre post hdr : List Nat) (n k : Nat)
    (h : IsMapHeader n hdr) :
    MsgPackArrayParser.parseMap (pre ++ hdr ++ post) pre.length (arrayParser (k + 1)) =
      .ret (mapParser n, pre.length + hdr.length, arrayParser k) := by
  rw [MsgPackArrayParser.parseMap, MsgPackArrayParser.handleErrors, arrayParser,
    if_neg (Nat.succ_ne_zero k), Res.pure_bind, MsgPackMapParser_header pre post hdr n h,
    Res.ret_bind]
  rfl

theorem MsgPackMapParser.parseValueArray_header (pre post hdr : List Nat) (n k : Nat)
    (h : IsArrayHeader n hdr) :
    MsgPackMapParser.parseValueArray (pre ++ hdr ++ post) pre.length ⟨k + 1, false⟩ =
      .ret (arrayParser n, pre.length + hdr.length, mapParser k) := by
  rw [MsgPackMapParser.parseValueArray, MsgPackMapParser.handleErrors_eq,
    if_neg (Nat.succ_ne_zero k), if_pos rfl, Res.ret_bind,
    MsgPackArrayParser_header pre post hdr n h, Res.ret_bind]
  rfl

/-- A map of entries that the body of the loop of
`parseROCmMetadataKernelArgMsgPack` consumes is an element that the loop over
the arguments of a kernel consumes. -/
theorem parseROCmMetadataKernelArgsEntry_map (W : MsgPackSigness) (fuel : Nat)
    (hdr : List Nat) (entries : List (List Nat)) (arg : ROCmKernelArgInfo)
    (argInfos : List ROCmKernelArgInfo) (hh : IsMapHeader entries.length hdr)
    (hc : ConsumesAll mapParser (parseROCmMetadataKernelArgEntry W fuel) entries
      ROCmKernelArgInfo.zero arg) :
    Consumes arrayParser (parseROCmMetadataKernelArgsEntry W fuel) (hdr ++ entries.flatten)
      argInfos (argInfos ++ [arg]) := by
  intro pre post k
  have e1 : pre ++ (hdr ++ entries.flatten) ++ post = pre ++ hdr ++ (entries.flatten ++ post) := by
    simp
  have e2 : pre ++ hdr ++ (entries.flatten ++ post) = (pre ++ hdr) ++ entries.flatten ++ post := by
    simp
  have hl := whileHaveElements_consumes MsgPackMapParserObject.count mapParser
    (parseROCmMetadataKernelArgEntry W fuel) (fun _ => rfl) entries _ _ (pre ++ hdr) post hc
  rw [← e2, List.length_append] at hl
  rw [e1, parseROCmMetadataKernelArgsEntry, parseROCmMetadataKernelArgMsgPack,
    MsgPackArrayParser.parseMap_header pre _ hdr entries.length k hh, Res.ret_bind]
  simp only [mapParser] at hl ⊢
  rw [hl]
  exact congrArg Res.ret (Prod.ext (by simp only [List.length_append]; omega) rfl)

/-- A map of entries that the body of the loop of
`parseROCmMetadataKernelMsgPack` consumes is an element that the loop over the
kernels consumes. -/
theorem parseROCmMetadataKernelsEntry_map (W : MsgPackSigness) (H : ROCmMetadataHelpers)
    (fuel : Nat) (hdr : List Nat) (entries : List (List Nat)) (kernel : ROCmKernelMetadata)
    (kernels : List ROCmKernelMetadata) (hh : IsMapHeader entries.length hdr)
    (hc : ConsumesAll mapParser (parseROCmMetadataKernelEntry W fuel) entries
      (H.kernelInitialize ROCmKernelMetadata.zero) kernel) :
    Consumes arrayParser (parseROCmMetadataKernelsEntry W H fuel) (hdr ++ entries.flatten)
      kernels (kernels ++ [kernel]) := by
  intro pre post k
  have e1 : pre ++ (hdr ++ entries.flatten) ++ post = pre ++ hdr ++ (entries.flatten ++ post) := by
    simp
  have e2 : pre ++ hdr ++ (entries.flatten ++ post) = (pre ++ hdr) ++ entries.flatten ++ post := by
    simp
  have hl := whileHaveElements_consumes MsgPackMapParserObject.count mapParser
    (parseROCmMetadataKernelEntry W fuel) (fun _ => rfl) entries _ _ (pre ++ hdr) post hc
  rw [← e2, List.length_append] at hl
  rw [e1, parseROCmMetadataKernelsEntry, parseROCmMetadataKernelMsgPack,
    MsgPackArrayParser.parseMap_header pre _ hdr entries.length k hh, Res.ret_bind]
  simp only [mapParser] at hl ⊢
  rw [hl]
  exact congrArg Res.ret (Prod.ext (by simp only [List.length_append]; omega) rfl)

/-- The entry `.args` of a kernel map, with an array of argument maps that the
loop over the arguments consumes. -/
theorem parseROCmMetadataKernelEntry_args (W : MsgPackSigness) (fuel : Nat)
    (keyHdr arrayHdr : List Nat) (argMaps : List (List Nat)) (kernel : ROCmKernelMetadata)
    (argInfos : List ROCmKernelArgInfo) (hk : IsStringHeader 5 keyHdr)
    (ha : IsArrayHeader argMaps.length arrayHdr)
    (hc : ConsumesAll arrayParser (parseROCmMetadataKernelArgsEntry W fuel) argMaps
      kernel.argInfos argInfos) :
    Consumes mapParser (parseROCmMetadataKernelEntry W fuel)
      (keyHdr ++ bytesOf ".args" ++ (arrayHdr ++ argMaps.flatten)) kernel
      { kernel with argInfos := argInfos } := by
  intro pre post k
  have e1 : pre ++ (keyHdr ++ bytesOf ".args" ++ (arrayHdr ++ argMaps.flatten)) ++ post =
      pre ++ keyHdr ++ bytesOf ".args" ++ (arrayHdr ++ (argMaps.flatten ++ post)) := by simp
  have e2 : pre ++ keyHdr ++ bytesOf ".args" ++ (arrayHdr ++ (argMaps.flatten ++ post)) =
      (pre ++ keyHdr ++ bytesOf ".args") ++ arrayHdr ++ (argMaps.flatten ++ post) := by simp
  have e3 : (pre ++ keyHdr ++ bytesOf ".args") ++ arrayHdr ++ (argMaps.flatten ++ post) =
      (pre ++ keyHdr ++ bytesOf ".args" ++ arrayHdr) ++ argMaps.flatten ++ post := by simp
  have hkey := MsgPackMapParser.parseKeyString_header pre (bytesOf ".args")
    (arrayHdr ++ (argMaps.flatten ++ post)) keyHdr k hk
  have harr := MsgPackMapParser.parseValueArray_header (pre ++ keyHdr ++ bytesOf ".args")
    (argMaps.flatten ++ post) arrayHdr argMaps.length k ha
  have hl := whileHaveElements_consumes MsgPackArrayParserObject.count arrayParser
    (parseROCmMetadataKernelArgsEntry W fuel) (fun _ => rfl) argMaps _ _
    (pre ++ keyHdr ++ bytesOf ".args" ++ arrayHdr) post hc
  rw [← e3] at hl
  rw [← e2] at harr hl
  have hi : binaryFindCStr rocmMetadataMPKernelNames (bytesOf ".args") = 0 := by decide
  rw [e1, parseROCmMetadataKernelEntry, hkey, Res.ret_bind]
  simp only [hi, if_true]
  simp only [List.length_append] at harr hl ⊢
  simp only [harr, Res.ret_bind, arrayParser] at hl ⊢
  rw [hl]
  exact congrArg Res.ret (Prod.ext (by simp only []; omega) rfl)

/-- The entry `amdhsa.kernels` of the root map, with an array of kernel maps
that the loop over the kernels consumes. -/
theorem parseROCmMetadataEntry_kernels (W : MsgPackSigness) (H : ROCmMetadataHelpers)
    (fuel : Nat) (keyHdr arrayHdr : List Nat) (kernelMaps : List (List Nat))
    (metadataInfo : ROCmMetadata) (kernels : List ROCmKernelMetadata)
    (hk : IsStringHeader 14 keyHdr) (ha : IsArrayHeader kernelMaps.length arrayHdr)
    (hc : ConsumesAll arrayParser (parseROCmMetadataKernelsEntry W H fuel) kernelMaps
      metadataInfo.kernels kernels) :
    Consumes mapParser (parseROCmMetadataEntry W H fuel)
      (keyHdr ++ bytesOf "amdhsa.kernels" ++ (arrayHdr ++ kernelMaps.flatten)) metadataInfo
      { metadataInfo with kernels := kernels } := by
  intro pre post k
  have e1 : pre ++ (keyHdr ++ bytesOf "amdhsa.kernels" ++ (arrayHdr ++ kernelMaps.flatten)) ++
      post = pre ++ keyHdr ++ bytesOf "amdhsa.kernels" ++
        (arrayHdr ++ (kernelMaps.flatten ++ post)) := by simp
  have e2 : pre ++ keyHdr ++ bytesOf "amdhsa.kernels" ++
      (arrayHdr ++ (kernelMaps.flatten ++ post)) =
      (pre ++ keyHdr ++ bytesOf "amdhsa.kernels") ++ arrayHdr ++
        (kernelMaps.flatten ++ post) := by simp
  have e3 : (pre ++ keyHdr ++ bytesOf "amdhsa.kernels") ++ arrayHdr ++
      (kernelMaps.flatten ++ post) =
      (pre ++ keyHdr ++ bytesOf "amdhsa.kernels" ++ arrayHdr) ++ kernelMaps.flatten ++ post := by
    simp
  have hkey := MsgPackMapParser.parseKeyString_header pre (bytesOf "amdhsa.kernels")
    (arrayHdr ++ (kernelMaps.flatten ++ post)) keyHdr k hk
  have harr := MsgPackMapParser.parseValueArray_header
    (pre ++ keyHdr ++ bytesOf "amdhsa.kernels") (kernelMaps.flatten ++ post) arrayHdr
    kernelMaps.length k ha
  have hl := whileHaveElements_consumes MsgPackArrayParserObject.count arrayParser
    (parseROCmMetadataKernelsEntry W H fuel) (fun _ => rfl) kernelMaps _ _
    (pre ++ keyHdr ++ bytesOf "amdhsa.kernels" ++ arrayHdr) post hc
  rw [← e3] at hl
  rw [← e2] at harr hl
  have h1 : ¬ cstr (bytesOf "amdhsa.kernels") = bytesOf "amdhsa.version" := by decide
  have h2 : cstr (bytesOf "amdhsa.kernels") = bytesOf "amdhsa.kernels" := by decide
  rw [e1, parseROCmMetadataEntry, hkey, Res.ret_bind]
  simp only [if_neg h1, if_pos h2]
  simp only [List.length_append] at harr hl ⊢
  simp only [harr, Res.ret_bind, arrayParser] at hl ⊢
  rw [hl]
  exact congrArg Res.ret (Prod.ext (by simp only []; omega) rfl)

/-- A root map of entries that the body of the loop of
`parseROCmMetadataMsgPack` consumes is parsed to the metadata that the entries
give. -/
theorem parseROCmMetadataMsgPack_entries (W : MsgPackSigness) (H : ROCmMetadataHelpers)
    (fuel : Nat) (hdr : List Nat) (entries : List (List Nat)) (post : List Nat)
    (metadataInfo : ROCmMetadata) (hh : IsMapHeader entries.length hdr)
    (hc : ConsumesAll mapParser (parseROCmMetadataEntry W H fuel) entries ⟨[0, 0], [], []⟩
      metadataInfo) :
    parseROCmMetadataMsgPack W H fuel (hdr ++ entries.flatten ++ post) = .ret metadataInfo := by
  have hm := MsgPackMapParser_header [] (entries.flatten ++ post) hdr entries.length hh
  have hl := whileHaveElements_consumes MsgPackMapParserObject.count mapParser
    (parseROCmMetadataEntry W H fuel) (fun _ => rfl) entries _ _ ([] ++ hdr) post hc
  have e1 : [] ++ hdr ++ (entries.flatten ++ post) = hdr ++ entries.flatten ++ post := by simp
  have e2 : [] ++ hdr ++ entries.flatten ++ post = hdr ++ entries.flatten ++ post := by simp
  rw [e1] at hm
  rw [e2] at hl
  simp only [List.length_nil, List.length_append, Nat.zero_add] at hm hl
  rw [parseROCmMetadataMsgPack, hm, Res.ret_bind]
  simp only [mapParser] at hl ⊢
  rw [hl]
  rfl

theorem insertEntry_length (entries : List (List Nat)) (i : Nat) (entry : List Nat) :
    (insertEntry entries i entry).length = entries.length + 1 := by
  simp only [insertEntry, List.length_append, List.length_cons, List.length_take,
    List.length_drop]
  omega

/-- A map with one more entry, of an unknown key, in an argument map: the loop
over the arguments consumes it with the same `ROCmKernelArgInfo`. -/
theorem parseROCmMetadataKernelArgsEntry_insert (W : MsgPackSigness) (fuel : Nat)
    (hdr1 : List Nat) (entries : List (List Nat)) (entry : List Nat) (i : Nat)
    (arg : ROCmKernelArgInfo) (argInfos : List ROCmKernelArgInfo)
    (hh : IsMapHeader (entries.length + 1) hdr1)
    (hc : ConsumesAll mapParser (parseROCmMetadataKernelArgEntry W fuel) entries
      ROCmKernelArgInfo.zero arg)
    (hu : UnknownEntry rocmMetadataMPKernelArgNames entry) (hfuel : entry.length ≤ fuel) :
    Consumes arrayParser (parseROCmMetadataKernelArgsEntry W fuel)
      (withHeader hdr1 (insertEntry entries i entry)) argInfos (argInfos ++ [arg]) :=
  parseROCmMetadataKernelArgsEntry_map W fuel hdr1 _ arg argInfos
    (by rw [insertEntry_length]; exact hh)
    (ConsumesAll_insert _ _ entries entry i _ _
      (parseROCmMetadataKernelArgEntry_unknown W fuel entry hu hfuel) hc)

/-- A map with one more entry, of an unknown key, in a kernel map: the loop over
the kernels consumes it with the same `ROCmKernelMetadata`. -/
theorem parseROCmMetadataKernelsEntry_insert (W : MsgPackSigness) (H : ROCmMetadataHelpers)
    (fuel : Nat) (hdr1 : List Nat) (entries : List (List Nat)) (entry : List Nat) (i : Nat)
    (kernel : ROCmKernelMetadata) (kernels : List ROCmKernelMetadata)
    (hh : IsMapHeader (entries.length + 1) hdr1)
    (hc : ConsumesAll mapParser (parseROCmMetadataKernelEntry W fuel) entries
      (H.kernelInitialize ROCmKernelMetadata.zero) kernel)
    (hu : UnknownEntry rocmMetadataMPKernelNames entry) (hfuel : entry.length ≤ fuel) :
    Consumes arrayParser (parseROCmMetadataKernelsEntry W H fuel)
      (withHeader hdr1 (insertEntry entries i entry)) kernels (kernels ++ [kernel]) :=
  parseROCmMetadataKernelsEntry_map W H fuel hdr1 _ kernel kernels
    (by rw [insertEntry_length]; exact hh)
    (ConsumesAll_insert _ _ entries entry i _ _
      (parseROCmMetadataKernelEntry_unknown W fuel entry hu hfuel) hc)

theorem ConsumesAll_middle {π σ : Type} (parser : Nat → π)
    (body : List Nat → Nat → π → σ → Res (Nat × π × σ)) (before after : List (List Nat))
    (e : List Nat) (st st1 st2 st3 : σ) (h1 : ConsumesAll parser body before st st1)
    (h2 : Consumes parser body e st1 st2) (h3 : ConsumesAll parser body after st2 st3) :
    ConsumesAll parser body (before ++ e :: after) st st3 :=
  (ConsumesAll_append parser body before (e :: after) st st3).mpr ⟨st1, h1, st2, h2, h3⟩

/-- A document in which a kernel map stands: whatever map the loop over the
kernels consumes at that place with the same `ROCmKernelMetadata`, the document
is parsed to the same metadata. -/
theorem parseROCmMetadataMsgPack_kernelMap (W : MsgPackSigness) (H : ROCmMetadataHelpers)
    (fuel : Nat) (rootHdr keyHdr arrayHdr post : List Nat)
    (before after kmBefore kmAfter : List (List Nat)) (kernelMap : List Nat)
    (info1 info : ROCmMetadata) (ks1 ks2 : List ROCmKernelMetadata)
    (kernel : ROCmKernelMetadata)
    (hroot : IsMapHeader (before.length + after.length + 1) rootHdr)
    (hkey : IsStringHeader 14 keyHdr)
    (harr : IsArrayHeader (kmBefore.length + kmAfter.length + 1) arrayHdr)
    (hb : ConsumesAll mapParser (parseROCmMetadataEntry W H fuel) before ⟨[0, 0], [], []⟩ info1)
    (hkb : ConsumesAll arrayParser (parseROCmMetadataKernelsEntry W H fuel) kmBefore
      info1.kernels ks1)
    (hk : Consumes arrayParser (parseROCmMetadataKernelsEntry W H fuel) kernelMap ks1
      (ks1 ++ [kernel]))
    (hka : ConsumesAll arrayParser (parseROCmMetadataKernelsEntry W H fuel) kmAfter
      (ks1 ++ [kernel]) ks2)
    (ha : ConsumesAll mapParser (parseROCmMetadataEntry W H fuel) after
      { info1 with kernels := ks2 } info) :
    parseROCmMetadataMsgPack W H fuel
      (withHeader rootHdr (before ++ entryBytes keyHdr "amdhsa.kernels"
        (withHeader arrayHdr (kmBefore ++ kernelMap :: kmAfter)) :: after) ++ post) =
      .ret info := by
  have hkms := ConsumesAll_middle _ _ kmBefore kmAfter kernelMap _ _ _ _ hkb hk hka
  have he := parseROCmMetadataEntry_kernels W H fuel keyHdr arrayHdr
    (kmBefore ++ kernelMap :: kmAfter) info1 ks2 hkey
    (by rw [List.length_append, List.length_cons, ← Nat.add_assoc]; exact harr) hkms
  have hall := ConsumesAll_middle _ _ before after _ _ _ _ _ hb he ha
  exact parseROCmMetadataMsgPack_entries W H fuel rootHdr _ post info
    (by rw [List.length_append, List.length_cons, ← Nat.add_assoc]; exact hroot) hall

/-- A kernel map in which an argument map stands: whatever map the loop over
the arguments consumes at that place with the same `ROCmKernelArgInfo`, the loop
over the kernels consumes the kernel map with the same `ROCmKernelMetadata`. -/
theorem parseROCmMetadataKernelsEntry_argMap (W : MsgPackSigness) (H : ROCmMetadataHelpers)
    (fuel : Nat) (kernelHdr keyHdr arrayHdr : List Nat)
    (before after amBefore amAfter : List (List Nat)) (argMap : List Nat)
    (kernel1 kernel : ROCmKernelMetadata) (as1 as2 : List ROCmKernelArgInfo)
    (arg : ROCmKernelArgInfo) (kernels : List ROCmKernelMetadata)
    (hhdr : IsMapHeader (before.length + after.length + 1) kernelHdr)
    (hkey : IsStringHeader 5 keyHdr)
    (harr : IsArrayHeader (amBefore.length + amAfter.length + 1) arrayHdr)
    (hb : ConsumesAll mapParser (parseROCmMetadataKernelEntry W fuel) before
      (H.kernelInitialize ROCmKernelMetadata.zero) kernel1)
    (hab : ConsumesAll arrayParser (parseROCmMetadataKernelArgsEntry W fuel) amBefore
      kernel1.argInfos as1)
    (hm : Consumes arrayParser (parseROCmMetadataKernelArgsEntry W fuel) argMap as1
      (as1 ++ [arg]))
    (haa : ConsumesAll arrayParser (parseROCmMetadataKernelArgsEntry W fuel) amAfter
      (as1 ++ [arg]) as2)
    (ha : ConsumesAll mapParser (parseROCmMetadataKernelEntry W fuel) after
      { kernel1 with argInfos := as2 } kernel) :
    Consumes arrayParser (parseROCmMetadataKernelsEntry W H fuel)
      (withHeader kernelHdr (before ++ entryBytes keyHdr ".args"
        (withHeader arrayHdr (amBefore ++ argMap :: amAfter)) :: after))
      kernels (kernels ++ [kernel]) := by
  have hams := ConsumesAll_middle _ _ amBefore amAfter argMap _ _ _ _ hab hm haa
  have he := parseROCmMetadataKernelEntry_args W fuel keyHdr arrayHdr
    (amBefore ++ argMap :: amAfter) kernel1 as2 hkey
    (by rw [List.length_append, List.length_cons, ← Nat.add_assoc]; exact harr) hams
  have hall := ConsumesAll_middle _ _ before after _ _ _ _ _ hb he ha
  exact parseROCmMetadataKernelsEntry_map W H fuel kernelHdr _ kernel kernels
    (by rw [List.length_append, List.length_cons, ← Nat.add_assoc]; exact hhdr) hall

/-- The entry `.name` of an argument map with a string as its value. -/
theorem parseROCmMetadataKernelArgEntry_name (W : MsgPackSigness) (fuel : Nat)
    (keyHdr valHdr s : List Nat) (argInfo : ROCmKernelArgInfo) (hk : IsStringHeader 5 keyHdr)
    (hv : IsStringHeader s.length valHdr) :
    Consumes mapParser (parseROCmMetadataKernelArgEntry W fuel)
      (entryBytes keyHdr ".name" (valHdr ++ s)) argInfo { argInfo with name := s } := by
  intro pre post k
  have e1 : pre ++ entryBytes keyHdr ".name" (valHdr ++ s) ++ post =
      pre ++ keyHdr ++ bytesOf ".name" ++ (valHdr ++ s ++ post) := by simp [entryBytes]
  have e2 : pre ++ keyHdr ++ bytesOf ".name" ++ (valHdr ++ s ++ post) =
      (pre ++ keyHdr ++ bytesOf ".name") ++ valHdr ++ s ++ post := by simp
  have hkey := MsgPackMapParser.parseKeyString_header pre (bytesOf ".name")
    (valHdr ++ s ++ post) keyHdr k hk
  have hval := MsgPackMapParser.parseValueString_header (pre ++ keyHdr ++ bytesOf ".name") s
    post valHdr k hv
  rw [← e2] at hval
  have hi : binaryFindCStr rocmMetadataMPKernelArgNames (bytesOf ".name") = 7 := by decide
  rw [e1, parseROCmMetadataKernelArgEntry, hkey, Res.ret_bind]
  simp +decide only [hi, if_false, if_true]
  simp only [List.length_append] at hval ⊢
  rw [hval, Res.ret_bind]
  exact congrArg Res.ret (Prod.ext (by simp only [entryBytes, List.length_append]; omega) rfl)

/-- The entry `.name` of a kernel map with a string as its value. -/
theorem parseROCmMetadataKernelEntry_name (W : MsgPackSigness) (fuel : Nat)
    (keyHdr valHdr s : List Nat) (kernel : ROCmKernelMetadata) (hk : IsStringHeader 5 keyHdr)
    (hv : IsStringHeader s.length valHdr) :
    Consumes mapParser (parseROCmMetadataKernelEntry W fuel)
      (entryBytes keyHdr ".name" (valHdr ++ s)) kernel { kernel with name := s } := by
  intro pre post k
  have e1 : pre ++ entryBytes keyHdr ".name" (valHdr ++ s) ++ post =
      pre ++ keyHdr ++ bytesOf ".name" ++ (valHdr ++ s ++ post) := by simp [entryBytes]
  have e2 : pre ++ keyHdr ++ bytesOf ".name" ++ (valHdr ++ s ++ post) =
      (pre ++ keyHdr ++ bytesOf ".name") ++ valHdr ++ s ++ post := by simp
  have hkey := MsgPackMapParser.parseKeyString_header pre (bytesOf ".name")
    (valHdr ++ s ++ post) keyHdr k hk
  have hval := MsgPackMapParser.parseValueString_header (pre ++ keyHdr ++ bytesOf ".name") s
    post valHdr k hv
  rw [← e2] at hval
  have hi : binaryFindCStr rocmMetadataMPKernelNames (bytesOf ".name") = 8 := by decide
  rw [e1, parseROCmMetadataKernelEntry, hkey, Res.ret_bind]
  simp +decide only [hi, if_false, if_true]
  simp only [List.length_append] at hval ⊢
  rw [hval, Res.ret_bind]
  exact congrArg Res.ret (Prod.ext (by simp only [entryBytes, List.length_append]; omega) rfl)

/-- Whatever map the loop over the kernels consumes at the place of a kernel
map with the `ROCmKernelMetadata` of the place, the document is parsed to the
metadata of the place. -/
theorem KernelMapPlace_parseKernels (W : MsgPackSigness) (H : ROCmMetadataHelpers) (fuel : Nat)
    (doc : List Nat → List Nat) (kernel : ROCmKernelMetadata) (info : ROCmMetadata)
    (hp : KernelMapPlace W H fuel doc kernel info) (kernelMap : List Nat)
    (hk : ∀ kernels, Consumes arrayParser (parseROCmMetadataKernelsEntry W H fuel) kernelMap
      kernels (kernels ++ [kernel])) :
    parseROCmMetadataMsgPack W H fuel (doc kernelMap) = .ret info := by
  obtain ⟨rootHdr, keyHdr, arrayHdr, post, before, after, kmBefore, kmAfter, info1, ks1, ks2,
    hdoc, hroot, hkey, harr, hb, hkb, hka, ha⟩ := hp
  rw [hdoc]
  exact parseROCmMetadataMsgPack_kernelMap W H fuel rootHdr keyHdr arrayHdr post before after
    kmBefore kmAfter kernelMap info1 info ks1 ks2 kernel hroot hkey harr hb hkb (hk ks1) hka ha

/-- Whatever map the loop over the arguments consumes at the place of an
argument map with the `ROCmKernelArgInfo` of the place, the document is parsed
to the metadata of the place. -/
theorem ArgMapPlace_parseDocument (W : MsgPackSigness) (H : ROCmMetadataHelpers) (fuel : Nat)
    (doc : List Nat → List Nat) (arg : ROCmKernelArgInfo) (info : ROCmMetadata)
    (hp : ArgMapPlace W H fuel doc arg info) (argMap : List Nat)
    (hm : ∀ argInfos, Consumes arrayParser (parseROCmMetadataKernelArgsEntry W fuel) argMap
      argInfos (argInfos ++ [arg])) :
    parseROCmMetadataMsgPack W H fuel (doc argMap) = .ret info := by
  obtain ⟨kernelDoc, kernel, kernel1, kernelHdr, keyHdr, arrayHdr, before, after, amBefore,
    amAfter, as1, as2, hplace, hdoc, hhdr, hkey, harr, hb, hab, haa, ha⟩ := hp
  rw [hdoc]
  exact KernelMapPlace_parseKernels W H fuel kernelDoc kernel info hplace _
    (fun kernels => parseROCmMetadataKernelsEntry_argMap W H fuel kernelHdr keyHdr arrayHdr
      before after amBefore amAfter argMap kernel1 kernel as1 as2 arg kernels hhdr hkey harr hb
      hab (hm as1) haa ha)

/-! ## C27: entries with unknown keys -/

/-- C27 (amended): take an entry whose key is a string that is, as a C string
(up to its first NUL), none of the recognized names of a map, and whose value
is a well-formed object in which every array32 and map32 has less than `2^31`
elements, and let `fuel` be at least the length of the entry.  Take a document
whose entries the loops of the parser consume one after the other, wherever
they stand.  Then `parseROCmMetadataMsgPack` returns the same `ROCmMetadata`
for the document and for the document with the entry added at any place `i` of
the root map (names `amdhsa.version`, `amdhsa.kernels`, `amdhsa.printf`), of a
kernel map (the 19 names of `rocmMetadataMPKernelNames`) or of an argument map
(the 14 names of `rocmMetadataMPKernelArgNames`); the header of the map may be
any header of the new number of entries. -/
theorem parseROCmMetadataMsgPack_unknown_keys (W : MsgPackSigness) (H : ROCmMetadataHelpers)
    (fuel : Nat) (entry : List Nat) (i : Nat) (hfuel : entry.length ≤ fuel) :
    (UnknownEntry rocmMetadataMPNames entry →
      ∀ (hdr hdr1 post : List Nat) (entries : List (List Nat)) (info : ROCmMetadata),
        IsMapHeader entries.length hdr → IsMapHeader (entries.length + 1) hdr1 →
        ConsumesAll mapParser (parseROCmMetadataEntry W H fuel) entries ⟨[0, 0], [], []⟩ info →
        parseROCmMetadataMsgPack W H fuel (withHeader hdr entries ++ post) = .ret info ∧
        parseROCmMetadataMsgPack W H fuel
          (withHeader hdr1 (insertEntry entries i entry) ++ post) = .ret info) ∧
    (UnknownEntry rocmMetadataMPKernelNames entry →
      ∀ (doc : List Nat → List Nat) (hdr hdr1 : List Nat) (entries : List (List Nat))
        (kernel : ROCmKernelMetadata) (info : ROCmMetadata),
        KernelMapPlace W H fuel doc kernel info →
        IsMapHeader entries.length hdr → IsMapHeader (entries.length + 1) hdr1 →
        ConsumesAll mapParser (parseROCmMetadataKernelEntry W fuel) entries
          (H.kernelInitialize ROCmKernelMetadata.zero) kernel →
        parseROCmMetadataMsgPack W H fuel (doc (withHeader hdr entries)) = .ret info ∧
        parseROCmMetadataMsgPack W H fuel
          (doc (withHeader hdr1 (insertEntry entries i entry))) = .ret info) ∧
    (UnknownEntry rocmMetadataMPKernelArgNames entry →
      ∀ (doc : List Nat → List Nat) (hdr hdr1 : List Nat) (entries : List (List Nat))
        (arg : ROCmKernelArgInfo) (info : ROCmMetadata),
        ArgMapPlace W H fuel doc arg info →
        IsMapHeader entries.length hdr → IsMapHeader (entries.length + 1) hdr1 →
        ConsumesAll mapParser (parseROCmMetadataKernelArgEntry W fuel) entries
          ROCmKernelArgInfo.zero arg →
        parseROCmMetadataMsgPack W H fuel (doc (withHeader hdr entries)) = .ret info ∧
        parseROCmMetadataMsgPack W H fuel
          (doc (withHeader hdr1 (insertEntry entries i entry))) = .ret info) := by
  refine ⟨?_, ?_, ?_⟩
  · intro hu hdr hdr1 post entries info hh hh1 hc
    refine ⟨parseROCmMetadataMsgPack_entries W H fuel hdr entries post info hh hc, ?_⟩
    exact parseROCmMetadataMsgPack_entries W H fuel hdr1 _ post info
      (by rw [insertEntry_length]; exact hh1)
      (ConsumesAll_insert _ _ entries entry i _ _
        (parseROCmMetadataEntry_unknown W H fuel entry hu hfuel) hc)
  · intro hu doc hdr hdr1 entries kernel info hp hh hh1 hc
    exact ⟨KernelMapPlace_parseKernels W H fuel doc kernel info hp _
        (fun kernels => parseROCmMetadataKernelsEntry_map W H fuel hdr entries kernel kernels
          hh hc),
      KernelMapPlace_parseKernels W H fuel doc kernel info hp _
        (fun kernels => parseROCmMetadataKernelsEntry_insert W H fuel hdr1 entries entry i
          kernel kernels hh1 hc hu hfuel)⟩
  · intro hu doc hdr hdr1 entries arg info hp hh hh1 hc
    exact ⟨ArgMapPlace_parseDocument W H fuel doc arg info hp _
        (fun argInfos => parseROCmMetadataKernelArgsEntry_map W fuel hdr entries arg argInfos
          hh hc),
      ArgMapPlace_parseDocument W H fuel doc arg info hp _
        (fun argInfos => parseROCmMetadataKernelArgsEntry_insert W fuel hdr1 entries entry i
          arg argInfos hh1 hc hu hfuel)⟩

/-- The slip of `skipMsgPackObject` on the counts from `2^31` on reaches the
parser of the metadata: the root map with the one entry of the key `.zzz` and
the array32 of `2^31` nil objects, a well-formed object, makes the call
undefined. -/
theorem parseROCmMetadataMsgPack_count_overflow (W : MsgPackSigness) (H : ROCmMetadataHelpers)
    (fuel : Nat) :
    parseROCmMetadataMsgPack W H (fuel + 1)
      (withHeader [0x81] [[0xa4] ++ bytesOf ".zzz" ++ nilArray32]) = .undefined := by
  have e0 : withHeader [0x81] [[0xa4] ++ bytesOf ".zzz" ++ nilArray32] =
      [] ++ [0x81] ++ ([0xa4] ++ bytesOf ".zzz" ++ nilArray32) := by
    simp [withHeader]
  have e1 : [] ++ [0x81] ++ ([0xa4] ++ bytesOf ".zzz" ++ nilArray32) =
      [0x81] ++ [0xa4] ++ bytesOf ".zzz" ++ nilArray32 := by simp
  have e2 : [0x81] ++ [0xa4] ++ bytesOf ".zzz" ++ nilArray32 =
      ([0x81] ++ [0xa4] ++ bytesOf ".zzz") ++ 0xdd :: 0x80 ::
        ([0, 0, 0] ++ List.replicate 2147483648 0xc0) := by
    simp only [nilArray32, bigEndian32, List.append_assoc, List.cons_append, List.nil_append]
  have hm := MsgPackMapParser_header [] ([0xa4] ++ bytesOf ".zzz" ++ nilArray32) [0x81] 1
    (Or.inl ⟨by decide, rfl⟩)
  have hkey := MsgPackMapParser.parseKeyString_header [0x81] (bytesOf ".zzz") nilArray32 [0xa4]
    0 (Or.inl ⟨by decide, rfl⟩)
  have hs := skipMsgPackObject_count_overflow fuel ([0x81] ++ [0xa4] ++ bytesOf ".zzz") 0xdd
    0x80 ([0, 0, 0] ++ List.replicate 2147483648 0xc0) (Or.inl rfl) (by decide)
  rw [← e2] at hs
  rw [e1] at hm
  simp only [List.length_nil, List.length_cons, Nat.zero_add, mapParser] at hm hkey
  have h1 : ¬ cstr (bytesOf ".zzz") = bytesOf "amdhsa.version" := by decide
  have h2 : ¬ cstr (bytesOf ".zzz") = bytesOf "amdhsa.kernels" := by decide
  have h3 : ¬ cstr (bytesOf ".zzz") = bytesOf "amdhsa.printf" := by decide
  rw [e0, e1, parseROCmMetadataMsgPack, hm, Res.ret_bind]
  rw [whileHaveElements]
  simp only [haveElements]
  simp +decide only [if_true]
  rw [parseROCmMetadataEntry, hkey, Res.ret_bind]
  simp only [if_neg h1, if_neg h2, if_neg h3]
  rw [MsgPackMapParser.skipValue, MsgPackMapParser.handleErrors_eq,
    if_neg (Nat.succ_ne_zero 0), if_pos rfl, Res.ret_bind]
  simp only [List.length_append, List.length_cons, List.length_nil] at hs ⊢
  have hl : (bytesOf ".zzz").length = 4 := rfl
  rw [hl] at hs ⊢
  rw [hs]
  rfl

theorem zzzEntry_unknown (names : List String) (h : bytesOf ".zzz" ∉ names.map bytesOf) :
    UnknownEntry names zzzEntry :=
  ⟨[0xa4], bytesOf ".zzz", [0xc0], rfl, Or.inl ⟨by decide, rfl⟩, h,
    MsgPackObject.single 0xc0 (Or.inl rfl)⟩

/-- The loop over the entries of an argument map consumes the entries of the
argument map of the examples. -/
theorem exampleArgEntries_consumed (W : MsgPackSigness) (fuel : Nat) :
    ConsumesAll mapParser (parseROCmMetadataKernelArgEntry W fuel) exampleArgEntries
      ROCmKernelArgInfo.zero exampleArg :=
  ⟨_, parseROCmMetadataKernelArgEntry_name W fuel [0xa5] [0xa1] [120] _
    (Or.inl ⟨by decide, rfl⟩) (Or.inl ⟨by decide, rfl⟩), rfl⟩

/-- The loop over the entries of a kernel map consumes the entries of the
kernel map of the examples, with any argument map in the place of the argument
map that the loop over the arguments consumes as that one. -/
theorem exampleKernelEntries_consumed (W : MsgPackSigness) (fuel : Nat) (argMap : List Nat)
    (h : Consumes arrayParser (parseROCmMetadataKernelArgsEntry W fuel) argMap []
      ([] ++ [exampleArg])) :
    ConsumesAll mapParser (parseROCmMetadataKernelEntry W fuel) (exampleKernelEntries argMap)
      (plainHelpers.kernelInitialize ROCmKernelMetadata.zero) exampleKernel :=
  ⟨_, parseROCmMetadataKernelEntry_name W fuel [0xa5] [0xa1] [107] _
    (Or.inl ⟨by decide, rfl⟩) (Or.inl ⟨by decide, rfl⟩),
   _, parseROCmMetadataKernelEntry_args W fuel [0xa5] [0x91] [argMap] _ [exampleArg]
    (Or.inl ⟨by decide, rfl⟩) (Or.inl ⟨by simp, rfl⟩) ⟨_, h, rfl⟩, rfl⟩

/-- The loop over the entries of the root map consumes the entries of the root
map of the examples, with any kernel map that the loop over the kernels consumes
as the one of the examples. -/
theorem exampleRootEntries_consumed (W : MsgPackSigness) (fuel : Nat) (kernelMap : List Nat)
    (h : Consumes arrayParser (parseROCmMetadataKernelsEntry W plainHelpers fuel) kernelMap []
      ([] ++ [exampleKernel])) :
    ConsumesAll mapParser (parseROCmMetadataEntry W plainHelpers fuel)
      (exampleRootEntries kernelMap) ⟨[0, 0], [], []⟩ exampleInfo :=
  ⟨_, parseROCmMetadataEntry_kernels W plainHelpers fuel [0xae] [0x91] [kernelMap] _
    [exampleKernel] (Or.inl ⟨by decide, rfl⟩) (Or.inl ⟨by simp, rfl⟩) ⟨_, h, rfl⟩, rfl⟩

/-- The place of the kernel map in `oneKernelDocument`. -/
theorem oneKernelDocument_place (W : MsgPackSigness) (fuel : Nat) :
    KernelMapPlace W plainHelpers fuel oneKernelDocument exampleKernel exampleInfo :=
  ⟨[0x81], [0xae], [0x91], [], [], [], [], [], ⟨[0, 0], [], []⟩, [], [exampleKernel],
    fun kernelMap => by simp [oneKernelDocument, exampleRootEntries],
    Or.inl ⟨by decide, rfl⟩, Or.inl ⟨by decide, rfl⟩, Or.inl ⟨by decide, rfl⟩, rfl, rfl, rfl,
    rfl⟩

/-- The place of the argument map in `oneArgDocument`. -/
theorem oneArgDocument_place (W : MsgPackSigness) (fuel : Nat) :
    ArgMapPlace W plainHelpers fuel oneArgDocument exampleArg exampleInfo :=
  ⟨oneKernelDocument, exampleKernel, { ROCmKernelMetadata.zero with name := [107] },
    [0x82], [0xa5], [0x91], [entryBytes [0xa5] ".name" [0xa1, 107]], [], [], [], [],
    [exampleArg], oneKernelDocument_place W fuel,
    fun argMap => by simp [oneArgDocument, exampleKernelEntries],
    Or.inl ⟨by decide, rfl⟩, Or.inl ⟨by decide, rfl⟩, Or.inl ⟨by decide, rfl⟩,
    ⟨_, parseROCmMetadataKernelEntry_name W fuel [0xa5] [0xa1] [107] _
      (Or.inl ⟨by decide, rfl⟩) (Or.inl ⟨by decide, rfl⟩), rfl⟩, rfl, rfl, rfl⟩

/-- The theorem of C27 at the document of one kernel `k` with one argument `x`
and the entry of the key `.zzz` and the value nil, added as the second entry of
the root map, of the kernel map and of the argument map: the four documents are
parsed to the same metadata. -/
theorem parseROCmMetadataMsgPack_unknown_keys_witness :
    zzzEntry.length ≤ 8 ∧
    UnknownEntry rocmMetadataMPNames zzzEntry ∧
    UnknownEntry rocmMetadataMPKernelNames zzzEntry ∧
    UnknownEntry rocmMetadataMPKernelArgNames zzzEntry ∧
    parseROCmMetadataMsgPack ⟨0, 1, 2⟩ plainHelpers 8
      (oneArgDocument (withHeader [0x81] exampleArgEntries)) = .ret exampleInfo ∧
    parseROCmMetadataMsgPack ⟨0, 1, 2⟩ plainHelpers 8
      (withHeader [0x82] (insertEntry
        (exampleRootEntries (withHeader [0x82]
          (exampleKernelEntries (withHeader [0x81] exampleArgEntries)))) 1 zzzEntry) ++ []) =
      .ret exampleInfo ∧
    parseROCmMetadataMsgPack ⟨0, 1, 2⟩ plainHelpers 8
      (oneKernelDocument (withHeader [0x83] (insertEntry
        (exampleKernelEntries (withHeader [0x81] exampleArgEntries)) 1 zzzEntry))) =
      .ret exampleInfo ∧
    parseROCmMetadataMsgPack ⟨0, 1, 2⟩ plainHelpers 8
      (oneArgDocument (withHeader [0x82] (insertEntry exampleArgEntries 1 zzzEntry))) =
      .ret exampleInfo := by
  have hu1 : UnknownEntry rocmMetadataMPNames zzzEntry := zzzEntry_unknown _ (by decide)
  have hu2 : UnknownEntry rocmMetadataMPKernelNames zzzEntry := zzzEntry_unknown _ (by decide)
  have hu3 : UnknownEntry rocmMetadataMPKernelArgNames zzzEntry :=
    zzzEntry_unknown _ (by decide)
  have ha := exampleArgEntries_consumed ⟨0, 1, 2⟩ 8
  have hk := exampleKernelEntries_consumed ⟨0, 1, 2⟩ 8 _
    (parseROCmMetadataKernelArgsEntry_map ⟨0, 1, 2⟩ 8 [0x81] exampleArgEntries exampleArg []
      (Or.inl ⟨by decide, rfl⟩) ha)
  have hr := exampleRootEntries_consumed ⟨0, 1, 2⟩ 8 _
    (parseROCmMetadataKernelsEntry_map ⟨0, 1, 2⟩ plainHelpers 8 [0x82]
      (exampleKernelEntries (withHeader [0x81] exampleArgEntries)) exampleKernel []
      (Or.inl ⟨by decide, rfl⟩) hk)
  have h := parseROCmMetadataMsgPack_unknown_keys ⟨0, 1, 2⟩ plainHelpers 8 zzzEntry 1
    (by decide)
  exact ⟨by decide, hu1, hu2, hu3,
    ((h.2.2 hu3) oneArgDocument [0x81] [0x82] exampleArgEntries exampleArg exampleInfo
      (oneArgDocument_place _ _) (Or.inl ⟨by decide, rfl⟩) (Or.inl ⟨by decide, rfl⟩) ha).1,
    ((h.1 hu1) [0x81] [0x82] [] (exampleRootEntries (withHeader [0x82]
      (exampleKernelEntries (withHeader [0x81] exampleArgEntries)))) exampleInfo
      (Or.inl ⟨by decide, rfl⟩)
      (Or.inl ⟨by decide, rfl⟩) hr).2,
    ((h.2.1 hu2) oneKernelDocument [0x82] [0x83]
      (exampleKernelEntries (withHeader [0x81] exampleArgEntries)) exampleKernel exampleInfo
      (oneKernelDocument_place _ _) (Or.inl ⟨by decide, rfl⟩) (Or.inl ⟨by decide, rfl⟩) hk).2,
    ((h.2.2 hu3) oneArgDocument [0x81] [0x82] exampleArgEntries exampleArg exampleInfo
      (oneArgDocument_place _ _) (Or.inl ⟨by decide, rfl⟩) (Or.inl ⟨by decide, rfl⟩) ha).2⟩

set_option maxRecDepth 100000 in
/-- C27 (the claim as stated fails): the key of the 12 bytes `.sgpr_count` and
NUL is none of the 19 recognized kernel keys and its value, the string `a`, is
a well-formed object, and the integer 5 is a key that is none of the names of
the root map.  The document of one kernel with `.sgpr_count` 5 is parsed; with
the first entry added to the kernel map the key is compared as a C string, the
value is parsed as the integer of `.sgpr_count`, and the call throws; with the
second entry added to the root map the key is parsed as a string, and the call
throws. -/
theorem parseROCmMetadataMsgPack_unknown_keys_fail :
    (bytesOf ".sgpr_count" ++ [0]) ∉ rocmMetadataMPKernelNames.map bytesOf ∧
    nulKeyEntry = [0xac] ++ (bytesOf ".sgpr_count" ++ [0]) ++ [0xa1, 97] ∧
    parseROCmMetadataMsgPack ⟨0, 1, 2⟩ plainHelpers 8
      (oneKernelDocument (withHeader [0x81] sgprCountEntries)) =
      .ret ⟨[0, 0], [], [{ ROCmKernelMetadata.zero with sgprsNum := 5 }]⟩ ∧
    parseROCmMetadataMsgPack ⟨0, 1, 2⟩ plainHelpers 8
      (oneKernelDocument (withHeader [0x82] (insertEntry sgprCountEntries 1 nulKeyEntry))) =
      .throw "MsgPack: Can't parse integer value" ∧
    parseROCmMetadataMsgPack ⟨0, 1, 2⟩ plainHelpers 8
      (withHeader [0x82] (insertEntry
        (exampleRootEntries (withHeader [0x81] sgprCountEntries)) 1 integerKeyEntry)) =
      .throw "MsgPack: Can't parse string" := by
  decide


/-! ## C40: `cstrtobyte` on its own -/

/-- On a digit from `1` to `9` the loop of `cstrtobyte` adds the same digit
again and again: with four turns of fuel it has thrown. -/
theorem cstrtobyteLoop_nonzero_digit (asmr : Assembler) (str c fuel : Nat)
    (hc : asmr.line.get? str = some c) (hlo : 49 ≤ c) (hhi : c ≤ 57)
    (hne : str ≠ asmr.lineSize) :
    cstrtobyteLoop asmr str (fuel + 4) 0 = .throw "Number is too big" := by
  have hd : isDigit c = true := by simp [isDigit]; omega
  have hcases : c = 49 ∨ c = 50 ∨ c = 51 ∨ c = 52 ∨ c = 53 ∨ c = 54 ∨ c = 55 ∨ c = 56 ∨
      c = 57 := by omega
  rw [List.get?_eq_getElem?] at hc
  rcases hcases with h | h | h | h | h | h | h | h | h <;> subst h <;>
    simp +decide [cstrtobyteLoop, hne, hc]

/-- C40 (the code departs from the claim): `cstrtobyte` never advances its
cursor.  When the cursor is on a digit, whatever follows it: on the digit `0`
the call has not returned with any amount of fuel, and on a digit from `1` to
`9` it throws `Number is too big` as soon as it has four turns of fuel; in both
cases the cursor stays where it was.  No call returns a number. -/
theorem cstrtobyte_on_digit (fuel : Nat) (asmr : Assembler) (s : PState) (c : Nat)
    (hc : asmr.line.get? s.linePtr = some c) (hd : isDigit c = true)
    (hne : s.linePtr ≠ asmr.lineSize) :
    (c = 48 → cstrtobyte fuel asmr s = (.timeout, s)) ∧
    (c ≠ 48 → cstrtobyte (fuel + 4) asmr s = (.throw "Number is too big", s)) ∧
    ∀ v : Nat, (cstrtobyte fuel asmr s).1 ≠ .ret v := by
  refine ⟨?_, ?_, cstrtobyte_ne_ret fuel asmr s⟩
  · intro h0
    subst h0
    exact cstrtobyte_zero_digit fuel asmr s hc hne
  · intro h0
    have hb : 48 ≤ c ∧ c ≤ 57 := by simpa [isDigit] using hd
    have hl := cstrtobyteLoop_nonzero_digit asmr s.linePtr c fuel hc (by omega) hb.2 hne
    rw [List.get?_eq_getElem?] at hc
    simp [cstrtobyte, hne, hc, hd, hl]

/-- On the text `7`, which denotes 7, the call throws `Number is too big`, and
on the text `0` it has not returned after 1000 turns. -/
theorem cstrtobyte_on_digit_witness :
    cstrtobyte (0 + 4) ⟨bytes "7", 1⟩ ⟨0, []⟩ = (.throw "Number is too big", ⟨0, []⟩) ∧
    cstrtobyte 1000 ⟨bytes "0", 1⟩ ⟨0, []⟩ = (.timeout, ⟨0, []⟩) :=
  ⟨(cstrtobyte_on_digit 0 ⟨bytes "7", 1⟩ ⟨0, []⟩ 55 rfl rfl (by decide)).2.1 (by decide),
   (cstrtobyte_on_digit 1000 ⟨bytes "0", 1⟩ ⟨0, []⟩ 48 rfl rfl (by decide)).1 rfl⟩

/-- The part of the claim that holds: on an empty text and on a text that does
not start with a digit, `cstrtobyte` throws `Missing number`. -/
theorem cstrtobyte_missing_number (fuel : Nat) (asmr : Assembler) (s : PState)
    (h : s.linePtr = asmr.lineSize ∨ ∃ c, asmr.line.get? s.linePtr = some c ∧
      isDigit c = false) :
    cstrtobyte fuel asmr s = (.throw "Missing number", s) := by
  rcases h with h | ⟨c, hc, hd⟩
  · simp [cstrtobyte, h]
  · rw [List.get?_eq_getElem?] at hc
    by_cases hne : s.linePtr = asmr.lineSize
    · simp [cstrtobyte, hne]
    · simp [cstrtobyte, hne, hc, hd]


/-! ## C36: the semantic of a kernel argument -/

/-- An argument record whose type is within both bounds is read whatever its
semantic field holds: the second test of the loop compares `type` again. -/
theorem parseArgInfos_semantic_unchecked (G : GalliumHeader) (binaryCode : List Nat)
    (data32 type size targetSize targetAlign signExtended semType : Nat)
    (h0 : loadLE binaryCode data32 4 = .ret type)
    (h1 : loadLE binaryCode (data32 + 4) 4 = .ret size)
    (h2 : loadLE binaryCode (data32 + 8) 4 = .ret targetSize)
    (h3 : loadLE binaryCode (data32 + 12) 4 = .ret targetAlign)
    (h4 : loadLE binaryCode (data32 + 16) 4 = .ret signExtended)
    (h5 : loadLE binaryCode (data32 + 20) 4 = .ret semType)
    (ht : type ≤ G.argTypeMax) (hs : type ≤ G.argSemanticMax) :
    parseArgInfos G binaryCode 1 data32 =
      .ret [⟨type, size, targetSize, targetAlign, decide (signExtended ≠ 0), semType⟩] := by
  rw [parseArgInfos, h0, Res.ret_bind, if_neg (by omega), h1, Res.ret_bind, h2, Res.ret_bind,
    h3, Res.ret_bind, h4, Res.ret_bind, h5, Res.ret_bind, if_neg (by omega), parseArgInfos]
  rfl

/-- An argument record whose type is within the bound of the types and above
the bound of the semantics is turned down as a wrong semantic, whatever its
semantic field holds. -/
theorem parseArgInfos_semantic_of_type (G : GalliumHeader) (binaryCode : List Nat)
    (n data32 type size targetSize targetAlign signExtended semType : Nat)
    (h0 : loadLE binaryCode data32 4 = .ret type)
    (h1 : loadLE binaryCode (data32 + 4) 4 = .ret size)
    (h2 : loadLE binaryCode (data32 + 8) 4 = .ret targetSize)
    (h3 : loadLE binaryCode (data32 + 12) 4 = .ret targetAlign)
    (h4 : loadLE binaryCode (data32 + 16) 4 = .ret signExtended)
    (h5 : loadLE binaryCode (data32 + 20) 4 = .ret semType)
    (ht : type ≤ G.argTypeMax) (hs : G.argSemanticMax < type) :
    parseArgInfos G binaryCode (n + 1) data32 = .throw "Wrong semantic of kernel argument" := by
  rw [parseArgInfos, h0, Res.ret_bind, if_neg (by omega), h1, Res.ret_bind, h2, Res.ret_bind,
    h3, Res.ret_bind, h4, Res.ret_bind, h5, Res.ret_bind, if_pos hs]
  rfl

set_option maxRecDepth 100000 in
/-- C36 (the code departs from the claim): the container with the kernel `a`,
whose one argument record has the type 0 and the semantic 99, above
`GalliumArgSemantic::MAX_VALUE`, is accepted, and the argument is reported
with the semantic 99; the same container with the type 3 and the semantic 0,
both in range, is turned down with `Wrong semantic of kernel argument`. -/
theorem GalliumBinary_wrong_semantic :
    galliumHeader.argSemanticMax < 99 ∧
    ((GalliumBinary galliumHeader (oneArgContainer (argRecord 0 4 4 4 0 99)) 0).andThen
      fun bin => .ret bin.kernels) =
      .ret [⟨bytes "a", 0, 2, [⟨0, 4, 4, 4, false, 99⟩]⟩] ∧
    3 ≤ galliumHeader.argTypeMax ∧
    GalliumBinary galliumHeader (oneArgContainer (argRecord 3 4 4 4 0 0)) 0 =
      .throw "Wrong semantic of kernel argument" := by
  decide


/-! ## C34: the bytes the ELF reader reads -/

/-- `unfinishedRegionOfStringTable` reads the last byte of the table first: on a
table of `size` bytes that starts at `offset`, with `offset + size` beyond the
buffer, the call reads outside the buffer. -/
theorem unfinishedRegionOfStringTable_outside (buf : List Nat) (offset size : Nat)
    (hsize : size ≠ 0) (hout : buf.length < offset + size) :
    unfinishedRegionOfStringTable (buf.drop offset) size = .undefined := by
  obtain ⟨k, rfl⟩ : ∃ k, size = k + 1 := ⟨size - 1, by omega⟩
  rw [unfinishedRegionOfStringTable, if_neg hsize, Nat.add_sub_cancel]
  have hk : (buf.drop offset)[k]? = none := by
    rw [List.getElem?_eq_none]
    rw [List.length_drop]
    omega
  cases k with
  | zero => simp only [unfinishedRegionLoop, hk]
  | succ k => simp only [unfinishedRegionLoop, hk]

set_option maxRecDepth 100000 in
/-- C34 (the code departs from the claim): the constructor reads the section
name string table before the loop that checks the ranges of the sections.  In
a buffer of 132 bytes whose section name string table is declared at offset
1000 with one byte, the constructor reads the byte at offset 1000; it also
reads the byte at offset 132 of a table of type `NOBITS` declared at offset 132
with one byte, which the range checks of the loop admit.  With a table of no
bytes the first buffer is turned down without such a read. -/
theorem ElfBinaryTemplate_reads_outside :
    (stringTableHeaderBinary SHT_STRTAB 1000 1).length = 132 ∧
    ElfBinaryTemplate Elf32Types (stringTableHeaderBinary SHT_STRTAB 1000 1) 0 = .undefined ∧
    ElfBinaryTemplate Elf32Types (stringTableHeaderBinary SHT_NOBITS 132 1) 0 = .undefined ∧
    ElfBinaryTemplate Elf32Types (stringTableHeaderBinary SHT_STRTAB 1000 0) 0 =
      .throw "Section name index out of range!" ∧
    getSectionHeader Elf32Types (stringTableHeaderBinary SHT_STRTAB 1000 1) 1 =
      .ret ⟨0, SHT_STRTAB, 0, 0, 1000, 1, 0, 0, 0, 0⟩ := by
  decide


/-! ## C33: `end()` of the MsgPack array and map parsers -/

/-- The loop of `MsgPackMapParser::end()` skips two objects in every turn: `k`
turns skip `2 * k` objects that `skipMsgPackObject` skips wherever they
stand. -/
theorem skipMsgPackObject_pairs (fuel : Nat) (k : Nat) :
    ∀ (objs : List (List Nat)), objs.length = 2 * k →
    (∀ e ∈ objs, ∀ (fuel : Nat) (pre post : List Nat), e.length ≤ fuel →
      skipMsgPackObject fuel (pre ++ e ++ post) pre.length = .ret (pre.length + e.length)) →
    objs.flatten.length ≤ fuel → ∀ (pre post : List Nat),
    foldRange k pre.length
      (fun _ dataPtr => do
        let dataPtr ← skipMsgPackObject fuel (pre ++ objs.flatten ++ post) dataPtr
        skipMsgPackObject fuel (pre ++ objs.flatten ++ post) dataPtr) =
      .ret (pre.length + objs.flatten.length) := by
  induction k with
  | zero =>
    intro objs hlen _ _ pre post
    have : objs = [] := List.length_eq_zero.mp (by omega)
    subst this
    rfl
  | succ k ihk =>
    intro objs hlen ih hfuel pre post
    match objs, hlen with
    | a :: b :: rest, hlen =>
      have hrest : rest.length = 2 * k := by
        simp only [List.length_cons] at hlen; omega
      have hl : (a :: b :: rest).flatten.length = a.length + (b.length + rest.flatten.length) := by
        simp only [List.flatten_cons, List.length_append]
      rw [hl] at hfuel
      have e1 : pre ++ (a :: b :: rest).flatten ++ post =
          pre ++ a ++ (b ++ rest.flatten ++ post) := by
        simp only [List.flatten_cons, List.append_assoc]
      have e2 : pre ++ a ++ (b ++ rest.flatten ++ post) =
          (pre ++ a) ++ b ++ (rest.flatten ++ post) := by
        simp only [List.append_assoc]
      have e3 : (pre ++ a) ++ b ++ (rest.flatten ++ post) =
          (pre ++ a ++ b) ++ rest.flatten ++ post := by
        simp only [List.append_assoc]
      have ha := ih a (List.mem_cons_self _ _) fuel pre (b ++ rest.flatten ++ post) (by omega)
      have hb := ih b (List.mem_cons_of_mem _ (List.mem_cons_self _ _)) fuel (pre ++ a)
        (rest.flatten ++ post) (by omega)
      have hr := ihk rest hrest
        (fun e he => ih e (List.mem_cons_of_mem _ (List.mem_cons_of_mem _ he))) (by omega)
        (pre ++ a ++ b) post
      rw [foldRange_const_succ, e1, ha]
      rw [e2] at ha ⊢
      rw [List.length_append] at hb
      show ((skipMsgPackObject fuel (pre ++ a ++ b ++ (rest.flatten ++ post))
        (pre.length + a.length)).andThen fun st => _) = _
      rw [hb]
      rw [e3]
      simp only [List.length_append] at hr
      show foldRange k (pre.length + a.length + b.length) _ = _
      rw [hr, hl]
      exact congrArg Res.ret (by omega)

/-- The part of the claim about arrays: `MsgPackArrayParser::end()` skips the
elements that are left, well-formed objects in which no array32 and no map32
has `2^31` or more elements, and leaves `dataPtr` right after the array. -/
theorem MsgPackArrayParser_end_wellFormed (fuel : Nat) (elems : List (List Nat))
    (h : ∀ e ∈ elems, MsgPackObject 0x80000000 e) (hfuel : elems.flatten.length ≤ fuel)
    (pre post : List Nat) :
    MsgPackArrayParser.end fuel (pre ++ elems.flatten ++ post) pre.length ⟨elems.length⟩ =
      .ret (pre.length + elems.flatten.length, elems.length) := by
  rw [MsgPackArrayParser.end]
  show ((foldRange elems.length pre.length fun _ dataPtr =>
    skipMsgPackObject fuel (pre ++ elems.flatten ++ post) dataPtr) >>= _) = _
  rw [skipMsgPackObject_elems fuel elems
    (fun e he => skipMsgPackObject_wellFormed (h e he)) hfuel pre post]
  rfl

/-- The part of the claim about maps before a key: `MsgPackMapParser::end()`
skips the `2 * k` objects of the `k` entries that are left and leaves `dataPtr`
right after the map. -/
theorem MsgPackMapParser_end_before_key (fuel k : Nat) (objs : List (List Nat))
    (hlen : objs.length = 2 * k) (h : ∀ e ∈ objs, MsgPackObject 0x80000000 e)
    (hfuel : objs.flatten.length ≤ fuel) (pre post : List Nat) :
    MsgPackMapParser.end fuel (pre ++ objs.flatten ++ post) pre.length ⟨k, true⟩ =
      .ret (pre.length + objs.flatten.length, k) := by
  rw [MsgPackMapParser.end]
  simp only [Bool.not_true, Bool.false_eq_true, if_false, Res.pure_bind]
  rw [skipMsgPackObject_pairs fuel k objs hlen
    (fun e he => skipMsgPackObject_wellFormed (h e he)) hfuel pre post]
  rfl

/-- C33 (the code departs from the claim): after a key, with `k + 1` entries
counted, the map still has the value of that key and the `2 * k` objects `rest`
of `k` entries.  `MsgPackMapParser::end()` skips the value and then two objects
for each of the `k + 1` entries counted: when two more objects `x` and `y`
follow the map, it leaves `dataPtr` after `y`, and when nothing follows the
map, it throws. -/
theorem MsgPackMapParser_end_after_key (fuel k : Nat) (value x y : List Nat)
    (rest : List (List Nat)) (hlen : rest.length = 2 * k)
    (hv : MsgPackObject 0x80000000 value) (h : ∀ e ∈ rest, MsgPackObject 0x80000000 e)
    (hx : MsgPackObject 0x80000000 x) (hy : MsgPackObject 0x80000000 y)
    (hfuel : value.length + rest.flatten.length + x.length + y.length ≤ fuel)
    (hfuel1 : 0 < fuel) (pre post : List Nat) :
    MsgPackMapParser.end fuel (pre ++ value ++ rest.flatten ++ (x ++ y ++ post)) pre.length
      ⟨k + 1, false⟩ =
      .ret (pre.length + value.length + rest.flatten.length + x.length + y.length, k + 1) ∧
    MsgPackMapParser.end fuel (pre ++ value ++ rest.flatten) pre.length ⟨k + 1, false⟩ =
      .throw "MsgPack: Can't skip object" := by
  have hall : ∀ e ∈ rest ++ [x, y], ∀ (fuel : Nat) (pre post : List Nat), e.length ≤ fuel →
      skipMsgPackObject fuel (pre ++ e ++ post) pre.length = .ret (pre.length + e.length) := by
    intro e he
    rcases List.mem_append.mp he with he | he
    · exact skipMsgPackObject_wellFormed (h e he)
    · simp only [List.mem_cons, List.mem_singleton, List.not_mem_nil, or_false] at he
      rcases he with rfl | rfl
      · exact skipMsgPackObject_wellFormed hx
      · exact skipMsgPackObject_wellFormed hy
  have hfl : (rest ++ [x, y]).flatten = rest.flatten ++ (x ++ y) := by
    simp
  constructor
  · have e1 : pre ++ value ++ rest.flatten ++ (x ++ y ++ post) =
        pre ++ value ++ (rest.flatten ++ (x ++ y ++ post)) := by
      simp only [List.append_assoc]
    have e2 : pre ++ value ++ (rest.flatten ++ (x ++ y ++ post)) =
        (pre ++ value) ++ (rest ++ [x, y]).flatten ++ post := by
      rw [hfl]; simp only [List.append_assoc]
    have hval := skipMsgPackObject_wellFormed hv fuel pre (rest.flatten ++ (x ++ y ++ post))
      (by omega)
    have hp := skipMsgPackObject_pairs fuel (k + 1) (rest ++ [x, y])
      (by simp only [List.length_append, List.length_cons, List.length_nil]; omega) hall
      (by rw [hfl]; simp only [List.length_append]; omega) (pre ++ value) post
    rw [← e2] at hp
    rw [e1, MsgPackMapParser.end]
    simp only [Bool.not_false, if_true]
    rw [hval, Res.ret_bind]
    rw [List.length_append] at hp
    rw [hp, hfl]
    exact congrArg Res.ret (Prod.ext (by simp only [List.length_append]; omega) rfl)
  · have hval := skipMsgPackObject_wellFormed hv fuel pre rest.flatten (by omega)
    have hp := skipMsgPackObject_pairs fuel k rest hlen
      (fun e he => skipMsgPackObject_wellFormed (h e he)) (by omega) (pre ++ value) []
    have e3 : pre ++ value ++ rest.flatten ++ [] = pre ++ value ++ rest.flatten := by simp
    rw [e3] at hp
    obtain ⟨f, rfl⟩ : ∃ f, fuel = f + 1 := ⟨fuel - 1, by omega⟩
    rw [MsgPackMapParser.end]
    simp only [Bool.not_false, if_true]
    rw [hval, Res.ret_bind, foldRange_succ]
    rw [List.length_append] at hp
    rw [hp]
    show ((skipMsgPackObject (f + 1) (pre ++ value ++ rest.flatten)
      (pre.length + value.length + rest.flatten.length) >>= _) >>= _) = _
    rw [skipMsgPackObject, if_pos (by simp only [List.length_append]; omega)]
    rfl

/-- The map of `a` to 1 and `b` to 2 inside an array, followed by three nil
objects: after the constructor and `parseKeyString` the call of `end()`
leaves `dataPtr` at 10, two objects after the end of the map at 8. -/
theorem MsgPackMapParser_end_after_key_witness :
    ((MsgPackMapParser [0x94, 0x82, 0xa1, 97, 1, 0xa1, 98, 2, 0xc0, 0xc0, 0xc0] 1).andThen
      fun m => (MsgPackMapParser.parseKeyString
        [0x94, 0x82, 0xa1, 97, 1, 0xa1, 98, 2, 0xc0, 0xc0, 0xc0] m.2 m.1).andThen
        fun key => .ret (key.2.1, key.2.2)) = .ret (4, ⟨1 + 1, false⟩) ∧
    MsgPackMapParser.end 11 ([0x94, 0x82, 0xa1, 97] ++ [1] ++ [[0xa1, 98], [2]].flatten ++
      ([0xc0] ++ [0xc0] ++ [0xc0])) 4 ⟨1 + 1, false⟩ = .ret (4 + 1 + 3 + 1 + 1, 1 + 1) ∧
    MsgPackMapParser.end 11 ([0x94, 0x82, 0xa1, 97] ++ [1] ++ [[0xa1, 98], [2]].flatten) 4
      ⟨1 + 1, false⟩ = .throw "MsgPack: Can't skip object" :=
  ⟨by decide,
   MsgPackMapParser_end_after_key 11 1 [1] [0xc0] [0xc0] [[0xa1, 98], [2]] rfl
    (MsgPackObject.single 1 (by decide))
    (fun e he => by
      simp only [List.mem_cons, List.mem_singleton, List.not_mem_nil, or_false] at he
      rcases he with rfl | rfl
      · exact MsgPackObject.fixstr [98] (by decide)
      · exact MsgPackObject.single 2 (by decide))
    (MsgPackObject.single 0xc0 (by decide)) (MsgPackObject.single 0xc0 (by decide))
    (by decide) (by decide) [0x94, 0x82, 0xa1, 97] [0xc0]⟩


/-! ## C38: the cursor after a register range that is not recognised -/

/-- On a line that starts with `s` or `S` followed by a character that is
neither a digit nor `[`, `parseSRegRange` returns the empty pair without an
error, also when no range is required, and leaves the cursor after the
letter. -/
theorem parseSRegRange_after_s (H : AsmHelpers) (fuel : Nat) (arch : Nat) (required : Bool)
    (c d : Nat) (rest : List Nat) (errs : List AsmError) (hs : toLower c = 115)
    (hd : isDigit d = false) (hd91 : d ≠ 91) :
    parseSRegRange H fuel ⟨c :: d :: rest, rest.length + 2⟩ arch required ⟨0, errs⟩ =
      (.ret (0, 0), ⟨1, errs⟩) := by
  rw [parseSRegRange_at_s H fuel ⟨c :: d :: rest, rest.length + 2⟩ arch required ⟨0, errs⟩ c
    rfl hs (by simp)]
  simp [parseSRegRangeTail, P.tryCatch, P.bind_apply, P.andThen, P.setLinePtr, P.getLinePtr,
    P.readAt, hd, hd91, P.pure_apply]

/-- On a line that starts with `v` or `V` followed by a character other than
`[`, `parseVRegRange` returns the empty pair without an error, also when no
range is required, and leaves the cursor after the letter. -/
theorem parseVRegRange_after_v (fuel : Nat) (required : Bool) (c d : Nat) (rest : List Nat)
    (errs : List AsmError) (hv : toLower c = 118) (hd91 : d ≠ 91) :
    parseVRegRange fuel ⟨c :: d :: rest, rest.length + 2⟩ required ⟨0, errs⟩ =
      (.ret (0, 0), ⟨1, errs⟩) := by
  have hsp : isSpace c = false := by
    rcases toLower_eq_v hv with h | h <;> subst h <;> rfl
  have hvd : isDigit c = false := by
    rcases toLower_eq_v hv with h | h <;> subst h <;> rfl
  simp [parseVRegRange, P.bind_apply, P.andThen, skipSpacesToEnd, scanWhile, hsp, P.getLinePtr,
    P.readAt, hv, P.setLinePtr, P.tryCatch, hvd, hd91, P.pure_apply]

/-- C38 (the code departs from the claim): called with `required = false` on an
operand whose first character is `s` or `S` (resp. `v` or `V`) and whose second
character is neither a digit nor `[` (resp. is not `[`), `parseSRegRange`
(resp. `parseVRegRange`) returns `(0, 0)` without reporting an error and leaves
`linePtr` after the first character of the operand, not on it; and
`parseOperand` then runs its later alternatives from there. -/
theorem parseRegRange_moves_cursor (H : AsmHelpers) (fuel : Nat) (arch : Nat) (c d : Nat)
    (rest : List Nat) (errs : List AsmError) :
    (toLower c = 115 → isDigit d = false → d ≠ 91 →
      parseSRegRange H fuel ⟨c :: d :: rest, rest.length + 2⟩ arch false ⟨0, errs⟩ =
        (.ret (0, 0), ⟨1, errs⟩) ∧
      parseOperand H fuel ⟨c :: d :: rest, rest.length + 2⟩ arch
          (INSTROP_SREGS ||| INSTROP_SSOURCE) ⟨0, errs⟩ =
        parseOperandSSource H ⟨c :: d :: rest, rest.length + 2⟩ arch
          (INSTROP_SREGS ||| INSTROP_SSOURCE) ⟨1, errs⟩) ∧
    (toLower c = 118 → d ≠ 91 →
      parseVRegRange fuel ⟨c :: d :: rest, rest.length + 2⟩ false ⟨0, errs⟩ =
        (.ret (0, 0), ⟨1, errs⟩) ∧
      parseOperand H fuel ⟨c :: d :: rest, rest.length + 2⟩ arch
          (INSTROP_VREGS ||| INSTROP_SSOURCE) ⟨0, errs⟩ =
        parseOperandSSource H ⟨c :: d :: rest, rest.length + 2⟩ arch
          (INSTROP_VREGS ||| INSTROP_SSOURCE) ⟨1, errs⟩) := by
  constructor
  · intro hs hd hd91
    have h := parseSRegRange_after_s H fuel arch false c d rest errs hs hd hd91
    refine ⟨h, ?_⟩
    have m1 : (INSTROP_SREGS ||| INSTROP_SSOURCE) ≠ INSTROP_SREGS := by decide
    have m2 : (INSTROP_SREGS ||| INSTROP_SSOURCE) ≠ INSTROP_VREGS := by decide
    have m3 : (INSTROP_SREGS ||| INSTROP_SSOURCE) &&& INSTROP_SREGS ≠ 0 := by decide
    have m4 : ¬ ((INSTROP_SREGS ||| INSTROP_SSOURCE) &&& INSTROP_VREGS ≠ 0) := by decide
    have m5 : (INSTROP_SREGS ||| INSTROP_SSOURCE) &&& INSTROP_SSOURCE ≠ 0 := by decide
    simp only [parseOperand, if_neg m1, if_neg m2, parseOperandRegs, if_pos m3, if_neg m4,
      if_pos m5, P.bind_apply, P.andThen, h, P.pure_apply]
    show (match ((pure (0, 0) : P RegPair) ⟨1, errs⟩) with
      | (Res.ret a, s1) => _
      | (Res.throw m, s1) => (Res.throw m, s1)
      | (Res.undefined, s1) => (Res.undefined, s1)
      | (Res.timeout, s1) => (Res.timeout, s1)) = _
    rw [P.pure_apply]
    simp
  · intro hv hd91
    have h := parseVRegRange_after_v fuel false c d rest errs hv hd91
    refine ⟨h, ?_⟩
    have m1 : (INSTROP_VREGS ||| INSTROP_SSOURCE) ≠ INSTROP_SREGS := by decide
    have m2 : (INSTROP_VREGS ||| INSTROP_SSOURCE) ≠ INSTROP_VREGS := by decide
    have m3 : ¬ ((INSTROP_VREGS ||| INSTROP_SSOURCE) &&& INSTROP_SREGS ≠ 0) := by decide
    have m4 : (INSTROP_VREGS ||| INSTROP_SSOURCE) &&& INSTROP_VREGS ≠ 0 := by decide
    have m5 : (INSTROP_VREGS ||| INSTROP_SSOURCE) &&& INSTROP_SSOURCE ≠ 0 := by decide
    simp only [parseOperand, if_neg m1, if_neg m2, parseOperandRegs, if_neg m3, if_pos m4,
      if_pos m5, P.bind_apply, P.andThen, P.pure_apply]
    rw [if_neg (by simp), h]
    simp

/-- The operands `scc` and `vccz`: the register parsers leave the cursor at 1,
and with helpers that read the name from the cursor on (`cc`, `ccz`),
`parseOperand` does not find the condition codes. -/
theorem parseRegRange_moves_cursor_witness :
    parseSRegRange (fixedHelpers ⟨true, bytes "cc" ++ [0]⟩ 0 0 none none) 100
      ⟨115 :: 99 :: bytes "c", (bytes "c").length + 2⟩ 1 false ⟨0, []⟩ =
      (.ret (0, 0), ⟨1, []⟩) ∧
    parseVRegRange 100 ⟨118 :: 99 :: bytes "cz", (bytes "cz").length + 2⟩ false ⟨0, []⟩ =
      (.ret (0, 0), ⟨1, []⟩) ∧
    parseOperand (fixedHelpers ⟨true, bytes "cc" ++ [0]⟩ 0 0 none none) 100
      ⟨115 :: 99 :: bytes "c", (bytes "c").length + 2⟩ 1
      (INSTROP_SREGS ||| INSTROP_SSOURCE) ⟨0, []⟩ =
      (.ret (OperandOut.plain (0, 0)), ⟨1, []⟩) :=
  ⟨((parseRegRange_moves_cursor (fixedHelpers ⟨true, bytes "cc" ++ [0]⟩ 0 0 none none) 100 1
      115 99 (bytes "c") []).1 (by decide) (by decide) (by decide)).1,
   ((parseRegRange_moves_cursor (fixedHelpers ⟨true, bytes "cc" ++ [0]⟩ 0 0 none none) 100 1
      118 99 (bytes "cz") []).2 (by decide) (by decide)).1,
   by decide⟩


/-! ## C37: the register `m0` -/

/-- C37 (the code departs from the claim): take a register name that does not
start with `s`, that `getNameArg` hands back, and that after lower-casing is
none of `vcc...`, `exec...` and `t...`.  As soon as its first character is `m`,
or its second character is `0`, or its third character is the NUL (every name
of two characters), `parseSRegRange` returns the pair `(124, 125)` of `m0`:
the test is `regName[0] == 'm' || regName[1] == '0' || regName[2] == 0`. -/
theorem parseSRegRange_m0_of_other_names (H : AsmHelpers) (fuel : Nat) (asmr : Assembler)
    (arch : Nat) (required : Bool) (s s1 : PState) (c : Nat) (r : NameArg)
    (hc : asmr.line.get? s.linePtr = some c) (hne : s.linePtr ≠ asmr.lineSize)
    (hsp : isSpace c = false) (hs : toLower c ≠ 115)
    (hname : H.getNameArg asmr 20 required s = (.ret r, s1)) (hok : r.ok = true)
    (hvcc : ¬ (charAt (toLowerString r.outStr) 0 = 118 ∧ charAt (toLowerString r.outStr) 1 = 99 ∧
      charAt (toLowerString r.outStr) 2 = 99))
    (hexec : ¬ (charAt (toLowerString r.outStr) 0 = 101 ∧
      charAt (toLowerString r.outStr) 1 = 120 ∧ charAt (toLowerString r.outStr) 2 = 101 ∧
      charAt (toLowerString r.outStr) 3 = 99))
    (ht : charAt (toLowerString r.outStr) 0 ≠ 116)
    (hm : charAt (toLowerString r.outStr) 0 = 109 ∨ charAt (toLowerString r.outStr) 1 = 48 ∨
      charAt (toLowerString r.outStr) 2 = 0) :
    parseSRegRange H fuel asmr arch required s = (.ret (124, 125), s1) := by
  have hlen : s.linePtr < asmr.line.length := by
    by_contra hlt
    rw [List.get?_eq_none.mpr (by omega)] at hc
    exact absurd hc (by simp)
  obtain ⟨n, hn⟩ : ∃ n, asmr.line.length - s.linePtr = n + 1 :=
    ⟨asmr.line.length - s.linePtr - 1, by omega⟩
  rw [List.get?_eq_getElem?] at hc
  have hnamed : parseSRegRangeNamed H fuel asmr arch required s.linePtr s =
      (.ret (some (124, 125)), s1) := by
    simp only [parseSRegRangeNamed, P.bind_apply, P.andThen, hname, hok, Bool.not_true,
      Bool.false_eq_true, if_false, if_neg hvcc, if_neg hexec, if_neg ht, if_pos hm,
      P.pure_apply]
  simp [parseSRegRange, P.bind_apply, P.andThen, skipSpacesToEnd, hn, scanWhile, hne, hc, hsp,
    P.getLinePtr, P.tryCatch, P.readAt, hs, hnamed, P.pure_apply]

/-- The names `v0`, `ab` and `mxyz` give the pair of `m0`: the line holds the
name, and the helper `getNameArg` hands it back with the cursor after it. -/
theorem parseSRegRange_m0_of_other_names_witness :
    parseSRegRange ⟨fun _ _ _ s => (.ret ⟨true, bytes "v0" ++ [0]⟩, { s with linePtr := 2 }),
        fun _ => pure 0, fun _ => pure 0, fun _ => pure none, fun _ => pure none⟩
      100 ⟨bytes "v0", 2⟩ 1 false ⟨0, []⟩ = (.ret (124, 125), ⟨2, []⟩) :=
  parseSRegRange_m0_of_other_names _ 100 ⟨bytes "v0", 2⟩ 1 false ⟨0, []⟩ ⟨2, []⟩ 118
    ⟨true, bytes "v0" ++ [0]⟩ rfl (by decide) rfl (by decide) rfl rfl (by decide) (by decide)
    (by decide) (by decide)

/-- The names `ab` and `mxyz` and the operand `v0` of an instruction that takes
scalar and vector registers: each gives the pair of `m0`; the name `m0` gives
it as well. -/
theorem parseSRegRange_m0_examples :
    parseSRegRange (fixedHelpers ⟨true, bytes "ab" ++ [0]⟩ 0 0 none none) 100 ⟨bytes "ab", 2⟩ 1
      true ⟨0, []⟩ = (.ret (124, 125), ⟨0, []⟩) ∧
    parseSRegRange (fixedHelpers ⟨true, bytes "mxyz" ++ [0]⟩ 0 0 none none) 100
      ⟨bytes "mxyz", 4⟩ 1 true ⟨0, []⟩ = (.ret (124, 125), ⟨0, []⟩) ∧
    parseSRegRange (fixedHelpers ⟨true, bytes "m0" ++ [0]⟩ 0 0 none none) 100 ⟨bytes "m0", 2⟩ 1
      true ⟨0, []⟩ = (.ret (124, 125), ⟨0, []⟩) ∧
    parseOperand (fixedHelpers ⟨true, bytes "v0" ++ [0]⟩ 0 0 none none) 100 ⟨bytes "v0", 2⟩ 1
      (INSTROP_SREGS ||| INSTROP_VREGS) ⟨0, []⟩ =
      (.ret (OperandOut.plain (124, 125)), ⟨0, []⟩) := by
  decide


/-! ## C35: the sizes of the regions after `computeSize` -/

/-- The size of a header table after `computeSize`: the difference of the end
and the offset, narrowed to `Types::Word`, is the size of the table narrowed to
`Types::Word`. -/
theorem tableSize_word (W size1 len : Nat) (hW : 2 ^ 64 % W = 0) (hpos : 0 < W) :
    ((size1 + len) % 2 ^ 64 + 2 ^ 64 - size1 % W) % W = len % W := by
  have hdvd : W ∣ 2 ^ 64 := Nat.dvd_of_mod_eq_zero hW
  have hb : size1 % W < W := Nat.mod_lt _ hpos
  have hle : W ≤ 2 ^ 64 := Nat.le_of_dvd (by decide) hdvd
  have h1 : ((size1 + len) % 2 ^ 64 + 2 ^ 64 - size1 % W) + size1 % W ≡
      len + size1 % W [MOD W] := by
    have e : ((size1 + len) % 2 ^ 64 + 2 ^ 64 - size1 % W) + size1 % W =
        (size1 + len) % 2 ^ 64 + 2 ^ 64 := by omega
    rw [e]
    have a1 : (size1 + len) % 2 ^ 64 + 2 ^ 64 ≡ (size1 + len) % 2 ^ 64 [MOD W] := by
      have : (2 : Nat) ^ 64 ≡ 0 [MOD W] := hW
      simpa using Nat.ModEq.add_left ((size1 + len) % 2 ^ 64) this
    have a2 : (size1 + len) % 2 ^ 64 ≡ size1 + len [MOD W] :=
      Nat.ModEq.of_dvd hdvd (Nat.mod_modEq _ _)
    have a3 : size1 + len ≡ len + size1 % W [MOD W] := by
      rw [Nat.add_comm size1 len]
      exact Nat.ModEq.add_left len (Nat.mod_modEq _ _).symm
    exact a1.trans (a2.trans a3)
  exact Nat.ModEq.add_right_cancel' _ h1

set_option maxHeartbeats 1000000 in
/-- One iteration of the loop over the regions in `computeSize` puts a region
in the place of region `i` that differs from it in the alignment and the size
only, with the size that `SizeAfterComputeSize` tells. -/
theorem computeRegion_size {T : ElfTypes} {gen : ElfBinaryGen} {sectionsNum i : Nat}
    {st st1 : ComputeState} {region0 : ElfRegion}
    (hT : T = Elf32Types ∨ T = Elf64Types) (hreg : st.regions[i]? = some region0)
    (h : computeRegion T gen sectionsNum i st = .ret st1) :
    ∃ r1, st1.regions = st.regions.set i r1 ∧
      SizeAfterComputeSize T gen sectionsNum region0 r1 := by
  have hW : 2 ^ 64 % 256 ^ T.wordSize = 0 ∧ 0 < 256 ^ T.wordSize := by
    rcases hT with hT | hT <;> subst hT <;> decide
  rw [computeRegion, hreg] at h
  simp only at h
  generalize hsize1 : (if (if region0.align = 0 then
        if region0.type = ElfRegionType.PHDR_TABLE ∨ region0.type = ElfRegionType.SHDR_TABLE
        then T.wordSize else 1
      else region0.align) ≠ 0 ∧ st.size &&& ((if region0.align = 0 then
        if region0.type = ElfRegionType.PHDR_TABLE ∨ region0.type = ElfRegionType.SHDR_TABLE
        then T.wordSize else 1
      else region0.align) - 1) ≠ 0 then
        (st.size + ((if region0.align = 0 then
        if region0.type = ElfRegionType.PHDR_TABLE ∨ region0.type = ElfRegionType.SHDR_TABLE
        then T.wordSize else 1
      else region0.align) - (st.size &&& ((if region0.align = 0 then
        if region0.type = ElfRegionType.PHDR_TABLE ∨ region0.type = ElfRegionType.SHDR_TABLE
        then T.wordSize else 1
      else region0.align) - 1)))) % 2 ^ 64
      else st.size) = size1 at h
  cases hty : region0.type with
  | PHDR_TABLE =>
    simp only [hty] at h
    cases hc : checkRegionRanges st.regions.length gen.progHeaders with
    | ret u =>
      rw [hc] at h
      simp only [Res.ret.injEq] at h
      subst h
      exact ⟨_, rfl, hty.symm, rfl, rfl, rfl, fun hx => absurd (hty.symm.trans hx) (by decide),
        fun hx => absurd (hty.symm.trans hx) (by decide), fun _ => tableSize_word _ _ _ hW.1 hW.2,
        fun hx => absurd (hty.symm.trans hx) (by decide)⟩
    | throw m => rw [hc] at h; cases h
    | undefined => rw [hc] at h; cases h
    | timeout => rw [hc] at h; cases h
  | SHDR_TABLE =>
    simp only [hty, Res.ret.injEq] at h
    subst h
    exact ⟨_, rfl, hty.symm, rfl, rfl, rfl, fun hx => absurd (hty.symm.trans hx) (by decide),
      fun hx => absurd (hty.symm.trans hx) (by decide), fun hx => absurd (hty.symm.trans hx) (by decide),
      fun _ => tableSize_word _ _ _ hW.1 hW.2⟩
  | USER =>
    simp only [hty, Res.ret.injEq] at h
    subst h
    exact ⟨_, rfl, hty.symm, rfl, rfl, rfl, fun _ => rfl, fun hx => absurd (hty.symm.trans hx) (by decide),
      fun hx => absurd (hty.symm.trans hx) (by decide), fun hx => absurd (hty.symm.trans hx) (by decide)⟩
  | SECTION =>
    simp only [hty] at h
    by_cases hlink : region0.sect.link ≥ sectionsNum
    · rw [if_pos hlink] at h; exact absurd h Res.raise_ne_ret
    rw [if_neg hlink] at h
    simp only [Res.ret.injEq] at h
    subst h
    refine ⟨_, rfl, ?_, ?_, ?_, ?_, fun hx => absurd (hty.symm.trans hx) (by decide), ?_, fun hx => absurd (hty.symm.trans hx) (by decide),
      fun hx => absurd (hty.symm.trans hx) (by decide)⟩
    · split_ifs <;> exact hty.symm
    · split_ifs <;> rfl
    · split_ifs <;> rfl
    · split_ifs <;> rfl
    · intro _ hnb hsz
      rw [if_pos ⟨hnb, hsz⟩]

/-- The loop over the regions in `computeSize`, when it returns: every region
is replaced by one that `SizeAfterComputeSize` relates to it. -/
theorem computeSize_loop_sizes {T : ElfTypes} {gen : ElfBinaryGen} {sectionsNum : Nat}
    {init st : ComputeState} (hT : T = Elf32Types ∨ T = Elf64Types)
    (h : foldRange init.regions.length init (computeRegion T gen sectionsNum) = .ret st)
    (i : Nat) (r : ElfRegion) (hr : init.regions[i]? = some r) :
    ∃ r1, st.regions[i]? = some r1 ∧ SizeAfterComputeSize T gen sectionsNum r r1 := by
  obtain ⟨states, h0, hn, hstep⟩ := foldRange_ret h
  have hinv : ∀ k, k ≤ init.regions.length →
      (states k).regions.length = init.regions.length ∧
      (∀ j, k ≤ j → (states k).regions[j]? = init.regions[j]?) ∧
      (∀ j r, j < k → init.regions[j]? = some r →
        ∃ r1, (states k).regions[j]? = some r1 ∧
          SizeAfterComputeSize T gen sectionsNum r r1) := by
    intro k
    induction k with
    | zero =>
      intro _
      rw [h0]
      exact ⟨rfl, fun _ _ => rfl, fun j _ hj => absurd hj (Nat.not_lt_zero j)⟩
    | succ k ih =>
      intro hk
      obtain ⟨hlen, hrest, hdone⟩ := ih (by omega)
      have hklt : k < init.regions.length := by omega
      have hcur : (states k).regions[k]? = some (init.regions.get ⟨k, hklt⟩) := by
        rw [hrest k (le_refl k), List.getElem?_eq_getElem hklt]; rfl
      obtain ⟨r1, hset, hsz⟩ := computeRegion_size hT hcur (hstep k hklt)
      refine ⟨by rw [hset, List.length_set, hlen], ?_, ?_⟩
      · intro j hj
        rw [hset, List.getElem?_set_ne (by omega)]
        exact hrest j (by omega)
      · intro j r hj hjr
        by_cases hjk : j = k
        · subst hjk
          have hreq : init.regions.get ⟨j, hklt⟩ = r := by
            have := List.getElem?_eq_getElem hklt
            rw [hjr] at this
            exact (Option.some.inj this).symm
          rw [hreq] at hsz
          exact ⟨r1, by rw [hset, List.getElem?_set_self (by omega)], hsz⟩
        · obtain ⟨r2, h2, hs2⟩ := hdone j r (by omega) hjr
          exact ⟨r2, by rw [hset, List.getElem?_set_ne (fun e => hjk e.symm)]; exact h2, hs2⟩
  obtain ⟨_, _, hdone⟩ := hinv init.regions.length (le_refl _)
  rw [← hn]
  exact hdone i r (List.getElem?_eq_some.mp hr).1 hr

/-- The regions `computeSize` leaves are the regions of the last state of its
loop. -/
theorem computeSize_regions {T : ElfTypes} {gen gen1 : ElfBinaryGen}
    (hfresh : gen.sizeComputed = false) (h : computeSize T gen = .ret gen1) :
    ∃ st, foldRange gen.regions.length
      (⟨gen.regions, [], [UINT_MAX], T.ehdrSize, gen.shStrTab, gen.strTab, gen.dynStr,
        gen.shdrTabRegion, gen.phdrTabRegion⟩ : ComputeState)
      (computeRegion T gen (1 + (sectionNames gen.regions).length)) = .ret st ∧
      gen1.regions = st.regions := by
  have hsn : 1 + (gen.regions.filter fun r => r.type = ElfRegionType.SECTION).length =
      1 + (sectionNames gen.regions).length := by simp [sectionNames]
  rw [computeSize, hfresh] at h
  simp only [Bool.false_eq_true, if_false, hsn] at h
  by_cases he : gen.header.entryRegion ≠ UINT_MAX ∧ gen.header.entryRegion ≥ gen.regions.length
  · rw [if_pos he] at h; exact absurd h Res.raise_ne_ret
  rw [if_neg he] at h
  by_cases hs : (gen.symbols.any fun sym =>
      decide (sym.sectionIndex ≥ 1 + (sectionNames gen.regions).length)) = true
  · rw [if_pos hs] at h; exact absurd h Res.raise_ne_ret
  rw [if_neg hs] at h
  by_cases hd : (gen.dynSymbols.any fun sym =>
      decide (sym.sectionIndex ≥ 1 + (sectionNames gen.regions).length)) = true
  · rw [if_pos hd] at h; exact absurd h Res.raise_ne_ret
  rw [if_neg hd] at h
  cases hf : foldRange gen.regions.length
      (⟨gen.regions, [], [UINT_MAX], T.ehdrSize, gen.shStrTab, gen.strTab, gen.dynStr,
        gen.shdrTabRegion, gen.phdrTabRegion⟩ : ComputeState)
      (computeRegion T gen (1 + (sectionNames gen.regions).length)) with
  | ret st =>
    rw [hf] at h
    simp only [Res.ret.injEq] at h
    subst h
    exact ⟨st, rfl, rfl⟩
  | throw m => rw [hf] at h; cases h
  | undefined => rw [hf] at h; cases h
  | timeout => rw [hf] at h; cases h

/-- A `NOBITS` section counts no bytes. -/
theorem contentSize_nobits (T : ElfTypes) (gen : ElfBinaryGen) (r : ElfRegion)
    (hty : r.type = ElfRegionType.SECTION) (hnb : r.sect.type = SHT_NOBITS) :
    contentSize T gen r = 0 := by
  simp [contentSize, hty, hnb, SHT_NOBITS, SHT_SYMTAB, SHT_DYNSYM, SHT_STRTAB]

/-- C35 as amended: for every description that `computeSize` accepts, region
`i` keeps its type, its section header fields and its data; a `USER` region
keeps its declared size, and so does a section that is not `NOBITS` when the
size is not 0; the size of a `PHDR_TABLE` or `SHDR_TABLE` region becomes the
size of the table (the number of program headers, or of sections with the null
section, times the entry size), whatever was declared. When moreover the layout
ends below `2^32` (ELF32) or `2^64` (ELF64), a `NOBITS` section occupies no file
bytes: the region after it is placed at the aligned offset from the offset of
the section itself, and when it is the last region the file ends at its
offset. -/
theorem computeSize_sizes (T : ElfTypes) (header : ElfHeader) (regions : List ElfRegion)
    (progHeaders : List ElfProgramHeader) (symbols dynSymbols : List ElfSymbol)
    (gen1 : ElfBinaryGen) (i : Nat) (region : ElfRegion)
    (hT : T = Elf32Types ∨ T = Elf64Types)
    (h : computeSize T (ElfBinaryGen.create header regions progHeaders symbols dynSymbols)
      = .ret gen1)
    (hregion : regions[i]? = some region) :
    (∃ r1, gen1.regions[i]? = some r1 ∧
      SizeAfterComputeSize T (ElfBinaryGen.create header regions progHeaders symbols dynSymbols)
        (1 + (sectionNames regions).length) region r1) ∧
    (plainSize T (ElfBinaryGen.create header regions progHeaders symbols dynSymbols)
        regions T.ehdrSize < 256 ^ T.wordSize →
      region.type = ElfRegionType.SECTION → region.sect.type = SHT_NOBITS →
      ∃ off, gen1.regionOffsets[i]? = some off ∧
        (regions[i + 1]? = none → gen1.size = off) ∧
        ∀ next, regions[i + 1]? = some next →
          gen1.regionOffsets[i + 1]? = some (alignedOffset off (fixedAlign T next))) := by
  constructor
  · obtain ⟨st, hf, hregs⟩ := computeSize_regions rfl h
    rw [hregs]
    exact computeSize_loop_sizes hT hf i region hregion
  · intro hfit hty hnb
    obtain ⟨_, _, _, _, _, hoffs, hsize, _⟩ := computeSize_layout rfl hT hfit h
    have hend : plainSize T (ElfBinaryGen.create header regions progHeaders symbols dynSymbols)
        (regions.take (i + 1)) T.ehdrSize =
        alignedOffset (plainSize T
          (ElfBinaryGen.create header regions progHeaders symbols dynSymbols)
          (regions.take i) T.ehdrSize) (fixedAlign T region) := by
      rw [take_succ_of_getElem? regions i region hregion, plainSize_append]
      simp only [plainSize, contentSize_nobits T _ region hty hnb, Nat.add_zero]
    refine ⟨_, by rw [hoffs]; exact plainOffsets_getElem? T _ regions T.ehdrSize i region hregion,
      ?_, ?_⟩
    · intro hnone
      rw [hsize, ← hend, List.take_of_length_le (by
        rcases Nat.lt_or_ge (i + 1) regions.length with hlt | hge
        · rw [List.getElem?_eq_getElem hlt] at hnone; cases hnone
        · exact hge)]
    · intro next hnext
      rw [hoffs, plainOffsets_getElem? T _ regions T.ehdrSize (i + 1) next hnext, hend]

set_option maxRecDepth 100000 in
/-- The section `.bss` of `nobitsDescription`, region 1: it is placed at 56, and
so is `.shstrtab`, the region after it. -/
theorem computeSize_sizes_witness :
    (∃ r1, (computedLayout Elf32Types nobitsDescription).regions[1]? = some r1 ∧
      SizeAfterComputeSize Elf32Types nobitsDescription
        (1 + (sectionNames nobitsDescription.regions).length)
        ⟨.SECTION, true, 16, 1, some [], ⟨bytes ".bss", SHT_NOBITS, 3, 0, 0, 0, 0⟩⟩ r1) ∧
    (plainSize Elf32Types nobitsDescription nobitsDescription.regions Elf32Types.ehdrSize
        < 256 ^ Elf32Types.wordSize →
      ElfRegionType.SECTION = ElfRegionType.SECTION → SHT_NOBITS = SHT_NOBITS →
      ∃ off, (computedLayout Elf32Types nobitsDescription).regionOffsets[1]? = some off ∧
        (nobitsDescription.regions[1 + 1]? = none →
          (computedLayout Elf32Types nobitsDescription).size = off) ∧
        ∀ next, nobitsDescription.regions[1 + 1]? = some next →
          (computedLayout Elf32Types nobitsDescription).regionOffsets[1 + 1]? =
            some (alignedOffset off (fixedAlign Elf32Types next))) :=
  computeSize_sizes Elf32Types ⟨0, 0, 1, 0xe0, 1, UINT_MAX, 0, 0, 0, 0⟩
    nobitsDescription.regions [] [⟨bytes "a", 1, 0, 0, false, 2, 4⟩] []
    (computedLayout Elf32Types nobitsDescription) 1
    ⟨.SECTION, true, 16, 1, some [], ⟨bytes ".bss", SHT_NOBITS, 3, 0, 0, 0, 0⟩⟩
    (Or.inl rfl) (by decide) (by decide)

set_option maxRecDepth 100000 in
/-- C35 as stated fails: in `sizedTableDescription` the section headers table is
declared with the size 5, which is not 0, and `computeSize` replaces it by 80,
the size of two section headers of 40 bytes; the 4 bytes declared for `.text`
stay. -/
theorem computeSize_table_size :
    computedSizes Elf32Types sizedTableDescription = .ret [4, 80] := by
  decide

set_option maxRecDepth 100000 in
/-- The size left for the `NOBITS` section `.bss` of `nobitsDescription`, which
is declared with 16 bytes: 0, and `.text` keeps its 4 bytes. -/
theorem computeSize_nobits_size :
    (computedSizes Elf32Types nobitsDescription).andThen (fun l => .ret (l.take 2)) =
      .ret [4, 0] := by
  decide

/-! ## C39: the joining pass keeps the rows of the source table -/

/-- The comparison passed to `std::sort`, spelled out. -/
theorem instrLess_iff (a b : GCNAsmInstruction) : instrLess a b = true ↔
    a.mnemonic < b.mnemonic ∨ (a.mnemonic = b.mnemonic ∧
      (a.encoding1 < b.encoding1 ∨ (a.encoding1 = b.encoding1 ∧ a.archMask < b.archMask))) := by
  simp only [instrLess, Bool.or_eq_true, Bool.and_eq_true, decide_eq_true_eq, strcmp_lt_zero,
    strcmp_eq_zero]
  tauto

/-- The sorted table is in the order of the mnemonics. -/
theorem insertionSort_mnemonics (rows : List GCNAsmInstruction) :
    (rows.insertionSort (fun a b => ¬ instrLess b a)).Pairwise
      (fun a b => a.mnemonic ≤ b.mnemonic) := by
  haveI : IsTotal GCNAsmInstruction (fun a b => ¬ instrLess b a) := ⟨by
    intro a b
    by_contra hc
    rw [not_or, not_not, not_not, instrLess_iff, instrLess_iff] at hc
    obtain ⟨h1, h2⟩ := hc
    rcases h1 with h1 | ⟨e1, h1⟩
    · rcases h2 with h2 | ⟨e2, _⟩
      · exact lt_asymm h1 h2
      · rw [e2] at h1; exact lt_irrefl _ h1
    · rcases h2 with h2 | ⟨_, h2⟩
      · rw [e1] at h2; exact lt_irrefl _ h2
      · omega⟩
  haveI : IsTrans GCNAsmInstruction (fun a b => ¬ instrLess b a) := ⟨by
    intro a b c hab hbc hca
    rw [instrLess_iff] at hab hbc hca
    rw [not_or, not_and, not_or, not_and] at hab hbc
    obtain ⟨hab1, hab2⟩ := hab
    obtain ⟨hbc1, hbc2⟩ := hbc
    have hab1 : a.mnemonic ≤ b.mnemonic := not_lt.mp hab1
    have hbc1 : b.mnemonic ≤ c.mnemonic := not_lt.mp hbc1
    rcases hca with hca | ⟨e, hca⟩
    · exact absurd (le_trans hab1 hbc1) (not_le.mpr hca)
    · have eab : b.mnemonic = a.mnemonic := by
        rw [e] at hbc1; exact le_antisymm hbc1 hab1
      have ebc : c.mnemonic = b.mnemonic := by rw [e, eab]
      have := hab2 eab
      have := hbc2 ebc
      omega⟩
  have hs := List.sorted_insertionSort (fun a b => ¬ instrLess b a) rows
  refine List.Pairwise.imp ?_ hs
  intro a b hab
  rw [instrLess_iff, not_or] at hab
  exact not_lt.mp hab.1

/-- The backward scan stays inside the table when the first row of the table has
another mnemonic than `insn`. -/
theorem fusionScan_ret (table : List GCNAsmInstruction) (insn row0 : GCNAsmInstruction)
    (h0 : table[0]? = some row0) (hne : row0.mnemonic ≠ insn.mnemonic) :
    ∀ j, j < table.length → ∃ k, k ≤ j ∧ fusionScan table insn j = .ret k := by
  intro j
  induction j with
  | zero =>
    intro _
    exact ⟨0, le_refl _, by simp [fusionScan, h0, strcmp_eq_zero, hne]⟩
  | succ j ih =>
    intro hj
    obtain ⟨row, hrow⟩ : ∃ row, table[j + 1]? = some row := ⟨_, List.getElem?_eq_getElem hj⟩
    unfold fusionScan
    simp only [hrow]
    split
    · obtain ⟨k, hk, hs⟩ := ih (by omega)
      exact ⟨k, by omega, hs⟩
    · exact ⟨j + 1, le_refl _, rfl⟩

/-- What a step of the joining loop that returns has done: it has appended the
row, or it has found a row with the mnemonic of `insn` and an `archMask`
containing the one of `insn`, and has filled the second slot of that row or
appended a copy of it with the second slot filled. -/
theorem fusionStep_ret_cases (table table1 : List GCNAsmInstruction) (insn : GCNAsmInstruction)
    (h : fusionStep table insn = .ret table1) :
    table1 = table ++ [insn] ∨
    ∃ k row, table[k]? = some row ∧ row.mnemonic = insn.mnemonic ∧
      row.archMask &&& insn.archMask = insn.archMask ∧
      (insn.encoding1 = GCNENC_VOP3A ∨ insn.encoding1 = GCNENC_VOP3B) ∧
      ((row.code2 = UINT16_MAX ∧ table1 = table.set k
          ⟨row.mnemonic, row.encoding1, insn.encoding1, row.mode, row.code1, insn.code1,
            insn.archMask⟩) ∨
       (row.code2 ≠ UINT16_MAX ∧ table1 = table ++
          [⟨row.mnemonic, row.encoding1, insn.encoding1, row.mode, row.code1, insn.code1,
            insn.archMask⟩])) := by
  unfold fusionStep at h
  split at h
  · rename_i hvop
    split at h
    · cases h
    · split at h
      · rename_i k hscan
        split at h
        · cases h
        · rename_i c hc
          split at h
          · rename_i hfound
            right
            refine ⟨k, c, hc, (strcmp_eq_zero _ _).mp hfound.1, hfound.2, hvop, ?_⟩
            split at h
            · rename_i hempty
              cases h
              left
              refine ⟨hempty, ?_⟩
              rw [hfound.2]
            · rename_i hfilled
              cases h
              right
              refine ⟨hfilled, ?_⟩
              rw [hfound.2]
          · cases h
            left; rfl
      all_goals cases h
  · cases h
    left; rfl

/-- A step of the joining loop returns when the row is no `VOP3A`/`VOP3B` row, or
the first row of the table has another mnemonic. -/
theorem fusionStep_defined (table : List GCNAsmInstruction) (insn row0 : GCNAsmInstruction)
    (h : (insn.encoding1 = GCNENC_VOP3A ∨ insn.encoding1 = GCNENC_VOP3B) →
      table[0]? = some row0 ∧ row0.mnemonic ≠ insn.mnemonic) :
    ∃ table1, fusionStep table insn = .ret table1 := by
  unfold fusionStep
  by_cases hvop : insn.encoding1 = GCNENC_VOP3A ∨ insn.encoding1 = GCNENC_VOP3B
  · rw [if_pos hvop]
    obtain ⟨h0, hne⟩ := h hvop
    have hpos : 0 < table.length := (List.getElem?_eq_some_iff.mp h0).1
    obtain ⟨j, hj⟩ : ∃ j, table.length = j + 1 := ⟨table.length - 1, by omega⟩
    obtain ⟨k, hk, hscan⟩ := fusionScan_ret table insn row0 h0 hne j (by omega)
    obtain ⟨row, hrow⟩ : ∃ row, table[k]? = some row :=
      ⟨_, List.getElem?_eq_getElem (by omega)⟩
    simp only [hj, hscan, hrow]
    split
    · split
      · exact ⟨_, rfl⟩
      · exact ⟨_, rfl⟩
    · exact ⟨_, rfl⟩
  · rw [if_neg hvop]
    exact ⟨_, rfl⟩

/-- Replacing a row by a row with the same mnemonic leaves the mnemonics of the
table as they are. -/
theorem map_mnemonic_set (table : List GCNAsmInstruction) (k : Nat)
    (row row1 : GCNAsmInstruction) (hk : table[k]? = some row)
    (hmn : row1.mnemonic = row.mnemonic) :
    (table.set k row1).map (fun r => r.mnemonic) = table.map (fun r => r.mnemonic) := by
  apply List.ext_getElem?
  intro i
  rw [List.getElem?_map, List.getElem?_map, List.getElem?_set]
  split
  · rename_i hki
    subst hki
    have hlt : k < table.length := (List.getElem?_eq_some_iff.mp hk).1
    simp [hlt, hk, hmn]
  · rfl

/-- A row that carries a row of the sorted table still carries it after a
`VOP3A`/`VOP3B` row of the table with the same mnemonic and an `archMask` inside
its own has been joined into its empty second slot. -/
theorem RowCarries_joined (sorted : List GCNAsmInstruction) (row insn s : GCNAsmInstruction)
    (hc : RowCarries sorted row s) (hin : insn ∈ sorted)
    (hvop : insn.encoding1 = GCNENC_VOP3A ∨ insn.encoding1 = GCNENC_VOP3B)
    (hmn : row.mnemonic = insn.mnemonic)
    (hsup : row.archMask &&& insn.archMask = insn.archMask)
    (hempty : row.code2 = UINT16_MAX) :
    RowCarries sorted ⟨row.mnemonic, row.encoding1, insn.encoding1, row.mode, row.code1,
      insn.code1, insn.archMask⟩ s := by
  obtain ⟨h1, h2, h3, h4⟩ := hc
  have hsub : insn.archMask &&& s.archMask = insn.archMask := by
    calc insn.archMask &&& s.archMask
        = (row.archMask &&& insn.archMask) &&& s.archMask := by rw [hsup]
      _ = insn.archMask &&& (row.archMask &&& s.archMask) := by
          rw [Nat.land_comm row.archMask insn.archMask, Nat.land_assoc]
      _ = insn.archMask := by rw [h2, Nat.land_comm, hsup]
  refine ⟨h1, hsub, ?_, ?_⟩
  · rcases h3 with h3 | ⟨_, _, h3⟩
    · exact Or.inl h3
    · exact absurd hempty h3
  · intro hp
    exact hp insn hin hvop (by rw [← hmn, h1]) hsub

/-- The joining loop over the rest of a sorted table whose first mnemonic is not
the mnemonic of a `VOP3A`/`VOP3B` row: it returns, the joined table is in the
order of the mnemonics, and every row of the sorted table is carried by a row
of the joined table. -/
theorem fusionPass_carries (sorted : List GCNAsmInstruction) (m0 : List Nat)
    (hvop : ∀ t ∈ sorted, (t.encoding1 = GCNENC_VOP3A ∨ t.encoding1 = GCNENC_VOP3B) →
      t.mnemonic ≠ m0 ∧ t.code1 ≠ UINT16_MAX) :
    ∀ (rest done table : List GCNAsmInstruction), done ++ rest = sorted →
      rest.Pairwise (fun a b => a.mnemonic ≤ b.mnemonic) →
      (∀ m ∈ table.map (fun r => r.mnemonic), ∀ r ∈ rest, m ≤ r.mnemonic) →
      (table.map (fun r => r.mnemonic)).Pairwise (fun a b => a ≤ b) →
      (∀ s ∈ done, ∃ f ∈ table, RowCarries sorted f s) →
      ((table.map (fun r => r.mnemonic))[0]? = some m0 ∨
        (table = [] ∧ ∀ r, rest.head? = some r → r.mnemonic = m0)) →
      ∃ final, fusionPass table rest = .ret final ∧
        (final.map (fun r => r.mnemonic)).Pairwise (fun a b => a ≤ b) ∧
        ∀ s ∈ sorted, ∃ f ∈ final, RowCarries sorted f s := by
  intro rest
  induction rest with
  | nil =>
    intro done table hall _ _ hpw hcar _
    rw [List.append_nil] at hall
    subst hall
    exact ⟨table, rfl, hpw, hcar⟩
  | cons insn rest ih =>
    intro done table hall hrest hord hpw hcar hfirst
    have hin : insn ∈ sorted := by rw [← hall]; simp
    have hrest1 : rest.Pairwise (fun a b => a.mnemonic ≤ b.mnemonic) :=
      (List.pairwise_cons.mp hrest).2
    have hinsn : ∀ r ∈ rest, insn.mnemonic ≤ r.mnemonic := (List.pairwise_cons.mp hrest).1
    have hall1 : (done ++ [insn]) ++ rest = sorted := by
      rw [List.append_assoc]; exact hall
    -- the step returns
    obtain ⟨table1, hstep⟩ : ∃ table1, fusionStep table insn = .ret table1 := by
      rcases hfirst with h0 | ⟨_, hhead⟩
      · rw [List.getElem?_map] at h0
        cases hr0 : table[0]? with
        | none => rw [hr0] at h0; cases h0
        | some row0 =>
          rw [hr0] at h0
          simp only [Option.map_some', Option.some.injEq] at h0
          exact fusionStep_defined table insn row0 (fun hv =>
            ⟨hr0, by rw [h0]; exact fun e => (hvop insn hin hv).1 e.symm⟩)
      · exact fusionStep_defined table insn insn (fun hv =>
          absurd (hhead insn rfl) (hvop insn hin hv).1)
    rw [fusionPass, hstep]
    -- appending a row with the mnemonic of `insn`
    have happend : ∀ row1 : GCNAsmInstruction, row1.mnemonic = insn.mnemonic →
        RowCarries sorted row1 insn →
        ∃ final, fusionPass (table ++ [row1]) rest = .ret final ∧
          (final.map (fun r => r.mnemonic)).Pairwise (fun a b => a ≤ b) ∧
          ∀ s ∈ sorted, ∃ f ∈ final, RowCarries sorted f s := by
      intro row1 hmn hc1
      refine ih (done ++ [insn]) (table ++ [row1]) hall1 hrest1 ?_ ?_ ?_ ?_
      · intro m hm r hr
        rw [List.map_append, List.mem_append] at hm
        rcases hm with hm | hm
        · exact hord m hm r (List.mem_cons_of_mem _ hr)
        · simp only [List.map_cons, List.map_nil, List.mem_singleton] at hm
          rw [hm, hmn]
          exact hinsn r hr
      · rw [List.map_append, List.pairwise_append]
        refine ⟨hpw, by simp, ?_⟩
        intro a ha b hb
        simp only [List.map_cons, List.map_nil, List.mem_singleton] at hb
        rw [hb, hmn]
        exact hord a ha insn (List.mem_cons_self _ _)
      · intro s hs
        rw [List.mem_append, List.mem_singleton] at hs
        rcases hs with hs | hs
        · obtain ⟨f, hf, hc⟩ := hcar s hs
          exact ⟨f, List.mem_append_left _ hf, hc⟩
        · subst hs
          exact ⟨row1, by simp, hc1⟩
      · left
        rcases hfirst with h0 | ⟨hnil, hhead⟩
        · rw [List.map_append, List.getElem?_append_left
            (List.getElem?_eq_some_iff.mp h0).1]
          exact h0
        · subst hnil
          simp only [List.nil_append, List.map_cons, List.map_nil, List.getElem?_cons_zero,
            Option.some.injEq]
          rw [hmn]
          exact hhead insn rfl
    rcases fusionStep_ret_cases table table1 insn hstep with hA | ⟨k, row, hk, hmn, hsup, hv, hB | hC⟩
    · subst hA
      exact happend insn rfl ⟨rfl, Nat.and_self _, Or.inl ⟨rfl, rfl⟩, fun _ => rfl⟩
    · obtain ⟨hempty, hset⟩ := hB
      subst hset
      have hmap := map_mnemonic_set table k row
        ⟨row.mnemonic, row.encoding1, insn.encoding1, row.mode, row.code1, insn.code1,
          insn.archMask⟩ hk rfl
      have hklt : k < table.length := (List.getElem?_eq_some_iff.mp hk).1
      refine ih (done ++ [insn]) _ hall1 hrest1 ?_ ?_ ?_ ?_
      · rw [hmap]
        intro m hm r hr
        exact hord m hm r (List.mem_cons_of_mem _ hr)
      · rw [hmap]; exact hpw
      · intro s hs
        rw [List.mem_append, List.mem_singleton] at hs
        rcases hs with hs | hs
        · obtain ⟨f, hf, hc⟩ := hcar s hs
          obtain ⟨i, hi⟩ := List.mem_iff_getElem?.mp hf
          by_cases hik : i = k
          · subst hik
            rw [hk] at hi
            cases hi
            refine ⟨_, List.mem_iff_getElem?.mpr ⟨i, ?_⟩,
              RowCarries_joined sorted row insn s hc hin hv hmn hsup hempty⟩
            rw [List.getElem?_set_self hklt]
          · refine ⟨f, List.mem_iff_getElem?.mpr ⟨i, ?_⟩, hc⟩
            rw [List.getElem?_set_ne (fun e => hik e.symm)]
            exact hi
        · subst hs
          refine ⟨_, List.mem_iff_getElem?.mpr ⟨k, List.getElem?_set_self hklt⟩, ?_⟩
          exact ⟨hmn, Nat.and_self _, Or.inr ⟨rfl, rfl, (hvop s hin hv).2⟩, fun _ => rfl⟩
      · left
        rw [hmap]
        rcases hfirst with h0 | ⟨hnil, _⟩
        · exact h0
        · subst hnil; simp at hklt
    · obtain ⟨hfilled, happ⟩ := hC
      subst happ
      exact happend _ hmn
        ⟨hmn, Nat.and_self _, Or.inr ⟨rfl, rfl, (hvop insn hin hv).2⟩, fun _ => rfl⟩

/-- C39 as amended: let the smallest mnemonic of the source table be the
mnemonic of no `VOP3A`/`VOP3B` row, and let no `VOP3A`/`VOP3B` row have the
opcode `0xFFFF`.  Then `initializeGCNAssembler` returns (the backward scan never
leaves the rows written so far), the joined table is still sorted by mnemonic,
and for every row of the source table the joined table has a row with that
mnemonic which carries that encoding and opcode in its first or second slot and
whose `archMask` lies inside the `archMask` of the source row; it is the
`archMask` of the source row itself when no `VOP3A`/`VOP3B` row with the same
mnemonic has an `archMask` properly inside it. -/
theorem initializeGCNAssembler_carries (gcnInstrsTable : List GCNInstruction)
    (s0 : GCNInstruction) (hs0 : s0 ∈ gcnInstrsTable)
    (hmin : ∀ s ∈ gcnInstrsTable, s0.mnemonic ≤ s.mnemonic)
    (hvop : ∀ s ∈ gcnInstrsTable, (s.encoding = GCNENC_VOP3A ∨ s.encoding = GCNENC_VOP3B) →
      s.mnemonic ≠ s0.mnemonic ∧ s.code ≠ UINT16_MAX) :
    ∃ final, initializeGCNAssembler gcnInstrsTable = .ret final ∧ SortedByMnemonic final ∧
      ∀ s ∈ gcnInstrsTable, ∃ f ∈ final, f.mnemonic = s.mnemonic ∧
        ((f.encoding1 = s.encoding ∧ f.code1 = s.code) ∨
          (f.encoding2 = s.encoding ∧ f.code2 = s.code)) ∧
        f.archMask &&& s.archMask = f.archMask ∧
        ((∀ t ∈ gcnInstrsTable, (t.encoding = GCNENC_VOP3A ∨ t.encoding = GCNENC_VOP3B) →
            t.mnemonic = s.mnemonic → t.archMask &&& s.archMask = t.archMask →
            t.archMask = s.archMask) →
          f.archMask = s.archMask) := by
  have hmem : ∀ t, t ∈ (gcnInstrsTable.map initialRow).insertionSort
      (fun a b => ¬ instrLess b a) ↔ ∃ s ∈ gcnInstrsTable, initialRow s = t := by
    intro t
    rw [(List.perm_insertionSort _ _).mem_iff, List.mem_map]
  have hsorted := insertionSort_mnemonics (gcnInstrsTable.map initialRow)
  have hvop1 : ∀ t ∈ (gcnInstrsTable.map initialRow).insertionSort
      (fun a b => ¬ instrLess b a),
      (t.encoding1 = GCNENC_VOP3A ∨ t.encoding1 = GCNENC_VOP3B) →
      t.mnemonic ≠ s0.mnemonic ∧ t.code1 ≠ UINT16_MAX := by
    intro t ht hv
    obtain ⟨s, hs, rfl⟩ := (hmem t).mp ht
    exact hvop s hs hv
  have hhead : ∀ r, ((gcnInstrsTable.map initialRow).insertionSort
      (fun a b => ¬ instrLess b a)).head? = some r → r.mnemonic = s0.mnemonic := by
    intro r hr
    cases hl : (gcnInstrsTable.map initialRow).insertionSort (fun a b => ¬ instrLess b a) with
    | nil => rw [hl] at hr; cases hr
    | cons a tail =>
      rw [hl] at hr hsorted
      simp only [List.head?_cons, Option.some.injEq] at hr
      subst hr
      have h0 : initialRow s0 ∈ a :: tail := by
        rw [← hl]; exact (hmem _).mpr ⟨s0, hs0, rfl⟩
      have hle1 : a.mnemonic ≤ s0.mnemonic := by
        rcases List.mem_cons.mp h0 with e | hin
        · rw [← e]; exact le_refl _
        · exact (List.pairwise_cons.mp hsorted).1 _ hin
      have hle2 : s0.mnemonic ≤ a.mnemonic := by
        obtain ⟨s, hs, hsa⟩ := (hmem a).mp (by rw [hl]; exact List.mem_cons_self _ _)
        rw [← hsa]
        exact hmin s hs
      exact le_antisymm hle1 hle2
  obtain ⟨final, hret, hpw, hcar⟩ := fusionPass_carries _ s0.mnemonic hvop1 _ [] [] rfl hsorted
    (by simp) (by simp) (by simp) (Or.inr ⟨rfl, hhead⟩)
  refine ⟨final, hret, ?_, ?_⟩
  · intro i j ri rj hij hi hj
    obtain ⟨hilt, hie⟩ := List.getElem?_eq_some_iff.mp hi
    obtain ⟨hjlt, hje⟩ := List.getElem?_eq_some_iff.mp hj
    have := List.pairwise_iff_getElem.mp hpw i j (by simpa using hilt) (by simpa using hjlt) hij
    simpa [hie, hje] using this
  · intro s hs
    obtain ⟨f, hf, h1, h2, h3, h4⟩ := hcar (initialRow s) ((hmem _).mpr ⟨s, hs, rfl⟩)
    refine ⟨f, hf, h1, ?_, h2, ?_⟩
    · rcases h3 with h3 | ⟨h3, h3', _⟩
      · exact Or.inl h3
      · exact Or.inr ⟨h3, h3'⟩
    · intro hp
      apply h4
      intro t ht hv hmn hsub
      obtain ⟨t1, ht1, rfl⟩ := (hmem t).mp ht
      exact hp t1 ht1 hv hmn hsub

/-- The rows `s_nop`, and `v_add_f32` as a `VOP2` and a `VOP3A` row: the joined
table is sorted and carries every row. -/
theorem initializeGCNAssembler_carries_witness :
    ∃ final, initializeGCNAssembler
        [⟨bytes "v_add_f32", GCNENC_VOP3A, 0, 259, 3⟩, ⟨bytes "v_add_f32", GCNENC_VOP2, 0, 3, 3⟩,
         ⟨bytes "s_nop", GCNENC_SOPP, 0, 0, 3⟩] = .ret final ∧ SortedByMnemonic final ∧
      ∀ s ∈ ([⟨bytes "v_add_f32", GCNENC_VOP3A, 0, 259, 3⟩,
          ⟨bytes "v_add_f32", GCNENC_VOP2, 0, 3, 3⟩,
          ⟨bytes "s_nop", GCNENC_SOPP, 0, 0, 3⟩] : List GCNInstruction),
        ∃ f ∈ final, f.mnemonic = s.mnemonic ∧
        ((f.encoding1 = s.encoding ∧ f.code1 = s.code) ∨
          (f.encoding2 = s.encoding ∧ f.code2 = s.code)) ∧
        f.archMask &&& s.archMask = f.archMask ∧
        ((∀ t ∈ ([⟨bytes "v_add_f32", GCNENC_VOP3A, 0, 259, 3⟩,
            ⟨bytes "v_add_f32", GCNENC_VOP2, 0, 3, 3⟩,
            ⟨bytes "s_nop", GCNENC_SOPP, 0, 0, 3⟩] : List GCNInstruction),
            (t.encoding = GCNENC_VOP3A ∨ t.encoding = GCNENC_VOP3B) →
            t.mnemonic = s.mnemonic → t.archMask &&& s.archMask = t.archMask →
            t.archMask = s.archMask) →
          f.archMask = s.archMask) :=
  initializeGCNAssembler_carries
    [⟨bytes "v_add_f32", GCNENC_VOP3A, 0, 259, 3⟩, ⟨bytes "v_add_f32", GCNENC_VOP2, 0, 3, 3⟩,
     ⟨bytes "s_nop", GCNENC_SOPP, 0, 0, 3⟩]
    ⟨bytes "s_nop", GCNENC_SOPP, 0, 0, 3⟩ (by decide) (by decide) (by decide)

/-- C39 as stated fails: the `VOP2` row of `v_x` is valid on the architectures of
the bits 1 and 2, the `VOP3A` row on the one of bit 1 only; the joining pass
leaves a single row for `v_x`, with the `archMask` 1, so no row of the joined
table has the mnemonic `v_x` and bit 2 in its `archMask`. -/
theorem initializeGCNAssembler_loses_bit :
    initializeGCNAssembler
        [⟨bytes "s_nop", GCNENC_SOPP, 0, 0, 3⟩, ⟨bytes "v_x", GCNENC_VOP2, 0, 2, 3⟩,
         ⟨bytes "v_x", GCNENC_VOP3A, 0, 258, 1⟩]
      = .ret [⟨bytes "s_nop", GCNENC_SOPP, GCNENC_NONE, 0, 0, UINT16_MAX, 3⟩,
              ⟨bytes "v_x", GCNENC_VOP2, GCNENC_VOP3A, 0, 2, 258, 1⟩] := by
  decide

/-- The backward scan outside the table: when the first row of the sorted table
is a `VOP3A` row, the scan starts at `k = j-1` with `j = 0`; and when the rows
written so far all have the mnemonic of the `VOP3A` row and none has an
`archMask` containing its own, the scan passes row 0. -/
theorem initializeGCNAssembler_scan_outside :
    initializeGCNAssembler [⟨bytes "v_x", GCNENC_VOP3A, 0, 258, 1⟩] = .undefined ∧
    initializeGCNAssembler
        [⟨bytes "v_x", GCNENC_VOP2, 0, 2, 1⟩, ⟨bytes "v_x", GCNENC_VOP3A, 0, 258, 2⟩]
      = .undefined := by
  decide

/-! ## C31: `Node0::insert` and the order of the array -/

/-- The node `twiceErasedNode` is what `insert` of 10, 15, 16, 20, 30 and 40
into the empty node and `erase` of 15 and 16 leave; it is well-formed and holds
10, 20, 30 and 40. -/
theorem Node0_after_erase :
    (Node0.empty.insertAll [10, 15, 16, 20, 30, 40]).andThen (fun n => n.eraseAll [15, 16]) =
      .ret twiceErasedNode ∧
    Node0.wellFormed twiceErasedNode 255 = true ∧
    Node0.elements twiceErasedNode = [10, 20, 30, 40] := by
  decide

/-- C31 (the code departs from the claim): the array of `twiceErasedNode` is
ordered, holes included, and its bit mask marks `capacity - size = 2` free
places; `insert(12)` returns `(2, true)` and leaves the array
`[10, 15, 12, 20, 30, 40]`, which is not ordered: the value is stored at place
2, behind the free place 1, which holds 15. -/
theorem Node0_insert_unordered :
    nonDecreasing twiceErasedNode.array = true ∧
    ((List.range twiceErasedNode.capacity).filter fun i => !twiceErasedNode.holds i).length =
      twiceErasedNode.capacity - twiceErasedNode.size ∧
    12 ∉ twiceErasedNode.elements ∧
    twiceErasedNode.insert 12 255 = .ret (unorderedNode, 2, true) ∧
    unorderedNode.array = [10, 15, 12, 20, 30, 40] ∧
    nonDecreasing unorderedNode.array = false := by
  decide

/-- What the unordered array does to the next call: `insert(13)` on
`unorderedNode`, which does not hold 13, returns `(2, false)` and stores
nothing, because the binary search of `lower_bound` ends at the free place 1 and
the place after it holds 12. -/
theorem Node0_insert_after_unordered :
    13 ∉ unorderedNode.elements ∧
    unorderedNode.insert 13 255 = .ret (unorderedNode, 2, false) := by
  decide

set_option maxRecDepth 100000 in
/-- A new maximum in a node of capacity 64: after `insert` of the 55 values 10,
20, ..., 550 into the empty node the capacity is 64, and in `insert(560)` the
`lower_bound` comes to the index 64 and shifts `1ULL<<64`. -/
theorem Node0_insert_new_maximum :
    ((Node0.empty.insertAll (tens 55)).andThen fun n => .ret (n.size, n.capacity)) =
      .ret (55, 64) ∧
    ((Node0.empty.insertAll (tens 55)).andThen fun n => n.insert 560 255) = .undefined := by
  decide

/-! ## C32: `firstPos` after `Node0::insert` -/

set_option maxRecDepth 100000 in
/-- The node `firstErasedNode` is well-formed at the place 0 of a parent, with
`firstPos = 1`; `erase(10)` leaves it, moving `firstPos` from 0 to 1, and
`insert` of 10, 20, ..., 180 and 25 into the empty node followed by `erase(10)`
leaves the same node, as a root. -/
theorem Node0_erase_firstPos :
    Node0.wellFormed firstErasedNode 0 = true ∧
    (⟨0, 19, 22, 0, 1312, [10, 20, 25, 30, 40, 40, 50, 60, 60, 70, 70, 80, 90, 100, 110, 120,
      130, 140, 150, 160, 170, 180]⟩ : Node0).erase 10 = .ret (firstErasedNode, true) ∧
    ((Node0.empty.insertAll (tens 18 ++ [25])).andThen fun n => n.eraseAll [10]) =
      .ret { firstErasedNode with index := 255 } := by
  decide

set_option maxRecDepth 100000 in
/-- C32 (the code departs from the claim): `insert(5)` on `firstErasedNode`
returns `(0, true)`: it stores 5 at the free place 0 and leaves `firstPos = 1`.
In the node after the call the first occupied place is 0 and the smallest
element is 5, but `array[firstPos]` is 20, and that is the key a parent `Node1`
reads for this node. -/
theorem Node0_insert_firstPos :
    firstErasedNode.insert 5 255 = .ret (staleFirstPosNode, 0, true) ∧
    staleFirstPosNode.holds 0 = true ∧ staleFirstPosNode.firstPos = 1 ∧
    staleFirstPosNode.elements.head? = some 5 ∧
    arrayAt staleFirstPosNode.array staleFirstPosNode.firstPos = .ret 20 ∧
    staleFirstPosParent.keyAt 0 = .ret 20 := by
  decide

/-! ## C3: the ranges `s[lo:hi]` that `parseSRegRange` accepts -/

/-- The little-endian value of a stored field is the value narrowed to the
field. -/
theorem valueLE_storeLE (n v : Nat) : valueLE (storeLE n v) = v % 256 ^ n := by
  induction n generalizing v with
  | zero => simp [storeLE, valueLE, Nat.mod_one]
  | succ n ih =>
    simp only [storeLE, valueLE, ih]
    rw [Nat.pow_succ, Nat.mul_comm (256 ^ n) 256, Nat.mod_mul]

/-- A part of a buffer that is built from parts is found at the offset that the
parts before it take. -/
theorem bytesAt_flatten (pre post : List Nat) (segs : List (List Nat)) (i : Nat)
    (seg : List Nat) (h : segs[i]? = some seg) :
    bytesAt (pre ++ segs.flatten ++ post) (pre.length + (segs.take i).flatten.length)
      seg.length = .ret seg := by
  have hi : i < segs.length := (List.getElem?_eq_some_iff.mp h).1
  have hsplit : segs = segs.take i ++ seg :: segs.drop (i + 1) := by
    have h1 := take_succ_of_getElem? segs i seg h
    calc segs = segs.take (i + 1) ++ segs.drop (i + 1) := (List.take_append_drop _ _).symm
      _ = segs.take i ++ seg :: segs.drop (i + 1) := by rw [h1]; simp
  have hcode : pre ++ segs.flatten ++ post =
      (pre ++ (segs.take i).flatten) ++ (seg ++ ((segs.drop (i + 1)).flatten ++ post)) := by
    conv_lhs => rw [hsplit]
    simp [List.flatten_append, List.append_assoc]
  rw [hcode]
  have hlen : pre.length + (segs.take i).flatten.length =
      (pre ++ (segs.take i).flatten).length := by simp
  rw [hlen]
  unfold bytesAt
  rw [if_pos (by simp only [List.length_append]; omega), List.drop_left, List.take_left]

/-- A stored field read by `ULEV`: the value, when it fits into the field. -/
theorem loadLE_of_bytesAt (buf : List Nat) (off n v : Nat) (hv : v < 256 ^ n)
    (h : bytesAt buf off n = .ret (storeLE n v)) : loadLE buf off n = .ret v := by
  unfold bytesAt at h
  unfold loadLE
  split at h
  · rename_i hle
    rw [if_pos hle]
    simp only [Res.ret.injEq] at h
    rw [h, valueLE_storeLE, Nat.mod_eq_of_lt hv]
  · cases h

/-- The offsets of the parts of a descriptor. -/
theorem ROCmKernelConfig.segments_offset (c : ROCmKernelConfig) (pre post : List Nat) (i : Nat)
    (seg : List Nat) (h : c.segments[i]? = some seg) :
    bytesAt (pre ++ c.store ++ post) (pre.length + (c.segments.take i).flatten.length)
      seg.length = .ret seg :=
  bytesAt_flatten pre post c.segments i seg h

set_option maxHeartbeats 4000000 in
/-- Every field of a stored descriptor is read back by `ROCmKernelConfig.read`,
wherever the descriptor stands in the code. -/
theorem ROCmKernelConfig.read_store (c : ROCmKernelConfig) (pre post : List Nat)
    (hc : c.InRange) :
    ROCmKernelConfig.read (pre ++ c.store ++ post) pre.length = .ret c := by
  obtain ⟨r0, r1, r2, r3, r4, r5, r6, r7, r8, r9, r10, r11, r12, r13, r14, r15, r16, r17, r18, r19, r20, r21, r22, r23, r24, r25, r26, r27, r28, r29, r30, r31, r32, r33⟩ := hc
  have e0 : loadLE (pre ++ c.store ++ post) (pre.length + 0) 4 = .ret c.amdCodeVersionMajor := by
    have b := ROCmKernelConfig.segments_offset c pre post 0 (storeLE 4 c.amdCodeVersionMajor) rfl
    have o : (c.segments.take 0).flatten.length = 0 := by
      simp [ROCmKernelConfig.segments, storeLE_length, zeroFill]
    rw [o, storeLE_length] at b
    exact loadLE_of_bytesAt _ _ _ _ r0 b
  have e1 : loadLE (pre ++ c.store ++ post) (pre.length + 4) 4 = .ret c.amdCodeVersionMinor := by
    have b := ROCmKernelConfig.segments_offset c pre post 1 (storeLE 4 c.amdCodeVersionMinor) rfl
    have o : (c.segments.take 1).flatten.length = 4 := by
      simp [ROCmKernelConfig.segments, storeLE_length, zeroFill]
    rw [o, storeLE_length] at b
    exact loadLE_of_bytesAt _ _ _ _ r1 b
  have e2 : loadLE (pre ++ c.store ++ post) (pre.length + 8) 2 = .ret c.amdMachineKind := by
    have b := ROCmKernelConfig.segments_offset c pre post 2 (storeLE 2 c.amdMachineKind) rfl
    have o : (c.segments.take 2).flatten.length = 8 := by
      simp [ROCmKernelConfig.segments, storeLE_length, zeroFill]
    rw [o, storeLE_length] at b
    exact loadLE_of_bytesAt _ _ _ _ r2 b
  have e3 : loadLE (pre ++ c.store ++ post) (pre.length + 10) 2 = .ret c.amdMachineMajor := by
    have b := ROCmKernelConfig.segments_offset c pre post 3 (storeLE 2 c.amdMachineMajor) rfl
    have o : (c.segments.take 3).flatten.length = 10 := by
      simp [ROCmKernelConfig.segments, storeLE_length, zeroFill]
    rw [o, storeLE_length] at b
    exact loadLE_of_bytesAt _ _ _ _ r3 b
  have e4 : loadLE (pre ++ c.store ++ post) (pre.length + 12) 2 = .ret c.amdMachineMinor := by
    have b := ROCmKernelConfig.segments_offset c pre post 4 (storeLE 2 c.amdMachineMinor) rfl
    have o : (c.segments.take 4).flatten.length = 12 := by
      simp [ROCmKernelConfig.segments, storeLE_length, zeroFill]
    rw [o, storeLE_length] at b
    exact loadLE_of_bytesAt _ _ _ _ r4 b
  have e5 : loadLE (pre ++ c.store ++ post) (pre.length + 14) 2 = .ret c.amdMachineStepping := by
    have b := ROCmKernelConfig.segments_offset c pre post 5 (storeLE 2 c.amdMachineStepping) rfl
    have o : (c.segments.take 5).flatten.length = 14 := by
      simp [ROCmKernelConfig.segments, storeLE_length, zeroFill]
    rw [o, storeLE_length] at b
    exact loadLE_of_bytesAt _ _ _ _ r5 b
  have e6 : loadLE (pre ++ c.store ++ post) (pre.length + 16) 8 = .ret c.kernelCodeEntryOffset := by
    have b := ROCmKernelConfig.segments_offset c pre post 6 (storeLE 8 c.kernelCodeEntryOffset) rfl
    have o : (c.segments.take 6).flatten.length = 16 := by
      simp [ROCmKernelConfig.segments, storeLE_length, zeroFill]
    rw [o, storeLE_length] at b
    exact loadLE_of_bytesAt _ _ _ _ r6 b
  have e7 : loadLE (pre ++ c.store ++ post) (pre.length + 24) 8 = .ret c.kernelCodePrefetchOffset := by
    have b := ROCmKernelConfig.segments_offset c pre post 7 (storeLE 8 c.kernelCodePrefetchOffset) rfl
    have o : (c.segments.take 7).flatten.length = 24 := by
      simp [ROCmKernelConfig.segments, storeLE_length, zeroFill]
    rw [o, storeLE_length] at b
    exact loadLE_of_bytesAt _ _ _ _ r7 b
  have e8 : loadLE (pre ++ c.store ++ post) (pre.length + 32) 8 = .ret c.kernelCodePrefetchSize := by
    have b := ROCmKernelConfig.segments_offset c pre post 8 (storeLE 8 c.kernelCodePrefetchSize) rfl
    have o : (c.segments.take 8).flatten.length = 32 := by
      simp [ROCmKernelConfig.segments, storeLE_length, zeroFill]
    rw [o, storeLE_length] at b
    exact loadLE_of_bytesAt _ _ _ _ r8 b
  have e9 : loadLE (pre ++ c.store ++ post) (pre.length + 40) 8 = .ret c.maxScrachBackingMemorySize := by
    have b := ROCmKernelConfig.segments_offset c pre post 9 (storeLE 8 c.maxScrachBackingMemorySize) rfl
    have o : (c.segments.take 9).flatten.length = 40 := by
      simp [ROCmKernelConfig.segments, storeLE_length, zeroFill]
    rw [o, storeLE_length] at b
    exact loadLE_of_bytesAt _ _ _ _ r9 b
  have e10 : loadLE (pre ++ c.store ++ post) (pre.length + 48) 4 = .ret c.computePgmRsrc1 := by
    have b := ROCmKernelConfig.segments_offset c pre post 10 (storeLE 4 c.computePgmRsrc1) rfl
    have o : (c.segments.take 10).flatten.length = 48 := by
      simp [ROCmKernelConfig.segments, storeLE_length, zeroFill]
    rw [o, storeLE_length] at b
    exact loadLE_of_bytesAt _ _ _ _ r10 b
  have e11 : loadLE (pre ++ c.store ++ post) (pre.length + 52) 4 = .ret c.computePgmRsrc2 := by
    have b := ROCmKernelConfig.segments_offset c pre post 11 (storeLE 4 c.computePgmRsrc2) rfl
    have o : (c.segments.take 11).flatten.length = 52 := by
      simp [ROCmKernelConfig.segments, storeLE_length, zeroFill]
    rw [o, storeLE_length] at b
    exact loadLE_of_bytesAt _ _ _ _ r11 b
  have e12 : loadLE (pre ++ c.store ++ post) (pre.length + 56) 2 = .ret c.enableSpgrRegisterFlags := by
    have b := ROCmKernelConfig.segments_offset c pre post 12 (storeLE 2 c.enableSpgrRegisterFlags) rfl
    have o : (c.segments.take 12).flatten.length = 56 := by
      simp [ROCmKernelConfig.segments, storeLE_length, zeroFill]
    rw [o, storeLE_length] at b
    exact loadLE_of_bytesAt _ _ _ _ r12 b
  have e13 : loadLE (pre ++ c.store ++ post) (pre.length + 58) 2 = .ret c.enableFeatureFlags := by
    have b := ROCmKernelConfig.segments_offset c pre post 13 (storeLE 2 c.enableFeatureFlags) rfl
    have o : (c.segments.take 13).flatten.length = 58 := by
      simp [ROCmKernelConfig.segments, storeLE_length, zeroFill]
    rw [o, storeLE_length] at b
    exact loadLE_of_bytesAt _ _ _ _ r13 b
  have e14 : loadLE (pre ++ c.store ++ post) (pre.length + 60) 4 = .ret c.workitemPrivateSegmentSize := by
    have b := ROCmKernelConfig.segments_offset c pre post 14 (storeLE 4 c.workitemPrivateSegmentSize) rfl
    have o : (c.segments.take 14).flatten.length = 60 := by
      simp [ROCmKernelConfig.segments, storeLE_length, zeroFill]
    rw [o, storeLE_length] at b
    exact loadLE_of_bytesAt _ _ _ _ r14 b
  have e15 : loadLE (pre ++ c.store ++ post) (pre.length + 64) 4 = .ret c.workgroupGroupSegmentSize := by
    have b := ROCmKernelConfig.segments_offset c pre post 15 (storeLE 4 c.workgroupGroupSegmentSize) rfl
    have o : (c.segments.take 15).flatten.length = 64 := by
      simp [ROCmKernelConfig.segments, storeLE_length, zeroFill]
    rw [o, storeLE_length] at b
    exact loadLE_of_bytesAt _ _ _ _ r15 b
  have e16 : loadLE (pre ++ c.store ++ post) (pre.length + 68) 4 = .ret c.gdsSegmentSize := by
    have b := ROCmKernelConfig.segments_offset c pre post 16 (storeLE 4 c.gdsSegmentSize) rfl
    have o : (c.segments.take 16).flatten.length = 68 := by
      simp [ROCmKernelConfig.segments, storeLE_length, zeroFill]
    rw [o, storeLE_length] at b
    exact loadLE_of_bytesAt _ _ _ _ r16 b
  have e17 : loadLE (pre ++ c.store ++ post) (pre.length + 72) 8 = .ret c.kernargSegmentSize := by
    have b := ROCmKernelConfig.segments_offset c pre post 17 (storeLE 8 c.kernargSegmentSize) rfl
    have o : (c.segments.take 17).flatten.length = 72 := by
      simp [ROCmKernelConfig.segments, storeLE_length, zeroFill]
    rw [o, storeLE_length] at b
    exact loadLE_of_bytesAt _ _ _ _ r17 b
  have e18 : loadLE (pre ++ c.store ++ post) (pre.length + 80) 4 = .ret c.workgroupFbarrierCount := by
    have b := ROCmKernelConfig.segments_offset c pre post 18 (storeLE 4 c.workgroupFbarrierCount) rfl
    have o : (c.segments.take 18).flatten.length = 80 := by
      simp [ROCmKernelConfig.segments, storeLE_length, zeroFill]
    rw [o, storeLE_length] at b
    exact loadLE_of_bytesAt _ _ _ _ r18 b
  have e19 : loadLE (pre ++ c.store ++ post) (pre.length + 84) 2 = .ret c.wavefrontSgprCount := by
    have b := ROCmKernelConfig.segments_offset c pre post 19 (storeLE 2 c.wavefrontSgprCount) rfl
    have o : (c.segments.take 19).flatten.length = 84 := by
      simp [ROCmKernelConfig.segments, storeLE_length, zeroFill]
    rw [o, storeLE_length] at b
    exact loadLE_of_bytesAt _ _ _ _ r19 b
  have e20 : loadLE (pre ++ c.store ++ post) (pre.length + 86) 2 = .ret c.workitemVgprCount := by
    have b := ROCmKernelConfig.segments_offset c pre post 20 (storeLE 2 c.workitemVgprCount) rfl
    have o : (c.segments.take 20).flatten.length = 86 := by
      simp [ROCmKernelConfig.segments, storeLE_length, zeroFill]
    rw [o, storeLE_length] at b
    exact loadLE_of_bytesAt _ _ _ _ r20 b
  have e21 : loadLE (pre ++ c.store ++ post) (pre.length + 88) 2 = .ret c.reservedVgprFirst := by
    have b := ROCmKernelConfig.segments_offset c pre post 21 (storeLE 2 c.reservedVgprFirst) rfl
    have o : (c.segments.take 21).flatten.length = 88 := by
      simp [ROCmKernelConfig.segments, storeLE_length, zeroFill]
    rw [o, storeLE_length] at b
    exact loadLE_of_bytesAt _ _ _ _ r21 b
  have e22 : loadLE (pre ++ c.store ++ post) (pre.length + 90) 2 = .ret c.reservedVgprCount := by
    have b := ROCmKernelConfig.segments_offset c pre post 22 (storeLE 2 c.reservedVgprCount) rfl
    have o : (c.segments.take 22).flatten.length = 90 := by
      simp [ROCmKernelConfig.segments, storeLE_length, zeroFill]
    rw [o, storeLE_length] at b
    exact loadLE_of_bytesAt _ _ _ _ r22 b
  have e23 : loadLE (pre ++ c.store ++ post) (pre.length + 92) 2 = .ret c.reservedSgprFirst := by
    have b := ROCmKernelConfig.segments_offset c pre post 23 (storeLE 2 c.reservedSgprFirst) rfl
    have o : (c.segments.take 23).flatten.length = 92 := by
      simp [ROCmKernelConfig.segments, storeLE_length, zeroFill]
    rw [o, storeLE_length] at b
    exact loadLE_of_bytesAt _ _ _ _ r23 b
  have e24 : loadLE (pre ++ c.store ++ post) (pre.length + 94) 2 = .ret c.reservedSgprCount := by
    have b := ROCmKernelConfig.segments_offset c pre post 24 (storeLE 2 c.reservedSgprCount) rfl
    have o : (c.segments.take 24).flatten.length = 94 := by
      simp [ROCmKernelConfig.segments, storeLE_length, zeroFill]
    rw [o, storeLE_length] at b
    exact loadLE_of_bytesAt _ _ _ _ r24 b
  have e25 : loadLE (pre ++ c.store ++ post) (pre.length + 96) 2 = .ret c.debugWavefrontPrivateSegmentOffsetSgpr := by
    have b := ROCmKernelConfig.segments_offset c pre post 25 (storeLE 2 c.debugWavefrontPrivateSegmentOffsetSgpr) rfl
    have o : (c.segments.take 25).flatten.length = 96 := by
      simp [ROCmKernelConfig.segments, storeLE_length, zeroFill]
    rw [o, storeLE_length] at b
    exact loadLE_of_bytesAt _ _ _ _ r25 b
  have e26 : loadLE (pre ++ c.store ++ post) (pre.length + 98) 2 = .ret c.debugPrivateSegmentBufferSgpr := by
    have b := ROCmKernelConfig.segments_offset c pre post 26 (storeLE 2 c.debugPrivateSegmentBufferSgpr) rfl
    have o : (c.segments.take 26).flatten.length = 98 := by
      simp [ROCmKernelConfig.segments, storeLE_length, zeroFill]
    rw [o, storeLE_length] at b
    exact loadLE_of_bytesAt _ _ _ _ r26 b
  have e27 : loadLE (pre ++ c.store ++ post) (pre.length + 100) 1 = .ret c.kernargSegmentAlignment := by
    have b := ROCmKernelConfig.segments_offset c pre post 27 (storeLE 1 c.kernargSegmentAlignment) rfl
    have o : (c.segments.take 27).flatten.length = 100 := by
      simp [ROCmKernelConfig.segments, storeLE_length, zeroFill]
    rw [o, storeLE_length] at b
    exact loadLE_of_bytesAt _ _ _ _ r27 b
  have e28 : loadLE (pre ++ c.store ++ post) (pre.length + 101) 1 = .ret c.groupSegmentAlignment := by
    have b := ROCmKernelConfig.segments_offset c pre post 28 (storeLE 1 c.groupSegmentAlignment) rfl
    have o : (c.segments.take 28).flatten.length = 101 := by
      simp [ROCmKernelConfig.segments, storeLE_length, zeroFill]
    rw [o, storeLE_length] at b
    exact loadLE_of_bytesAt _ _ _ _ r28 b
  have e29 : loadLE (pre ++ c.store ++ post) (pre.length + 102) 1 = .ret c.privateSegmentAlignment := by
    have b := ROCmKernelConfig.segments_offset c pre post 29 (storeLE 1 c.privateSegmentAlignment) rfl
    have o : (c.segments.take 29).flatten.length = 102 := by
      simp [ROCmKernelConfig.segments, storeLE_length, zeroFill]
    rw [o, storeLE_length] at b
    exact loadLE_of_bytesAt _ _ _ _ r29 b
  have e30 : loadLE (pre ++ c.store ++ post) (pre.length + 103) 1 = .ret c.wavefrontSize := by
    have b := ROCmKernelConfig.segments_offset c pre post 30 (storeLE 1 c.wavefrontSize) rfl
    have o : (c.segments.take 30).flatten.length = 103 := by
      simp [ROCmKernelConfig.segments, storeLE_length, zeroFill]
    rw [o, storeLE_length] at b
    exact loadLE_of_bytesAt _ _ _ _ r30 b
  have e31 : loadLE (pre ++ c.store ++ post) (pre.length + 104) 4 = .ret c.callConvention := by
    have b := ROCmKernelConfig.segments_offset c pre post 31 (storeLE 4 c.callConvention) rfl
    have o : (c.segments.take 31).flatten.length = 104 := by
      simp [ROCmKernelConfig.segments, storeLE_length, zeroFill]
    rw [o, storeLE_length] at b
    exact loadLE_of_bytesAt _ _ _ _ r31 b
  have e32 : loadLE (pre ++ c.store ++ post) (pre.length + 120) 8 = .ret c.runtimeLoaderKernelSymbol := by
    have b := ROCmKernelConfig.segments_offset c pre post 33 (storeLE 8 c.runtimeLoaderKernelSymbol) rfl
    have o : (c.segments.take 33).flatten.length = 120 := by
      simp [ROCmKernelConfig.segments, storeLE_length, zeroFill]
    rw [o, storeLE_length] at b
    exact loadLE_of_bytesAt _ _ _ _ r32 b
  have e33 : bytesAt (pre ++ c.store ++ post) (pre.length + 128) 128 = .ret c.controlDirective := by
    have b := ROCmKernelConfig.segments_offset c pre post 34 c.controlDirective rfl
    have o : (c.segments.take 34).flatten.length = 128 := by
      simp [ROCmKernelConfig.segments, storeLE_length, zeroFill]
    rw [o, r33] at b
    exact b
  rw [Nat.add_zero] at e0
  simp only [ROCmKernelConfig.read, Nat.add_zero, e0, e1, e2, e3, e4, e5, e6, e7, e8, e9, e10, e11, e12, e13, e14, e15, e16, e17, e18, e19, e20, e21, e22, e23, e24, e25, e26, e27, e28, e29, e30, e31, e32, e33, Res.ret_bind]
  rfl

set_option maxRecDepth 100000 in
/-- C28: the descriptor of 256 bytes stores every field little-endian at the
offset that the spec lists.  For every descriptor `c` whose fields fit into
their widths, stored as the spec lays it out (`ROCmKernelConfig.store`) anywhere
in a code: the bytes of `computePgmRsrc1` are at 48, those of `computePgmRsrc2`
at 52, of `wavefrontSgprCount` at 84, of `callConvention` at 104, of
`runtimeLoaderKernelSymbol` at 120 and `controlDirective` at 128, and reading
the 34 fields at the offsets of the spec gives `c` back.  The first 256 golden
code bytes of the ROCm test from 0 and from 512 on are the descriptors with the
values of the golden dump stored in this way, and reading them at these offsets
reproduces every line under `Config:` of the dump for both kernels: so
`computePgmRsrc1 = 0x3c0000` and `debugPrivateSegmentBufferSgpr = 58298` for
`kxx1` and `callConvention = 0x1112234` for `kxx2`; the bytes of the code
version are `01 00 00 00` at 0 and `00 00 00 00` at 4. -/
theorem ROCmKernelConfig_stored_fields (c : ROCmKernelConfig) (pre post : List Nat)
    (hc : c.InRange) :
    c.store.length = 256 ∧
    bytesAt (pre ++ c.store ++ post) (pre.length + 48) 4 = .ret (storeLE 4 c.computePgmRsrc1) ∧
    bytesAt (pre ++ c.store ++ post) (pre.length + 52) 4 = .ret (storeLE 4 c.computePgmRsrc2) ∧
    bytesAt (pre ++ c.store ++ post) (pre.length + 84) 2 =
      .ret (storeLE 2 c.wavefrontSgprCount) ∧
    bytesAt (pre ++ c.store ++ post) (pre.length + 104) 4 = .ret (storeLE 4 c.callConvention) ∧
    bytesAt (pre ++ c.store ++ post) (pre.length + 120) 8 =
      .ret (storeLE 8 c.runtimeLoaderKernelSymbol) ∧
    bytesAt (pre ++ c.store ++ post) (pre.length + 128) 128 = .ret c.controlDirective ∧
    ROCmKernelConfig.read (pre ++ c.store ++ post) pre.length = .ret c ∧
    goldenCode.take 256 = goldenKxx1.store ∧
    (goldenCode.drop 512).take 256 = goldenKxx2.store ∧
    printROCmOutputConfig goldenCode 0 = .ret (some goldenConfigKxx1) ∧
    printROCmOutputConfig goldenCode 512 = .ret (some goldenConfigKxx2) ∧
    loadLE goldenCode 48 4 = .ret 0x3c0000 ∧
    loadLE goldenCode 98 2 = .ret 58298 ∧
    loadLE goldenCode (512 + 104) 4 = .ret 0x1112234 ∧
    bytesAt goldenCode 0 4 = .ret [0x01, 0x00, 0x00, 0x00] ∧
    bytesAt goldenCode 4 4 = .ret [0x00, 0x00, 0x00, 0x00] := by
  have hlen : c.controlDirective.length = 128 := by
    unfold ROCmKernelConfig.InRange at hc
    exact hc.2.2.2.2.2.2.2.2.2.2.2.2.2.2.2.2.2.2.2.2.2.2.2.2.2.2.2.2.2.2.2.2.2
  have hoff : ∀ (i off : Nat) (seg : List Nat), c.segments[i]? = some seg →
      (c.segments.take i).flatten.length = off →
      bytesAt (pre ++ c.store ++ post) (pre.length + off) seg.length = .ret seg := by
    intro i off seg h ho
    rw [← ho]
    exact ROCmKernelConfig.segments_offset c pre post i seg h
  have hg := goldenCode_descriptors
  refine ⟨by simp [ROCmKernelConfig.store, ROCmKernelConfig.segments, storeLE_length, zeroFill,
      hlen], ?_, ?_, ?_, ?_, ?_, ?_, ROCmKernelConfig.read_store c pre post hc, by decide,
    by decide, hg.2.1, hg.2.2.1, hg.2.2.2.1, hg.2.2.2.2.1, hg.2.2.2.2.2.1, hg.2.2.2.2.2.2.1,
    hg.2.2.2.2.2.2.2.1⟩
  · have b := hoff 10 48 (storeLE 4 c.computePgmRsrc1) rfl
      (by simp [ROCmKernelConfig.segments, storeLE_length, zeroFill])
    rwa [storeLE_length] at b
  · have b := hoff 11 52 (storeLE 4 c.computePgmRsrc2) rfl
      (by simp [ROCmKernelConfig.segments, storeLE_length, zeroFill])
    rwa [storeLE_length] at b
  · have b := hoff 19 84 (storeLE 2 c.wavefrontSgprCount) rfl
      (by simp [ROCmKernelConfig.segments, storeLE_length, zeroFill])
    rwa [storeLE_length] at b
  · have b := hoff 31 104 (storeLE 4 c.callConvention) rfl
      (by simp [ROCmKernelConfig.segments, storeLE_length, zeroFill])
    rwa [storeLE_length] at b
  · have b := hoff 33 120 (storeLE 8 c.runtimeLoaderKernelSymbol) rfl
      (by simp [ROCmKernelConfig.segments, storeLE_length, zeroFill])
    rwa [storeLE_length] at b
  · have b := hoff 34 128 c.controlDirective rfl
      (by simp [ROCmKernelConfig.segments, storeLE_length, zeroFill])
    rwa [hlen] at b

set_option maxRecDepth 100000 in
/-- The descriptor of `kxx2` in the golden code: the code is the 512 bytes before
it, the descriptor stored as the spec lays it out and the 4 bytes after it, and
reading at 512 gives the values of the golden dump. -/
theorem ROCmKernelConfig_stored_fields_witness :
    goldenKxx2.InRange ∧
    goldenCode.take 512 ++ goldenKxx2.store ++ goldenCode.drop 768 = goldenCode ∧
    (goldenCode.take 512).length = 512 ∧
    bytesAt (goldenCode.take 512 ++ goldenKxx2.store ++ goldenCode.drop 768)
      ((goldenCode.take 512).length + 104) 4 = .ret (storeLE 4 goldenKxx2.callConvention) ∧
    ROCmKernelConfig.read (goldenCode.take 512 ++ goldenKxx2.store ++ goldenCode.drop 768)
      (goldenCode.take 512).length = .ret goldenKxx2 :=
  ⟨by decide, by decide, by decide,
   (ROCmKernelConfig_stored_fields goldenKxx2 (goldenCode.take 512) (goldenCode.drop 768)
     (by decide)).2.2.2.2.1,
   (ROCmKernelConfig_stored_fields goldenKxx2 (goldenCode.take 512) (goldenCode.drop 768)
     (by decide)).2.2.2.2.2.2.2.1⟩

end CLRX
